import Mathlib

/-! # Broadcasting a transaction (client/context/broadcast.go)

A shallow embedding of `CLIContext.BroadcastTxAndAwaitCommit`.  A Go `error`
is an `Option`, `none` being `nil`; a pointer that may be `nil` is an `Option`
too, and dereferencing `nil` is the result `none` of the function.
-/

namespace ClientContext

/-- A Go `error` value that is not `nil`: `external` is an error made outside
`BroadcastTxAndAwaitCommit` (by `GetNode` or by the node), the other two are
the errors built by `errors.Errorf` at lines 56-58 and 62-64, with the
arguments of the format string. -/
inductive Error where
  | external (msg : String)
  | checkTxFailed (code : Nat) (log : String)
  | deliverTxFailed (code : Nat) (log : String)
deriving DecidableEq, Repr

/-- The fields of the ABCI responses `ResponseCheckTx` and `ResponseDeliverTx`
that the function reads. -/
structure ResponseTx where
  Code : Nat
  Log : String
deriving DecidableEq, Repr

/-- The fields of `ctypes.ResultBroadcastTxCommit`. -/
structure ResultBroadcastTxCommit where
  CheckTx : ResponseTx
  DeliverTx : ResponseTx
  Hash : List Nat
  Height : Int
deriving DecidableEq, Repr

/-- The RPC client returned by `GetNode`: its method `BroadcastTxCommit`
returns a result pointer and an error. -/
structure Node where
  BroadcastTxCommit : List Nat → Option ResultBroadcastTxCommit × Option Error

/-- The part of `CLIContext` the function uses: what `ctx.GetNode()` returns,
a client and an error. -/
structure CLIContext where
  GetNode : Option Node × Option Error

/-- Broadcast transaction bytes to a Tendermint node and wait for a commit
(`BroadcastTxAndAwaitCommit`, lines 42-68).  `IsOK` is the method of the ABCI
responses, declared outside src/. -/
def BroadcastTxAndAwaitCommit (IsOK : ResponseTx → Bool) (ctx : CLIContext) (tx : List Nat) :
    Option (Option ResultBroadcastTxCommit × Option Error) :=
  match ctx.GetNode with
  | (_, some err) => some (none, some err)
  | (none, none) => none
  | (some node, none) =>
    match node.BroadcastTxCommit tx with
    | (res, some err) => some (res, some err)
    | (none, none) => none
    | (some res, none) =>
      if !(IsOK res.CheckTx) then
        some (some res, some (Error.checkTxFailed res.CheckTx.Code res.CheckTx.Log))
      else if !(IsOK res.DeliverTx) then
        some (some res, some (Error.deliverTxFailed res.DeliverTx.Code res.DeliverTx.Log))
      else some (some res, none)

/-- The ABCI convention for `IsOK`: the response code is zero. -/
def codeIsZero (r : ResponseTx) : Bool := r.Code == 0

/-- A node whose `BroadcastTxCommit` returns the given result and no error. -/
def nodeReturning (res : ResultBroadcastTxCommit) : Node :=
  { BroadcastTxCommit := fun _ => (some res, none) }

/-- A result whose two responses carry the given codes and logs. -/
def resultWith (c1 : Nat) (l1 : String) (c2 : Nat) (l2 : String) : ResultBroadcastTxCommit :=
  { CheckTx := { Code := c1, Log := l1 }, DeliverTx := { Code := c2, Log := l2 },
    Hash := [1], Height := 7 }

/-- A context whose node returns a result with both responses failed: CheckTx
with code 1, DeliverTx with code 2. -/
def ctxBothFailed : CLIContext :=
  { GetNode := (some (nodeReturning (resultWith 1 "check" 2 "deliver")), none) }

end ClientContext

/-! # Validator-set maintenance (x/stake/keeper/val_state_change.go)

A shallow embedding of the bonded-validator bookkeeping of the stake keeper:
the two state transitions `bondValidator` / `beginUnbondingValidator`, the
single-validator update `REFERENCEXXXDELETEUpdateValidator` with its helper
`XXXREFERENCEUpdateBondedValidators`, and the full recomputation
`XXXREFERENCEUpdateBondedValidatorsFull`.

The keeper's stores are explicit fields of `State`; a Go `panic` is the
result `none`.
-/

namespace Stake

/-- An operator address.  Addresses are byte strings; they are numbered so
that `0` is the empty (nil) byte string. -/
abbrev Addr := Nat

/-- The bond status of a validator (`sdk.BondStatus`); the zero value is
`Unbonded`. -/
inductive BondStatus where
  | Unbonded
  | Unbonding
  | Bonded
deriving DecidableEq, Repr

/-- Modelled from the spec: `types.Validator` is declared outside src/.  The
fields are those of the spec's data model, under the names the keeper uses
(`Power` is the stake-derived voting power). -/
structure Validator where
  OperatorAddr : Addr
  Power : Nat
  Status : BondStatus
  Jailed : Bool
  BondHeight : Int
  BondIntraTxCounter : Int
  UnbondingMinTime : Int
  UnbondingHeight : Int
deriving DecidableEq, Repr

/-- The Go zero value `types.Validator{}`. -/
def Validator.zero : Validator :=
  { OperatorAddr := 0, Power := 0, Status := BondStatus.Unbonded, Jailed := false,
    BondHeight := 0, BondIntraTxCounter := 0, UnbondingMinTime := 0, UnbondingHeight := 0 }

/-- Modelled from the spec: `types.Pool` is declared outside src/; it holds the
bonded-token total and the not-bonded-token total. -/
structure Pool where
  BondedTokens : Int
  LooseTokens : Int
deriving DecidableEq, Repr

/-- Modelled from the spec: the key of the Ordered Power Index
(`GetValidatorsByPowerIndexKey` is declared outside src/).  Jailed validators
rank lowest; then higher power ranks higher; ties are broken by
`(bondHeight, bondIntraTxCounter, identity)` ascending. -/
structure PowerKey where
  NotJailed : Bool
  Power : Nat
  BondHeight : Int
  BondIntraTxCounter : Int
  Owner : Addr
deriving DecidableEq, Repr

/-- Modelled from the spec: `GetValidatorsByPowerIndexKey(validator, pool)`;
the spec's key does not depend on the pool. -/
def GetValidatorsByPowerIndexKey (v : Validator) : PowerKey :=
  { NotJailed := !v.Jailed, Power := v.Power, BondHeight := v.BondHeight,
    BondIntraTxCounter := v.BondIntraTxCounter, Owner := v.OperatorAddr }

/-- The comparison `bytes.Compare(a, b) == -1` on index keys: `a` ranks
strictly below `b`. -/
def PowerKey.ranksBelow (a b : PowerKey) : Bool :=
  if a.NotJailed ≠ b.NotJailed then b.NotJailed
  else if a.Power ≠ b.Power then decide (a.Power < b.Power)
  else if a.BondHeight ≠ b.BondHeight then decide (b.BondHeight < a.BondHeight)
  else if a.BondIntraTxCounter ≠ b.BondIntraTxCounter then
    decide (b.BondIntraTxCounter < a.BondIntraTxCounter)
  else decide (b.Owner < a.Owner)

/-- The block context and the parameters the keeper reads: `ctx.BlockHeight()`,
`ctx.BlockHeader().Time`, `params.MaxValidators`, `params.UnbondingTime`. -/
structure Env where
  blockHeight : Int
  blockTime : Int
  maxValidators : Nat
  unbondingTime : Int
deriving DecidableEq, Repr

/-- The keeper's stores.  `powerIndex` lists the entries of the Ordered Power
Index in the order of the reverse iterator (highest rank first);
`cliffAddr` / `cliffPower` are the two values of the Cliff Tracker;
`updates` is the transient store of Tendermint updates (identity to power). -/
structure State where
  validators : Addr → Option Validator
  powerIndex : List (PowerKey × Addr)
  bondedIndex : List Addr
  cliffAddr : Option Addr
  cliffPower : Option PowerKey
  updates : Addr → Option Nat
  pool : Pool
  intraTxCounter : Int

/-- Read a validator record: `k.GetValidator`. -/
def GetValidator (s : State) (a : Addr) : Option Validator := s.validators a

/-- Read a validator record, a missing record being fatal: `k.mustGetValidator`. -/
def mustGetValidator (s : State) (a : Addr) : Option Validator := s.validators a

/-- Persist a validator record under its operator address: `k.SetValidator`. -/
def SetValidator (s : State) (v : Validator) : State :=
  { s with validators := fun a => if a = v.OperatorAddr then some v else s.validators a }

/-- Write one entry of the transient update store:
`tstore.Set(GetTendermintUpdatesTKey(addr), bz)`. -/
def setUpdate (s : State) (a : Addr) (p : Nat) : State :=
  { s with updates := fun b => if b = a then some p else s.updates b }

/-- Modelled from the spec: `Validator.BondedTokens` is declared outside src/.
The pool keeps the bonded-token total apart from the not-bonded total and a
status transition moves the validator's tokens between them, so the tokens a
validator holds bonded are its power while it is Bonded and none otherwise. -/
def Validator.BondedTokens (v : Validator) : Nat :=
  if v.Status = BondStatus.Bonded then v.Power else 0

/-- Modelled from the spec: the power `Validator.ABCIValidator` reports to the
consensus engine, the validator's bonded power. -/
def Validator.ABCIValidator (v : Validator) : Nat := v.BondedTokens

/-- Modelled from the spec: `Validator.ABCIValidatorZero` reports zero power. -/
def Validator.ABCIValidatorZero (_v : Validator) : Nat := 0

/-- Modelled from the spec: `Validator.UpdateStatus` (declared outside src/)
sets the status and moves the validator's tokens between the two pool
counters when the validator enters or leaves `Bonded`. -/
def Validator.UpdateStatus (v : Validator) (pool : Pool) (newStatus : BondStatus) :
    Validator × Pool :=
  if v.Status = BondStatus.Bonded then
    if newStatus = BondStatus.Bonded then (v, pool)
    else ({ v with Status := newStatus },
          { BondedTokens := pool.BondedTokens - v.Power, LooseTokens := pool.LooseTokens + v.Power })
  else
    if newStatus = BondStatus.Bonded then
      ({ v with Status := newStatus },
       { BondedTokens := pool.BondedTokens + v.Power, LooseTokens := pool.LooseTokens - v.Power })
    else ({ v with Status := newStatus }, pool)

/-- Modelled from the spec: `setCliffValidator` (declared outside src/) stores
the identity and the power-index key of the cliff validator. -/
def setCliffValidator (s : State) (v : Validator) : State :=
  { s with cliffAddr := some v.OperatorAddr, cliffPower := some (GetValidatorsByPowerIndexKey v) }

/-- Modelled from the spec: `clearCliffValidator` (declared outside src/)
leaves the Cliff Tracker undefined. -/
def clearCliffValidator (s : State) : State :=
  { s with cliffAddr := none, cliffPower := none }

/-- Delete one key of the power index: `store.Delete(key)`. -/
def powerIndexDelete (k : PowerKey) (l : List (PowerKey × Addr)) : List (PowerKey × Addr) :=
  l.filter (fun e => decide (e.1 ≠ k))

/-- Put an entry at its place in the descending order. -/
def powerIndexInsert (e : PowerKey × Addr) : List (PowerKey × Addr) → List (PowerKey × Addr)
  | [] => [e]
  | x :: xs => if x.1.ranksBelow e.1 then e :: x :: xs else x :: powerIndexInsert e xs

/-- Write one key of the power index: `store.Set(key, addr)`. -/
def powerIndexSet (k : PowerKey) (a : Addr) (l : List (PowerKey × Addr)) :
    List (PowerKey × Addr) :=
  powerIndexInsert (k, a) (powerIndexDelete k l)

/-- The operation `bytes.Equal(x, addr)` where `x` was read from the store (nil when
absent): nil and the empty address are equal. -/
def addrBytesEqual (x : Option Addr) (a : Addr) : Bool := decide (x.getD 0 = a)

/-- The check `len(x) > 0` for an address read from the store. -/
def addrNonEmpty (x : Option Addr) : Bool :=
  match x with
  | none => false
  | some a => decide (a ≠ 0)

/-! ## State transitions -/

/-- Perform all the store operations for when a validator status becomes
unbonded (`beginUnbondingValidator`, lines 381-418).  The hook call has no
effect on the keeper's stores. -/
def beginUnbondingValidator (env : Env) (s : State) (validator : Validator) :
    Option (Validator × State) :=
  if validator.Status = BondStatus.Unbonded ∨ validator.Status = BondStatus.Unbonding then none
  else
    let r := validator.UpdateStatus s.pool BondStatus.Unbonding
    let s1 : State := { s with pool := r.2 }
    let validator1 : Validator :=
      { r.1 with UnbondingMinTime := env.blockTime + env.unbondingTime,
                 UnbondingHeight := env.blockHeight }
    let s2 := SetValidator s1 validator1
    let s3 := setUpdate s2 validator1.OperatorAddr validator1.ABCIValidatorZero
    let s4 : State :=
      { s3 with bondedIndex := s3.bondedIndex.filter (fun a => decide (a ≠ validator1.OperatorAddr)) }
    some (validator1, s4)

/-- Perform all the store operations for when a validator status becomes
bonded (`bondValidator`, lines 421-453). -/
def bondValidator (env : Env) (s : State) (validator : Validator) :
    Option (Validator × State) :=
  if validator.Status = BondStatus.Bonded then none
  else
    let validator0 : Validator := { validator with BondHeight := env.blockHeight }
    let r := validator0.UpdateStatus s.pool BondStatus.Bonded
    let s1 : State := { s with pool := r.2 }
    let validator1 := r.1
    let s2 := SetValidator s1 validator1
    let s3 : State := { s2 with bondedIndex := List.insert validator1.OperatorAddr s2.bondedIndex }
    let s4 := setUpdate s3 validator1.OperatorAddr validator1.ABCIValidator
    some (validator1, s4)

/-- The statements of `beginUnbondingValidator` (lines 381-418) with the stores
kept observable when the function stops: the result is `none` at the panic
and the returned validator otherwise, paired with the stores as they are at
that moment. -/
def beginUnbondingValidatorRun (env : Env) (s : State) (validator : Validator) :
    Option Validator × State :=
  if validator.Status = BondStatus.Unbonded ∨ validator.Status = BondStatus.Unbonding then
    (none, s)
  else
    let r := validator.UpdateStatus s.pool BondStatus.Unbonding
    let s1 : State := { s with pool := r.2 }
    let validator1 : Validator :=
      { r.1 with UnbondingMinTime := env.blockTime + env.unbondingTime,
                 UnbondingHeight := env.blockHeight }
    let s2 := SetValidator s1 validator1
    let s3 := setUpdate s2 validator1.OperatorAddr validator1.ABCIValidatorZero
    let s4 : State :=
      { s3 with bondedIndex := s3.bondedIndex.filter (fun a => decide (a ≠ validator1.OperatorAddr)) }
    (some validator1, s4)

/-- The statements of `bondValidator` (lines 421-453) with the stores kept
observable when the function stops: the result is `none` at the panic and the
returned validator otherwise, paired with the stores as they are at that
moment. -/
def bondValidatorRun (env : Env) (s : State) (validator : Validator) :
    Option Validator × State :=
  if validator.Status = BondStatus.Bonded then (none, s)
  else
    let validator0 : Validator := { validator with BondHeight := env.blockHeight }
    let r := validator0.UpdateStatus s.pool BondStatus.Bonded
    let s1 : State := { s with pool := r.2 }
    let validator1 := r.1
    let s2 := SetValidator s1 validator1
    let s3 : State := { s2 with bondedIndex := List.insert validator1.OperatorAddr s2.bondedIndex }
    let s4 := setUpdate s3 validator1.OperatorAddr validator1.ABCIValidator
    (some validator1, s4)

/-! ## Full recomputation -/

/-- Demote every member of `toKickOut` (`kickOutValidators`, lines 372-378).
The Go map is visited in the order of the list. -/
def kickOutValidators (env : Env) : State → List Addr → Option State
  | s, [] => some s
  | s, key :: rest =>
    match mustGetValidator s key with
    | none => none
    | some validator =>
      match beginUnbondingValidator env s validator with
      | none => none
      | some r => kickOutValidators env r.2 rest

/-- The result of the scan of `XXXREFERENCEUpdateBondedValidatorsFull`: the
stores, what is left of `toKickOut`, the last validator read and
`bondedValidatorsCount`. -/
structure FullScan where
  st : State
  toKickOut : List Addr
  validator : Validator
  count : Nat

/-- The scan of the power index, largest first (lines 330-357). -/
def fullScan (env : Env) : List (PowerKey × Addr) → FullScan → Option FullScan
  | [], acc => some acc
  | e :: rest, acc =>
    if acc.count < env.maxValidators then
      match mustGetValidator acc.st e.2 with
      | none => none
      | some validator0 =>
        let step : Option (Validator × State × List Addr) :=
          if e.2 ∈ acc.toKickOut then
            some (validator0, acc.st, acc.toKickOut.filter (fun a => decide (a ≠ e.2)))
          else
            match bondValidator env acc.st validator0 with
            | none => none
            | some r => some (r.1, r.2, acc.toKickOut)
        match step with
        | none => none
        | some (validator, st, tko) =>
          if validator.Jailed then
            if validator.Status = BondStatus.Bonded then none
            else some { st := st, toKickOut := tko, validator := validator, count := acc.count }
          else
            fullScan env rest { st := st, toKickOut := tko, validator := validator,
                                count := acc.count + 1 }
    else some acc

/-- Full update of the bonded validator set, many can be added or kicked
(`XXXREFERENCEUpdateBondedValidatorsFull`, lines 311-370). -/
def XXXREFERENCEUpdateBondedValidatorsFull (env : Env) (s : State) : Option State :=
  let toKickOut := s.bondedIndex.dedup
  let oldCliffValidatorAddr := s.cliffAddr
  match fullScan env s.powerIndex
      { st := s, toKickOut := toKickOut, validator := Validator.zero, count := 0 } with
  | none => none
  | some r =>
    let s1 :=
      if r.count = env.maxValidators then setCliffValidator r.st r.validator
      else if addrNonEmpty oldCliffValidatorAddr then clearCliffValidator r.st
      else r.st
    kickOutValidators env s1 r.toKickOut

/-! ## Single-validator update -/

/-- Modelled from the spec: `updateCliffValidator` (declared outside src/)
recomputes the cliff candidate, the lowest-ranked member of the bonded set.
The record of the affected validator is not yet persisted and is taken from
the argument; a bonded set without members is fatal. -/
def updateCliffValidator (s : State) (affectedVal : Validator) : Option State :=
  let isBonded : PowerKey × Addr → Bool := fun e =>
    match (if e.2 = affectedVal.OperatorAddr then some affectedVal else s.validators e.2) with
    | some v => decide (v.Status = BondStatus.Bonded)
    | none => false
  match s.powerIndex.reverse.find? isBonded with
  | none => none
  | some e => some { s with cliffAddr := some e.2, cliffPower := some e.1 }

/-- A validator reported jailed while Bonded starts unbonding and the cliff
spot is cleared (`updateForJailing`, lines 152-162). -/
def updateForJailing (env : Env) (s : State) (oldFound : Bool)
    (oldValidator newValidator : Validator) : Option (Validator × State) :=
  if newValidator.Jailed = true ∧ oldFound = true ∧ oldValidator.Status = BondStatus.Bonded then
    match beginUnbondingValidator env s newValidator with
    | none => none
    | some r => some (r.1, clearCliffValidator r.2)
  else some (newValidator, s)

/-- Whether the bonded tokens grow (`getPowerIncreasing`, lines 165-170). -/
def getPowerIncreasing (oldFound : Bool) (oldValidator newValidator : Validator) : Bool :=
  if oldFound = true ∧ oldValidator.BondedTokens < newValidator.BondedTokens then true
  else false

/-- The value of `counter+1` in `int16` arithmetic. -/
def int16Succ (counter : Int) : Int := (counter + 1 + 32768) % 65536 - 32768

/-- Get the bond height and the intra-tx counter, incrementing the global
counter unless the validator is already Bonded (`bondIncrement`, lines 174-190). -/
def bondIncrement (env : Env) (s : State) (found : Bool) (oldValidator : Validator) :
    (Int × Int) × State :=
  if found = true ∧ oldValidator.Status = BondStatus.Bonded then
    ((oldValidator.BondHeight, oldValidator.BondIntraTxCounter), s)
  else
    let counter := s.intraTxCounter
    ((env.blockHeight, counter), { s with intraTxCounter := int16Succ counter })

/-- Update the list ordered by voting power (`updateValidatorPower`, lines 192-204). -/
def updateValidatorPower (s : State) (oldFound : Bool) (oldValidator newValidator : Validator) :
    PowerKey × State :=
  let idx :=
    if oldFound = true then powerIndexDelete (GetValidatorsByPowerIndexKey oldValidator) s.powerIndex
    else s.powerIndex
  let valPower := GetValidatorsByPowerIndexKey newValidator
  (valPower, { s with powerIndex := powerIndexSet valPower newValidator.OperatorAddr idx })

/-- The local variables of the scan of `XXXREFERENCEUpdateBondedValidators`. -/
structure BondedScan where
  validator : Validator
  validatorToBond : Validator
  newValidatorBonded : Bool
  count : Nat

/-- The scan of the power index, largest first (lines 231-265); the stores are
only read. -/
def bondedScan (env : Env) (s : State) (affectedValidator : Validator) :
    List (PowerKey × Addr) → BondedScan → Option BondedScan
  | [], acc => some acc
  | e :: rest, acc =>
    if acc.count < env.maxValidators then
      match (if e.2 = affectedValidator.OperatorAddr then some affectedValidator
             else mustGetValidator s e.2) with
      | none => none
      | some validator =>
        if validator.Jailed then
          if validator.Status = BondStatus.Bonded then none
          else some { acc with validator := validator }
        else if validator.Status ≠ BondStatus.Bonded then
          if acc.newValidatorBonded then none
          else bondedScan env s affectedValidator rest
            { validator := validator, validatorToBond := validator, newValidatorBonded := true,
              count := acc.count + 1 }
        else bondedScan env s affectedValidator rest
          { acc with validator := validator, count := acc.count + 1 }
    else some acc

/-- Update the bonded validator group based on a change to the validator
`affectedValidator` (`XXXREFERENCEUpdateBondedValidators`, lines 218-307).
The result is `(updatedVal, updated)` and the stores. -/
def XXXREFERENCEUpdateBondedValidators (env : Env) (s : State) (affectedValidator : Validator) :
    Option ((Validator × Bool) × State) :=
  let oldCliffValidatorAddr := s.cliffAddr
  match bondedScan env s affectedValidator s.powerIndex
      { validator := Validator.zero, validatorToBond := Validator.zero,
        newValidatorBonded := false, count := 0 } with
  | none => none
  | some r =>
    if r.newValidatorBonded = true ∧
        addrBytesEqual oldCliffValidatorAddr r.validator.OperatorAddr = true then none
    else
      let s1 :=
        if r.count = env.maxValidators then setCliffValidator s r.validator
        else if addrNonEmpty oldCliffValidatorAddr then clearCliffValidator s
        else s
      if r.newValidatorBonded = true then
        let unbonded : Option (Validator × State) :=
          match oldCliffValidatorAddr with
          | none => some (affectedValidator, s1)
          | some cliffA =>
            match mustGetValidator s1 cliffA with
            | none => none
            | some oldCliffVal =>
              if r.validatorToBond.OperatorAddr = affectedValidator.OperatorAddr then
                match beginUnbondingValidator env s1 oldCliffVal with
                | none => none
                | some u => some (affectedValidator, u.2)
              else beginUnbondingValidator env s1 affectedValidator
        match unbonded with
        | none => none
        | some u =>
          match bondValidator env u.2 r.validatorToBond with
          | none => none
          | some b =>
            if b.1.OperatorAddr = u.1.OperatorAddr then some ((b.1, true), b.2)
            else some ((u.1, true), b.2)
      else some ((Validator.zero, false), s1)

/-- The switch of `REFERENCEXXXDELETEUpdateValidator` (lines 99-146), after
the power index was re-keyed; `k.UpdateBondedValidators` is
`XXXREFERENCEUpdateBondedValidators`. -/
def updateValidatorSwitch (env : Env) (s : State) (oldFound : Bool)
    (oldValidator validator : Validator) (powerIncreasing : Bool) (valPower : PowerKey) :
    Option (Validator × State) :=
  let cliffPower := s.cliffPower
  let cliffValExists := cliffPower.isSome
  let valPowerLTcliffPower : Bool :=
    match cliffPower with
    | some cp => valPower.ranksBelow cp
    | none => false
  if powerIncreasing = true ∧ validator.Jailed = false ∧
      (oldFound = true ∧ oldValidator.Status = BondStatus.Bonded) then
    let s1 := setUpdate s validator.OperatorAddr validator.ABCIValidator
    if cliffValExists = true ∧ addrBytesEqual s1.cliffAddr validator.OperatorAddr = true then
      match updateCliffValidator s1 validator with
      | none => none
      | some s2 => some (validator, s2)
    else some (validator, s1)
  else if cliffValExists = true ∧ oldFound = false ∧ valPowerLTcliffPower = true then
    some (validator, s)
  else if cliffValExists = true ∧ (oldFound = true ∧ oldValidator.Status = BondStatus.Unbonded) ∧
      valPowerLTcliffPower = true then
    some (validator, s)
  else
    match XXXREFERENCEUpdateBondedValidators env s validator with
    | none => none
    | some r =>
      if r.1.2 = true then some (r.1.1, r.2)
      else if oldFound = true ∧ validator.BondedTokens < oldValidator.BondedTokens then
        some (validator, setUpdate r.2 validator.OperatorAddr validator.ABCIValidator)
      else some (validator, r.2)

/-- Perform all the necessary steps for when a validator changes its power
(`REFERENCEXXXDELETEUpdateValidator`, lines 83-150). -/
def REFERENCEXXXDELETEUpdateValidator (env : Env) (s : State) (validator : Validator) :
    Option (Validator × State) :=
  let oldValidatorOpt := GetValidator s validator.OperatorAddr
  let oldFound := oldValidatorOpt.isSome
  let oldValidator := oldValidatorOpt.getD Validator.zero
  match updateForJailing env s oldFound oldValidator validator with
  | none => none
  | some j =>
    let powerIncreasing := getPowerIncreasing oldFound oldValidator j.1
    let bi := bondIncrement env j.2 oldFound oldValidator
    let validator1 : Validator :=
      { j.1 with BondHeight := bi.1.1, BondIntraTxCounter := bi.1.2 }
    let up := updateValidatorPower bi.2 oldFound oldValidator validator1
    match updateValidatorSwitch env up.2 oldFound oldValidator validator1 powerIncreasing up.1 with
    | none => none
    | some r => some (r.1, SetValidator r.2 r.1)

/-! ## Accumulated updates for Tendermint -/

/-- An entry of `topvalidator` or of `previousValidators`, with the fields
`GetValidTendermintUpdates` reads. -/
structure TopValidator where
  Addr : Stake.Addr
  State : BondStatus
  Power : Nat
  Jailed : Bool
deriving DecidableEq, Repr

/-- Write one entry of the map `tendermintUpdates`. -/
def mapSet (m : Addr → Option Nat) (a : Addr) (p : Nat) : Addr → Option Nat :=
  fun b => if b = a then some p else m b

/-- Get the most recently updated validators (`GetValidTendermintUpdates`,
lines 20-51).  The identifiers `topvalidator` and `previousValidators` are free
in the source and are the two arguments; the transitions called in the first
loop (lines 55-73) have empty bodies, `store.delete` does not touch the map,
and the `break` of the `Bonded` case leaves the `switch`, not the loop. -/
def GetValidTendermintUpdates (topvalidator previousValidators : List TopValidator) :
    Addr → Option Nat :=
  let tendermintUpdates0 : Addr → Option Nat := fun _ => none
  let tendermintUpdates1 := topvalidator.foldl (fun m validator =>
    match validator.State with
    | BondStatus.Unbonded => mapSet m validator.Addr validator.Power
    | BondStatus.Unbonding => mapSet m validator.Addr validator.Power
    | BondStatus.Bonded => m) tendermintUpdates0
  previousValidators.foldl (fun m validator => mapSet m validator.Addr 0) tendermintUpdates1

/-! ## Auxiliary definitions for the proofs -/

/-- The record `bondValidator` stores for `v`. -/
def bondedRecord (env : Env) (v : Validator) : Validator :=
  { v with BondHeight := env.blockHeight, Status := BondStatus.Bonded }

/-- The record `beginUnbondingValidator` stores for `v`. -/
def unbondingRecord (env : Env) (v : Validator) : Validator :=
  { v with Status := BondStatus.Unbonding,
           UnbondingMinTime := env.blockTime + env.unbondingTime,
           UnbondingHeight := env.blockHeight }

/-- The stores after `bondValidator` on `v`. -/
def bondState (env : Env) (s : State) (v : Validator) : State :=
  { s with
    pool := { BondedTokens := s.pool.BondedTokens + v.Power,
              LooseTokens := s.pool.LooseTokens - v.Power },
    validators := fun a => if a = v.OperatorAddr then some (bondedRecord env v) else s.validators a,
    bondedIndex := List.insert v.OperatorAddr s.bondedIndex,
    updates := fun b => if b = v.OperatorAddr then some v.Power else s.updates b }

/-- The stores after `beginUnbondingValidator` on `v`. -/
def unbondState (env : Env) (s : State) (v : Validator) : State :=
  { s with
    pool := { BondedTokens := s.pool.BondedTokens - v.Power,
              LooseTokens := s.pool.LooseTokens + v.Power },
    validators := fun a => if a = v.OperatorAddr then some (unbondingRecord env v) else s.validators a,
    bondedIndex := s.bondedIndex.filter (fun a => decide (a ≠ v.OperatorAddr)),
    updates := fun b => if b = v.OperatorAddr then some 0 else s.updates b }

/-- What the scan of the full recomputation did to the entries `top`, starting from `acc`. -/
structure ScanPost (env : Env) (acc : FullScan) (top : List (PowerKey × Addr))
    (r : FullScan) : Prop where
  count_eq : r.count = acc.count + top.length
  tko_eq : r.toKickOut = acc.toKickOut.filter (fun a => decide (a ∉ top.map Prod.snd))
  validators_eq : ∀ a, r.st.validators a =
    if a ∈ top.map Prod.snd ∧ a ∉ acc.toKickOut then
      (acc.st.validators a).map (bondedRecord env)
    else acc.st.validators a
  bonded_eq : ∀ a, a ∈ r.st.bondedIndex ↔
    a ∈ acc.st.bondedIndex ∨ (a ∈ top.map Prod.snd ∧ a ∉ acc.toKickOut)
  updates_eq : ∀ a, r.st.updates a =
    if a ∈ top.map Prod.snd ∧ a ∉ acc.toKickOut then
      (acc.st.validators a).map (fun v => v.Power)
    else acc.st.updates a
  powerIndex_eq : r.st.powerIndex = acc.st.powerIndex
  cliffAddr_eq : r.st.cliffAddr = acc.st.cliffAddr
  cliffPower_eq : r.st.cliffPower = acc.st.cliffPower
  counter_eq : r.st.intraTxCounter = acc.st.intraTxCounter
  validator_eq : r.validator =
    match top.getLast? with
    | none => acc.validator
    | some e => (r.st.validators e.2).getD Validator.zero
  noop : (∀ e ∈ top, e.2 ∈ acc.toKickOut) → r.st = acc.st

/-- What `kickOutValidators` did to the members of `tko`. -/
structure KickPost (env : Env) (s : State) (tko : List Addr) (r : State) : Prop where
  validators_eq : ∀ a, r.validators a =
    if a ∈ tko then (s.validators a).map (unbondingRecord env) else s.validators a
  bonded_eq : ∀ a, a ∈ r.bondedIndex ↔ a ∈ s.bondedIndex ∧ a ∉ tko
  updates_eq : ∀ a, r.updates a = if a ∈ tko then some 0 else s.updates a
  powerIndex_eq : r.powerIndex = s.powerIndex
  cliffAddr_eq : r.cliffAddr = s.cliffAddr
  cliffPower_eq : r.cliffPower = s.cliffPower
  counter_eq : r.intraTxCounter = s.intraTxCounter

/-- The validator stored under `a` has status Bonded. -/
def IsBonded (s : State) (a : Addr) : Prop :=
  ∃ v, s.validators a = some v ∧ v.Status = BondStatus.Bonded

/-- The validator table is keyed by the operator address of the record. -/
def TableWF (s : State) : Prop :=
  ∀ a v, s.validators a = some v → v.OperatorAddr = a

/-- Invariant I1: a jailed validator is not Bonded. -/
def JailExclusion (s : State) : Prop :=
  ∀ a v, s.validators a = some v → v.Jailed = true → v.Status ≠ BondStatus.Bonded

/-- Invariant I4: the power index holds exactly one entry per validator, keyed
by the validator's current key. -/
def PowerIndexConsistent (s : State) : Prop :=
  (s.powerIndex.map Prod.snd).Nodup ∧
  (∀ e ∈ s.powerIndex, ∃ v, s.validators e.2 = some v ∧ e.1 = GetValidatorsByPowerIndexKey v) ∧
  (∀ a v, s.validators a = some v → (GetValidatorsByPowerIndexKey v, a) ∈ s.powerIndex)

/-- Invariant I5: the bonded-membership index holds exactly the identities of
the validators with status Bonded. -/
def BondedIndexConsistent (s : State) : Prop :=
  ∀ a, a ∈ s.bondedIndex ↔ IsBonded s a

/-- At most `n` validators have status Bonded. -/
def BondedAtMost (s : State) (n : Nat) : Prop :=
  ∀ l : List Addr, l.Nodup → (∀ a ∈ l, IsBonded s a) → l.length ≤ n

/-- The identities of the first `MaxValidators` entries of the power index. -/
def topAddrs (env : Env) (s : State) : List Addr :=
  (s.powerIndex.take env.maxValidators).map Prod.snd

/-- The last validator read by a scan that went through the first
`MaxValidators` entries of the power index, as stored in `r`. -/
def lastScanned (env : Env) (s r : State) : Validator :=
  match (s.powerIndex.take env.maxValidators).getLast? with
  | none => Validator.zero
  | some e => (r.validators e.2).getD Validator.zero

/-- What the full recomputation does from `s` when it goes through the first
`MaxValidators` entries of the power index. -/
structure FullPost (env : Env) (s r : State) : Prop where
  validators_eq : ∀ a, r.validators a =
    if a ∈ topAddrs env s then
      (if a ∈ s.bondedIndex then s.validators a
       else (s.validators a).map (bondedRecord env))
    else if a ∈ s.bondedIndex then (s.validators a).map (unbondingRecord env)
    else s.validators a
  bonded_eq : ∀ a, a ∈ r.bondedIndex ↔ a ∈ topAddrs env s
  updates_eq : ∀ a, r.updates a =
    if a ∈ topAddrs env s then
      (if a ∈ s.bondedIndex then s.updates a
       else (s.validators a).map (fun v => v.Power))
    else if a ∈ s.bondedIndex then some 0
    else s.updates a
  powerIndex_eq : r.powerIndex = s.powerIndex
  counter_eq : r.intraTxCounter = s.intraTxCounter
  cliff_set : (topAddrs env s).length = env.maxValidators →
    r.cliffAddr = some (lastScanned env s r).OperatorAddr ∧
    r.cliffPower = some (GetValidatorsByPowerIndexKey (lastScanned env s r))
  cliff_clear : (topAddrs env s).length ≠ env.maxValidators →
    addrNonEmpty s.cliffAddr = true → r.cliffAddr = none ∧ r.cliffPower = none
  cliff_keep : (topAddrs env s).length ≠ env.maxValidators →
    addrNonEmpty s.cliffAddr = false →
    r.cliffAddr = s.cliffAddr ∧ r.cliffPower = s.cliffPower

/-- Invariant I3, the defined case: the Cliff Tracker names the lowest-ranked of
the first `MaxValidators` entries of the power index, with its key. -/
def CliffAtTop (env : Env) (s : State) : Prop :=
  ∃ e, (s.powerIndex.take env.maxValidators).getLast? = some e ∧
    s.cliffAddr = some e.2 ∧ s.cliffPower = some e.1

/-- A consistent state with a full bonded set: I1, I4 and I5 hold, the Bonded
validators are exactly the first `MaxValidators` entries of the power index
(I2, with jailed validators ranking lowest) and the Cliff Tracker names the
last of them (I3). -/
structure ConsistentFull (env : Env) (s : State) : Prop where
  wf : TableWF s
  i1 : JailExclusion s
  i4 : PowerIndexConsistent s
  i5 : BondedIndexConsistent s
  pos : 0 < env.maxValidators
  full : (topAddrs env s).length = env.maxValidators
  top : ∀ a, IsBonded s a ↔ a ∈ topAddrs env s
  cliff : CliffAtTop env s

/-- The stores `t` differ from `s` in the Cliff Tracker only. -/
def CliffOnly (s t : State) : Prop :=
  ∃ ca cp, t = { s with cliffAddr := ca, cliffPower := cp }

/-- The status of the input record equals the stored status; the record of
a new validator is not Bonded. -/
def StatusMatches (s : State) (A : Validator) : Prop :=
  (∀ old, s.validators A.OperatorAddr = some old → A.Status = old.Status) ∧
  (s.validators A.OperatorAddr = none → A.Status ≠ BondStatus.Bonded)

/-- Invariant I3, first half: the Cliff Tracker is undefined exactly when
fewer than `MaxValidators` validators are Bonded. -/
def CliffTracksFull (env : Env) (s : State) : Prop :=
  s.cliffAddr = none ↔ (0 < env.maxValidators ∧ BondedAtMost s (env.maxValidators - 1))

/-- The power index is in the order of the store: every entry ranks strictly
below the entries before it. -/
def PowerIndexSorted (s : State) : Prop :=
  s.powerIndex.Pairwise (fun x y => y.1.ranksBelow x.1 = true)

/-- The Cliff Tracker is undefined, or holds a non-empty identity and a power. -/
def CliffWF (s : State) : Prop :=
  (s.cliffAddr = none ∧ s.cliffPower = none) ∨
  (∃ c k, c ≠ 0 ∧ s.cliffAddr = some c ∧ s.cliffPower = some k)

/-- Exactly `n` validators have status Bonded. -/
def BondedExactly (s : State) (n : Nat) : Prop :=
  ∃ l : List Addr, l.Nodup ∧ (∀ a, a ∈ l ↔ IsBonded s a) ∧ l.length = n

/-- The record the scan of `XXXREFERENCEUpdateBondedValidators` reads for an
identity (lines 237-243): the affected validator as given, any other validator
from the store. -/
def scanRead (s : State) (affectedValidator : Validator) (a : Addr) : Option Validator :=
  if a = affectedValidator.OperatorAddr then some affectedValidator else s.validators a

/-- Identities are non-empty byte strings: no record is stored under the empty
address. -/
def AddrsNonEmpty (s : State) : Prop := s.validators 0 = none

/-- No validator of the table is jailed. -/
def NoJailedValidator (s : State) : Prop :=
  ∀ a v, s.validators a = some v → v.Jailed = false

/-- A consistent state with spare capacity: I1, I4 and I5 hold, fewer than
`MaxValidators` validators are Bonded, the Bonded validators are the non-jailed
ones (I2 with the bonded set the highest-ranked non-jailed entries, jailed
validators ranking lowest) and the Cliff Tracker is undefined (I3). -/
structure ConsistentSpare (env : Env) (s : State) : Prop where
  wf : TableWF s
  i1 : JailExclusion s
  i4 : PowerIndexConsistent s
  i5 : BondedIndexConsistent s
  pos : 0 < env.maxValidators
  fewer : BondedAtMost s (env.maxValidators - 1)
  top : ∀ a v, s.validators a = some v → v.Jailed = false → v.Status = BondStatus.Bonded
  cliffAddr_none : s.cliffAddr = none
  cliffPower_none : s.cliffPower = none

/-- The stores are settled: the indexes are consistent, the Bonded validators
are exactly the first `MaxValidators` entries of the power index, none of them
jailed, and the Cliff Tracker names the last of them when there are
`MaxValidators` of them and is undefined otherwise. -/
structure Settled (env : Env) (R : State) : Prop where
  wf : TableWF R
  nodup : (R.powerIndex.map Prod.snd).Nodup
  i5 : BondedIndexConsistent R
  top : ∀ x, IsBonded R x ↔ x ∈ topAddrs env R
  notJailed : ∀ e ∈ R.powerIndex.take env.maxValidators,
    ∃ v, R.validators e.2 = some v ∧ v.Jailed = false
  cliffAddr_full : (topAddrs env R).length = env.maxValidators →
    R.cliffAddr = some (lastScanned env R R).OperatorAddr
  cliffAddr_spare : (topAddrs env R).length ≠ env.maxValidators → R.cliffAddr = none

/-- The power recorded by the Cliff Tracker is the key of the record of the
last of the first `MaxValidators` entries of the power index, when there are
`MaxValidators` of them. -/
def CliffPowerSettled (env : Env) (R : State) : Prop :=
  (topAddrs env R).length = env.maxValidators →
    R.cliffPower = some (GetValidatorsByPowerIndexKey (lastScanned env R R))

/-- The validator table holding the records of a list, each under its
operator address (the first record wins). -/
def tableOf (l : List Validator) : Addr → Option Validator :=
  fun a => l.find? (fun v => decide (v.OperatorAddr = a))

/-- A validator record with the given identity, power, status and jailed
flag, all other fields zero. -/
def mkValidator (a : Addr) (p : Nat) (st : BondStatus) (j : Bool) : Validator :=
  { OperatorAddr := a, Power := p, Status := st, Jailed := j, BondHeight := 0,
    BondIntraTxCounter := 0, UnbondingMinTime := 0, UnbondingHeight := 0 }

/-- The stores holding the given records, power index, bonded index and Cliff
Tracker, with an empty update buffer. -/
def mkState (l : List Validator) (idx : List (PowerKey × Addr)) (b : List Addr)
    (ca : Option Addr) (cp : Option PowerKey) : State :=
  { validators := tableOf l, powerIndex := idx, bondedIndex := b, cliffAddr := ca,
    cliffPower := cp, updates := fun _ => none,
    pool := { BondedTokens := 0, LooseTokens := 0 }, intraTxCounter := 0 }

/-- The power index of a list of records given in descending order. -/
def indexOf (l : List Validator) : List (PowerKey × Addr) :=
  l.map (fun v => (GetValidatorsByPowerIndexKey v, v.OperatorAddr))

/-! ## Concrete states -/

/-- A context at height 5 and time 1000 with the given `MaxValidators` and an
unbonding time of 50. -/
def envAt (maxValidators : Nat) : Env :=
  { blockHeight := 5, blockTime := 1000, maxValidators := maxValidators, unbondingTime := 50 }

/-- Three validators: 1 (power 10, Bonded), 2 (power 8, Unbonded) and
3 (power 5, Bonded); the Cliff Tracker is undefined. -/
def stateMixed : State :=
  mkState
    [mkValidator 1 10 BondStatus.Bonded false, mkValidator 2 8 BondStatus.Unbonded false,
     mkValidator 3 5 BondStatus.Bonded false]
    (indexOf [mkValidator 1 10 BondStatus.Bonded false, mkValidator 2 8 BondStatus.Unbonded false,
      mkValidator 3 5 BondStatus.Bonded false])
    [1, 3] none none

/-- The scenario of the spec: `MaxValidators = 2`, X (identity 1, power 10) and
Y (identity 2, power 8) Bonded, the cliff is Y. -/
def stateXY : State :=
  mkState
    [mkValidator 1 10 BondStatus.Bonded false, mkValidator 2 8 BondStatus.Bonded false]
    (indexOf [mkValidator 1 10 BondStatus.Bonded false, mkValidator 2 8 BondStatus.Bonded false])
    [1, 2] (some 2) (some (GetValidatorsByPowerIndexKey (mkValidator 2 8 BondStatus.Bonded false)))

/-- `MaxValidators = 1`: X (identity 1, power 10) is Bonded and is the cliff
validator, Z (identity 2, power 1) is Unbonded. -/
def stateXZ : State :=
  mkState
    [mkValidator 1 10 BondStatus.Bonded false, mkValidator 2 1 BondStatus.Unbonded false]
    (indexOf [mkValidator 1 10 BondStatus.Bonded false, mkValidator 2 1 BondStatus.Unbonded false])
    [1] (some 1) (some (GetValidatorsByPowerIndexKey (mkValidator 1 10 BondStatus.Bonded false)))

/-- One validator (identity 1, power 10, Unbonded) listed in the bonded index
and under two keys of the power index; I4 and I5 do not hold. -/
def stateTwice : State :=
  mkState [mkValidator 1 10 BondStatus.Unbonded false]
    [(GetValidatorsByPowerIndexKey (mkValidator 1 10 BondStatus.Unbonded false), 1),
     (GetValidatorsByPowerIndexKey (mkValidator 1 9 BondStatus.Unbonded false), 1)]
    [1] none none

/-- `MaxValidators = 2` with spare capacity: validator 1 (power 10) is Bonded,
validator 2 (power 5) is jailed and Unbonding and ranks last; the Cliff
Tracker is undefined. -/
def stateJailedCandidate : State :=
  mkState
    [mkValidator 1 10 BondStatus.Bonded false, mkValidator 2 5 BondStatus.Unbonding true]
    (indexOf [mkValidator 1 10 BondStatus.Bonded false,
      mkValidator 2 5 BondStatus.Unbonding true])
    [1] none none

/-- `MaxValidators = 2`: X (identity 1, power 10) and Y (identity 2, power 8)
are Bonded, the cliff is Y, and U (identity 3, power 5) is Unbonding. -/
def stateXYU : State :=
  mkState
    [mkValidator 1 10 BondStatus.Bonded false, mkValidator 2 8 BondStatus.Bonded false,
     mkValidator 3 5 BondStatus.Unbonding false]
    (indexOf [mkValidator 1 10 BondStatus.Bonded false, mkValidator 2 8 BondStatus.Bonded false,
      mkValidator 3 5 BondStatus.Unbonding false])
    [1, 2] (some 2) (some (GetValidatorsByPowerIndexKey (mkValidator 2 8 BondStatus.Bonded false)))

/-- `MaxValidators = 2`: X (identity 1, power 20) and Y (identity 2, power 8)
are Bonded and the cliff is Y, with cliff power 8; there is no other validator. -/
def stateCliff8 : State :=
  mkState
    [mkValidator 1 20 BondStatus.Bonded false, mkValidator 2 8 BondStatus.Bonded false]
    (indexOf [mkValidator 1 20 BondStatus.Bonded false, mkValidator 2 8 BondStatus.Bonded false])
    [1, 2] (some 2) (some (GetValidatorsByPowerIndexKey (mkValidator 2 8 BondStatus.Bonded false)))

/-- The state `stateCliff8` with one more validator: U (identity 3, power 6) is
Unbonded and not jailed. -/
def stateCliff8U : State :=
  mkState
    [mkValidator 1 20 BondStatus.Bonded false, mkValidator 2 8 BondStatus.Bonded false,
     mkValidator 3 6 BondStatus.Unbonded false]
    (indexOf [mkValidator 1 20 BondStatus.Bonded false, mkValidator 2 8 BondStatus.Bonded false,
      mkValidator 3 6 BondStatus.Unbonded false])
    [1, 2] (some 2) (some (GetValidatorsByPowerIndexKey (mkValidator 2 8 BondStatus.Bonded false)))

/-- The records of the scenario with `MaxValidators = 5`: validators 1 to 5 are
Bonded with powers 50, 40, 30, 20 and 10, validators 6 (power 5) and 7
(power 3) are Unbonded and not jailed. -/
def recordsFive : List Validator :=
  [mkValidator 1 50 BondStatus.Bonded false, mkValidator 2 40 BondStatus.Bonded false,
   mkValidator 3 30 BondStatus.Bonded false, mkValidator 4 20 BondStatus.Bonded false,
   mkValidator 5 10 BondStatus.Bonded false, mkValidator 6 5 BondStatus.Unbonded false,
   mkValidator 7 3 BondStatus.Unbonded false]

/-- A full set of five: the records `recordsFive`, the cliff is validator 5. -/
def stateFive : State :=
  mkState recordsFive (indexOf recordsFive) [1, 2, 3, 4, 5] (some 5)
    (some (GetValidatorsByPowerIndexKey (mkValidator 5 10 BondStatus.Bonded false)))

/-! ## Lemmas and theorems -/

theorem bondValidator_eq (env : Env) (s : State) (v : Validator) :
    bondValidator env s v =
      if v.Status = BondStatus.Bonded then none
      else some (bondedRecord env v, bondState env s v) := by
  unfold bondValidator
  split_ifs with h
  · rfl
  · simp [Validator.UpdateStatus, h, SetValidator, setUpdate, bondedRecord, bondState,
      Validator.ABCIValidator, Validator.BondedTokens]

theorem beginUnbondingValidator_eq (env : Env) (s : State) (v : Validator) :
    beginUnbondingValidator env s v =
      if v.Status = BondStatus.Bonded then some (unbondingRecord env v, unbondState env s v)
      else none := by
  unfold beginUnbondingValidator
  cases hs : v.Status <;>
    simp [Validator.UpdateStatus, hs, SetValidator, setUpdate, unbondingRecord, unbondState,
      Validator.ABCIValidatorZero]

/-- One round of the scan of the full recomputation, by cases. -/
theorem fullScan_cons (env : Env) (e : PowerKey × Addr) (rest : List (PowerKey × Addr))
    (acc : FullScan) :
    fullScan env (e :: rest) acc =
      if acc.count < env.maxValidators then
        match acc.st.validators e.2 with
        | none => none
        | some v0 =>
          if e.2 ∈ acc.toKickOut then
            if v0.Jailed = true then
              if v0.Status = BondStatus.Bonded then none
              else some { st := acc.st,
                          toKickOut := acc.toKickOut.filter (fun a => decide (a ≠ e.2)),
                          validator := v0, count := acc.count }
            else fullScan env rest
              { st := acc.st, toKickOut := acc.toKickOut.filter (fun a => decide (a ≠ e.2)),
                validator := v0, count := acc.count + 1 }
          else if v0.Status = BondStatus.Bonded then none
          else if v0.Jailed = true then none
          else fullScan env rest
            { st := bondState env acc.st v0, toKickOut := acc.toKickOut,
              validator := bondedRecord env v0, count := acc.count + 1 }
      else some acc := by
  rw [fullScan]
  by_cases hc : acc.count < env.maxValidators
  · simp only [hc, if_true, mustGetValidator]
    cases hv : acc.st.validators e.2 with
    | none => rfl
    | some v0 =>
      simp only []
      by_cases hk : e.2 ∈ acc.toKickOut
      · simp only [hk, if_true]
      · simp only [hk, if_false, bondValidator_eq]
        by_cases hb : v0.Status = BondStatus.Bonded
        · simp [hb]
        · simp only [hb, if_false]
          cases hj : v0.Jailed <;> simp [bondedRecord, hj]
  · simp only [hc, if_false]

theorem ScanPost.nil (env : Env) (acc : FullScan) : ScanPost env acc [] acc := by
  constructor <;> simp

theorem ScanPost.cons_kept (env : Env) (acc : FullScan) (e : PowerKey × Addr)
    (top : List (PowerKey × Addr)) (v : Validator) (r : FullScan)
    (hv : acc.st.validators e.2 = some v) (hin : e.2 ∈ acc.toKickOut)
    (hnotin : e.2 ∉ top.map Prod.snd)
    (h : ScanPost env { st := acc.st,
                        toKickOut := acc.toKickOut.filter (fun a => decide (a ≠ e.2)),
                        validator := v, count := acc.count + 1 } top r) :
    ScanPost env acc (e :: top) r := by
  have key : ∀ a, (a ∈ top.map Prod.snd ∧
      a ∉ acc.toKickOut.filter (fun a => decide (a ≠ e.2))) ↔
      (a ∈ (e :: top).map Prod.snd ∧ a ∉ acc.toKickOut) := by
    intro a
    by_cases ha : a = e.2
    · subst ha
      constructor
      · intro h1; exact absurd h1.1 hnotin
      · intro h1; exact absurd hin h1.2
    · simp [List.mem_filter, ha]
  constructor
  · have := h.count_eq; simp only [List.length_cons] at this ⊢; omega
  · rw [h.tko_eq, List.filter_filter]
    apply List.filter_congr
    intro a _
    by_cases ha : a = e.2
    · subst ha; simp
    · simp [ha]
  · intro a
    rw [h.validators_eq a]
    exact if_congr (key a) rfl rfl
  · intro a
    rw [h.bonded_eq a]
    exact or_congr Iff.rfl (key a)
  · intro a
    rw [h.updates_eq a]
    exact if_congr (key a) rfl rfl
  · exact h.powerIndex_eq
  · exact h.cliffAddr_eq
  · exact h.cliffPower_eq
  · exact h.counter_eq
  · rw [h.validator_eq, List.getLast?_cons]
    cases hl : top.getLast? with
    | none =>
      have : top = [] := List.getLast?_eq_none_iff.1 hl
      subst this
      have := h.validators_eq e.2
      simp at this
      simp [this, hv]
    | some e' => simp
  · intro hall
    exact h.noop (fun e' he' => by
      have h1 := hall e' (List.mem_cons_of_mem _ he')
      have h2 : e'.2 ≠ e.2 := fun heq => hnotin (heq ▸ List.mem_map_of_mem Prod.snd he')
      exact List.mem_filter.2 ⟨h1, by simpa using h2⟩)

theorem ScanPost.cons_bonded (env : Env) (acc : FullScan) (e : PowerKey × Addr)
    (top : List (PowerKey × Addr)) (v : Validator) (r : FullScan)
    (hv : acc.st.validators e.2 = some v) (hva : v.OperatorAddr = e.2)
    (hin : e.2 ∉ acc.toKickOut) (hnotin : e.2 ∉ top.map Prod.snd)
    (h : ScanPost env { st := bondState env acc.st v, toKickOut := acc.toKickOut,
                        validator := bondedRecord env v, count := acc.count + 1 } top r) :
    ScanPost env acc (e :: top) r := by
  have key : ∀ a, a ≠ e.2 → ((a ∈ top.map Prod.snd ∧ a ∉ acc.toKickOut) ↔
      (a ∈ (e :: top).map Prod.snd ∧ a ∉ acc.toKickOut)) := by
    intro a ha
    simp [ha]
  have hself : ¬ (e.2 ∈ top.map Prod.snd ∧ e.2 ∉ acc.toKickOut) := fun h1 => hnotin h1.1
  have hself' : e.2 ∈ (e :: top).map Prod.snd ∧ e.2 ∉ acc.toKickOut :=
    ⟨by simp, hin⟩
  constructor
  · have := h.count_eq; simp only [List.length_cons] at this ⊢; omega
  · rw [h.tko_eq]
    apply List.filter_congr
    intro a ha
    have : a ≠ e.2 := fun heq => hin (heq ▸ ha)
    simp [this]
  · intro a
    rw [h.validators_eq a]
    by_cases ha : a = e.2
    · subst ha
      rw [if_neg hself, if_pos hself', hv]
      simp [bondState, hva]
    · have hb : (bondState env acc.st v).validators a = acc.st.validators a := by
        simp [bondState, hva, ha]
      simp only [hb]
      exact if_congr (key a ha) rfl rfl
  · intro a
    rw [h.bonded_eq a]
    by_cases ha : a = e.2
    · subst ha
      simp [bondState, hva, hin]
    · have hb : a ∈ (bondState env acc.st v).bondedIndex ↔ a ∈ acc.st.bondedIndex := by
        simp [bondState, hva, ha]
      exact or_congr hb (key a ha)
  · intro a
    rw [h.updates_eq a]
    by_cases ha : a = e.2
    · subst ha
      rw [if_neg hself, if_pos hself', hv]
      simp [bondState, hva]
    · have hb : (bondState env acc.st v).validators a = acc.st.validators a := by
        simp [bondState, hva, ha]
      have hu : (bondState env acc.st v).updates a = acc.st.updates a := by
        simp [bondState, hva, ha]
      simp only [hb, hu]
      exact if_congr (key a ha) rfl rfl
  · exact h.powerIndex_eq
  · exact h.cliffAddr_eq
  · exact h.cliffPower_eq
  · exact h.counter_eq
  · rw [h.validator_eq, List.getLast?_cons]
    cases hl : top.getLast? with
    | none =>
      have : top = [] := List.getLast?_eq_none_iff.1 hl
      subst this
      have := h.validators_eq e.2
      simp [bondState, hva] at this
      simp [this]
    | some e' => simp
  · intro hall
    exact absurd (hall e (List.mem_cons_self _ _)) hin

theorem fullScan_spec (env : Env) : ∀ (l : List (PowerKey × Addr)) (acc : FullScan),
    (l.map Prod.snd).Nodup →
    (∀ e ∈ l.take (env.maxValidators - acc.count), ∃ v, acc.st.validators e.2 = some v ∧
        v.OperatorAddr = e.2 ∧ v.Jailed = false ∧
        (e.2 ∉ acc.toKickOut → v.Status ≠ BondStatus.Bonded)) →
    ∃ r, fullScan env l acc = some r ∧
      ScanPost env acc (l.take (env.maxValidators - acc.count)) r := by
  intro l
  induction l with
  | nil =>
    intro acc _ _
    exact ⟨acc, rfl, by simpa using ScanPost.nil env acc⟩
  | cons e rest ih =>
    intro acc hnd hpre
    rw [fullScan_cons]
    by_cases hc : acc.count < env.maxValidators
    · obtain ⟨k, hk⟩ : ∃ k, env.maxValidators - acc.count = k + 1 := ⟨env.maxValidators - acc.count - 1, by omega⟩
      rw [hk, List.take_succ_cons] at hpre ⊢
      obtain ⟨v, hv, hva, hvj, hvs⟩ := hpre e (List.mem_cons_self _ _)
      simp only [List.map_cons, List.nodup_cons] at hnd
      obtain ⟨hnotin, hnd'⟩ := hnd
      have hne : ∀ e' ∈ rest.take k, e'.2 ≠ e.2 := by
        intro e' he' heq
        exact hnotin (heq ▸ List.mem_map_of_mem Prod.snd (List.mem_of_mem_take he'))
      have hnotin' : e.2 ∉ (rest.take k).map Prod.snd := by
        intro hmem
        obtain ⟨e', he', heq⟩ := List.mem_map.1 hmem
        exact hne e' he' heq
      simp only [hc, if_true, hv, hvj]
      by_cases hin : e.2 ∈ acc.toKickOut
      · simp only [hin, if_true]
        have hk' : env.maxValidators - (acc.count + 1) = k := by omega
        obtain ⟨r, hr, hpost⟩ := ih
          { st := acc.st, toKickOut := acc.toKickOut.filter (fun a => decide (a ≠ e.2)),
            validator := v, count := acc.count + 1 } hnd' (by
            simp only [hk']
            intro e' he'
            obtain ⟨v', h1, h2, h3, h4⟩ := hpre e' (List.mem_cons_of_mem _ he')
            refine ⟨v', h1, h2, h3, ?_⟩
            intro hnin
            apply h4
            intro hmem
            exact hnin (List.mem_filter.2 ⟨hmem, by simpa using hne e' he'⟩))
        simp only [hk'] at hpost
        exact ⟨r, hr, ScanPost.cons_kept env acc e _ v r hv hin hnotin' hpost⟩
      · have hvs' : v.Status ≠ BondStatus.Bonded := hvs hin
        simp only [hin, if_false, hvs']
        have hk' : env.maxValidators - (acc.count + 1) = k := by omega
        obtain ⟨r, hr, hpost⟩ := ih
          { st := bondState env acc.st v, toKickOut := acc.toKickOut,
            validator := bondedRecord env v, count := acc.count + 1 } hnd' (by
            simp only [hk']
            intro e' he'
            obtain ⟨v', h1, h2, h3, h4⟩ := hpre e' (List.mem_cons_of_mem _ he')
            refine ⟨v', ?_, h2, h3, h4⟩
            simp [bondState, hva, hne e' he', h1])
        simp only [hk'] at hpost
        exact ⟨r, hr, ScanPost.cons_bonded env acc e _ v r hv hva hin hnotin' hpost⟩
    · have h0 : env.maxValidators - acc.count = 0 := by omega
      simp only [hc, if_false, h0, List.take_zero]
      exact ⟨acc, rfl, ScanPost.nil env acc⟩

theorem kickOutValidators_spec (env : Env) : ∀ (tko : List Addr) (s : State),
    tko.Nodup →
    (∀ a ∈ tko, ∃ v, s.validators a = some v ∧ v.OperatorAddr = a ∧
        v.Status = BondStatus.Bonded) →
    ∃ r, kickOutValidators env s tko = some r ∧ KickPost env s tko r := by
  intro tko
  induction tko with
  | nil =>
    intro s _ _
    exact ⟨s, rfl, by constructor <;> simp⟩
  | cons k rest ih =>
    intro s hnd hpre
    obtain ⟨v, hv, hva, hvs⟩ := hpre k (List.mem_cons_self _ _)
    obtain ⟨hk, hnd'⟩ := List.nodup_cons.1 hnd
    have hstep : kickOutValidators env s (k :: rest) =
        kickOutValidators env (unbondState env s v) rest := by
      rw [kickOutValidators]
      simp [mustGetValidator, hv, beginUnbondingValidator_eq, hvs]
    obtain ⟨r, hr, hpost⟩ := ih (unbondState env s v) hnd' (by
      intro a ha
      obtain ⟨v', h1, h2, h3⟩ := hpre a (List.mem_cons_of_mem _ ha)
      have hne : a ≠ k := fun heq => hk (heq ▸ ha)
      exact ⟨v', by simp [unbondState, hva, hne, h1], h2, h3⟩)
    refine ⟨r, by rw [hstep]; exact hr, ?_⟩
    constructor
    · intro a
      rw [hpost.validators_eq a]
      by_cases ha : a = k
      · subst ha
        simp [hk, unbondState, hva, hv]
      · have hb : (unbondState env s v).validators a = s.validators a := by
          simp [unbondState, hva, ha]
        simp only [hb]
        exact if_congr (by simp [ha]) rfl rfl
    · intro a
      rw [hpost.bonded_eq a]
      by_cases ha : a = k
      · subst ha
        simp [unbondState, hva]
      · simp [unbondState, hva, ha]
    · intro a
      rw [hpost.updates_eq a]
      by_cases ha : a = k
      · subst ha
        simp [hk, unbondState, hva]
      · have hb : (unbondState env s v).updates a = s.updates a := by
          simp [unbondState, hva, ha]
        simp only [hb]
        exact if_congr (by simp [ha]) rfl rfl
    · exact hpost.powerIndex_eq
    · exact hpost.cliffAddr_eq
    · exact hpost.cliffPower_eq
    · exact hpost.counter_eq

theorem fullScan_some_pre (env : Env) : ∀ (l : List (PowerKey × Addr)) (acc : FullScan) (r : FullScan),
    (l.map Prod.snd).Nodup →
    (∀ e ∈ l, ∀ v, acc.st.validators e.2 = some v → v.OperatorAddr = e.2) →
    (∀ e ∈ l, (e.2 ∈ acc.toKickOut ↔ IsBonded acc.st e.2)) →
    fullScan env l acc = some r →
    ∀ e ∈ l.take (env.maxValidators - acc.count), ∃ v, acc.st.validators e.2 = some v ∧
        v.OperatorAddr = e.2 ∧ v.Jailed = false ∧
        (e.2 ∉ acc.toKickOut → v.Status ≠ BondStatus.Bonded) := by
  intro l
  induction l with
  | nil => intro acc r _ _ _ _ e he; simp at he
  | cons e rest ih =>
    intro acc r hnd hwf hi5 hrun
    rw [fullScan_cons] at hrun
    by_cases hc : acc.count < env.maxValidators
    · obtain ⟨k, hk⟩ : ∃ k, env.maxValidators - acc.count = k + 1 :=
        ⟨env.maxValidators - acc.count - 1, by omega⟩
      have hk' : env.maxValidators - (acc.count + 1) = k := by omega
      rw [hk, List.take_succ_cons]
      simp only [List.map_cons, List.nodup_cons] at hnd
      obtain ⟨hnotin, hnd'⟩ := hnd
      have hne : ∀ e' ∈ rest, e'.2 ≠ e.2 := by
        intro e' he' heq
        exact hnotin (heq ▸ List.mem_map_of_mem Prod.snd he')
      simp only [hc, if_true] at hrun
      cases hv : acc.st.validators e.2 with
      | none => simp [hv] at hrun
      | some v =>
        have hva : v.OperatorAddr = e.2 := hwf e (List.mem_cons_self _ _) v hv
        simp only [hv] at hrun
        by_cases hin : e.2 ∈ acc.toKickOut
        · simp only [hin, if_true] at hrun
          have hb : v.Status = BondStatus.Bonded := by
            obtain ⟨v', h1, h2⟩ := (hi5 e (List.mem_cons_self _ _)).1 hin
            rw [hv] at h1; cases h1; exact h2
          cases hj : v.Jailed with
          | true => simp [hj, hb] at hrun
          | false =>
            have hrun' : fullScan env rest
                { st := acc.st, toKickOut := acc.toKickOut.filter (fun a => decide (a ≠ e.2)),
                  validator := v, count := acc.count + 1 } = some r := by
              simpa [hj] using hrun
            have hrest := ih
              (⟨acc.st, acc.toKickOut.filter (fun a => decide (a ≠ e.2)), v, acc.count + 1⟩ :
                FullScan) r hnd'
              (fun e' he' => hwf e' (List.mem_cons_of_mem _ he'))
              (by
                intro e' he'
                have := hi5 e' (List.mem_cons_of_mem _ he')
                simp only [List.mem_filter]
                rw [← this]
                simp [hne e' he']) hrun'
            simp only [hk'] at hrest
            intro e' he'
            rcases List.mem_cons.1 he' with rfl | he'
            · exact ⟨v, hv, hva, hj, fun h => absurd hin h⟩
            · obtain ⟨v', h1, h2, h3, h4⟩ := hrest e' he'
              refine ⟨v', h1, h2, h3, ?_⟩
              intro hnin
              apply h4
              intro hmem
              exact hnin (List.mem_of_mem_filter hmem)
        · simp only [hin, if_false] at hrun
          by_cases hb : v.Status = BondStatus.Bonded
          · simp [hb] at hrun
          · simp only [hb, if_false] at hrun
            cases hj : v.Jailed with
            | true => simp [hj] at hrun
            | false =>
              have hrun' : fullScan env rest
                  { st := bondState env acc.st v, toKickOut := acc.toKickOut,
                    validator := bondedRecord env v, count := acc.count + 1 } = some r := by
                simpa [hj] using hrun
              have hrest := ih
                (⟨bondState env acc.st v, acc.toKickOut, bondedRecord env v, acc.count + 1⟩ :
                  FullScan) r hnd'
                (by
                  intro e' he' v' hv'
                  have : (bondState env acc.st v).validators e'.2 = acc.st.validators e'.2 := by
                    simp [bondState, hva, hne e' he']
                  rw [this] at hv'
                  exact hwf e' (List.mem_cons_of_mem _ he') v' hv')
                (by
                  intro e' he'
                  have h1 := hi5 e' (List.mem_cons_of_mem _ he')
                  have : (bondState env acc.st v).validators e'.2 = acc.st.validators e'.2 := by
                    simp [bondState, hva, hne e' he']
                  simp only [IsBonded, this]
                  exact h1) hrun'
              simp only [hk'] at hrest
              intro e' he'
              rcases List.mem_cons.1 he' with rfl | he'
              · exact ⟨v, hv, hva, hj, fun _ => hb⟩
              · obtain ⟨v', h1, h2, h3, h4⟩ := hrest e' he'
                have : (bondState env acc.st v).validators e'.2 = acc.st.validators e'.2 := by
                  simp [bondState, hva, hne e' (List.mem_of_mem_take he')]
                rw [this] at h1
                exact ⟨v', h1, h2, h3, h4⟩
    · have h0 : env.maxValidators - acc.count = 0 := by omega
      intro e' he'
      simp [h0] at he'


theorem cliffAdjust_validators (env : Env) (r : FullScan) (old : Option Addr) :
    (if r.count = env.maxValidators then setCliffValidator r.st r.validator
      else if addrNonEmpty old = true then clearCliffValidator r.st else r.st).validators
      = r.st.validators := by
  split_ifs <;> rfl

theorem cliffAdjust_bondedIndex (env : Env) (r : FullScan) (old : Option Addr) :
    (if r.count = env.maxValidators then setCliffValidator r.st r.validator
      else if addrNonEmpty old = true then clearCliffValidator r.st else r.st).bondedIndex
      = r.st.bondedIndex := by
  split_ifs <;> rfl

theorem cliffAdjust_updates (env : Env) (r : FullScan) (old : Option Addr) :
    (if r.count = env.maxValidators then setCliffValidator r.st r.validator
      else if addrNonEmpty old = true then clearCliffValidator r.st else r.st).updates
      = r.st.updates := by
  split_ifs <;> rfl

theorem cliffAdjust_powerIndex (env : Env) (r : FullScan) (old : Option Addr) :
    (if r.count = env.maxValidators then setCliffValidator r.st r.validator
      else if addrNonEmpty old = true then clearCliffValidator r.st else r.st).powerIndex
      = r.st.powerIndex := by
  split_ifs <;> rfl

theorem cliffAdjust_counter (env : Env) (r : FullScan) (old : Option Addr) :
    (if r.count = env.maxValidators then setCliffValidator r.st r.validator
      else if addrNonEmpty old = true then clearCliffValidator r.st else r.st).intraTxCounter
      = r.st.intraTxCounter := by
  split_ifs <;> rfl

theorem Full_unfold (env : Env) (s : State) :
    XXXREFERENCEUpdateBondedValidatorsFull env s =
      match fullScan env s.powerIndex
          { st := s, toKickOut := s.bondedIndex.dedup, validator := Validator.zero, count := 0 } with
      | none => none
      | some r =>
        kickOutValidators env
          (if r.count = env.maxValidators then setCliffValidator r.st r.validator
           else if addrNonEmpty s.cliffAddr = true then clearCliffValidator r.st else r.st)
          r.toKickOut := rfl

/-- The full recomputation, when the first `MaxValidators` entries of the
power index are not jailed, completes with the effect `FullPost`. -/
theorem Full_spec (env : Env) (s : State) (hwf : TableWF s)
    (hnd : (s.powerIndex.map Prod.snd).Nodup) (hi5 : BondedIndexConsistent s)
    (hrec : ∀ e ∈ s.powerIndex.take env.maxValidators,
      ∃ v, s.validators e.2 = some v ∧ v.Jailed = false) :
    ∃ r, XXXREFERENCEUpdateBondedValidatorsFull env s = some r ∧ FullPost env s r := by
  have hpre : ∀ e ∈ s.powerIndex.take (env.maxValidators - 0), ∃ v, s.validators e.2 = some v ∧
        v.OperatorAddr = e.2 ∧ v.Jailed = false ∧
        (e.2 ∉ s.bondedIndex.dedup → v.Status ≠ BondStatus.Bonded) := by
    intro e he
    obtain ⟨v, hv, hj⟩ := hrec e (by simpa using he)
    refine ⟨v, hv, hwf _ _ hv, hj, ?_⟩
    intro hnin hb
    exact hnin (List.mem_dedup.2 ((hi5 e.2).2 ⟨v, hv, hb⟩))
  obtain ⟨r0, hr0, hp⟩ := fullScan_spec env s.powerIndex
    { st := s, toKickOut := s.bondedIndex.dedup, validator := Validator.zero, count := 0 } hnd hpre
  simp only [Nat.sub_zero] at hp
  have hmemd : ∀ a, a ∈ s.bondedIndex.dedup ↔ a ∈ s.bondedIndex := fun a => List.mem_dedup
  have htko : ∀ a, a ∈ r0.toKickOut ↔ a ∈ s.bondedIndex ∧ a ∉ topAddrs env s := by
    intro a
    rw [hp.tko_eq]
    simp [List.mem_filter, topAddrs]
  obtain ⟨r, hr, hk⟩ := kickOutValidators_spec env r0.toKickOut
    (if r0.count = env.maxValidators then setCliffValidator r0.st r0.validator
     else if addrNonEmpty s.cliffAddr = true then clearCliffValidator r0.st else r0.st)
    (by rw [hp.tko_eq]; exact (List.nodup_dedup _).filter _)
    (by
      intro a ha
      obtain ⟨hab, hat⟩ := (htko a).1 ha
      obtain ⟨v, hv, hb⟩ := (hi5 a).1 hab
      refine ⟨v, ?_, hwf _ _ hv, hb⟩
      rw [cliffAdjust_validators, hp.validators_eq a]
      have : ¬ (a ∈ (s.powerIndex.take env.maxValidators).map Prod.snd ∧
          a ∉ s.bondedIndex.dedup) := fun h => hat h.1
      simp only [this, if_false, hv])
  refine ⟨r, by rw [Full_unfold, hr0]; exact hr, ?_⟩
  have hval : ∀ a, r.validators a =
      if a ∈ topAddrs env s then
        (if a ∈ s.bondedIndex then s.validators a
         else (s.validators a).map (bondedRecord env))
      else if a ∈ s.bondedIndex then (s.validators a).map (unbondingRecord env)
      else s.validators a := by
    intro a
    rw [hk.validators_eq a, cliffAdjust_validators, hp.validators_eq a]
    simp only [htko a, hmemd a, topAddrs]
    by_cases h1 : a ∈ (s.powerIndex.take env.maxValidators).map Prod.snd <;>
      by_cases h2 : a ∈ s.bondedIndex <;> simp [h1, h2]
  constructor
  · exact hval
  · intro a
    rw [hk.bonded_eq a, cliffAdjust_bondedIndex, hp.bonded_eq a]
    simp only [htko a, hmemd a, topAddrs]
    tauto
  · intro a
    rw [hk.updates_eq a, cliffAdjust_updates, hp.updates_eq a]
    simp only [htko a, hmemd a, topAddrs]
    by_cases h1 : a ∈ (s.powerIndex.take env.maxValidators).map Prod.snd <;>
      by_cases h2 : a ∈ s.bondedIndex <;> simp [h1, h2]
  · rw [hk.powerIndex_eq, cliffAdjust_powerIndex, hp.powerIndex_eq]
  · rw [hk.counter_eq, cliffAdjust_counter, hp.counter_eq]
  · intro hlen
    have hcount : r0.count = env.maxValidators := by
      rw [hp.count_eq]; simpa [topAddrs] using hlen
    have hlast : r0.validator = lastScanned env s r := by
      rw [hp.validator_eq, lastScanned]
      cases hl : (s.powerIndex.take env.maxValidators).getLast? with
      | none => rfl
      | some e =>
        simp only []
        have he : e ∈ s.powerIndex.take env.maxValidators := List.mem_of_getLast?_eq_some hl
        have hin : e.2 ∈ topAddrs env s := List.mem_map_of_mem Prod.snd he
        rw [hk.validators_eq e.2, cliffAdjust_validators]
        have : e.2 ∉ r0.toKickOut := fun h => ((htko e.2).1 h).2 hin
        simp [this]
    rw [hk.cliffAddr_eq, hk.cliffPower_eq, ← hlast]
    simp [hcount, setCliffValidator]
  · intro hlen hne
    have hcount : r0.count ≠ env.maxValidators := by
      rw [hp.count_eq]; simpa [topAddrs] using hlen
    rw [hk.cliffAddr_eq, hk.cliffPower_eq]
    simp [hcount, hne, clearCliffValidator]
  · intro hlen hne
    have hcount : r0.count ≠ env.maxValidators := by
      rw [hp.count_eq]; simpa [topAddrs] using hlen
    rw [hk.cliffAddr_eq, hk.cliffPower_eq]
    simp [hcount, hne, hp.cliffAddr_eq, hp.cliffPower_eq]

theorem tableOf_some {l : List Validator} {a : Addr} {v : Validator}
    (h : tableOf l a = some v) : v ∈ l ∧ v.OperatorAddr = a := by
  unfold tableOf at h
  exact ⟨List.mem_of_find?_eq_some h, by simpa using List.find?_some h⟩

theorem tableWF_mkState (l : List Validator) (idx : List (PowerKey × Addr)) (b : List Addr)
    (ca : Option Addr) (cp : Option PowerKey) : TableWF (mkState l idx b ca cp) := by
  intro a v h
  exact (tableOf_some h).2

theorem bondedIndexConsistent_mkState (l : List Validator) (idx : List (PowerKey × Addr))
    (b : List Addr) (ca : Option Addr) (cp : Option PowerKey)
    (h1 : ∀ a ∈ b, (tableOf l a).map (fun v => v.Status) = some BondStatus.Bonded)
    (h2 : ∀ v ∈ l, v.Status = BondStatus.Bonded → v.OperatorAddr ∈ b) :
    BondedIndexConsistent (mkState l idx b ca cp) := by
  intro a
  constructor
  · intro ha
    have := h1 a ha
    cases hv : tableOf l a with
    | none => simp [hv] at this
    | some v => exact ⟨v, hv, by simpa [hv] using this⟩
  · rintro ⟨v, hv, hb⟩
    obtain ⟨hm, ha⟩ := tableOf_some hv
    exact ha ▸ h2 v hm hb

theorem powerIndexConsistent_mkState (l : List Validator) (idx : List (PowerKey × Addr))
    (b : List Addr) (ca : Option Addr) (cp : Option PowerKey)
    (h0 : (idx.map Prod.snd).Nodup)
    (h1 : ∀ e ∈ idx, (tableOf l e.2).map GetValidatorsByPowerIndexKey = some e.1)
    (h2 : ∀ v ∈ l, (GetValidatorsByPowerIndexKey v, v.OperatorAddr) ∈ idx) :
    PowerIndexConsistent (mkState l idx b ca cp) := by
  refine ⟨h0, ?_, ?_⟩
  · intro e he
    have := h1 e he
    cases hv : tableOf l e.2 with
    | none => simp [hv] at this
    | some v => exact ⟨v, hv, by simpa [hv] using this.symm⟩
  · intro a v hv
    obtain ⟨hm, ha⟩ := tableOf_some hv
    exact ha ▸ h2 v hm

theorem isBonded_iff_of_fullPost {env : Env} {s r : State} (hi4 : PowerIndexConsistent s)
    (hi5 : BondedIndexConsistent s) (hp : FullPost env s r) (a : Addr) :
    IsBonded r a ↔ a ∈ topAddrs env s := by
  unfold IsBonded
  rw [hp.validators_eq a]
  by_cases h1 : a ∈ topAddrs env s
  · simp only [h1, if_true, iff_true]
    by_cases h2 : a ∈ s.bondedIndex
    · simpa [h2] using (hi5 a).1 h2
    · simp only [h2, if_false]
      obtain ⟨e, he, hea⟩ := List.mem_map.1 h1
      obtain ⟨v, hv, _⟩ := hi4.2.1 e (List.mem_of_mem_take he)
      rw [hea] at hv
      exact ⟨bondedRecord env v, by simp [hv], rfl⟩
  · simp only [h1, if_false, iff_false]
    by_cases h2 : a ∈ s.bondedIndex
    · simp only [h2, if_true]
      rintro ⟨v, hv, hb⟩
      cases hs : s.validators a with
      | none => simp [hs] at hv
      | some v0 =>
        simp [hs] at hv
        rw [← hv] at hb
        simp [unbondingRecord] at hb
    · simp only [h2, if_false]
      exact fun h => h2 ((hi5 a).2 h)

/-- C1: from a state with consistent indexes (I4, I5) whose first
`min(MaxValidators, n)` power-index entries are not jailed, the full
reconciliation completes; afterwards the Bonded validators are exactly those
entries, every validator Bonded before and not among them is Unbonding with a
zero-power update, every validator among them that was not Bonded is Bonded
with its full power in the update buffer, and a validator Bonded before and
after gets no update-buffer write. -/
theorem reconcileAll_computes_top_set (env : Env) (s : State)
    (hwf : TableWF s) (hi4 : PowerIndexConsistent s) (hi5 : BondedIndexConsistent s)
    (hnj : ∀ e ∈ s.powerIndex.take env.maxValidators,
      ∀ v, s.validators e.2 = some v → v.Jailed = false) :
    ∃ r, XXXREFERENCEUpdateBondedValidatorsFull env s = some r ∧
      (∀ a, IsBonded r a ↔ a ∈ topAddrs env s) ∧
      (∀ a, IsBonded s a → a ∉ topAddrs env s →
        (∃ v, r.validators a = some v ∧ v.Status = BondStatus.Unbonding) ∧
        r.updates a = some 0) ∧
      (∀ a v, a ∈ topAddrs env s → s.validators a = some v → v.Status ≠ BondStatus.Bonded →
        (∃ w, r.validators a = some w ∧ w.Status = BondStatus.Bonded) ∧
        r.updates a = some v.Power) ∧
      (∀ a, IsBonded s a → a ∈ topAddrs env s → r.updates a = s.updates a) := by
  have hrec : ∀ e ∈ s.powerIndex.take env.maxValidators,
      ∃ v, s.validators e.2 = some v ∧ v.Jailed = false := by
    intro e he
    obtain ⟨v, hv, _⟩ := hi4.2.1 e (List.mem_of_mem_take he)
    exact ⟨v, hv, hnj e he v hv⟩
  obtain ⟨r, hr, hp⟩ := Full_spec env s hwf hi4.1 hi5 hrec
  refine ⟨r, hr, isBonded_iff_of_fullPost hi4 hi5 hp, ?_, ?_, ?_⟩
  · intro a hb hnt
    have hin : a ∈ s.bondedIndex := (hi5 a).2 hb
    obtain ⟨v, hv, _⟩ := hb
    constructor
    · refine ⟨unbondingRecord env v, ?_, rfl⟩
      rw [hp.validators_eq a]; simp [hnt, hin, hv]
    · rw [hp.updates_eq a]; simp [hnt, hin]
  · intro a v hat hv hnb
    have hin : a ∉ s.bondedIndex := fun h => by
      obtain ⟨w, hw, hwb⟩ := (hi5 a).1 h
      rw [hv] at hw; cases hw; exact hnb hwb
    constructor
    · refine ⟨bondedRecord env v, ?_, rfl⟩
      rw [hp.validators_eq a]; simp [hat, hin, hv]
    · rw [hp.updates_eq a]; simp [hat, hin, hv]
  · intro a hb hat
    have hin : a ∈ s.bondedIndex := (hi5 a).2 hb
    rw [hp.updates_eq a]; simp [hat, hin]

theorem stateMixed_tableWF : TableWF stateMixed := tableWF_mkState _ _ _ _ _

theorem stateMixed_i4 : PowerIndexConsistent stateMixed :=
  powerIndexConsistent_mkState _ _ _ _ _ (by decide) (by decide) (by decide)

theorem stateMixed_i5 : BondedIndexConsistent stateMixed :=
  bondedIndexConsistent_mkState _ _ _ _ _ (by decide) (by decide)

theorem reconcileAll_computes_top_set_witness :
    ∃ r, XXXREFERENCEUpdateBondedValidatorsFull (envAt 2) stateMixed = some r ∧
      (∀ a, IsBonded r a ↔ a ∈ topAddrs (envAt 2) stateMixed) ∧
      (∀ a, IsBonded stateMixed a → a ∉ topAddrs (envAt 2) stateMixed →
        (∃ v, r.validators a = some v ∧ v.Status = BondStatus.Unbonding) ∧
        r.updates a = some 0) ∧
      (∀ a v, a ∈ topAddrs (envAt 2) stateMixed → stateMixed.validators a = some v →
        v.Status ≠ BondStatus.Bonded →
        (∃ w, r.validators a = some w ∧ w.Status = BondStatus.Bonded) ∧
        r.updates a = some v.Power) ∧
      (∀ a, IsBonded stateMixed a → a ∈ topAddrs (envAt 2) stateMixed →
        r.updates a = stateMixed.updates a) :=
  reconcileAll_computes_top_set (envAt 2) stateMixed stateMixed_tableWF stateMixed_i4
    stateMixed_i5 (by
      intro e _ v hv
      have hall : ∀ w ∈ [mkValidator 1 10 BondStatus.Bonded false,
          mkValidator 2 8 BondStatus.Unbonded false, mkValidator 3 5 BondStatus.Bonded false],
          w.Jailed = false := by decide
      exact hall v (tableOf_some hv).1)

theorem take_filter_of_forall {α : Type} (p : α → Bool) : ∀ (l : List α) (n : Nat),
    (∀ x ∈ l.take n, p x = true) → (l.filter p).take n = l.take n := by
  intro l
  induction l with
  | nil => intro n _; simp
  | cons x xs ih =>
    intro n h
    cases n with
    | zero => simp
    | succ n =>
      have hx : p x = true := h x (by simp)
      have := ih n (fun y hy => h y (by simp [hy]))
      simp [List.filter_cons, hx, this]

/-- The scan of the single-validator update over a prefix of Bonded,
non-jailed validators other than the affected one only counts them. -/
theorem bondedScan_prefix (env : Env) (s : State) (aff : Validator) :
    ∀ (l : List (PowerKey × Addr)) (acc : BondedScan) (k : Nat),
    acc.count + k = env.maxValidators → k ≤ l.length →
    (∀ e ∈ l.take k, e.2 ≠ aff.OperatorAddr ∧ ∃ v, s.validators e.2 = some v ∧
        v.Jailed = false ∧ v.Status = BondStatus.Bonded) →
    bondedScan env s aff l acc = some
      { validator := (match (l.take k).getLast? with
                      | none => acc.validator
                      | some e => (s.validators e.2).getD Validator.zero),
        validatorToBond := acc.validatorToBond,
        newValidatorBonded := acc.newValidatorBonded,
        count := env.maxValidators } := by
  intro l
  induction l with
  | nil =>
    intro acc k hk hle _
    have : k = 0 := by simpa using hle
    subst this
    simp only [Nat.add_zero] at hk
    rw [← hk]
    rfl
  | cons e rest ih =>
    intro acc k hk hle h
    cases k with
    | zero =>
      simp only [Nat.add_zero] at hk
      have hc : ¬ acc.count < env.maxValidators := by omega
      rw [bondedScan]
      simp only [List.take_zero, List.getLast?_nil, ← hk, lt_self_iff_false, if_false]
    | succ k =>
      have hc : acc.count < env.maxValidators := by omega
      obtain ⟨hne, v, hv, hj, hb⟩ := h e (by simp)
      rw [bondedScan]
      simp only [hc, if_true, hne, if_false, mustGetValidator, hv, hj, hb]
      simp only [ne_eq, not_true_eq_false, if_false, Bool.false_eq_true]
      rw [ih _ k (by simp; omega) (by simpa using hle) (fun e' he' => h e' (by simp [he']))]
      simp only [List.take_succ_cons, List.getLast?_cons]
      cases hl : (rest.take k).getLast? with
      | none => simp [hv]
      | some e' => simp


theorem last_not_in_init {α β : Type} (f : α → β) (T : List α) (eN : α)
    (hnd : (T.map f).Nodup) (hl : T.getLast? = some eN) :
    ∀ e ∈ T.take (T.length - 1), f e ≠ f eN := by
  intro e he heq
  have h1 := List.dropLast_append_getLast? eN hl
  rw [← List.dropLast_eq_take] at he
  rw [← h1, List.map_append, List.nodup_append] at hnd
  exact hnd.2.2 (List.mem_map_of_mem f he) (by simp [heq])

theorem ranksBelow_of_power_lt (a b : PowerKey) (h1 : a.NotJailed = b.NotJailed)
    (h2 : a.Power < b.Power) : a.ranksBelow b = true := by
  have : a.Power ≠ b.Power := by omega
  simp [PowerKey.ranksBelow, h1, this, h2]

theorem not_ranksBelow_of_power_gt (a b : PowerKey) (h1 : a.NotJailed = b.NotJailed)
    (h2 : b.Power < a.Power) : a.ranksBelow b = false := by
  have : a.Power ≠ b.Power := by omega
  have h3 : ¬ a.Power < b.Power := by omega
  simp [PowerKey.ranksBelow, h1, this, h3]

/-- The single-validator update of the bonded group when the affected
validator heads the power index and the next `MaxValidators` entries are the
bonded set: the old cliff validator is demoted and the affected one bonded. -/
theorem updateBonded_admit_head (env : Env) (s3 : State) (aff : Validator) (k1 : PowerKey)
    (idx1 : List (PowerKey × Addr)) (eN : PowerKey × Addr) (vN : Validator)
    (hidx : s3.powerIndex = (k1, aff.OperatorAddr) :: idx1)
    (hj : aff.Jailed = false) (hst : aff.Status ≠ BondStatus.Bonded)
    (hpos : 0 < env.maxValidators) (hlen : env.maxValidators ≤ idx1.length)
    (htop : ∀ e ∈ idx1.take env.maxValidators, e.2 ≠ aff.OperatorAddr ∧
      ∃ v, s3.validators e.2 = some v ∧ v.Jailed = false ∧ v.Status = BondStatus.Bonded ∧
        v.OperatorAddr = e.2)
    (hnd : ((idx1.take env.maxValidators).map Prod.snd).Nodup)
    (hlast : (idx1.take env.maxValidators).getLast? = some eN)
    (hcliff : s3.cliffAddr = some eN.2) (hvN : s3.validators eN.2 = some vN) :
    XXXREFERENCEUpdateBondedValidators env s3 aff =
      some ((bondedRecord env aff, true),
        bondState env (unbondState env (setCliffValidator s3
          (match (idx1.take (env.maxValidators - 1)).getLast? with
           | none => aff
           | some e => (s3.validators e.2).getD Validator.zero)) vN) aff) := by
  have hlenT : (idx1.take env.maxValidators).length = env.maxValidators := by
    simp [List.length_take, hlen]
  have hsub : ∀ e ∈ idx1.take (env.maxValidators - 1), e ∈ idx1.take env.maxValidators := by
    intro e he
    have : idx1.take (env.maxValidators - 1) =
        (idx1.take env.maxValidators).take (env.maxValidators - 1) := by
      rw [List.take_take]; congr 1; omega
    rw [this] at he
    exact List.mem_of_mem_take he
  have hscan := bondedScan_prefix env s3 aff idx1
    { validator := aff, validatorToBond := aff, newValidatorBonded := true, count := 1 }
    (env.maxValidators - 1) (by simp; omega) (by omega)
    (fun e he => by
      obtain ⟨h1, v, h2, h3, h4, _⟩ := htop e (hsub e he)
      exact ⟨h1, v, h2, h3, h4⟩)
  have hfirst : bondedScan env s3 aff s3.powerIndex
      { validator := Validator.zero, validatorToBond := Validator.zero,
        newValidatorBonded := false, count := 0 } =
      bondedScan env s3 aff idx1
        { validator := aff, validatorToBond := aff, newValidatorBonded := true, count := 1 } := by
    rw [hidx, bondedScan]
    simp [hpos, hj, hst]
  have heN : eN ∈ idx1.take env.maxValidators := List.mem_of_getLast?_eq_some hlast
  have hrv : (match (idx1.take (env.maxValidators - 1)).getLast? with
      | none => aff
      | some e => (s3.validators e.2).getD Validator.zero).OperatorAddr ≠ eN.2 := by
    cases hl : (idx1.take (env.maxValidators - 1)).getLast? with
    | none => exact fun h => (htop eN heN).1 h.symm
    | some e =>
      have he : e ∈ idx1.take (env.maxValidators - 1) := List.mem_of_getLast?_eq_some hl
      obtain ⟨_, v, h2, _, _, h5⟩ := htop e (hsub e he)
      simp only [h2, Option.getD_some, h5]
      have he' : e ∈ (idx1.take env.maxValidators).take
          ((idx1.take env.maxValidators).length - 1) := by
        rw [hlenT, List.take_take]
        have : min (env.maxValidators - 1) env.maxValidators = env.maxValidators - 1 := by omega
        rw [this]; exact he
      exact last_not_in_init Prod.snd _ eN hnd hlast e he'
  obtain ⟨_, w, hw, _, hwb, _⟩ := htop eN heN
  have hvNb : vN.Status = BondStatus.Bonded := by
    rw [hvN] at hw; cases hw; exact hwb
  unfold XXXREFERENCEUpdateBondedValidators
  simp only [hfirst, hscan, hcliff]
  have hne : ¬ (addrBytesEqual (some eN.2)
      (match (idx1.take (env.maxValidators - 1)).getLast? with
      | none => aff
      | some e => (s3.validators e.2).getD Validator.zero).OperatorAddr = true) := by
    simp only [addrBytesEqual, Option.getD_some, decide_eq_true_eq]
    exact fun h => hrv h.symm
  simp only [hne, and_false, if_false, if_true, mustGetValidator, setCliffValidator, hvN,
    beginUnbondingValidator_eq, hvNb, bondValidator_eq, hst]
  simp [bondedRecord]

theorem consistentFull_top_entry {env : Env} {s : State} (hc : ConsistentFull env s)
    {e : PowerKey × Addr} (he : e ∈ s.powerIndex.take env.maxValidators) :
    ∃ v, s.validators e.2 = some v ∧ v.Jailed = false ∧ v.Status = BondStatus.Bonded ∧
      v.OperatorAddr = e.2 ∧ e.1 = GetValidatorsByPowerIndexKey v := by
  obtain ⟨v, hv, hk⟩ := hc.i4.2.1 e (List.mem_of_mem_take he)
  obtain ⟨w, hw, hwb⟩ := (hc.top e.2).2 (List.mem_map_of_mem Prod.snd he)
  rw [hv] at hw; cases hw
  refine ⟨v, hv, ?_, hwb, hc.wf _ _ hv, hk⟩
  cases hj : v.Jailed with
  | false => rfl
  | true => exact absurd hwb (hc.i1 _ _ hv hj)

/-- Re-keying a validator that is not Bonded leaves the first `MaxValidators`
entries of the power index of a consistent, full state in place. -/
theorem rekey_take (env : Env) (s : State) (hc : ConsistentFull env s) (A : Validator)
    (hnb : ¬ IsBonded s A.OperatorAddr) (k1 : PowerKey) (hk1 : k1.Owner = A.OperatorAddr) :
    (powerIndexDelete k1
      (if (s.validators A.OperatorAddr).isSome = true then
        powerIndexDelete (GetValidatorsByPowerIndexKey
          ((s.validators A.OperatorAddr).getD Validator.zero)) s.powerIndex
       else s.powerIndex)).take env.maxValidators = s.powerIndex.take env.maxValidators := by
  have hkey : ∀ e ∈ s.powerIndex.take env.maxValidators, e.1.Owner ≠ A.OperatorAddr := by
    intro e he
    obtain ⟨v, hv, _, hb, ha, hk⟩ := consistentFull_top_entry hc he
    rw [hk]
    simp only [GetValidatorsByPowerIndexKey, ha]
    intro heq
    exact hnb (heq ▸ ⟨v, hv, hb⟩)
  have h1 : (if (s.validators A.OperatorAddr).isSome = true then
        powerIndexDelete (GetValidatorsByPowerIndexKey
          ((s.validators A.OperatorAddr).getD Validator.zero)) s.powerIndex
       else s.powerIndex).take env.maxValidators = s.powerIndex.take env.maxValidators := by
    cases hold : s.validators A.OperatorAddr with
    | none => simp
    | some old =>
      simp only [Option.isSome_some, if_true, Option.getD_some, powerIndexDelete]
      apply take_filter_of_forall
      intro e he
      have := hkey e he
      simp only [decide_eq_true_eq]
      intro heq
      apply this
      rw [heq]
      simp [GetValidatorsByPowerIndexKey, hc.wf _ _ hold]
  rw [powerIndexDelete, take_filter_of_forall, h1]
  intro e he
  rw [h1] at he
  have := hkey e he
  simp only [decide_eq_true_eq]
  intro heq
  exact this (heq ▸ hk1)


theorem updateForJailing_not_jailed (env : Env) (s : State) (oldFound : Bool)
    (old A : Validator) (hj : A.Jailed = false) :
    updateForJailing env s oldFound old A = some (A, s) := by
  unfold updateForJailing
  simp [hj]

/-- The single-validator update for a validator that is not jailed and not
Bonded in the store, up to the switch. -/
theorem update_unfold_notBonded (env : Env) (s : State) (A : Validator)
    (hj : A.Jailed = false) (hnb : ¬ IsBonded s A.OperatorAddr) :
    REFERENCEXXXDELETEUpdateValidator env s A =
      match updateValidatorSwitch env
          { s with
            intraTxCounter := int16Succ s.intraTxCounter,
            powerIndex := powerIndexSet
              (GetValidatorsByPowerIndexKey
                { A with BondHeight := env.blockHeight, BondIntraTxCounter := s.intraTxCounter })
              A.OperatorAddr
              (if (s.validators A.OperatorAddr).isSome = true then
                powerIndexDelete (GetValidatorsByPowerIndexKey
                  ((s.validators A.OperatorAddr).getD Validator.zero)) s.powerIndex
               else s.powerIndex) }
          (s.validators A.OperatorAddr).isSome
          ((s.validators A.OperatorAddr).getD Validator.zero)
          { A with BondHeight := env.blockHeight, BondIntraTxCounter := s.intraTxCounter }
          (getPowerIncreasing (s.validators A.OperatorAddr).isSome
            ((s.validators A.OperatorAddr).getD Validator.zero) A)
          (GetValidatorsByPowerIndexKey
            { A with BondHeight := env.blockHeight, BondIntraTxCounter := s.intraTxCounter }) with
      | none => none
      | some r => some (r.1, SetValidator r.2 r.1) := by
  have hold : ¬ ((s.validators A.OperatorAddr).isSome = true ∧
      ((s.validators A.OperatorAddr).getD Validator.zero).Status = BondStatus.Bonded) := by
    rintro ⟨h1, h2⟩
    cases hv : s.validators A.OperatorAddr with
    | none => simp [hv] at h1
    | some v => exact hnb ⟨v, hv, by simpa [hv] using h2⟩
  unfold REFERENCEXXXDELETEUpdateValidator
  simp only [GetValidator, updateForJailing_not_jailed env s _ _ A hj, bondIncrement, hold,
    if_false, updateValidatorPower] <;> rfl

/-- The switch of the single-validator update takes the default branch when
the stored validator is not Bonded and the new key does not rank below the
cliff power. -/
theorem switch_default (env : Env) (s : State) (oldFound : Bool) (old v : Validator)
    (pi : Bool) (valPower : PowerKey)
    (hold : ¬ (oldFound = true ∧ old.Status = BondStatus.Bonded))
    (hlt : ∀ cp, s.cliffPower = some cp → valPower.ranksBelow cp = false) :
    updateValidatorSwitch env s oldFound old v pi valPower =
      match XXXREFERENCEUpdateBondedValidators env s v with
      | none => none
      | some r =>
        if r.1.2 = true then some (r.1.1, r.2)
        else if oldFound = true ∧ v.BondedTokens < old.BondedTokens then
          some (v, setUpdate r.2 v.OperatorAddr v.ABCIValidator)
        else some (v, r.2) := by
  unfold updateValidatorSwitch
  cases hcp : s.cliffPower with
  | none => simp [hold] <;> rfl
  | some cp =>
    have := hlt cp hcp
    simp [hold, this] <;> rfl

/-- The general part of monotonic admission. -/
theorem admission_above_all_bonded (env : Env) (s : State) (A : Validator)
    (hc : ConsistentFull env s) (hj : A.Jailed = false) (hst : A.Status ≠ BondStatus.Bonded)
    (hnb : ¬ IsBonded s A.OperatorAddr)
    (hpow : ∀ a v, s.validators a = some v → v.Status = BondStatus.Bonded → v.Power < A.Power) :
    ∃ r c vc, REFERENCEXXXDELETEUpdateValidator env s A = some r ∧
      s.cliffAddr = some c ∧ s.validators c = some vc ∧ vc.Status = BondStatus.Bonded ∧
      c ≠ A.OperatorAddr ∧
      r.1.Status = BondStatus.Bonded ∧ r.2.validators A.OperatorAddr = some r.1 ∧
      r.2.validators c = some (unbondingRecord env vc) ∧
      (∀ a, a ≠ A.OperatorAddr → a ≠ c → r.2.validators a = s.validators a) ∧
      (∀ a, a ∈ r.2.bondedIndex ↔ (a = A.OperatorAddr ∨ (a ∈ s.bondedIndex ∧ a ≠ c))) := by
  obtain ⟨eN, hlast, hca, hcp⟩ := hc.cliff
  have heN : eN ∈ s.powerIndex.take env.maxValidators := List.mem_of_getLast?_eq_some hlast
  obtain ⟨vN, hvN, hvNj, hvNb, hvNa, hkN⟩ := consistentFull_top_entry hc heN
  have hcne : eN.2 ≠ A.OperatorAddr := fun h => hnb (h ▸ ⟨vN, hvN, hvNb⟩)
  have htake := rekey_take env s hc A hnb
    (GetValidatorsByPowerIndexKey
      { A with BondHeight := env.blockHeight, BondIntraTxCounter := s.intraTxCounter }) rfl
  generalize hidx1 : powerIndexDelete
      (GetValidatorsByPowerIndexKey
        { A with BondHeight := env.blockHeight, BondIntraTxCounter := s.intraTxCounter })
      (if (s.validators A.OperatorAddr).isSome = true then
        powerIndexDelete (GetValidatorsByPowerIndexKey
          ((s.validators A.OperatorAddr).getD Validator.zero)) s.powerIndex
       else s.powerIndex) = idx1 at htake
  have hlenT : (s.powerIndex.take env.maxValidators).length = env.maxValidators := by
    simpa [topAddrs] using hc.full
  have hlen1 : env.maxValidators ≤ idx1.length := by
    have := congrArg List.length htake
    rw [hlenT, List.length_take] at this
    omega
  -- the head of the re-keyed index ranks below the new key
  have hins : powerIndexInsert
      (GetValidatorsByPowerIndexKey
        { A with BondHeight := env.blockHeight, BondIntraTxCounter := s.intraTxCounter },
        A.OperatorAddr) idx1 =
      (GetValidatorsByPowerIndexKey
        { A with BondHeight := env.blockHeight, BondIntraTxCounter := s.intraTxCounter },
        A.OperatorAddr) :: idx1 := by
    cases hi : idx1 with
    | nil => rfl
    | cons e1 tl =>
      have he1 : e1 ∈ s.powerIndex.take env.maxValidators := by
        rw [← htake, hi]
        have := hc.pos
        obtain ⟨n, hn⟩ : ∃ n, env.maxValidators = n + 1 := ⟨env.maxValidators - 1, by omega⟩
        rw [hn]; simp
      obtain ⟨v1, hv1, hv1j, hv1b, _, hk1⟩ := consistentFull_top_entry hc he1
      have hr : e1.1.ranksBelow (GetValidatorsByPowerIndexKey
          { A with BondHeight := env.blockHeight, BondIntraTxCounter := s.intraTxCounter })
          = true := by
        apply ranksBelow_of_power_lt
        · rw [hk1]; simp [GetValidatorsByPowerIndexKey, hv1j, hj]
        · rw [hk1]; exact hpow _ _ hv1 hv1b
      simp [powerIndexInsert, hr]
  have hold : ¬ ((s.validators A.OperatorAddr).isSome = true ∧
      ((s.validators A.OperatorAddr).getD Validator.zero).Status = BondStatus.Bonded) := by
    rintro ⟨h1, h2⟩
    cases hv : s.validators A.OperatorAddr with
    | none => simp [hv] at h1
    | some v => exact hnb ⟨v, hv, by simpa [hv] using h2⟩
  have hadm := updateBonded_admit_head env
    { s with
      intraTxCounter := int16Succ s.intraTxCounter,
      powerIndex := (GetValidatorsByPowerIndexKey
        { A with BondHeight := env.blockHeight, BondIntraTxCounter := s.intraTxCounter },
        A.OperatorAddr) :: idx1 }
    { A with BondHeight := env.blockHeight, BondIntraTxCounter := s.intraTxCounter }
    _ idx1 eN vN rfl hj hst hc.pos hlen1
    (by
      intro e he
      rw [htake] at he
      obtain ⟨v, hv, hvj, hvb, hva, _⟩ := consistentFull_top_entry hc he
      exact ⟨fun h => hnb (h ▸ ⟨v, hv, hvb⟩), v, hv, hvj, hvb, hva⟩)
    (by
      rw [htake]
      have h := hc.i4.1
      rw [← List.take_append_drop env.maxValidators s.powerIndex, List.map_append] at h
      exact (List.nodup_append.1 h).1)
    (by rw [htake]; exact hlast) hca hvN
  rw [update_unfold_notBonded env s A hj hnb]
  rw [switch_default _ _ _ _ _ _ _ hold (by
    intro cp hcp'
    simp only [hcp] at hcp'
    cases hcp'
    apply not_ranksBelow_of_power_gt
    · rw [hkN]; simp [GetValidatorsByPowerIndexKey, hvNj, hj]
    · rw [hkN]; exact hpow _ _ hvN hvNb)]
  simp only [powerIndexSet, hidx1, hins, hadm]
  refine ⟨_, eN.2, vN, rfl, hca, hvN, hvNb, hcne, rfl, ?_, ?_, ?_, ?_⟩
  · simp [SetValidator, bondedRecord]
  · simp [SetValidator, bondState, unbondState, hcne, hvNa, bondedRecord]
  · intro a ha hac
    simp [SetValidator, bondState, unbondState, ha, hac, hvNa, setCliffValidator, bondedRecord]
  · intro a
    simp [SetValidator, bondState, unbondState, hvNa, setCliffValidator]

theorem jailExclusion_mkState (l : List Validator) (idx : List (PowerKey × Addr))
    (b : List Addr) (ca : Option Addr) (cp : Option PowerKey)
    (h : ∀ v ∈ l, v.Jailed = true → v.Status ≠ BondStatus.Bonded) :
    JailExclusion (mkState l idx b ca cp) := by
  intro a v hv
  exact h v (tableOf_some hv).1

theorem stateXY_i5 : BondedIndexConsistent stateXY :=
  bondedIndexConsistent_mkState _ _ _ _ _ (by decide) (by decide)

theorem stateXY_consistentFull : ConsistentFull (envAt 2) stateXY where
  wf := tableWF_mkState _ _ _ _ _
  i1 := jailExclusion_mkState _ _ _ _ _ (by decide)
  i4 := powerIndexConsistent_mkState _ _ _ _ _ (by decide) (by decide) (by decide)
  i5 := stateXY_i5
  pos := by decide
  full := by decide
  top := fun a => (stateXY_i5 a).symm
  cliff := ⟨_, rfl, rfl, rfl⟩

/-- C2 (P5, monotonic admission): in a consistent state with a full bonded
set, one `REFERENCEXXXDELETEUpdateValidator` call on a non-jailed validator
that is not Bonded (or new) and whose power strictly exceeds every Bonded
validator's power completes, leaves it Bonded, demotes the old cliff validator
to Unbonding and changes no other validator's record; and in the scenario
`MaxValidators = 2`, X:10 and Y:8 bonded with cliff Y, the call on Z:9 gives the
bonded set X, Z, the cliff Z, and Y Unbonding with `unbondingMinTime` set. -/
theorem monotonic_admission :
    (∀ (env : Env) (s : State) (A : Validator), ConsistentFull env s →
      A.Jailed = false → A.Status ≠ BondStatus.Bonded → ¬ IsBonded s A.OperatorAddr →
      (∀ a v, s.validators a = some v → v.Status = BondStatus.Bonded → v.Power < A.Power) →
      ∃ r c vc, REFERENCEXXXDELETEUpdateValidator env s A = some r ∧
        s.cliffAddr = some c ∧ s.validators c = some vc ∧ vc.Status = BondStatus.Bonded ∧
        c ≠ A.OperatorAddr ∧
        r.1.Status = BondStatus.Bonded ∧ r.2.validators A.OperatorAddr = some r.1 ∧
        r.2.validators c = some (unbondingRecord env vc) ∧
        (∀ a, a ≠ A.OperatorAddr → a ≠ c → r.2.validators a = s.validators a) ∧
        (∀ a, a ∈ r.2.bondedIndex ↔ (a = A.OperatorAddr ∨ (a ∈ s.bondedIndex ∧ a ≠ c)))) ∧
    (REFERENCEXXXDELETEUpdateValidator (envAt 2) stateXY
        (mkValidator 3 9 BondStatus.Unbonded false)).map
      (fun r => (r.1.Status, r.2.bondedIndex, r.2.cliffAddr, r.2.validators 1,
        r.2.validators 2, r.2.validators 3)) =
      some (BondStatus.Bonded, [3, 1], some 3,
        some (mkValidator 1 10 BondStatus.Bonded false),
        some { OperatorAddr := 2, Power := 8, Status := BondStatus.Unbonding, Jailed := false,
               BondHeight := 0, BondIntraTxCounter := 0, UnbondingMinTime := 1050,
               UnbondingHeight := 5 },
        some { OperatorAddr := 3, Power := 9, Status := BondStatus.Bonded, Jailed := false,
               BondHeight := 5, BondIntraTxCounter := 0, UnbondingMinTime := 0,
               UnbondingHeight := 0 }) :=
  ⟨admission_above_all_bonded, rfl⟩

theorem monotonic_admission_witness :
    ∃ r c vc, REFERENCEXXXDELETEUpdateValidator (envAt 2) stateXY
        (mkValidator 3 11 BondStatus.Unbonded false) = some r ∧
      stateXY.cliffAddr = some c ∧ stateXY.validators c = some vc ∧
      vc.Status = BondStatus.Bonded ∧ c ≠ 3 ∧
      r.1.Status = BondStatus.Bonded ∧ r.2.validators 3 = some r.1 ∧
      r.2.validators c = some (unbondingRecord (envAt 2) vc) ∧
      (∀ a, a ≠ 3 → a ≠ c → r.2.validators a = stateXY.validators a) ∧
      (∀ a, a ∈ r.2.bondedIndex ↔ (a = 3 ∨ (a ∈ stateXY.bondedIndex ∧ a ≠ c))) :=
  monotonic_admission.1 (envAt 2) stateXY (mkValidator 3 11 BondStatus.Unbonded false)
    stateXY_consistentFull rfl (by decide)
    (by rintro ⟨v, hv, _⟩; cases hv)
    (by
      intro a v hv hb
      have hall : ∀ w ∈ [mkValidator 1 10 BondStatus.Bonded false,
          mkValidator 2 8 BondStatus.Bonded false], w.Power < 11 := by decide
      exact hall v (tableOf_some hv).1)

/-- The validator the scan of the single-validator update marks for bonding
is not Bonded and not jailed; it is the affected validator or a stored record
of another identity. -/
theorem bondedScan_toBond (env : Env) (s : State) (aff : Validator) :
    ∀ (l : List (PowerKey × Addr)) (acc r : BondedScan),
    bondedScan env s aff l acc = some r →
    (acc.newValidatorBonded = true → acc.validatorToBond.Status ≠ BondStatus.Bonded ∧
      acc.validatorToBond.Jailed = false ∧
      (acc.validatorToBond = aff ∨
        ∃ a, a ≠ aff.OperatorAddr ∧ s.validators a = some acc.validatorToBond)) →
    (r.newValidatorBonded = true → r.validatorToBond.Status ≠ BondStatus.Bonded ∧
      r.validatorToBond.Jailed = false ∧
      (r.validatorToBond = aff ∨
        ∃ a, a ≠ aff.OperatorAddr ∧ s.validators a = some r.validatorToBond)) := by
  intro l
  induction l with
  | nil =>
    intro acc r h hacc
    simp only [bondedScan, Option.some.injEq] at h
    subst h
    exact hacc
  | cons e rest ih =>
    intro acc r h hacc
    rw [bondedScan] at h
    by_cases hc : acc.count < env.maxValidators
    · simp only [hc, if_true] at h
      cases hv : (if e.2 = aff.OperatorAddr then some aff else mustGetValidator s e.2) with
      | none => simp [hv] at h
      | some v =>
        simp only [hv] at h
        have hprov : v = aff ∨ ∃ a, a ≠ aff.OperatorAddr ∧ s.validators a = some v := by
          by_cases hea : e.2 = aff.OperatorAddr
          · simp only [hea, if_true, Option.some.injEq] at hv
            exact Or.inl hv.symm
          · simp only [hea, if_false, mustGetValidator] at hv
            exact Or.inr ⟨e.2, hea, hv⟩
        cases hj : v.Jailed with
        | true =>
          simp only [hj, if_true] at h
          by_cases hb : v.Status = BondStatus.Bonded
          · simp [hb] at h
          · simp only [hb, if_false, Option.some.injEq] at h
            subst h
            exact hacc
        | false =>
          simp only [hj, Bool.false_eq_true, if_false] at h
          by_cases hb : v.Status = BondStatus.Bonded
          · simp only [hb, ne_eq, not_true_eq_false, if_false] at h
            exact ih _ r h hacc
          · simp only [hb, ne_eq, not_false_eq_true, if_true] at h
            cases hn : acc.newValidatorBonded with
            | true => simp [hn] at h
            | false =>
              simp only [hn, Bool.false_eq_true, if_false] at h
              exact ih _ r h (fun _ => ⟨hb, hj, hprov⟩)
    · simp only [hc, if_false, Option.some.injEq] at h
      subst h
      exact hacc


theorem bondedRecord_addr (env : Env) (v : Validator) :
    (bondedRecord env v).OperatorAddr = v.OperatorAddr := rfl

theorem unbondingRecord_addr (env : Env) (v : Validator) :
    (unbondingRecord env v).OperatorAddr = v.OperatorAddr := rfl

theorem cliffOnly_refl (s : State) : CliffOnly s s := ⟨s.cliffAddr, s.cliffPower, rfl⟩

/-- The outcomes of the single-validator update of the bonded group: the
Cliff Tracker is adjusted, and either nothing else happens, or one validator
that is neither Bonded nor jailed is bonded, after the old cliff validator or
the affected validator was demoted when the Cliff Tracker was defined. -/
theorem updateBonded_cases (env : Env) (s : State) (aff : Validator)
    (res : (Validator × Bool) × State)
    (h : XXXREFERENCEUpdateBondedValidators env s aff = some res) :
    ∃ sc, CliffOnly s sc ∧
      (res = ((Validator.zero, false), sc) ∨
       ∃ tb, tb.Status ≠ BondStatus.Bonded ∧ tb.Jailed = false ∧
         (tb = aff ∨ ∃ a, a ≠ aff.OperatorAddr ∧ s.validators a = some tb) ∧
         ((s.cliffAddr = none ∧
            res = ((if tb.OperatorAddr = aff.OperatorAddr then bondedRecord env tb else aff, true),
              bondState env sc tb)) ∨
          (∃ c vc, s.cliffAddr = some c ∧ s.validators c = some vc ∧
            vc.Status = BondStatus.Bonded ∧ tb.OperatorAddr = aff.OperatorAddr ∧
            res = ((bondedRecord env tb, true), bondState env (unbondState env sc vc) tb)) ∨
          (∃ c, s.cliffAddr = some c ∧ tb.OperatorAddr ≠ aff.OperatorAddr ∧
            aff.Status = BondStatus.Bonded ∧
            res = ((unbondingRecord env aff, true),
              bondState env (unbondState env sc aff) tb)))) := by
  unfold XXXREFERENCEUpdateBondedValidators at h
  cases hscan : bondedScan env s aff s.powerIndex
      { validator := Validator.zero, validatorToBond := Validator.zero,
        newValidatorBonded := false, count := 0 } with
  | none => simp [hscan] at h
  | some r =>
    simp only [hscan] at h
    have htb := bondedScan_toBond env s aff _ _ r hscan (by simp)
    by_cases hp : r.newValidatorBonded = true ∧
        addrBytesEqual s.cliffAddr r.validator.OperatorAddr = true
    · rw [if_pos hp] at h; cases h
    rw [if_neg hp] at h
    generalize hsc : (if r.count = env.maxValidators then setCliffValidator s r.validator
        else if addrNonEmpty s.cliffAddr = true then clearCliffValidator s else s) = sc at h
    have hco : CliffOnly s sc := by
      rw [← hsc]
      split_ifs
      · exact ⟨_, _, rfl⟩
      · exact ⟨_, _, rfl⟩
      · exact cliffOnly_refl s
    have hscv : sc.validators = s.validators := by
      obtain ⟨ca, cp, rfl⟩ := hco; rfl
    refine ⟨sc, hco, ?_⟩
    cases hn : r.newValidatorBonded with
    | false =>
      simp only [hn, Bool.false_eq_true, if_false, Option.some.injEq] at h
      exact Or.inl h.symm
    | true =>
      obtain ⟨htb1, htb2, htb3⟩ := htb hn
      refine Or.inr ⟨r.validatorToBond, htb1, htb2, htb3, ?_⟩
      simp only [hn, if_true] at h
      cases hca : s.cliffAddr with
      | none =>
        simp only [hca, bondValidator_eq, htb1, if_false] at h
        left
        refine ⟨rfl, ?_⟩
        by_cases hadd : r.validatorToBond.OperatorAddr = aff.OperatorAddr
        · simp only [bondedRecord_addr, hadd, if_true, Option.some.injEq] at h
          simp only [hadd, if_true]
          exact h.symm
        · simp only [bondedRecord_addr, hadd, if_false, Option.some.injEq] at h
          simp only [hadd, if_false]
          exact h.symm
      | some c =>
        simp only [hca, mustGetValidator] at h
        cases hvc : sc.validators c with
        | none => simp [hvc] at h
        | some vc =>
          simp only [hvc] at h
          by_cases hadd : r.validatorToBond.OperatorAddr = aff.OperatorAddr
          · simp only [hadd, if_true, beginUnbondingValidator_eq] at h
            by_cases hvb : vc.Status = BondStatus.Bonded
            · simp only [hvb, if_true, bondValidator_eq, htb1, if_false, bondedRecord_addr, hadd,
                Option.some.injEq] at h
              right; left
              exact ⟨c, vc, rfl, by rw [← hscv]; exact hvc, hvb, hadd, h.symm⟩
            · simp [hvb] at h
          · simp only [hadd, if_false, beginUnbondingValidator_eq] at h
            by_cases hab : aff.Status = BondStatus.Bonded
            · simp only [hab, if_true, bondValidator_eq, htb1, if_false, bondedRecord_addr,
                unbondingRecord_addr, hadd, Option.some.injEq] at h
              right; right
              exact ⟨c, rfl, hadd, hab, h.symm⟩
            · simp [hab] at h

/-- The outcomes of the switch of the single-validator update: either the
validator table and the bonded index are untouched and the validator is
returned as given, or the bonded group was updated. -/
theorem switch_cases (env : Env) (s : State) (oldFound : Bool) (old v : Validator)
    (pi : Bool) (valPower : PowerKey) (r : Validator × State)
    (h : updateValidatorSwitch env s oldFound old v pi valPower = some r) :
    (r.1 = v ∧ r.2.validators = s.validators ∧ r.2.bondedIndex = s.bondedIndex) ∨
    (∃ res, XXXREFERENCEUpdateBondedValidators env s v = some res ∧ res.1.2 = true ∧
      r = (res.1.1, res.2)) := by
  unfold updateValidatorSwitch at h
  simp only [] at h
  split at h
  · left
    split at h
    · cases hu : updateCliffValidator (setUpdate s v.OperatorAddr v.ABCIValidator) v with
      | none => simp [hu] at h
      | some s2 =>
        simp only [hu, Option.some.injEq] at h
        subst h
        simp only [updateCliffValidator] at hu
        split at hu
        · cases hu
        · simp only [Option.some.injEq] at hu
          subst hu
          exact ⟨rfl, rfl, rfl⟩
    · simp only [Option.some.injEq] at h
      subst h
      exact ⟨rfl, rfl, rfl⟩
  · split at h
    · left
      simp only [Option.some.injEq] at h
      subst h
      exact ⟨rfl, rfl, rfl⟩
    · split at h
      · left
        simp only [Option.some.injEq] at h
        subst h
        exact ⟨rfl, rfl, rfl⟩
      · cases hu : XXXREFERENCEUpdateBondedValidators env s v with
        | none => simp [hu] at h
        | some res =>
          simp only [hu] at h
          obtain ⟨sc, hco, hres⟩ := updateBonded_cases env s v res hu
          by_cases hup : res.1.2 = true
          · right
            simp only [hup, if_true, Option.some.injEq] at h
            exact ⟨res, rfl, hup, h.symm⟩
          · left
            have hsc : res.2 = sc := by
              rcases hres with hres | ⟨tb, _, _, _, hres⟩
              · rw [hres]
              · rcases hres with ⟨_, hres⟩ | ⟨_, _, _, _, _, _, hres⟩ | ⟨_, _, _, _, hres⟩ <;>
                  (rw [hres] at hup; simp at hup)
            obtain ⟨ca, cp, hsc'⟩ := hco
            rw [if_neg hup] at h
            split_ifs at h
            · simp only [Option.some.injEq] at h
              subst h
              rw [hsc, hsc']
              exact ⟨rfl, rfl, rfl⟩
            · simp only [Option.some.injEq] at h
              subst h
              rw [hsc, hsc']
              exact ⟨rfl, rfl, rfl⟩



theorem isBonded_iff_old (s : State) (a : Addr) :
    ((s.validators a).isSome = true ∧
      ((s.validators a).getD Validator.zero).Status = BondStatus.Bonded) ↔ IsBonded s a := by
  unfold IsBonded
  cases hv : s.validators a with
  | none => simp
  | some v => simp

/-- The outcomes of the single-validator update.  First the validator starts
unbonding when it is reported jailed while Bonded; then it is re-keyed; then
either its record is persisted as given, over an unchanged validator table and
bonded index, or the bonded group is updated and the returned record is
persisted. -/
theorem update_cases (env : Env) (s : State) (A : Validator) (r : Validator × State)
    (h : REFERENCEXXXDELETEUpdateValidator env s A = some r) :
    ∃ s1 v1,
      ((A.Jailed = true ∧ IsBonded s A.OperatorAddr ∧ A.Status = BondStatus.Bonded ∧
          v1 = unbondingRecord env A ∧ s1 = clearCliffValidator (unbondState env s A)) ∨
       (¬ (A.Jailed = true ∧ IsBonded s A.OperatorAddr) ∧ v1 = A ∧ s1 = s)) ∧
      ∃ s3 v2, (∃ bh bc, v2 = { v1 with BondHeight := bh, BondIntraTxCounter := bc }) ∧
        s3.validators = s1.validators ∧ s3.bondedIndex = s1.bondedIndex ∧
        s3.cliffAddr = s1.cliffAddr ∧ s3.cliffPower = s1.cliffPower ∧
        ((r.1 = v2 ∧ ∃ s4, s4.validators = s3.validators ∧ s4.bondedIndex = s3.bondedIndex ∧
            r.2 = SetValidator s4 v2) ∨
         (∃ res, XXXREFERENCEUpdateBondedValidators env s3 v2 = some res ∧ res.1.2 = true ∧
            r = (res.1.1, SetValidator res.2 res.1.1))) := by
  unfold REFERENCEXXXDELETEUpdateValidator at h
  simp only [GetValidator] at h
  cases hj : updateForJailing env s (s.validators A.OperatorAddr).isSome
      ((s.validators A.OperatorAddr).getD Validator.zero) A with
  | none => simp [hj] at h
  | some j =>
    simp only [hj] at h
    have hjcase : (A.Jailed = true ∧ IsBonded s A.OperatorAddr ∧ A.Status = BondStatus.Bonded ∧
          j.1 = unbondingRecord env A ∧ j.2 = clearCliffValidator (unbondState env s A)) ∨
       (¬ (A.Jailed = true ∧ IsBonded s A.OperatorAddr) ∧ j.1 = A ∧ j.2 = s) := by
      unfold updateForJailing at hj
      by_cases hc : A.Jailed = true ∧ (s.validators A.OperatorAddr).isSome = true ∧
          ((s.validators A.OperatorAddr).getD Validator.zero).Status = BondStatus.Bonded
      · rw [if_pos hc, beginUnbondingValidator_eq] at hj
        have hb := (isBonded_iff_old s A.OperatorAddr).1 hc.2
        by_cases hab : A.Status = BondStatus.Bonded
        · simp only [hab, if_true, Option.some.injEq] at hj
          subst hj
          exact Or.inl ⟨hc.1, hb, hab, rfl, rfl⟩
        · simp [hab] at hj
      · rw [if_neg hc] at hj
        simp only [Option.some.injEq] at hj
        subst hj
        refine Or.inr ⟨?_, rfl, rfl⟩
        rintro ⟨h1, h2⟩
        exact hc ⟨h1, (isBonded_iff_old s A.OperatorAddr).2 h2⟩
    refine ⟨j.2, j.1, hjcase, ?_⟩
    generalize hbi : bondIncrement env j.2 (s.validators A.OperatorAddr).isSome
      ((s.validators A.OperatorAddr).getD Validator.zero) = bi at h
    have hbi2 : bi.2.validators = j.2.validators ∧ bi.2.bondedIndex = j.2.bondedIndex ∧
        bi.2.cliffAddr = j.2.cliffAddr ∧ bi.2.cliffPower = j.2.cliffPower := by
      rw [← hbi]
      unfold bondIncrement
      split_ifs <;> exact ⟨rfl, rfl, rfl, rfl⟩
    generalize hup : updateValidatorPower bi.2 (s.validators A.OperatorAddr).isSome
      ((s.validators A.OperatorAddr).getD Validator.zero)
      { j.1 with BondHeight := bi.1.1, BondIntraTxCounter := bi.1.2 } = up at h
    have hup2 : up.2.validators = bi.2.validators ∧ up.2.bondedIndex = bi.2.bondedIndex ∧
        up.2.cliffAddr = bi.2.cliffAddr ∧ up.2.cliffPower = bi.2.cliffPower := by
      rw [← hup]
      exact ⟨rfl, rfl, rfl, rfl⟩
    refine ⟨up.2, { j.1 with BondHeight := bi.1.1, BondIntraTxCounter := bi.1.2 },
      ⟨_, _, rfl⟩, hup2.1.trans hbi2.1, hup2.2.1.trans hbi2.2.1,
      hup2.2.2.1.trans hbi2.2.2.1, hup2.2.2.2.trans hbi2.2.2.2, ?_⟩
    cases hsw : updateValidatorSwitch env up.2 (s.validators A.OperatorAddr).isSome
        ((s.validators A.OperatorAddr).getD Validator.zero)
        { j.1 with BondHeight := bi.1.1, BondIntraTxCounter := bi.1.2 }
        (getPowerIncreasing (s.validators A.OperatorAddr).isSome
          ((s.validators A.OperatorAddr).getD Validator.zero) j.1) up.1 with
    | none => simp [hsw] at h
    | some w =>
      simp only [hsw, Option.some.injEq] at h
      subst h
      rcases switch_cases env _ _ _ _ _ _ w hsw with ⟨h1, h2, h3⟩ | ⟨res, h1, h2, h3⟩
      · left
        exact ⟨h1, w.2, h2, h3, by rw [h1]⟩
      · right
        exact ⟨res, h1, h2, by rw [h3]⟩

/-- Every completed full recomputation from a state with a table keyed by
operator address, distinct power-index identities and I5 went through the
first `MaxValidators` entries, none of them jailed, and has the effect
`FullPost`. -/
theorem Full_post_of_some (env : Env) (s r : State) (hwf : TableWF s)
    (hnd : (s.powerIndex.map Prod.snd).Nodup) (hi5 : BondedIndexConsistent s)
    (h : XXXREFERENCEUpdateBondedValidatorsFull env s = some r) :
    (∀ e ∈ s.powerIndex.take env.maxValidators,
      ∃ v, s.validators e.2 = some v ∧ v.Jailed = false) ∧ FullPost env s r := by
  have hscan : ∃ r0, fullScan env s.powerIndex
      { st := s, toKickOut := s.bondedIndex.dedup, validator := Validator.zero, count := 0 }
      = some r0 := by
    rw [Full_unfold] at h
    cases hs : fullScan env s.powerIndex
      { st := s, toKickOut := s.bondedIndex.dedup, validator := Validator.zero, count := 0 } with
    | none => simp [hs] at h
    | some r0 => exact ⟨r0, rfl⟩
  obtain ⟨r0, hr0⟩ := hscan
  have hpre := fullScan_some_pre env s.powerIndex _ r0 hnd
    (fun e _ v hv => hwf _ _ hv)
    (fun e _ => by
      show e.2 ∈ s.bondedIndex.dedup ↔ IsBonded s e.2
      rw [List.mem_dedup]; exact hi5 e.2) hr0
  have hrec : ∀ e ∈ s.powerIndex.take env.maxValidators,
      ∃ v, s.validators e.2 = some v ∧ v.Jailed = false := by
    intro e he
    obtain ⟨v, hv, _, hj, _⟩ := hpre e (by simpa using he)
    exact ⟨v, hv, hj⟩
  obtain ⟨r', hr', hp⟩ := Full_spec env s hwf hnd hi5 hrec
  rw [h] at hr'
  cases hr'
  exact ⟨hrec, hp⟩

theorem length_le_of_nodup_subset {l m : List Addr} (hl : l.Nodup) (h : ∀ a ∈ l, a ∈ m) :
    l.length ≤ m.length :=
  (List.subperm_of_subset hl h).length_le

/-- Part (a) of the bound: after a completed full recomputation from a state
with consistent indexes at most `MaxValidators` validators are Bonded. -/
theorem full_bondedAtMost (env : Env) (s r : State) (hwf : TableWF s)
    (hi4 : PowerIndexConsistent s) (hi5 : BondedIndexConsistent s)
    (h : XXXREFERENCEUpdateBondedValidatorsFull env s = some r) :
    BondedAtMost r env.maxValidators := by
  obtain ⟨_, hp⟩ := Full_post_of_some env s r hwf hi4.1 hi5 h
  intro l hl hb
  have hsub : ∀ a ∈ l, a ∈ topAddrs env s :=
    fun a ha => (isBonded_iff_of_fullPost hi4 hi5 hp a).1 (hb a ha)
  have h1 := length_le_of_nodup_subset hl hsub
  have h2 : (topAddrs env s).length ≤ env.maxValidators := by
    simp [topAddrs, List.length_take]
  omega

theorem isBonded_bondState (env : Env) (s : State) (v : Validator) (a : Addr) :
    IsBonded (bondState env s v) a ↔ a = v.OperatorAddr ∨ IsBonded s a := by
  unfold IsBonded bondState
  by_cases h : a = v.OperatorAddr
  · simp [h, bondedRecord]
  · simp [h]

theorem isBonded_unbondState (env : Env) (s : State) (v : Validator) (a : Addr) :
    IsBonded (unbondState env s v) a ↔ a ≠ v.OperatorAddr ∧ IsBonded s a := by
  unfold IsBonded unbondState
  by_cases h : a = v.OperatorAddr
  · simp [h, unbondingRecord]
  · simp [h]

theorem isBonded_setValidator (s : State) (v : Validator) (a : Addr) :
    IsBonded (SetValidator s v) a ↔
      (a = v.OperatorAddr ∧ v.Status = BondStatus.Bonded) ∨ (a ≠ v.OperatorAddr ∧ IsBonded s a) := by
  unfold IsBonded SetValidator
  by_cases h : a = v.OperatorAddr
  · simp [h]
  · simp [h]

theorem isBonded_congr {s t : State} (h : t.validators = s.validators) (a : Addr) :
    IsBonded t a ↔ IsBonded s a := by
  unfold IsBonded; rw [h]

theorem isBonded_cliffOnly {s t : State} (h : CliffOnly s t) (a : Addr) :
    IsBonded t a ↔ IsBonded s a := by
  obtain ⟨ca, cp, rfl⟩ := h; rfl

theorem statusMatches_iff {s : State} {A : Validator} (h : StatusMatches s A) :
    A.Status = BondStatus.Bonded ↔ IsBonded s A.OperatorAddr := by
  constructor
  · intro hb
    cases hv : s.validators A.OperatorAddr with
    | none => exact absurd hb (h.2 hv)
    | some old => exact ⟨old, hv, by rw [← h.1 old hv]; exact hb⟩
  · rintro ⟨old, hv, hb⟩
    rw [h.1 old hv]; exact hb

theorem bondedAtMost_mono {s t : State} {n : Nat}
    (hsub : ∀ x, IsBonded t x → IsBonded s x) (h : BondedAtMost s n) : BondedAtMost t n :=
  fun l hl hb => h l hl (fun a ha => hsub a (hb a ha))

theorem bondedAtMost_swap {s t : State} {n : Nat} {c a : Addr} (hc : IsBonded s c)
    (hsub : ∀ x, IsBonded t x → x = a ∨ (x ≠ c ∧ IsBonded s x)) (h : BondedAtMost s n) :
    BondedAtMost t n := by
  intro l hl hb
  have hmem : ∀ x ∈ l.erase a, x ≠ c ∧ IsBonded s x := by
    intro x hx
    have hx' := (List.Nodup.mem_erase_iff hl).1 hx
    rcases hsub x (hb x hx'.2) with h1 | h1
    · exact absurd h1 hx'.1
    · exact h1
  have hnd : (c :: l.erase a).Nodup :=
    List.nodup_cons.2 ⟨fun hx => (hmem c hx).1 rfl, hl.erase a⟩
  have h1 := h (c :: l.erase a) hnd (by
    intro x hx
    rcases List.mem_cons.1 hx with rfl | hx
    · exact hc
    · exact (hmem x hx).2)
  have h2 : l.length ≤ (l.erase a).length + 1 := by
    by_cases ha : a ∈ l
    · rw [List.length_erase_of_mem ha]; omega
    · rw [List.erase_of_not_mem ha]; omega
  simp only [List.length_cons] at h1
  omega

theorem bondedAtMost_add {s t : State} {n : Nat} {a : Addr}
    (hsub : ∀ x, IsBonded t x → x = a ∨ IsBonded s x) (h : BondedAtMost s n) :
    BondedAtMost t (n + 1) := by
  intro l hl hb
  have hmem : ∀ x ∈ l.erase a, IsBonded s x := by
    intro x hx
    have hx' := (List.Nodup.mem_erase_iff hl).1 hx
    rcases hsub x (hb x hx'.2) with h1 | h1
    · exact absurd h1 hx'.1
    · exact h1
  have h1 := h (l.erase a) (hl.erase a) hmem
  have h2 : l.length ≤ (l.erase a).length + 1 := by
    by_cases ha : a ∈ l
    · rw [List.length_erase_of_mem ha]; omega
    · rw [List.erase_of_not_mem ha]; omega
  omega

theorem bondedAtMost_remove {s t : State} {n : Nat} {c : Addr} (hc : IsBonded s c)
    (hsub : ∀ x, IsBonded t x → x ≠ c ∧ IsBonded s x) (h : BondedAtMost s n) :
    0 < n ∧ BondedAtMost t (n - 1) := by
  have h0 : 0 < n := by
    have := h [c] (by simp) (by simpa using hc)
    simpa using this
  refine ⟨h0, ?_⟩
  intro l hl hb
  have hnd : (c :: l).Nodup :=
    List.nodup_cons.2 ⟨fun hx => (hsub c (hb c hx)).1 rfl, hl⟩
  have h1 := h (c :: l) hnd (by
    intro x hx
    rcases List.mem_cons.1 hx with rfl | hx
    · exact hc
    · exact (hsub x (hb x hx)).2)
  simp only [List.length_cons] at h1
  omega

/-- Part (b) of the bound: a completed single-validator update on an input
record whose status equals the stored status keeps at most `MaxValidators`
validators Bonded. -/
theorem update_bondedAtMost (env : Env) (s : State) (A : Validator) (r : Validator × State)
    (hwf : TableWF s) (hi2 : BondedAtMost s env.maxValidators) (hi3 : CliffTracksFull env s)
    (hst : StatusMatches s A)
    (h : REFERENCEXXXDELETEUpdateValidator env s A = some r) :
    BondedAtMost r.2 env.maxValidators := by
  obtain ⟨s1, v1, hjail, s3, v2, ⟨bh, bc, hv2⟩, hval, _, hcliff, _, hout⟩ :=
    update_cases env s A r h
  have hmatch := statusMatches_iff hst
  -- facts after the jailing step
  have hF : BondedAtMost s1 env.maxValidators ∧
      (s1.cliffAddr = none → 0 < env.maxValidators ∧ BondedAtMost s1 (env.maxValidators - 1)) ∧
      (v1.Status = BondStatus.Bonded → IsBonded s1 A.OperatorAddr) ∧
      v1.OperatorAddr = A.OperatorAddr ∧ TableWF s1 := by
    rcases hjail with ⟨_, hb, _, hv1, hs1⟩ | ⟨_, hv1, hs1⟩
    · have hsub : ∀ x, IsBonded s1 x → x ≠ A.OperatorAddr ∧ IsBonded s x := by
        intro x hx
        rw [hs1] at hx
        exact (isBonded_unbondState env s A x).1 hx
      have hrem := bondedAtMost_remove hb hsub hi2
      refine ⟨bondedAtMost_mono (fun x hx => (hsub x hx).2) hi2, fun _ => hrem, ?_, ?_, ?_⟩
      · rw [hv1]; intro hc; simp [unbondingRecord] at hc
      · rw [hv1]; rfl
      · rw [hs1]
        intro a v hv
        simp only [clearCliffValidator, unbondState] at hv
        by_cases ha : a = A.OperatorAddr
        · simp only [ha, if_true, Option.some.injEq] at hv
          rw [← hv, ha]; rfl
        · simp only [ha, if_false] at hv
          exact hwf a v hv
    · subst hv1; subst hs1
      exact ⟨hi2, fun hc => hi3.1 hc, hmatch.1, rfl, hwf⟩
  obtain ⟨hF1, hF2, hF3, hF4, hF5⟩ := hF
  have hv2s : v2.Status = v1.Status := by rw [hv2]
  have hv2a : v2.OperatorAddr = A.OperatorAddr := by rw [hv2]; exact hF4
  have hb3 : ∀ x, IsBonded s3 x ↔ IsBonded s1 x := isBonded_congr hval
  rcases hout with ⟨_, s4, h4v, _, hr⟩ | ⟨res, hres, hupd, hr⟩
  · -- the record is persisted as given
    rw [hr]
    apply bondedAtMost_mono _ hF1
    intro x hx
    rcases (isBonded_setValidator s4 v2 x).1 hx with ⟨hxa, hxb⟩ | ⟨_, hxb⟩
    · rw [hxa, hv2a]; exact hF3 (hv2s ▸ hxb)
    · exact (hb3 x).1 ((isBonded_congr h4v x).1 hxb)
  · obtain ⟨sc, hco, hshape⟩ := updateBonded_cases env s3 v2 res hres
    have hbc : ∀ x, IsBonded sc x ↔ IsBonded s1 x :=
      fun x => (isBonded_cliffOnly hco x).trans (hb3 x)
    rcases hshape with hz | ⟨tb, _, _, _, hshape⟩
    · rw [hz] at hupd; simp at hupd
    · rcases hshape with ⟨hnone, hres'⟩ | ⟨c, vc, _, hvc, hvcb, htba, hres'⟩ |
        ⟨c, _, htba, hv2b, hres'⟩
      · -- spare capacity: one validator is bonded
        obtain ⟨hpos, hlt⟩ := hF2 (by rw [← hcliff]; exact hnone)
        have : BondedAtMost r.2 (env.maxValidators - 1 + 1) := by
          apply bondedAtMost_add (a := tb.OperatorAddr) _ hlt
          intro x hx
          rw [hr, hres'] at hx
          simp only at hx
          rcases (isBonded_setValidator _ _ x).1 hx with ⟨hxa, hxb⟩ | ⟨_, hxb⟩
          · by_cases hta : tb.OperatorAddr = v2.OperatorAddr
            · simp only [hta, if_true, bondedRecord_addr] at hxa
              exact Or.inl (hxa.trans hta.symm)
            · simp only [hta, if_false] at hxa hxb
              right
              rw [hxa, hv2a]; exact hF3 (hv2s ▸ hxb)
          · rcases (isBonded_bondState env sc tb x).1 hxb with h1 | h1
            · exact Or.inl h1
            · exact Or.inr ((hbc x).1 h1)
        have he : env.maxValidators - 1 + 1 = env.maxValidators := by omega
        rwa [he] at this
      · -- the old cliff validator is swapped for the affected one
        have hvca : vc.OperatorAddr = c := hF5 c vc (by rw [← hval]; exact hvc)
        have hcb : IsBonded s1 c := ⟨vc, by rw [← hval]; exact hvc, hvcb⟩
        apply bondedAtMost_swap (c := c) (a := A.OperatorAddr) hcb _ hF1
        intro x hx
        rw [hr, hres'] at hx
        simp only at hx
        rcases (isBonded_setValidator _ _ x).1 hx with ⟨hxa, _⟩ | ⟨hxa, hxb⟩
        · left; rw [hxa, bondedRecord_addr, htba, hv2a]
        · rcases (isBonded_bondState env _ tb x).1 hxb with h1 | h1
          · left; rw [h1, htba, hv2a]
          · obtain ⟨h2, h3⟩ := (isBonded_unbondState env sc vc x).1 h1
            exact Or.inr ⟨hvca ▸ h2, (hbc x).1 h3⟩
      · -- the affected validator is swapped for another one
        have hab : IsBonded s1 A.OperatorAddr := hF3 (hv2s ▸ hv2b)
        apply bondedAtMost_swap (c := A.OperatorAddr) (a := tb.OperatorAddr) hab _ hF1
        intro x hx
        rw [hr, hres'] at hx
        simp only at hx
        rcases (isBonded_setValidator _ _ x).1 hx with ⟨_, hxb⟩ | ⟨_, hxb⟩
        · simp [unbondingRecord] at hxb
        · rcases (isBonded_bondState env _ tb x).1 hxb with h1 | h1
          · exact Or.inl h1
          · obtain ⟨h2, h3⟩ := (isBonded_unbondState env sc v2 x).1 h1
            exact Or.inr ⟨hv2a ▸ h2, (hbc x).1 h3⟩

theorem bondedAtMost_of_i5 {s : State} {n : Nat} (hi5 : BondedIndexConsistent s)
    (h : s.bondedIndex.length ≤ n) : BondedAtMost s n := by
  intro l hl hb
  have := length_le_of_nodup_subset hl (fun a ha => (hi5 a).2 (hb a ha))
  omega

theorem not_bondedAtMost_of_list {s : State} {n : Nat} (l : List Addr) (hl : l.Nodup)
    (hb : ∀ a ∈ l, IsBonded s a) (h : n < l.length) : ¬ BondedAtMost s n := by
  intro hbm
  have := hbm l hl hb
  omega

theorem stateXZ_i5 : BondedIndexConsistent stateXZ :=
  bondedIndexConsistent_mkState _ _ _ _ _ (by decide) (by decide)

theorem stateXZ_i4 : PowerIndexConsistent stateXZ :=
  powerIndexConsistent_mkState _ _ _ _ _ (by decide) (by decide) (by decide)

theorem stateXY_bondedAtMost : BondedAtMost stateXY 2 :=
  bondedAtMost_of_i5 stateXY_i5 (by decide)

theorem stateXY_cliffTracksFull : CliffTracksFull (envAt 2) stateXY := by
  constructor
  · intro h; cases h
  · rintro ⟨_, h⟩
    exact absurd h (not_bondedAtMost_of_list [1, 2] (by decide)
      (fun a ha => (stateXY_i5 a).1 ha) (by decide))

theorem stateXZ_cliffTracksFull : CliffTracksFull (envAt 1) stateXZ := by
  constructor
  · intro h; cases h
  · rintro ⟨_, h⟩
    exact absurd h (not_bondedAtMost_of_list [1] (by decide)
      (fun a ha => (stateXZ_i5 a).1 ha) (by decide))

/-- C3, as stated, fails in part (b): with `MaxValidators = 1`, X Bonded as
cliff validator and Z stored Unbonded (I2, I3, I4 and I5 hold), a completed
update whose input record for Z carries the status Bonded leaves two
validators Bonded. -/
theorem bonded_bound_counterexample :
    TableWF stateXZ ∧ BondedAtMost stateXZ 1 ∧ CliffTracksFull (envAt 1) stateXZ ∧
    CliffAtTop (envAt 1) stateXZ ∧ PowerIndexConsistent stateXZ ∧
    BondedIndexConsistent stateXZ ∧
    ∃ r, REFERENCEXXXDELETEUpdateValidator (envAt 1) stateXZ
        (mkValidator 2 1 BondStatus.Bonded false) = some r ∧
      ¬ BondedAtMost r.2 (envAt 1).maxValidators := by
  refine ⟨tableWF_mkState _ _ _ _ _, bondedAtMost_of_i5 stateXZ_i5 (by decide),
    stateXZ_cliffTracksFull, ⟨_, rfl, rfl, rfl⟩, stateXZ_i4, stateXZ_i5, ?_⟩
  have hev : (REFERENCEXXXDELETEUpdateValidator (envAt 1) stateXZ
      (mkValidator 2 1 BondStatus.Bonded false)).map
      (fun r => ((r.2.validators 1).map (fun v => v.Status),
        (r.2.validators 2).map (fun v => v.Status))) =
      some (some BondStatus.Bonded, some BondStatus.Bonded) := rfl
  cases hr : REFERENCEXXXDELETEUpdateValidator (envAt 1) stateXZ
      (mkValidator 2 1 BondStatus.Bonded false) with
  | none => rw [hr] at hev; cases hev
  | some r =>
    rw [hr] at hev
    simp only [Option.map_some', Option.some.injEq, Prod.mk.injEq] at hev
    refine ⟨r, rfl, not_bondedAtMost_of_list [1, 2] (by decide) ?_ (by decide)⟩
    intro a ha
    simp only [List.mem_cons, List.mem_singleton, List.not_mem_nil, or_false] at ha
    rcases ha with rfl | rfl
    · cases hv : r.2.validators 1 with
      | none => rw [hv] at hev; simp at hev
      | some v => exact ⟨v, hv, by simpa [hv] using hev.1⟩
    · cases hv : r.2.validators 2 with
      | none => rw [hv] at hev; simp at hev
      | some v => exact ⟨v, hv, by simpa [hv] using hev.2⟩

/-- C3 (P1 / I2), amended: (a) from any state with consistent indexes (I4,
I5), even one holding more than `MaxValidators` Bonded validators, every
completed full reconciliation ends with at most `MaxValidators` Bonded
validators; (b) from any state satisfying I2 and I3, every completed
single-validator update on an input record whose status equals its stored
status (not Bonded for a new validator) ends with at most `MaxValidators`
Bonded validators. -/
theorem bonded_bound :
    (∀ (env : Env) (s r : State), TableWF s → PowerIndexConsistent s →
      BondedIndexConsistent s → XXXREFERENCEUpdateBondedValidatorsFull env s = some r →
      BondedAtMost r env.maxValidators) ∧
    (∀ (env : Env) (s : State) (A : Validator) (r : Validator × State), TableWF s →
      BondedAtMost s env.maxValidators → CliffTracksFull env s → StatusMatches s A →
      REFERENCEXXXDELETEUpdateValidator env s A = some r →
      BondedAtMost r.2 env.maxValidators) :=
  ⟨fun env s r hwf hi4 hi5 h => full_bondedAtMost env s r hwf hi4 hi5 h,
   fun env s A r hwf hi2 hi3 hst h => update_bondedAtMost env s A r hwf hi2 hi3 hst h⟩

theorem bonded_bound_witness :
    (¬ BondedAtMost stateMixed 1 ∧
      ∃ r, XXXREFERENCEUpdateBondedValidatorsFull (envAt 1) stateMixed = some r ∧
        BondedAtMost r 1) ∧
    (∃ r, REFERENCEXXXDELETEUpdateValidator (envAt 2) stateXY
        (mkValidator 3 9 BondStatus.Unbonded false) = some r ∧ BondedAtMost r.2 2) := by
  constructor
  · refine ⟨not_bondedAtMost_of_list [1, 3] (by decide)
      (fun a ha => (stateMixed_i5 a).1 ha) (by decide), ?_⟩
    have hs : (XXXREFERENCEUpdateBondedValidatorsFull (envAt 1) stateMixed).isSome = true := rfl
    obtain ⟨r, hr⟩ := Option.isSome_iff_exists.1 hs
    exact ⟨r, hr, bonded_bound.1 (envAt 1) stateMixed r stateMixed_tableWF stateMixed_i4
      stateMixed_i5 hr⟩
  · have hs : (REFERENCEXXXDELETEUpdateValidator (envAt 2) stateXY
        (mkValidator 3 9 BondStatus.Unbonded false)).isSome = true := rfl
    obtain ⟨r, hr⟩ := Option.isSome_iff_exists.1 hs
    exact ⟨r, hr, bonded_bound.2 (envAt 2) stateXY _ r (tableWF_mkState _ _ _ _ _)
      stateXY_bondedAtMost stateXY_cliffTracksFull
      ⟨fun old h => (by cases h), fun _ => (by decide)⟩ hr⟩

/-- A property of the stores kept by bonding a validator that is neither
Bonded nor jailed is kept by the scan of the full recomputation. -/
theorem fullScan_preserves (env : Env) (P : State → Prop)
    (hbond : ∀ s v, P s → v.Status ≠ BondStatus.Bonded → v.Jailed = false →
      P (bondState env s v)) :
    ∀ (l : List (PowerKey × Addr)) (acc r : FullScan),
      fullScan env l acc = some r → P acc.st → P r.st := by
  intro l
  induction l with
  | nil =>
    intro acc r h hP
    simp only [fullScan, Option.some.injEq] at h
    subst h; exact hP
  | cons e rest ih =>
    intro acc r h hP
    rw [fullScan_cons] at h
    by_cases hc : acc.count < env.maxValidators
    · rw [if_pos hc] at h
      cases hv : acc.st.validators e.2 with
      | none => simp [hv] at h
      | some v =>
        simp only [hv] at h
        by_cases hin : e.2 ∈ acc.toKickOut
        · rw [if_pos hin] at h
          by_cases hj : v.Jailed = true
          · rw [if_pos hj] at h
            by_cases hb : v.Status = BondStatus.Bonded
            · rw [if_pos hb] at h; cases h
            · rw [if_neg hb] at h
              simp only [Option.some.injEq] at h
              subst h; exact hP
          · rw [if_neg hj] at h
            exact ih _ r h hP
        · rw [if_neg hin] at h
          by_cases hb : v.Status = BondStatus.Bonded
          · rw [if_pos hb] at h; cases h
          · rw [if_neg hb] at h
            by_cases hj : v.Jailed = true
            · rw [if_pos hj] at h; cases h
            · rw [if_neg hj] at h
              exact ih _ r h (hbond _ _ hP hb (by simpa using hj))
    · rw [if_neg hc] at h
      simp only [Option.some.injEq] at h
      subst h; exact hP

/-- A property of the stores kept by demoting a Bonded validator is kept by
`kickOutValidators`. -/
theorem kickOutValidators_preserves (env : Env) (P : State → Prop)
    (hunb : ∀ s v, P s → v.Status = BondStatus.Bonded → P (unbondState env s v)) :
    ∀ (tko : List Addr) (s r : State), kickOutValidators env s tko = some r → P s → P r := by
  intro tko
  induction tko with
  | nil =>
    intro s r h hP
    simp only [kickOutValidators, Option.some.injEq] at h
    subst h; exact hP
  | cons k rest ih =>
    intro s r h hP
    rw [kickOutValidators] at h
    cases hv : mustGetValidator s k with
    | none => simp [hv] at h
    | some v =>
      simp only [hv, beginUnbondingValidator_eq] at h
      by_cases hb : v.Status = BondStatus.Bonded
      · simp only [hb, if_true] at h
        exact ih _ r h (hunb _ _ hP hb)
      · simp [hb] at h

/-- A property of the stores kept by the two transitions and insensitive to
the Cliff Tracker is kept by the full recomputation. -/
theorem full_preserves (env : Env) (P : State → Prop)
    (hbond : ∀ s v, P s → v.Status ≠ BondStatus.Bonded → v.Jailed = false →
      P (bondState env s v))
    (hunb : ∀ s v, P s → v.Status = BondStatus.Bonded → P (unbondState env s v))
    (hcliff : ∀ s t, CliffOnly s t → P s → P t)
    (s r : State) (h : XXXREFERENCEUpdateBondedValidatorsFull env s = some r) (hP : P s) :
    P r := by
  rw [Full_unfold] at h
  cases hs : fullScan env s.powerIndex
      { st := s, toKickOut := s.bondedIndex.dedup, validator := Validator.zero, count := 0 } with
  | none => simp [hs] at h
  | some r0 =>
    simp only [hs] at h
    have h0 : P r0.st := fullScan_preserves env P hbond _ _ r0 hs hP
    refine kickOutValidators_preserves env P hunb _ _ r h ?_
    split_ifs
    · exact hcliff _ _ ⟨_, _, rfl⟩ h0
    · exact hcliff _ _ ⟨_, _, rfl⟩ h0
    · exact h0

theorem jailExclusion_bondState (env : Env) (s : State) (v : Validator)
    (h : JailExclusion s) (hj : v.Jailed = false) : JailExclusion (bondState env s v) := by
  intro a w hw hwj
  simp only [bondState] at hw
  by_cases ha : a = v.OperatorAddr
  · simp only [ha, if_true, Option.some.injEq] at hw
    subst hw
    simp [bondedRecord, hj] at hwj
  · simp only [ha, if_false] at hw
    exact h a w hw hwj

theorem jailExclusion_unbondState (env : Env) (s : State) (v : Validator)
    (h : JailExclusion s) : JailExclusion (unbondState env s v) := by
  intro a w hw hwj
  simp only [unbondState] at hw
  by_cases ha : a = v.OperatorAddr
  · simp only [ha, if_true, Option.some.injEq] at hw
    subst hw
    simp [unbondingRecord]
  · simp only [ha, if_false] at hw
    exact h a w hw hwj

theorem jailExclusion_congr {s t : State} (hv : t.validators = s.validators)
    (h : JailExclusion s) : JailExclusion t := by
  intro a w hw hwj
  rw [hv] at hw
  exact h a w hw hwj

theorem jailExclusion_setValidator (s : State) (v : Validator) (h : JailExclusion s)
    (hv : v.Jailed = true → v.Status ≠ BondStatus.Bonded) :
    JailExclusion (SetValidator s v) := by
  intro a w hw hwj
  simp only [SetValidator] at hw
  by_cases ha : a = v.OperatorAddr
  · simp only [ha, if_true, Option.some.injEq] at hw
    subst hw
    exact hv hwj
  · simp only [ha, if_false] at hw
    exact h a w hw hwj

/-- Jail exclusion is kept by every completed full recomputation. -/
theorem full_jailExclusion (env : Env) (s r : State) (hi1 : JailExclusion s)
    (h : XXXREFERENCEUpdateBondedValidatorsFull env s = some r) : JailExclusion r :=
  full_preserves env JailExclusion
    (fun s v hP _ hj => jailExclusion_bondState env s v hP hj)
    (fun s v hP _ => jailExclusion_unbondState env s v hP)
    (fun s t hc hP => by obtain ⟨ca, cp, rfl⟩ := hc; exact jailExclusion_congr rfl hP)
    s r h hi1

theorem tableWF_unbondState (env : Env) (s : State) (v : Validator) (h : TableWF s) :
    TableWF (unbondState env s v) := by
  intro a w hw
  simp only [unbondState] at hw
  by_cases ha : a = v.OperatorAddr
  · simp only [ha, if_true, Option.some.injEq] at hw
    rw [← hw, ha]; rfl
  · simp only [ha, if_false] at hw
    exact h a w hw

theorem tableWF_congr {s t : State} (hv : t.validators = s.validators) (h : TableWF s) :
    TableWF t := by
  intro a w hw
  rw [hv] at hw
  exact h a w hw

/-- Jail exclusion is kept by every completed single-validator update on an
input record whose status equals the stored status; the returned record is
the stored one, and a validator reported jailed does not end Bonded. -/
theorem update_jailExclusion (env : Env) (s : State) (A : Validator) (r : Validator × State)
    (hwf : TableWF s) (hi1 : JailExclusion s) (hst : StatusMatches s A)
    (h : REFERENCEXXXDELETEUpdateValidator env s A = some r) :
    JailExclusion r.2 ∧ r.2.validators A.OperatorAddr = some r.1 ∧
      (A.Jailed = true → r.1.Status ≠ BondStatus.Bonded) := by
  obtain ⟨s1, v1, hjail, s3, v2, ⟨bh, bc, hv2⟩, hval, _, _, _, hout⟩ :=
    update_cases env s A r h
  have hmatch := statusMatches_iff hst
  have hF : JailExclusion s1 ∧ v1.OperatorAddr = A.OperatorAddr ∧ v1.Jailed = A.Jailed ∧
      (v1.Jailed = true → v1.Status ≠ BondStatus.Bonded) ∧ TableWF s1 := by
    rcases hjail with ⟨_, _, _, hv1, hs1⟩ | ⟨hn, hv1, hs1⟩
    · subst hv1; subst hs1
      exact ⟨jailExclusion_congr rfl (jailExclusion_unbondState env s A hi1), rfl, rfl,
        fun _ => by simp [unbondingRecord],
        tableWF_congr rfl (tableWF_unbondState env s A hwf)⟩
    · subst hv1; subst hs1
      exact ⟨hi1, rfl, rfl, fun hj hb => hn ⟨hj, hmatch.1 hb⟩, hwf⟩
  obtain ⟨hF1, hF2, hF3, hF4, hF5⟩ := hF
  have hv2s : v2.Status = v1.Status := by rw [hv2]
  have hv2a : v2.OperatorAddr = A.OperatorAddr := by rw [hv2]; exact hF2
  have hv2j : v2.Jailed = A.Jailed := by rw [hv2]; exact hF3
  have hv2ok : v2.Jailed = true → v2.Status ≠ BondStatus.Bonded := by
    intro hj; rw [hv2s]; exact hF4 (by rw [hF3, ← hv2j]; exact hj)
  have hI3 : JailExclusion s3 := jailExclusion_congr hval hF1
  -- a validator marked for bonding under the identity of a jailed affected validator
  have htbx : ∀ tb : Validator, tb.Jailed = false →
      (tb = v2 ∨ ∃ a, a ≠ v2.OperatorAddr ∧ s3.validators a = some tb) →
      tb.OperatorAddr = v2.OperatorAddr → A.Jailed = true → False := by
    intro tb htj hprov hta hAj
    rcases hprov with rfl | ⟨a, ha, hv⟩
    · rw [hv2j, hAj] at htj; cases htj
    · rw [hval] at hv
      exact ha ((hF5 a tb hv).symm.trans hta)
  rcases hout with ⟨hr1, s4, h4v, _, hr⟩ | ⟨res, hres, hupd, hr⟩
  · refine ⟨?_, ?_, ?_⟩
    · rw [hr]
      exact jailExclusion_setValidator s4 v2 (jailExclusion_congr h4v hI3) hv2ok
    · rw [hr, hr1]; simp [SetValidator, hv2a]
    · intro hj; rw [hr1]; exact hv2ok (by rw [hv2j]; exact hj)
  · obtain ⟨sc, hco, hshape⟩ := updateBonded_cases env s3 v2 res hres
    have hIc : JailExclusion sc := by
      obtain ⟨ca, cp, rfl⟩ := hco; exact jailExclusion_congr rfl hI3
    rcases hshape with hz | ⟨tb, _, htj, hprov, hshape⟩
    · rw [hz] at hupd; simp at hupd
    · rcases hshape with ⟨_, hres'⟩ | ⟨c, vc, _, _, _, htba, hres'⟩ | ⟨c, _, htba, _, hres'⟩
      · rw [hr, hres']
        by_cases hta : tb.OperatorAddr = v2.OperatorAddr
        · simp only [hta, if_true]
          refine ⟨jailExclusion_setValidator _ _ (jailExclusion_bondState env sc tb hIc htj)
            (by simp [bondedRecord, htj]), by simp [SetValidator, bondedRecord_addr, hta, hv2a],
            fun hj => (htbx tb htj hprov hta hj).elim⟩
        · simp only [hta, if_false]
          exact ⟨jailExclusion_setValidator _ _ (jailExclusion_bondState env sc tb hIc htj)
            hv2ok, by simp [SetValidator, hv2a],
            fun hj => hv2ok (by rw [hv2j]; exact hj)⟩
      · rw [hr, hres']
        exact ⟨jailExclusion_setValidator _ _ (jailExclusion_bondState env _ tb
            (jailExclusion_unbondState env sc vc hIc) htj) (by simp [bondedRecord, htj]),
          by simp [SetValidator, bondedRecord_addr, htba, hv2a],
          fun hj => (htbx tb htj hprov htba hj).elim⟩
      · rw [hr, hres']
        exact ⟨jailExclusion_setValidator _ _ (jailExclusion_bondState env _ tb
            (jailExclusion_unbondState env sc v2 hIc) htj) (by simp [unbondingRecord]),
          by simp [SetValidator, unbondingRecord_addr, hv2a],
          fun _ => by simp [unbondingRecord]⟩

theorem i5_bondState (env : Env) (s : State) (v : Validator) (h : BondedIndexConsistent s) :
    BondedIndexConsistent (bondState env s v) := by
  intro a
  rw [isBonded_bondState, ← h a]
  simp [bondState]

theorem i5_unbondState (env : Env) (s : State) (v : Validator) (h : BondedIndexConsistent s) :
    BondedIndexConsistent (unbondState env s v) := by
  intro a
  rw [isBonded_unbondState, ← h a]
  simp [unbondState, List.mem_filter, and_comm]

theorem i5_congr {s t : State} (hv : t.validators = s.validators)
    (hb : t.bondedIndex = s.bondedIndex) (h : BondedIndexConsistent s) :
    BondedIndexConsistent t := by
  intro a
  rw [isBonded_congr hv, hb]
  exact h a

theorem i5_setValidator (s : State) (v : Validator) (h : BondedIndexConsistent s)
    (hv : v.OperatorAddr ∈ s.bondedIndex ↔ v.Status = BondStatus.Bonded) :
    BondedIndexConsistent (SetValidator s v) := by
  intro a
  rw [isBonded_setValidator]
  show a ∈ s.bondedIndex ↔ _
  by_cases ha : a = v.OperatorAddr
  · subst ha; simp [hv]
  · simp [ha, h a]

/-- I5 is kept by every completed full recomputation. -/
theorem full_i5 (env : Env) (s r : State) (hi5 : BondedIndexConsistent s)
    (h : XXXREFERENCEUpdateBondedValidatorsFull env s = some r) : BondedIndexConsistent r :=
  full_preserves env BondedIndexConsistent
    (fun s v hP _ _ => i5_bondState env s v hP)
    (fun s v hP _ => i5_unbondState env s v hP)
    (fun s t hc hP => by obtain ⟨ca, cp, rfl⟩ := hc; exact i5_congr rfl rfl hP)
    s r h hi5

/-- I5 is kept by every completed single-validator update on an input record
whose status equals the stored status, the re-persisted record of the
affected validator included. -/
theorem update_i5 (env : Env) (s : State) (A : Validator) (r : Validator × State)
    (hi5 : BondedIndexConsistent s) (hst : StatusMatches s A)
    (h : REFERENCEXXXDELETEUpdateValidator env s A = some r) :
    BondedIndexConsistent r.2 ∧ r.2.validators A.OperatorAddr = some r.1 ∧
      (A.OperatorAddr ∈ r.2.bondedIndex ↔ r.1.Status = BondStatus.Bonded) := by
  obtain ⟨s1, v1, hjail, s3, v2, ⟨bh, bc, hv2⟩, hval, hbidx, _, _, hout⟩ :=
    update_cases env s A r h
  have hmatch := statusMatches_iff hst
  have hF : BondedIndexConsistent s1 ∧ v1.OperatorAddr = A.OperatorAddr ∧
      (A.OperatorAddr ∈ s1.bondedIndex ↔ v1.Status = BondStatus.Bonded) := by
    rcases hjail with ⟨_, _, _, hv1, hs1⟩ | ⟨_, hv1, hs1⟩
    · subst hv1; subst hs1
      refine ⟨i5_congr rfl rfl (i5_unbondState env s A hi5), rfl, ?_⟩
      simp [clearCliffValidator, unbondState, unbondingRecord, List.mem_filter]
    · subst hv1; subst hs1
      exact ⟨hi5, rfl, (hi5 _).trans hmatch.symm⟩
  obtain ⟨hF1, hF2, hF3⟩ := hF
  have hv2s : v2.Status = v1.Status := by rw [hv2]
  have hv2a : v2.OperatorAddr = A.OperatorAddr := by rw [hv2]; exact hF2
  have hI3 : BondedIndexConsistent s3 := i5_congr hval hbidx hF1
  have hmem3 : v2.OperatorAddr ∈ s3.bondedIndex ↔ v2.Status = BondStatus.Bonded := by
    rw [hbidx, hv2a, hv2s]; exact hF3
  have hfinal : ∀ (t : State) (x : Validator), BondedIndexConsistent t →
      x.OperatorAddr = A.OperatorAddr →
      (x.OperatorAddr ∈ t.bondedIndex ↔ x.Status = BondStatus.Bonded) →
      BondedIndexConsistent (SetValidator t x) ∧
        (SetValidator t x).validators A.OperatorAddr = some x ∧
        (A.OperatorAddr ∈ (SetValidator t x).bondedIndex ↔ x.Status = BondStatus.Bonded) := by
    intro t x ht hxa hx
    refine ⟨i5_setValidator t x ht hx, by simp [SetValidator, hxa], ?_⟩
    rw [← hxa]; exact hx
  rcases hout with ⟨hr1, s4, h4v, h4b, hr⟩ | ⟨res, hres, hupd, hr⟩
  · rw [hr, hr1]
    exact hfinal s4 v2 (i5_congr h4v h4b hI3) hv2a (by rw [h4b]; exact hmem3)
  · obtain ⟨sc, hco, hshape⟩ := updateBonded_cases env s3 v2 res hres
    have hIc : BondedIndexConsistent sc := by
      obtain ⟨ca, cp, rfl⟩ := hco; exact i5_congr rfl rfl hI3
    have hcb : sc.bondedIndex = s3.bondedIndex := by
      obtain ⟨ca, cp, rfl⟩ := hco; rfl
    rcases hshape with hz | ⟨tb, _, _, _, hshape⟩
    · rw [hz] at hupd; simp at hupd
    · rcases hshape with ⟨_, hres'⟩ | ⟨c, vc, _, _, _, htba, hres'⟩ | ⟨c, _, htba, _, hres'⟩
      · rw [hr, hres']
        by_cases hta : tb.OperatorAddr = v2.OperatorAddr
        · simp only [hta, if_true]
          exact hfinal _ _ (i5_bondState env sc tb hIc) (by rw [bondedRecord_addr, hta, hv2a])
            (by simp [bondState, bondedRecord])
        · simp only [hta, if_false]
          refine hfinal _ _ (i5_bondState env sc tb hIc) hv2a ?_
          rw [← hmem3, ← hcb]
          simp [bondState, Ne.symm hta]
      · rw [hr, hres']
        exact hfinal _ _ (i5_bondState env _ tb (i5_unbondState env sc vc hIc))
          (by rw [bondedRecord_addr, htba, hv2a]) (by simp [bondState, bondedRecord])
      · rw [hr, hres']
        refine hfinal _ _ (i5_bondState env _ tb (i5_unbondState env sc v2 hIc))
          (by rw [unbondingRecord_addr, hv2a]) ?_
        simp [bondState, unbondState, unbondingRecord, List.mem_filter, Ne.symm htba]

theorem stateMixed_i1 : JailExclusion stateMixed :=
  jailExclusion_mkState _ _ _ _ _ (by decide)

theorem stateXY_statusMatches_jailedY :
    StatusMatches stateXY (mkValidator 2 8 BondStatus.Bonded true) := by
  constructor
  · intro old h
    have h2 : some (mkValidator 2 8 BondStatus.Bonded false) = some old := h
    cases h2
    rfl
  · intro h
    have h2 : some (mkValidator 2 8 BondStatus.Bonded false) = none := h
    cases h2

/-- C4 (P3 / I1, jail exclusion): from a state in which no jailed validator is
Bonded, after every completed full reconciliation, and after every completed
single-validator update on an input record whose status equals its stored
status, no stored validator is jailed and Bonded; the update persists the
record it returns, and a validator reported jailed is left not Bonded. -/
theorem jail_exclusion_preserved :
    (∀ (env : Env) (s r : State), JailExclusion s →
      XXXREFERENCEUpdateBondedValidatorsFull env s = some r → JailExclusion r) ∧
    (∀ (env : Env) (s : State) (A : Validator) (r : Validator × State), TableWF s →
      JailExclusion s → StatusMatches s A →
      REFERENCEXXXDELETEUpdateValidator env s A = some r →
      JailExclusion r.2 ∧ r.2.validators A.OperatorAddr = some r.1 ∧
        (A.Jailed = true → r.1.Status ≠ BondStatus.Bonded)) :=
  ⟨fun env s r hi1 h => full_jailExclusion env s r hi1 h,
   fun env s A r hwf hi1 hst h => update_jailExclusion env s A r hwf hi1 hst h⟩

theorem jail_exclusion_preserved_witness :
    (∃ r, XXXREFERENCEUpdateBondedValidatorsFull (envAt 2) stateMixed = some r ∧
      JailExclusion r) ∧
    (∃ r, REFERENCEXXXDELETEUpdateValidator (envAt 2) stateXY
        (mkValidator 2 8 BondStatus.Bonded true) = some r ∧
      JailExclusion r.2 ∧ r.2.validators 2 = some r.1 ∧
      (true = true → r.1.Status ≠ BondStatus.Bonded)) := by
  constructor
  · have hs : (XXXREFERENCEUpdateBondedValidatorsFull (envAt 2) stateMixed).isSome = true := rfl
    obtain ⟨r, hr⟩ := Option.isSome_iff_exists.1 hs
    exact ⟨r, hr, jail_exclusion_preserved.1 (envAt 2) stateMixed r stateMixed_i1 hr⟩
  · have hs : (REFERENCEXXXDELETEUpdateValidator (envAt 2) stateXY
        (mkValidator 2 8 BondStatus.Bonded true)).isSome = true := rfl
    obtain ⟨r, hr⟩ := Option.isSome_iff_exists.1 hs
    exact ⟨r, hr, jail_exclusion_preserved.2 (envAt 2) stateXY _ r (tableWF_mkState _ _ _ _ _)
      stateXY_consistentFull.i1 stateXY_statusMatches_jailedY hr⟩

/-- C8 (I5 is preserved): from a state whose bonded-membership index holds
exactly the identities of the Bonded validators, the same holds after every
completed full reconciliation and after every completed single-validator
update on an input record whose status equals its stored status; the record
re-persisted at the end of the update is the returned one and agrees with the
index. -/
theorem bonded_index_consistency_preserved :
    (∀ (env : Env) (s r : State), BondedIndexConsistent s →
      XXXREFERENCEUpdateBondedValidatorsFull env s = some r → BondedIndexConsistent r) ∧
    (∀ (env : Env) (s : State) (A : Validator) (r : Validator × State),
      BondedIndexConsistent s → StatusMatches s A →
      REFERENCEXXXDELETEUpdateValidator env s A = some r →
      BondedIndexConsistent r.2 ∧ r.2.validators A.OperatorAddr = some r.1 ∧
        (A.OperatorAddr ∈ r.2.bondedIndex ↔ r.1.Status = BondStatus.Bonded)) :=
  ⟨fun env s r hi5 h => full_i5 env s r hi5 h,
   fun env s A r hi5 hst h => update_i5 env s A r hi5 hst h⟩

theorem bonded_index_consistency_preserved_witness :
    (∃ r, XXXREFERENCEUpdateBondedValidatorsFull (envAt 1) stateMixed = some r ∧
      BondedIndexConsistent r) ∧
    (∃ r, REFERENCEXXXDELETEUpdateValidator (envAt 2) stateXY
        (mkValidator 3 9 BondStatus.Unbonded false) = some r ∧
      BondedIndexConsistent r.2 ∧ r.2.validators 3 = some r.1 ∧
      (3 ∈ r.2.bondedIndex ↔ r.1.Status = BondStatus.Bonded)) := by
  constructor
  · have hs : (XXXREFERENCEUpdateBondedValidatorsFull (envAt 1) stateMixed).isSome = true := rfl
    obtain ⟨r, hr⟩ := Option.isSome_iff_exists.1 hs
    exact ⟨r, hr, bonded_index_consistency_preserved.1 (envAt 1) stateMixed r stateMixed_i5 hr⟩
  · have hs : (REFERENCEXXXDELETEUpdateValidator (envAt 2) stateXY
        (mkValidator 3 9 BondStatus.Unbonded false)).isSome = true := rfl
    obtain ⟨r, hr⟩ := Option.isSome_iff_exists.1 hs
    exact ⟨r, hr, bonded_index_consistency_preserved.2 (envAt 2) stateXY _ r stateXY_i5
      ⟨fun old h => (by cases h), fun _ => (by decide)⟩ hr⟩

theorem power_le_of_ranksBelow (a b : PowerKey) (h : a.ranksBelow b = true)
    (hnj : a.NotJailed = b.NotJailed) : a.Power ≤ b.Power := by
  unfold PowerKey.ranksBelow at h
  simp only [hnj, ne_eq, not_true_eq_false, if_false] at h
  by_cases hp : a.Power = b.Power
  · omega
  · simp only [hp, not_false_eq_true, if_true, decide_eq_true_eq] at h
    omega

theorem bondedExactly_iff_of_list {s : State} {l : List Addr} (hl : l.Nodup)
    (h : ∀ a, IsBonded s a ↔ a ∈ l) (n : Nat) : BondedExactly s n ↔ l.length = n := by
  constructor
  · rintro ⟨m, hm, hmem, hlen⟩
    have h1 := length_le_of_nodup_subset hm (fun a ha => (h a).1 ((hmem a).1 ha))
    have h2 := length_le_of_nodup_subset hl (fun a ha => (hmem a).2 ((h a).2 ha))
    omega
  · intro hlen
    exact ⟨l, hl, fun a => (h a).symm, hlen⟩

theorem topAddrs_nodup (env : Env) (s : State) (h : (s.powerIndex.map Prod.snd).Nodup) :
    (topAddrs env s).Nodup := by
  unfold topAddrs
  rw [← List.take_append_drop env.maxValidators s.powerIndex, List.map_append] at h
  exact (List.nodup_append.1 h).1

/-- The record stored after the full recomputation for an identity among the
first `MaxValidators` entries: Bonded, with the power it had. -/
theorem fullPost_top_record {env : Env} {s r : State} (hwf : TableWF s)
    (hi5 : BondedIndexConsistent s) (hp : FullPost env s r) {a : Addr} {v0 : Validator}
    (ha : a ∈ topAddrs env s) (hv0 : s.validators a = some v0) :
    ∃ v, r.validators a = some v ∧ v.Status = BondStatus.Bonded ∧ v.Power = v0.Power ∧
      v.Jailed = v0.Jailed ∧ v.OperatorAddr = a := by
  have h := hp.validators_eq a
  simp only [ha, if_true] at h
  by_cases hb : a ∈ s.bondedIndex
  · simp only [hb, if_true] at h
    obtain ⟨w, hw, hwb⟩ := (hi5 a).1 hb
    rw [hv0] at hw; cases hw
    exact ⟨v0, by rw [h, hv0], hwb, rfl, rfl, hwf a v0 hv0⟩
  · simp only [hb, if_false, hv0, Option.map_some'] at h
    exact ⟨bondedRecord env v0, h, rfl, rfl, rfl, hwf a v0 hv0⟩


/-- C5 (I3 / P2 after full reconciliation): for a consistent state and
`MaxValidators >= 1`, after a completed full reconciliation the Cliff Tracker
holds a defined value if and only if exactly `MaxValidators` validators are
Bonded; when defined it names the last admitted validator (the last of the
first `MaxValidators` index entries) with its key, that validator is Bonded,
every Bonded validator is among those entries, and no Bonded validator has
less power. -/
theorem cliff_correct_after_full (env : Env) (s r : State) (hmax : 1 ≤ env.maxValidators)
    (hwf : TableWF s) (hi4 : PowerIndexConsistent s) (hi5 : BondedIndexConsistent s)
    (hsorted : PowerIndexSorted s) (hcw : CliffWF s)
    (h : XXXREFERENCEUpdateBondedValidatorsFull env s = some r) :
    (r.cliffAddr ≠ none ↔ BondedExactly r env.maxValidators) ∧
    (r.cliffAddr = none ↔ r.cliffPower = none) ∧
    (∀ c, r.cliffAddr = some c →
      ∃ v, r.validators c = some v ∧ v.Status = BondStatus.Bonded ∧
        r.cliffPower = some (GetValidatorsByPowerIndexKey v) ∧
        (r.powerIndex.take env.maxValidators).getLast?.map Prod.snd = some c ∧
        (∀ a, IsBonded r a → a ∈ (r.powerIndex.take env.maxValidators).map Prod.snd) ∧
        (∀ a w, r.validators a = some w → w.Status = BondStatus.Bonded → v.Power ≤ w.Power)) := by
  obtain ⟨hrec, hp⟩ := Full_post_of_some env s r hwf hi4.1 hi5 h
  have hbond := isBonded_iff_of_fullPost hi4 hi5 hp
  have hexact := bondedExactly_iff_of_list (topAddrs_nodup env s hi4.1) hbond env.maxValidators
  by_cases hlen : (topAddrs env s).length = env.maxValidators
  · -- the scan filled all slots
    obtain ⟨hca, hcp⟩ := hp.cliff_set hlen
    have hne : s.powerIndex.take env.maxValidators ≠ [] := by
      intro hnil
      simp [topAddrs, hnil] at hlen
      omega
    obtain ⟨e, he⟩ : ∃ e, (s.powerIndex.take env.maxValidators).getLast? = some e :=
      ⟨_, List.getLast?_eq_getLast _ hne⟩
    have hemem : e ∈ s.powerIndex.take env.maxValidators := List.mem_of_getLast?_eq_some he
    have heT : e.2 ∈ topAddrs env s := List.mem_map_of_mem Prod.snd hemem
    obtain ⟨v0, hv0, hv0j⟩ := hrec e hemem
    obtain ⟨v, hv, hvb, hvp, hvj, hva⟩ := fullPost_top_record hwf hi5 hp heT hv0
    have hlast : lastScanned env s r = v := by
      simp [lastScanned, he, hv]
    rw [hlast] at hca hcp
    refine ⟨⟨fun _ => hexact.2 hlen, fun _ => (by rw [hca]; simp)⟩,
      ⟨fun hn => (by rw [hca] at hn; cases hn), fun hn => (by rw [hcp] at hn; cases hn)⟩, ?_⟩
    intro c hc
    rw [hca, hva] at hc
    cases hc
    refine ⟨v, hv, hvb, hcp, by rw [hp.powerIndex_eq, he]; rfl, ?_, ?_⟩
    · intro a ha
      rw [hp.powerIndex_eq]
      exact (hbond a).1 ha
    · intro a w hw hwb
      have haT : a ∈ topAddrs env s := (hbond a).1 ⟨w, hw, hwb⟩
      obtain ⟨ea, hea, heaa⟩ := List.mem_map.1 haT
      obtain ⟨w0, hw0, hw0j⟩ := hrec ea hea
      rw [heaa] at hw0
      obtain ⟨w', hw', _, hwp, _, _⟩ := fullPost_top_record hwf hi5 hp haT hw0
      rw [hw] at hw'; cases hw'
      -- keys are current in `s`
      obtain ⟨x, hx, hkx⟩ := hi4.2.1 e (List.mem_of_mem_take hemem)
      rw [hv0] at hx; cases hx
      obtain ⟨y, hy, hky⟩ := hi4.2.1 ea (List.mem_of_mem_take hea)
      rw [heaa, hw0] at hy; cases hy
      rw [hvp, hwp]
      by_cases hsame : ea = e
      · subst hsame
        rw [heaa] at hv0
        rw [hv0] at hw0
        cases hw0
        exact le_refl _
      · -- `ea` comes before the last entry
        have hsplit := List.dropLast_append_getLast? e he
        have hpw : (s.powerIndex.take env.maxValidators).Pairwise
            (fun x y => y.1.ranksBelow x.1 = true) := by
          have := hsorted
          unfold PowerIndexSorted at this
          rw [← List.take_append_drop env.maxValidators s.powerIndex] at this
          exact (List.pairwise_append.1 this).1
        rw [← hsplit] at hpw hea
        have hmemd : ea ∈ (s.powerIndex.take env.maxValidators).dropLast := by
          rcases List.mem_append.1 hea with h1 | h1
          · exact h1
          · exact absurd (by simpa using h1) hsame
        have hrank := (List.pairwise_append.1 hpw).2.2 ea hmemd e (by simp)
        have := power_le_of_ranksBelow e.1 ea.1 hrank (by
          rw [hkx, hky]; simp [GetValidatorsByPowerIndexKey, hv0j, hw0j])
        rw [hkx, hky] at this
        exact this
  · -- fewer validators than slots
    have hnone : r.cliffAddr = none ∧ r.cliffPower = none := by
      rcases hcw with ⟨h1, h2⟩ | ⟨c, k, hc0, h1, h2⟩
      · have := hp.cliff_keep hlen (by rw [h1]; rfl)
        rw [h1, h2] at this
        exact this
      · exact hp.cliff_clear hlen (by rw [h1]; simp [addrNonEmpty, hc0])
    refine ⟨⟨fun hn => absurd hnone.1 hn, fun hex => absurd (hexact.1 hex) hlen⟩,
      ⟨fun _ => hnone.2, fun _ => hnone.1⟩, ?_⟩
    intro c hc
    rw [hnone.1] at hc
    cases hc

theorem stateMixed_sorted : PowerIndexSorted stateMixed := by
  unfold PowerIndexSorted; decide

theorem cliff_correct_after_full_witness :
    ∃ r, XXXREFERENCEUpdateBondedValidatorsFull (envAt 2) stateMixed = some r ∧
      (r.cliffAddr ≠ none ↔ BondedExactly r 2) ∧
      (r.cliffAddr = none ↔ r.cliffPower = none) ∧
      (∀ c, r.cliffAddr = some c →
        ∃ v, r.validators c = some v ∧ v.Status = BondStatus.Bonded ∧
          r.cliffPower = some (GetValidatorsByPowerIndexKey v) ∧
          (r.powerIndex.take 2).getLast?.map Prod.snd = some c ∧
          (∀ a, IsBonded r a → a ∈ (r.powerIndex.take 2).map Prod.snd) ∧
          (∀ a w, r.validators a = some w → w.Status = BondStatus.Bonded →
            v.Power ≤ w.Power)) := by
  have hs : (XXXREFERENCEUpdateBondedValidatorsFull (envAt 2) stateMixed).isSome = true := rfl
  obtain ⟨r, hr⟩ := Option.isSome_iff_exists.1 hs
  exact ⟨r, hr, cliff_correct_after_full (envAt 2) stateMixed r (by decide) stateMixed_tableWF
    stateMixed_i4 stateMixed_i5 stateMixed_sorted (Or.inl ⟨rfl, rfl⟩) hr⟩

/-- C6 fails on the code: in a consistent state with spare capacity whose
scan reaches a jailed, not-Bonded validator, the full reconciliation bonds the
validator before it looks at the jailed flag and aborts. -/
theorem full_aborts_on_jailed_candidate :
    TableWF stateJailedCandidate ∧ JailExclusion stateJailedCandidate ∧
    PowerIndexConsistent stateJailedCandidate ∧ BondedIndexConsistent stateJailedCandidate ∧
    PowerIndexSorted stateJailedCandidate ∧
    XXXREFERENCEUpdateBondedValidatorsFull (envAt 2) stateJailedCandidate = none := by
  refine ⟨tableWF_mkState _ _ _ _ _, jailExclusion_mkState _ _ _ _ _ (by decide),
    powerIndexConsistent_mkState _ _ _ _ _ (by decide) (by decide) (by decide),
    bondedIndexConsistent_mkState _ _ _ _ _ (by decide) (by decide), ?_, rfl⟩
  unfold PowerIndexSorted; decide

/-- C7, as stated for every state, fails: from a state that lists one
validator twice in the power index and in the bonded index while it is
Unbonded, the first full reconciliation completes and the second one aborts. -/
theorem reconcile_twice_counterexample :
    ∃ r, XXXREFERENCEUpdateBondedValidatorsFull (envAt 2) stateTwice = some r ∧
      XXXREFERENCEUpdateBondedValidatorsFull (envAt 2) r = none := by
  have hs : (XXXREFERENCEUpdateBondedValidatorsFull (envAt 2) stateTwice).isSome = true := rfl
  obtain ⟨r, hr⟩ := Option.isSome_iff_exists.1 hs
  refine ⟨r, hr, ?_⟩
  have h2 : (XXXREFERENCEUpdateBondedValidatorsFull (envAt 2) stateTwice).bind
      (XXXREFERENCEUpdateBondedValidatorsFull (envAt 2)) = none := rfl
  rw [hr] at h2
  exact h2

theorem state_cliff_eta (r : State) (ca : Option Addr) (cp : Option PowerKey)
    (h1 : r.cliffAddr = ca) (h2 : r.cliffPower = cp) :
    ({ r with cliffAddr := ca, cliffPower := cp } : State) = r := by
  subst h1; subst h2; rfl

/-- C7 (P4, idempotence), amended: from a state with consistent indexes (a
table keyed by operator address, I4 and I5) from which the full reconciliation
completes, a second call immediately afterwards completes and returns the
stores unchanged: every validator record, the bonded-membership index, the
Cliff Tracker and the update buffer are those left by the first call. -/
theorem reconcile_idempotent (env : Env) (s r : State) (hwf : TableWF s)
    (hi4 : PowerIndexConsistent s) (hi5 : BondedIndexConsistent s)
    (h : XXXREFERENCEUpdateBondedValidatorsFull env s = some r) :
    XXXREFERENCEUpdateBondedValidatorsFull env r = some r := by
  obtain ⟨hrec, hp⟩ := Full_post_of_some env s r hwf hi4.1 hi5 h
  have hidx : r.powerIndex = s.powerIndex := hp.powerIndex_eq
  have hpre : ∀ e ∈ r.powerIndex.take (env.maxValidators - 0), ∃ v, r.validators e.2 = some v ∧
        v.OperatorAddr = e.2 ∧ v.Jailed = false ∧
        (e.2 ∉ r.bondedIndex.dedup → v.Status ≠ BondStatus.Bonded) := by
    intro e he
    rw [hidx, Nat.sub_zero] at he
    obtain ⟨v0, hv0, hv0j⟩ := hrec e he
    have heT : e.2 ∈ topAddrs env s := List.mem_map_of_mem Prod.snd he
    obtain ⟨v, hv, _, _, hvj, hva⟩ := fullPost_top_record hwf hi5 hp heT hv0
    refine ⟨v, hv, hva, by rw [hvj, hv0j], ?_⟩
    intro hnin
    exact absurd (List.mem_dedup.2 ((hp.bonded_eq e.2).2 heT)) hnin
  obtain ⟨r0, hr0, hsp⟩ := fullScan_spec env r.powerIndex
    { st := r, toKickOut := r.bondedIndex.dedup, validator := Validator.zero, count := 0 }
    (by rw [hidx]; exact hi4.1) hpre
  simp only [Nat.sub_zero] at hsp
  have hst : r0.st = r := hsp.noop (by
    intro e he
    rw [hidx] at he
    exact List.mem_dedup.2 ((hp.bonded_eq e.2).2 (List.mem_map_of_mem Prod.snd he)))
  have htko : r0.toKickOut = [] := by
    rw [hsp.tko_eq, List.filter_eq_nil_iff]
    intro a ha
    have : a ∈ topAddrs env s := (hp.bonded_eq a).1 (List.mem_dedup.1 ha)
    simp only [hidx, decide_not, Bool.not_eq_true', decide_eq_false_iff_not, not_not]
    exact this
  have hcount : r0.count = (topAddrs env s).length := by
    rw [hsp.count_eq, hidx]; simp [topAddrs]
  have hlastv : r0.validator = lastScanned env s r := by
    rw [hsp.validator_eq, hst, hidx, lastScanned]
  rw [Full_unfold, hr0]
  simp only [htko, kickOutValidators, hst, Option.some.injEq]
  by_cases hlen : (topAddrs env s).length = env.maxValidators
  · obtain ⟨hca, hcp⟩ := hp.cliff_set hlen
    rw [if_pos (hcount.trans hlen), hlastv]
    exact state_cliff_eta r _ _ hca hcp
  · rw [if_neg (fun hc => hlen (hcount.symm.trans hc))]
    by_cases hne : addrNonEmpty s.cliffAddr = true
    · obtain ⟨hca, _⟩ := hp.cliff_clear hlen hne
      have : addrNonEmpty r.cliffAddr = false := by rw [hca]; rfl
      simp [this]
    · have hne' : addrNonEmpty s.cliffAddr = false := by simpa using hne
      obtain ⟨hca, _⟩ := hp.cliff_keep hlen hne'
      have : addrNonEmpty r.cliffAddr = false := by rw [hca]; exact hne'
      simp [this]

theorem reconcile_idempotent_witness :
    ∃ r, XXXREFERENCEUpdateBondedValidatorsFull (envAt 2) stateMixed = some r ∧
      XXXREFERENCEUpdateBondedValidatorsFull (envAt 2) r = some r := by
  have hs : (XXXREFERENCEUpdateBondedValidatorsFull (envAt 2) stateMixed).isSome = true := rfl
  obtain ⟨r, hr⟩ := Option.isSome_iff_exists.1 hs
  exact ⟨r, hr, reconcile_idempotent (envAt 2) stateMixed r stateMixed_tableWF stateMixed_i4
    stateMixed_i5 hr⟩

theorem ranksBelow_iff (a b : PowerKey) :
    a.ranksBelow b = true ↔
      (a.NotJailed = false ∧ b.NotJailed = true) ∨
      (a.NotJailed = b.NotJailed ∧
        (a.Power < b.Power ∨ (a.Power = b.Power ∧
          (b.BondHeight < a.BondHeight ∨ (a.BondHeight = b.BondHeight ∧
            (b.BondIntraTxCounter < a.BondIntraTxCounter ∨
              (a.BondIntraTxCounter = b.BondIntraTxCounter ∧ b.Owner < a.Owner))))))) := by
  unfold PowerKey.ranksBelow
  by_cases h1 : a.NotJailed = b.NotJailed
  · simp only [h1, ne_eq, not_true_eq_false, if_false, true_and]
    have hb : ¬ (b.NotJailed = false ∧ b.NotJailed = true) := by
      cases b.NotJailed <;> simp
    by_cases h2 : a.Power = b.Power
    · by_cases h3 : a.BondHeight = b.BondHeight
      · by_cases h4 : a.BondIntraTxCounter = b.BondIntraTxCounter
        · simp [h2, h3, h4]
        · simp [h2, h3, h4]
      · simp [h2, h3]
    · simp [h2]
  · have : ¬ (a.NotJailed = b.NotJailed) := h1
    cases ha : a.NotJailed <;> cases hb : b.NotJailed <;> simp [ha, hb] at h1 ⊢

theorem ranksBelow_asymm (a b : PowerKey) (h : a.ranksBelow b = true) :
    b.ranksBelow a = false := by
  rw [← Bool.not_eq_true, ranksBelow_iff]
  rw [ranksBelow_iff] at h
  rintro (⟨g1, g2⟩ | ⟨g1, g2⟩)
  · rcases h with ⟨h1, h2⟩ | ⟨h1, _⟩
    · rw [h1] at g2; cases g2
    · rw [h1, g1] at g2; cases g2
  · rcases h with ⟨h1, h2⟩ | ⟨_, h2⟩
    · rw [g1, h1] at h2; cases h2
    · rcases h2 with h2 | ⟨e1, h2 | ⟨e2, h2 | ⟨e3, h2⟩⟩⟩ <;>
        rcases g2 with g2 | ⟨f1, g2 | ⟨f2, g2 | ⟨f3, g2⟩⟩⟩ <;>
        first | omega | exact absurd h2 (Nat.lt_asymm g2)

theorem ranksBelow_trans (a b c : PowerKey) (h1 : a.ranksBelow b = true)
    (h2 : b.ranksBelow c = true) : a.ranksBelow c = true := by
  rw [ranksBelow_iff] at h1 h2 ⊢
  rcases h1 with ⟨p1, p2⟩ | ⟨p1, p2⟩
  · rcases h2 with ⟨q1, q2⟩ | ⟨q1, _⟩
    · rw [p2] at q1; cases q1
    · exact Or.inl ⟨p1, by rw [← q1]; exact p2⟩
  · rcases h2 with ⟨q1, q2⟩ | ⟨q1, q2⟩
    · exact Or.inl ⟨by rw [p1]; exact q1, q2⟩
    · refine Or.inr ⟨p1.trans q1, ?_⟩
      rcases p2 with p2 | ⟨e1, p2 | ⟨e2, p2 | ⟨e3, p2⟩⟩⟩ <;>
        rcases q2 with q2 | ⟨f1, q2 | ⟨f2, q2 | ⟨f3, q2⟩⟩⟩
      all_goals first
        | exact Or.inl (by omega)
        | exact Or.inr ⟨by omega, Or.inl (by omega)⟩
        | exact Or.inr ⟨by omega, Or.inr ⟨by omega, Or.inl (by omega)⟩⟩
        | exact Or.inr ⟨by omega, Or.inr ⟨by omega, Or.inr ⟨by omega, Nat.lt_trans q2 p2⟩⟩⟩

/-- C9 fails on the code: from a state satisfying I4, the full reconciliation
at height 5 promotes validator 2, whose index key records bond height 0;
`bondValidator` stores the new bond height without re-keying the power index,
and I4 does not hold afterwards. -/
theorem power_index_stale_after_bond :
    PowerIndexConsistent stateMixed ∧
    ∃ r, XXXREFERENCEUpdateBondedValidatorsFull (envAt 2) stateMixed = some r ∧
      r.validators 2 = some { mkValidator 2 8 BondStatus.Bonded false with BondHeight := 5 } ∧
      (GetValidatorsByPowerIndexKey (mkValidator 2 8 BondStatus.Unbonded false), 2)
        ∈ r.powerIndex ∧
      ¬ PowerIndexConsistent r := by
  refine ⟨stateMixed_i4, ?_⟩
  have hev : (XXXREFERENCEUpdateBondedValidatorsFull (envAt 2) stateMixed).map
      (fun r => (r.powerIndex, r.validators 2)) =
      some (stateMixed.powerIndex,
        some { mkValidator 2 8 BondStatus.Bonded false with BondHeight := 5 }) := rfl
  cases hr : XXXREFERENCEUpdateBondedValidatorsFull (envAt 2) stateMixed with
  | none => rw [hr] at hev; cases hev
  | some r =>
    rw [hr] at hev
    simp only [Option.map_some', Option.some.injEq, Prod.mk.injEq] at hev
    obtain ⟨hidx, hval⟩ := hev
    have hmem : (GetValidatorsByPowerIndexKey (mkValidator 2 8 BondStatus.Unbonded false), 2)
        ∈ r.powerIndex := by
      rw [hidx]; decide
    refine ⟨r, rfl, hval, hmem, ?_⟩
    intro hi4
    obtain ⟨v, hv, hk⟩ := hi4.2.1 _ hmem
    rw [hval] at hv
    cases hv
    revert hk
    decide

theorem insert_take (e : PowerKey × Addr) : ∀ (l : List (PowerKey × Addr)) (n : Nat),
    n ≤ l.length → (∀ x ∈ l.take n, x.1.ranksBelow e.1 = false) →
    (powerIndexInsert e l).take n = l.take n := by
  intro l
  induction l with
  | nil => intro n hn _; simp at hn; subst hn; simp
  | cons x xs ih =>
    intro n hn h
    cases n with
    | zero => simp
    | succ n =>
      have hx : x.1.ranksBelow e.1 = false := h x (by simp)
      simp only [powerIndexInsert, hx, Bool.false_eq_true, if_false, List.take_succ_cons]
      rw [ih n (by simpa using hn) (fun y hy => h y (by simp [hy]))]

theorem updateForJailing_not_bonded (env : Env) (s : State) (oldFound : Bool)
    (old A : Validator) (h : ¬ (oldFound = true ∧ old.Status = BondStatus.Bonded)) :
    updateForJailing env s oldFound old A = some (A, s) := by
  unfold updateForJailing
  have : ¬ (A.Jailed = true ∧ oldFound = true ∧ old.Status = BondStatus.Bonded) :=
    fun hc => h hc.2
  rw [if_neg this]

/-- The single-validator update of the bonded group changes nothing when the
first `MaxValidators` entries of the power index are Bonded validators other
than the affected one and the Cliff Tracker names the last of them. -/
theorem updateBonded_below_cliff (env : Env) (s3 : State) (aff : Validator)
    (eN : PowerKey × Addr) (vN : Validator)
    (hlen : env.maxValidators ≤ s3.powerIndex.length)
    (htop : ∀ e ∈ s3.powerIndex.take env.maxValidators, e.2 ≠ aff.OperatorAddr ∧
      ∃ v, s3.validators e.2 = some v ∧ v.Jailed = false ∧ v.Status = BondStatus.Bonded)
    (hlast : (s3.powerIndex.take env.maxValidators).getLast? = some eN)
    (hvN : s3.validators eN.2 = some vN)
    (hca : s3.cliffAddr = some vN.OperatorAddr)
    (hcp : s3.cliffPower = some (GetValidatorsByPowerIndexKey vN)) :
    XXXREFERENCEUpdateBondedValidators env s3 aff = some ((Validator.zero, false), s3) := by
  have hscan := bondedScan_prefix env s3 aff s3.powerIndex
    { validator := Validator.zero, validatorToBond := Validator.zero,
      newValidatorBonded := false, count := 0 }
    env.maxValidators (by simp) hlen htop
  unfold XXXREFERENCEUpdateBondedValidators
  simp only [hscan, hlast, hvN, Option.getD_some, Bool.false_eq_true, false_and, if_false,
    if_true, setCliffValidator]
  rw [state_cliff_eta s3 _ _ hca hcp]


/-- The switch of the single-validator update returns the validator as given
and leaves the stores alone when the stored validator is absent or not Bonded,
the new key ranks below the cliff power, and (for an Unbonding validator, which
takes the default branch) the update of the bonded group changes nothing. -/
theorem switch_below_cliff (env : Env) (s : State) (oldFound : Bool) (old v : Validator)
    (pi : Bool) (valPower cp : PowerKey)
    (hold : ¬ (oldFound = true ∧ old.Status = BondStatus.Bonded))
    (hcp : s.cliffPower = some cp) (hlt : valPower.ranksBelow cp = true)
    (hupd : oldFound = true → old.Status = BondStatus.Unbonding →
      XXXREFERENCEUpdateBondedValidators env s v = some ((Validator.zero, false), s)) :
    updateValidatorSwitch env s oldFound old v pi valPower = some (v, s) := by
  unfold updateValidatorSwitch
  simp only [hcp, Option.isSome_some, hlt, true_and, and_true]
  have h1 : ¬ (pi = true ∧ v.Jailed = false ∧ oldFound = true ∧
      old.Status = BondStatus.Bonded) := fun h => hold h.2.2
  rw [if_neg h1]
  cases hf : oldFound with
  | false => simp
  | true =>
    simp only [Bool.true_eq_false, if_false, true_and]
    cases hs : old.Status with
    | Unbonded => simp
    | Bonded => exact absurd ⟨hf, hs⟩ hold
    | Unbonding =>
      simp only [reduceCtorEq, if_false]
      rw [hupd hf hs]
      have : old.BondedTokens = 0 := by simp [Validator.BondedTokens, hs]
      simp [this]

/-- The single-validator update for a validator that is not Bonded in the
store, up to the switch. -/
theorem update_unfold_notBonded_any (env : Env) (s : State) (A : Validator)
    (hnb : ¬ IsBonded s A.OperatorAddr) :
    REFERENCEXXXDELETEUpdateValidator env s A =
      match updateValidatorSwitch env
          { s with
            intraTxCounter := int16Succ s.intraTxCounter,
            powerIndex := powerIndexSet
              (GetValidatorsByPowerIndexKey
                { A with BondHeight := env.blockHeight, BondIntraTxCounter := s.intraTxCounter })
              A.OperatorAddr
              (if (s.validators A.OperatorAddr).isSome = true then
                powerIndexDelete (GetValidatorsByPowerIndexKey
                  ((s.validators A.OperatorAddr).getD Validator.zero)) s.powerIndex
               else s.powerIndex) }
          (s.validators A.OperatorAddr).isSome
          ((s.validators A.OperatorAddr).getD Validator.zero)
          { A with BondHeight := env.blockHeight, BondIntraTxCounter := s.intraTxCounter }
          (getPowerIncreasing (s.validators A.OperatorAddr).isSome
            ((s.validators A.OperatorAddr).getD Validator.zero) A)
          (GetValidatorsByPowerIndexKey
            { A with BondHeight := env.blockHeight, BondIntraTxCounter := s.intraTxCounter }) with
      | none => none
      | some r => some (r.1, SetValidator r.2 r.1) := by
  have hold : ¬ ((s.validators A.OperatorAddr).isSome = true ∧
      ((s.validators A.OperatorAddr).getD Validator.zero).Status = BondStatus.Bonded) :=
    fun h => hnb ((isBonded_iff_old s A.OperatorAddr).1 h)
  unfold REFERENCEXXXDELETEUpdateValidator
  simp only [GetValidator, updateForJailing_not_bonded env s _ _ A hold, bondIncrement, hold,
    if_false, updateValidatorPower] <;> rfl

/-- The single-validator update, in a consistent state with a full bonded
set, on a validator that is new or not Bonded and whose new key ranks strictly
below the cliff power: the stores afterwards, given explicitly. -/
theorem update_below_cliff_eq (env : Env) (s : State) (A : Validator)
    (hc : ConsistentFull env s) (hso : PowerIndexSorted s)
    (hnb : ¬ IsBonded s A.OperatorAddr)
    (hlt : ∀ cp, s.cliffPower = some cp →
      (GetValidatorsByPowerIndexKey
        { A with BondHeight := env.blockHeight,
                 BondIntraTxCounter := s.intraTxCounter }).ranksBelow cp = true) :
    REFERENCEXXXDELETEUpdateValidator env s A =
      some ({ A with BondHeight := env.blockHeight, BondIntraTxCounter := s.intraTxCounter },
        SetValidator
          { s with
            intraTxCounter := int16Succ s.intraTxCounter,
            powerIndex := powerIndexSet
              (GetValidatorsByPowerIndexKey
                { A with BondHeight := env.blockHeight, BondIntraTxCounter := s.intraTxCounter })
              A.OperatorAddr
              (if (s.validators A.OperatorAddr).isSome = true then
                powerIndexDelete (GetValidatorsByPowerIndexKey
                  ((s.validators A.OperatorAddr).getD Validator.zero)) s.powerIndex
               else s.powerIndex) }
          { A with BondHeight := env.blockHeight, BondIntraTxCounter := s.intraTxCounter }) := by
  obtain ⟨eN, hlast, hca, hcp⟩ := hc.cliff
  have heN : eN ∈ s.powerIndex.take env.maxValidators := List.mem_of_getLast?_eq_some hlast
  obtain ⟨vN, hvN, _, _, hvNa, hkN⟩ := consistentFull_top_entry hc heN
  have hltN := hlt eN.1 hcp
  have htake := rekey_take env s hc A hnb
    (GetValidatorsByPowerIndexKey
      { A with BondHeight := env.blockHeight, BondIntraTxCounter := s.intraTxCounter }) rfl
  have hlenT : (s.powerIndex.take env.maxValidators).length = env.maxValidators := by
    simpa [topAddrs] using hc.full
  have hpw : (s.powerIndex.take env.maxValidators).Pairwise
      (fun x y => y.1.ranksBelow x.1 = true) := by
    have := hso
    unfold PowerIndexSorted at this
    rw [← List.take_append_drop env.maxValidators s.powerIndex] at this
    exact (List.pairwise_append.1 this).1
  have hnotbelow : ∀ x ∈ s.powerIndex.take env.maxValidators,
      x.1.ranksBelow (GetValidatorsByPowerIndexKey
        { A with BondHeight := env.blockHeight,
                 BondIntraTxCounter := s.intraTxCounter }) = false := by
    intro x hx
    cases hxr : x.1.ranksBelow (GetValidatorsByPowerIndexKey
        { A with BondHeight := env.blockHeight,
                 BondIntraTxCounter := s.intraTxCounter }) with
    | false => rfl
    | true =>
      exfalso
      have hxN := ranksBelow_trans _ _ _ hxr hltN
      have hsplit := List.dropLast_append_getLast? eN hlast
      rw [← hsplit] at hpw hx
      rcases List.mem_append.1 hx with h1 | h1
      · have h2 := (List.pairwise_append.1 hpw).2.2 x h1 eN (by simp)
        have h3 := ranksBelow_asymm _ _ h2
        rw [hxN] at h3; cases h3
      · have hxe : x = eN := by simpa using h1
        rw [hxe] at hxr
        have h3 := ranksBelow_asymm _ _ hltN
        rw [hxr] at h3; cases h3
  generalize hidx1 : powerIndexDelete
      (GetValidatorsByPowerIndexKey
        { A with BondHeight := env.blockHeight, BondIntraTxCounter := s.intraTxCounter })
      (if (s.validators A.OperatorAddr).isSome = true then
        powerIndexDelete (GetValidatorsByPowerIndexKey
          ((s.validators A.OperatorAddr).getD Validator.zero)) s.powerIndex
       else s.powerIndex) = idx1 at htake
  have hlen1 : env.maxValidators ≤ idx1.length := by
    have := congrArg List.length htake
    rw [hlenT, List.length_take] at this
    omega
  have hins := insert_take
    (GetValidatorsByPowerIndexKey
      { A with BondHeight := env.blockHeight, BondIntraTxCounter := s.intraTxCounter },
      A.OperatorAddr) idx1 env.maxValidators hlen1 (by rw [htake]; exact hnotbelow)
  rw [htake] at hins
  have hold : ¬ ((s.validators A.OperatorAddr).isSome = true ∧
      ((s.validators A.OperatorAddr).getD Validator.zero).Status = BondStatus.Bonded) :=
    fun h => hnb ((isBonded_iff_old s A.OperatorAddr).1 h)
  rw [update_unfold_notBonded_any env s A hnb]
  simp only [powerIndexSet, hidx1]
  rw [switch_below_cliff env
    { s with
      intraTxCounter := int16Succ s.intraTxCounter,
      powerIndex := powerIndexInsert
        (GetValidatorsByPowerIndexKey
          { A with BondHeight := env.blockHeight, BondIntraTxCounter := s.intraTxCounter },
          A.OperatorAddr) idx1 }
    _ _ _ _ _ eN.1 hold hcp hltN]
  intro _ _
  apply updateBonded_below_cliff env _ _ eN vN
  · show env.maxValidators ≤ (powerIndexInsert _ idx1).length
    have := congrArg List.length hins
    rw [hlenT, List.length_take] at this
    omega
  · intro e he
    have he' : e ∈ s.powerIndex.take env.maxValidators := by
      rw [← hins]; exact he
    obtain ⟨v, hv, hvj, hvb, _, _⟩ := consistentFull_top_entry hc he'
    exact ⟨fun h => hnb (h ▸ ⟨v, hv, hvb⟩), v, hv, hvj, hvb⟩
  · show (List.take env.maxValidators (powerIndexInsert _ idx1)).getLast? = some eN
    rw [hins]; exact hlast
  · exact hvN
  · show s.cliffAddr = _
    rw [hca, hvNa]
  · show s.cliffPower = _
    rw [hcp, hkN]

theorem stateXZ_consistentFull : ConsistentFull (envAt 1) stateXZ where
  wf := tableWF_mkState _ _ _ _ _
  i1 := jailExclusion_mkState _ _ _ _ _ (by decide)
  i4 := stateXZ_i4
  i5 := stateXZ_i5
  pos := by decide
  full := by decide
  top := fun a => (stateXZ_i5 a).symm
  cliff := ⟨_, rfl, rfl, rfl⟩

theorem stateXYU_i5 : BondedIndexConsistent stateXYU :=
  bondedIndexConsistent_mkState _ _ _ _ _ (by decide) (by decide)

theorem stateXYU_consistentFull : ConsistentFull (envAt 2) stateXYU where
  wf := tableWF_mkState _ _ _ _ _
  i1 := jailExclusion_mkState _ _ _ _ _ (by decide)
  i4 := powerIndexConsistent_mkState _ _ _ _ _ (by decide) (by decide) (by decide)
  i5 := stateXYU_i5
  pos := by decide
  full := by decide
  top := fun a => (stateXYU_i5 a).symm
  cliff := ⟨_, rfl, rfl, rfl⟩

theorem not_isBonded_of_status {s : State} {a : Addr} {v : Validator}
    (hv : s.validators a = some v) (hs : v.Status ≠ BondStatus.Bonded) : ¬ IsBonded s a := by
  rintro ⟨w, hw, hb⟩
  rw [hv] at hw; cases hw
  exact hs hb

/-- C10, as stated, fails in its frame: with `MaxValidators = 1`, X Bonded as
cliff validator and Z stored Unbonded, the update of Z with a key ranking below
the cliff power completes and increments the global intra-tx counter, which is
neither Z's record nor its power-index entry. -/
theorem below_cliff_counterexample :
    ConsistentFull (envAt 1) stateXZ ∧ PowerIndexSorted stateXZ ∧
    stateXZ.validators 2 = some (mkValidator 2 1 BondStatus.Unbonded false) ∧
    (∀ cp, stateXZ.cliffPower = some cp →
      (GetValidatorsByPowerIndexKey
        { mkValidator 2 1 BondStatus.Unbonded false with
          BondHeight := (envAt 1).blockHeight,
          BondIntraTxCounter := stateXZ.intraTxCounter }).ranksBelow cp = true) ∧
    ∃ r, REFERENCEXXXDELETEUpdateValidator (envAt 1) stateXZ
        (mkValidator 2 1 BondStatus.Unbonded false) = some r ∧
      r.2.intraTxCounter ≠ stateXZ.intraTxCounter := by
  refine ⟨stateXZ_consistentFull, by unfold PowerIndexSorted; decide, rfl, ?_, ?_⟩
  · intro cp hcp
    have h2 : some (GetValidatorsByPowerIndexKey (mkValidator 1 10 BondStatus.Bonded false))
        = some cp := hcp
    cases h2
    decide
  · have hev : (REFERENCEXXXDELETEUpdateValidator (envAt 1) stateXZ
        (mkValidator 2 1 BondStatus.Unbonded false)).map (fun r => r.2.intraTxCounter)
        = some 1 := rfl
    cases hr : REFERENCEXXXDELETEUpdateValidator (envAt 1) stateXZ
        (mkValidator 2 1 BondStatus.Unbonded false) with
    | none => rw [hr] at hev; cases hev
    | some r =>
      rw [hr] at hev
      simp only [Option.map_some', Option.some.injEq] at hev
      refine ⟨r, rfl, ?_⟩
      rw [hev]
      decide

/-- C10 (below-cliff updates admit nobody), amended: in a consistent state
with a defined Cliff Tracker, the single-validator update of a validator that
is new or not Bonded (Unbonded or Unbonding) and whose new key ranks strictly
below the cliff power completes; every other validator's record, the
bonded-membership index, the Cliff Tracker, the update buffer and the pool are
unchanged and the validator keeps the status of the input record; what changes
is the validator's own record, its power-index entry and the global intra-tx
counter, which is incremented. -/
theorem below_cliff_update (env : Env) (s : State) (A : Validator)
    (hc : ConsistentFull env s) (hso : PowerIndexSorted s)
    (hnb : ¬ IsBonded s A.OperatorAddr)
    (hlt : ∀ cp, s.cliffPower = some cp →
      (GetValidatorsByPowerIndexKey
        { A with BondHeight := env.blockHeight,
                 BondIntraTxCounter := s.intraTxCounter }).ranksBelow cp = true) :
    ∃ r, REFERENCEXXXDELETEUpdateValidator env s A = some r ∧
      r.1 = { A with BondHeight := env.blockHeight, BondIntraTxCounter := s.intraTxCounter } ∧
      r.2.validators A.OperatorAddr = some r.1 ∧ r.1.Status = A.Status ∧
      (∀ a, a ≠ A.OperatorAddr → r.2.validators a = s.validators a) ∧
      r.2.bondedIndex = s.bondedIndex ∧ r.2.cliffAddr = s.cliffAddr ∧
      r.2.cliffPower = s.cliffPower ∧ r.2.updates = s.updates ∧ r.2.pool = s.pool ∧
      r.2.powerIndex = powerIndexSet
        (GetValidatorsByPowerIndexKey
          { A with BondHeight := env.blockHeight, BondIntraTxCounter := s.intraTxCounter })
        A.OperatorAddr
        (if (s.validators A.OperatorAddr).isSome = true then
          powerIndexDelete (GetValidatorsByPowerIndexKey
            ((s.validators A.OperatorAddr).getD Validator.zero)) s.powerIndex
         else s.powerIndex) ∧
      r.2.intraTxCounter = int16Succ s.intraTxCounter := by
  refine ⟨_, update_below_cliff_eq env s A hc hso hnb hlt, rfl, ?_, rfl, ?_, rfl, rfl, rfl,
    rfl, rfl, rfl, rfl⟩
  · simp [SetValidator]
  · intro a ha
    simp [SetValidator, ha]

theorem below_cliff_update_witness :
    ∃ r, REFERENCEXXXDELETEUpdateValidator (envAt 2) stateXYU
        (mkValidator 3 4 BondStatus.Unbonding false) = some r ∧
      r.1 = { mkValidator 3 4 BondStatus.Unbonding false with
              BondHeight := 5, BondIntraTxCounter := 0 } ∧
      r.2.validators 3 = some r.1 ∧ r.1.Status = BondStatus.Unbonding ∧
      (∀ a, a ≠ 3 → r.2.validators a = stateXYU.validators a) ∧
      r.2.bondedIndex = stateXYU.bondedIndex ∧ r.2.cliffAddr = stateXYU.cliffAddr ∧
      r.2.cliffPower = stateXYU.cliffPower ∧ r.2.updates = stateXYU.updates ∧
      r.2.pool = stateXYU.pool ∧
      r.2.powerIndex = powerIndexSet
        (GetValidatorsByPowerIndexKey
          { mkValidator 3 4 BondStatus.Unbonding false with
            BondHeight := 5, BondIntraTxCounter := 0 })
        3
        (if (stateXYU.validators 3).isSome = true then
          powerIndexDelete (GetValidatorsByPowerIndexKey
            ((stateXYU.validators 3).getD Validator.zero)) stateXYU.powerIndex
         else stateXYU.powerIndex) ∧
      r.2.intraTxCounter = int16Succ stateXYU.intraTxCounter :=
  below_cliff_update (envAt 2) stateXYU (mkValidator 3 4 BondStatus.Unbonding false)
    stateXYU_consistentFull (by unfold PowerIndexSorted; decide)
    (not_isBonded_of_status (v := mkValidator 3 5 BondStatus.Unbonding false) rfl (by decide))
    (by
      intro cp hcp
      have h2 : some (GetValidatorsByPowerIndexKey (mkValidator 2 8 BondStatus.Bonded false))
          = some cp := hcp
      cases h2
      decide)

/-- The model of `bondValidator` that keeps the stores at a panic agrees with
`bondValidator`. -/
theorem bondValidatorRun_eq (env : Env) (s : State) (v : Validator) :
    bondValidator env s v =
      (bondValidatorRun env s v).1.map (fun w => (w, (bondValidatorRun env s v).2)) := by
  unfold bondValidator bondValidatorRun
  split_ifs with h <;> rfl

/-- The model of `beginUnbondingValidator` that keeps the stores at a panic
agrees with `beginUnbondingValidator`. -/
theorem beginUnbondingValidatorRun_eq (env : Env) (s : State) (v : Validator) :
    beginUnbondingValidator env s v =
      (beginUnbondingValidatorRun env s v).1.map
        (fun w => (w, (beginUnbondingValidatorRun env s v).2)) := by
  unfold beginUnbondingValidator beginUnbondingValidatorRun
  split_ifs with h <;> rfl

/-- C15: for every validator `v` with status Bonded, `beginUnbondingValidator`
returns and stores `v` with status Unbonding, `UnbondingMinTime` the block time
plus `UnbondingTime` and `UnbondingHeight` the block height, sets the
update-buffer entry of `v` to zero and removes `v` from the bonded index; every
other validator record, every other update-buffer entry, every other member of
the bonded index, the power index and the Cliff Tracker are unchanged. -/
theorem unbonding_transition_effect (env : Env) (s : State) (v : Validator)
    (h : v.Status = BondStatus.Bonded) :
    ∃ r, beginUnbondingValidator env s v = some r ∧
      r.1 = { v with Status := BondStatus.Unbonding,
                     UnbondingMinTime := env.blockTime + env.unbondingTime,
                     UnbondingHeight := env.blockHeight } ∧
      r.2.validators v.OperatorAddr = some r.1 ∧
      r.2.updates v.OperatorAddr = some 0 ∧
      v.OperatorAddr ∉ r.2.bondedIndex ∧
      (∀ a, a ≠ v.OperatorAddr → r.2.validators a = s.validators a) ∧
      (∀ a, a ≠ v.OperatorAddr → r.2.updates a = s.updates a) ∧
      (∀ a, a ≠ v.OperatorAddr → (a ∈ r.2.bondedIndex ↔ a ∈ s.bondedIndex)) ∧
      r.2.powerIndex = s.powerIndex ∧ r.2.cliffAddr = s.cliffAddr ∧
      r.2.cliffPower = s.cliffPower := by
  refine ⟨(unbondingRecord env v, unbondState env s v), ?_, rfl, ?_, ?_, ?_, ?_, ?_, ?_,
    rfl, rfl, rfl⟩
  · rw [beginUnbondingValidator_eq, if_pos h]
  · simp [unbondState, unbondingRecord]
  · simp [unbondState]
  · simp [unbondState]
  · intro a ha; simp [unbondState, ha]
  · intro a ha; simp [unbondState, ha]
  · intro a ha; simp [unbondState, ha]

theorem unbonding_transition_effect_witness :
    ∃ r, beginUnbondingValidator (envAt 2) stateXY (mkValidator 2 8 BondStatus.Bonded false)
        = some r ∧
      r.1 = { mkValidator 2 8 BondStatus.Bonded false with
              Status := BondStatus.Unbonding,
              UnbondingMinTime := (envAt 2).blockTime + (envAt 2).unbondingTime,
              UnbondingHeight := (envAt 2).blockHeight } ∧
      r.2.validators (mkValidator 2 8 BondStatus.Bonded false).OperatorAddr = some r.1 ∧
      r.2.updates (mkValidator 2 8 BondStatus.Bonded false).OperatorAddr = some 0 ∧
      (mkValidator 2 8 BondStatus.Bonded false).OperatorAddr ∉ r.2.bondedIndex ∧
      (∀ a, a ≠ (mkValidator 2 8 BondStatus.Bonded false).OperatorAddr →
        r.2.validators a = stateXY.validators a) ∧
      (∀ a, a ≠ (mkValidator 2 8 BondStatus.Bonded false).OperatorAddr →
        r.2.updates a = stateXY.updates a) ∧
      (∀ a, a ≠ (mkValidator 2 8 BondStatus.Bonded false).OperatorAddr →
        (a ∈ r.2.bondedIndex ↔ a ∈ stateXY.bondedIndex)) ∧
      r.2.powerIndex = stateXY.powerIndex ∧ r.2.cliffAddr = stateXY.cliffAddr ∧
      r.2.cliffPower = stateXY.cliffPower :=
  unbonding_transition_effect (envAt 2) stateXY (mkValidator 2 8 BondStatus.Bonded false) rfl

/-- C16: `bondValidator` on a validator that is already Bonded, and
`beginUnbondingValidator` on a validator that is Unbonded or Unbonding, panic,
and the stores at the panic are the stores of the call: nothing was written to
the validator table, the pool, the bonded index or the update buffer; for
every other status the transition does not panic. -/
theorem guard_violation_fatal_without_write :
    (∀ (env : Env) (s : State) (v : Validator), v.Status = BondStatus.Bonded →
      bondValidator env s v = none ∧ bondValidatorRun env s v = (none, s)) ∧
    (∀ (env : Env) (s : State) (v : Validator),
      v.Status = BondStatus.Unbonded ∨ v.Status = BondStatus.Unbonding →
      beginUnbondingValidator env s v = none ∧
        beginUnbondingValidatorRun env s v = (none, s)) ∧
    (∀ (env : Env) (s : State) (v : Validator), v.Status ≠ BondStatus.Bonded →
      (bondValidator env s v).isSome = true ∧ (bondValidatorRun env s v).1.isSome = true) ∧
    (∀ (env : Env) (s : State) (v : Validator),
      ¬ (v.Status = BondStatus.Unbonded ∨ v.Status = BondStatus.Unbonding) →
      (beginUnbondingValidator env s v).isSome = true ∧
        (beginUnbondingValidatorRun env s v).1.isSome = true) := by
  refine ⟨?_, ?_, ?_, ?_⟩
  · intro env s v h
    constructor
    · unfold bondValidator; rw [if_pos h]
    · unfold bondValidatorRun; rw [if_pos h]
  · intro env s v h
    constructor
    · unfold beginUnbondingValidator; rw [if_pos h]
    · unfold beginUnbondingValidatorRun; rw [if_pos h]
  · intro env s v h
    constructor
    · unfold bondValidator; rw [if_neg h]; rfl
    · unfold bondValidatorRun; rw [if_neg h]; rfl
  · intro env s v h
    constructor
    · unfold beginUnbondingValidator; rw [if_neg h]; rfl
    · unfold beginUnbondingValidatorRun; rw [if_neg h]; rfl

theorem guard_violation_fatal_without_write_witness :
    (bondValidator (envAt 2) stateXY (mkValidator 1 10 BondStatus.Bonded false) = none ∧
      bondValidatorRun (envAt 2) stateXY (mkValidator 1 10 BondStatus.Bonded false)
        = (none, stateXY)) ∧
    (beginUnbondingValidator (envAt 2) stateXYU (mkValidator 3 5 BondStatus.Unbonding false)
        = none ∧
      beginUnbondingValidatorRun (envAt 2) stateXYU (mkValidator 3 5 BondStatus.Unbonding false)
        = (none, stateXYU)) ∧
    ((bondValidator (envAt 2) stateXYU (mkValidator 3 5 BondStatus.Unbonding false)).isSome
        = true ∧
      (bondValidatorRun (envAt 2) stateXYU
        (mkValidator 3 5 BondStatus.Unbonding false)).1.isSome = true) ∧
    ((beginUnbondingValidator (envAt 2) stateXY
        (mkValidator 1 10 BondStatus.Bonded false)).isSome = true ∧
      (beginUnbondingValidatorRun (envAt 2) stateXY
        (mkValidator 1 10 BondStatus.Bonded false)).1.isSome = true) :=
  ⟨guard_violation_fatal_without_write.1 (envAt 2) stateXY
      (mkValidator 1 10 BondStatus.Bonded false) rfl,
    guard_violation_fatal_without_write.2.1 (envAt 2) stateXYU
      (mkValidator 3 5 BondStatus.Unbonding false) (Or.inr rfl),
    guard_violation_fatal_without_write.2.2.1 (envAt 2) stateXYU
      (mkValidator 3 5 BondStatus.Unbonding false) (by decide),
    guard_violation_fatal_without_write.2.2.2 (envAt 2) stateXY
      (mkValidator 1 10 BondStatus.Bonded false) (by decide)⟩

/-- C17 fails on the code: `bondValidator` has no check of the jailed flag.
Called on the jailed, Unbonding validator 2 of `stateJailedCandidate` (the call
the full recomputation makes at line 344) it does not panic: it returns the
record with status Bonded, stores it, adds the validator to the bonded index
and writes its power to the update buffer. -/
theorem bond_jailed_not_fatal :
    stateJailedCandidate.validators 2 = some (mkValidator 2 5 BondStatus.Unbonding true) ∧
    ∃ r, bondValidator (envAt 2) stateJailedCandidate
        (mkValidator 2 5 BondStatus.Unbonding true) = some r ∧
      r.1.Jailed = true ∧ r.1.Status = BondStatus.Bonded ∧
      r.2.validators 2 = some r.1 ∧
      2 ∉ stateJailedCandidate.bondedIndex ∧ 2 ∈ r.2.bondedIndex ∧
      stateJailedCandidate.updates 2 = none ∧ r.2.updates 2 = some 5 := by
  refine ⟨rfl, _, bondValidator_eq _ _ _, rfl, rfl, ?_, by decide, ?_, rfl, ?_⟩
  · simp [bondState, bondedRecord, mkValidator]
  · simp [bondState, mkValidator, stateJailedCandidate, mkState]
  · simp [bondState, mkValidator]

/-- The outcomes of the switch of the single-validator update, with the
stores of each: the power of a Bonded validator increased; the validator is
below the cliff power and nothing happens; the bonded group was scanned and
nobody was bonded; the bonded group was scanned and a validator was bonded. -/
theorem switch_outcomes (env : Env) (s : State) (oldFound : Bool) (old v : Validator)
    (pi : Bool) (valPower : PowerKey) (r : Validator × State)
    (h : updateValidatorSwitch env s oldFound old v pi valPower = some r) :
    (pi = true ∧ v.Jailed = false ∧ oldFound = true ∧ old.Status = BondStatus.Bonded ∧
      r.1 = v ∧ CliffOnly (setUpdate s v.OperatorAddr v.ABCIValidator) r.2) ∨
    (¬ (oldFound = true ∧ old.Status = BondStatus.Bonded) ∧ r = (v, s)) ∨
    (∃ sc, CliffOnly s sc ∧
      XXXREFERENCEUpdateBondedValidators env s v = some ((Validator.zero, false), sc) ∧
      r.1 = v ∧
      ((¬ (oldFound = true ∧ v.BondedTokens < old.BondedTokens) ∧ r.2 = sc) ∨
       (oldFound = true ∧ v.BondedTokens < old.BondedTokens ∧
         r.2 = setUpdate sc v.OperatorAddr v.ABCIValidator))) ∨
    (∃ res, XXXREFERENCEUpdateBondedValidators env s v = some res ∧ res.1.2 = true ∧
      r = (res.1.1, res.2)) := by
  unfold updateValidatorSwitch at h
  simp only [] at h
  split at h
  · rename_i hc
    left
    refine ⟨hc.1, hc.2.1, hc.2.2.1, hc.2.2.2, ?_⟩
    split at h
    · cases hu : updateCliffValidator (setUpdate s v.OperatorAddr v.ABCIValidator) v with
      | none => simp [hu] at h
      | some s2 =>
        simp only [hu, Option.some.injEq] at h
        subst h
        simp only [updateCliffValidator] at hu
        split at hu
        · cases hu
        · simp only [Option.some.injEq] at hu
          subst hu
          exact ⟨rfl, _, _, rfl⟩
    · simp only [Option.some.injEq] at h
      subst h
      exact ⟨rfl, cliffOnly_refl _⟩
  · split at h
    · rename_i hc2
      right; left
      simp only [Option.some.injEq] at h
      refine ⟨?_, h.symm⟩
      rintro ⟨h1, _⟩
      rw [h1] at hc2
      exact absurd hc2.2.1 (by simp)
    · split at h
      · rename_i hc3
        right; left
        simp only [Option.some.injEq] at h
        refine ⟨?_, h.symm⟩
        rintro ⟨_, h2⟩
        rw [hc3.2.1.2] at h2
        cases h2
      · right; right
        cases hu : XXXREFERENCEUpdateBondedValidators env s v with
        | none => simp [hu] at h
        | some res =>
          simp only [hu] at h
          obtain ⟨sc, hco, hres⟩ := updateBonded_cases env s v res hu
          by_cases hup : res.1.2 = true
          · right
            simp only [hup, if_true, Option.some.injEq] at h
            exact ⟨res, rfl, hup, h.symm⟩
          · left
            have hsc : res = ((Validator.zero, false), sc) := by
              rcases hres with hres | ⟨tb, _, _, _, hres⟩
              · exact hres
              · rcases hres with ⟨_, hres⟩ | ⟨_, _, _, _, _, _, hres⟩ | ⟨_, _, _, _, hres⟩ <;>
                  (rw [hres] at hup; simp at hup)
            rw [if_neg hup] at h
            refine ⟨sc, hco, congrArg some hsc, ?_⟩
            by_cases hdec : oldFound = true ∧ v.BondedTokens < old.BondedTokens
            · rw [if_pos hdec, Option.some.injEq] at h
              subst h
              rw [hsc]
              exact ⟨rfl, Or.inr ⟨hdec.1, hdec.2, rfl⟩⟩
            · rw [if_neg hdec, Option.some.injEq] at h
              subst h
              rw [hsc]
              exact ⟨rfl, Or.inl ⟨hdec, rfl⟩⟩

/-- The single-validator update up to the switch: the validator starts
unbonding when it is reported jailed while Bonded; the tie-break fields are
those of the stored record when it is Bonded and are refreshed otherwise, the
global counter being incremented; the power index is re-keyed; the record the
switch returns is persisted. -/
theorem update_shape (env : Env) (s : State) (A : Validator) (r : Validator × State)
    (h : REFERENCEXXXDELETEUpdateValidator env s A = some r) :
    ∃ s1 v1,
      ((A.Jailed = true ∧ IsBonded s A.OperatorAddr ∧ A.Status = BondStatus.Bonded ∧
          v1 = unbondingRecord env A ∧ s1 = clearCliffValidator (unbondState env s A)) ∨
       (¬ (A.Jailed = true ∧ IsBonded s A.OperatorAddr) ∧ v1 = A ∧ s1 = s)) ∧
      ∃ c bh bc idx,
        ((IsBonded s A.OperatorAddr ∧ c = s.intraTxCounter ∧
            ∃ old, s.validators A.OperatorAddr = some old ∧ bh = old.BondHeight ∧
              bc = old.BondIntraTxCounter) ∨
         (¬ IsBonded s A.OperatorAddr ∧ c = int16Succ s.intraTxCounter ∧
            bh = env.blockHeight ∧ bc = s.intraTxCounter)) ∧
        ∃ pi k w,
          updateValidatorSwitch env { s1 with intraTxCounter := c, powerIndex := idx }
            (s.validators A.OperatorAddr).isSome
            ((s.validators A.OperatorAddr).getD Validator.zero)
            { v1 with BondHeight := bh, BondIntraTxCounter := bc } pi k = some w ∧
          r = (w.1, SetValidator w.2 w.1) := by
  unfold REFERENCEXXXDELETEUpdateValidator at h
  simp only [GetValidator] at h
  cases hj : updateForJailing env s (s.validators A.OperatorAddr).isSome
      ((s.validators A.OperatorAddr).getD Validator.zero) A with
  | none => simp [hj] at h
  | some j =>
    simp only [hj] at h
    obtain ⟨j1, j2⟩ := j
    have hjcase : (A.Jailed = true ∧ IsBonded s A.OperatorAddr ∧ A.Status = BondStatus.Bonded ∧
          j1 = unbondingRecord env A ∧ j2 = clearCliffValidator (unbondState env s A)) ∨
       (¬ (A.Jailed = true ∧ IsBonded s A.OperatorAddr) ∧ j1 = A ∧ j2 = s) := by
      unfold updateForJailing at hj
      by_cases hc : A.Jailed = true ∧ (s.validators A.OperatorAddr).isSome = true ∧
          ((s.validators A.OperatorAddr).getD Validator.zero).Status = BondStatus.Bonded
      · rw [if_pos hc, beginUnbondingValidator_eq] at hj
        have hb := (isBonded_iff_old s A.OperatorAddr).1 hc.2
        by_cases hab : A.Status = BondStatus.Bonded
        · simp only [hab, if_true, Option.some.injEq, Prod.mk.injEq] at hj
          exact Or.inl ⟨hc.1, hb, hab, hj.1.symm, hj.2.symm⟩
        · simp [hab] at hj
      · rw [if_neg hc] at hj
        simp only [Option.some.injEq, Prod.mk.injEq] at hj
        refine Or.inr ⟨?_, hj.1.symm, hj.2.symm⟩
        rintro ⟨h1, h2⟩
        exact hc ⟨h1, (isBonded_iff_old s A.OperatorAddr).2 h2⟩
    have hcnt : j2.intraTxCounter = s.intraTxCounter := by
      rcases hjcase with ⟨_, _, _, _, h2⟩ | ⟨_, _, h2⟩ <;> rw [h2] <;> rfl
    refine ⟨j2, j1, hjcase, ?_⟩
    by_cases hb : (s.validators A.OperatorAddr).isSome = true ∧
        ((s.validators A.OperatorAddr).getD Validator.zero).Status = BondStatus.Bonded
    · have hB := (isBonded_iff_old s A.OperatorAddr).1 hb
      obtain ⟨old, hold, hob⟩ := hB
      simp only [bondIncrement, if_pos hb, updateValidatorPower] at h
      split at h
      · cases h
      · rename_i w hsw
        simp only [Option.some.injEq] at h
        refine ⟨s.intraTxCounter, ?bh, ?bc, ?idx, ?hcase, ?pi, ?k, w, ?hsw, h.symm⟩
        case hsw => rw [← hcnt]; exact hsw
        case hcase =>
          refine Or.inl ⟨⟨old, hold, hob⟩, rfl, old, hold, ?_, ?_⟩
          · rw [hold]; rfl
          · rw [hold]; rfl
    · have hB : ¬ IsBonded s A.OperatorAddr := fun hB =>
        hb ((isBonded_iff_old s A.OperatorAddr).2 hB)
      simp only [bondIncrement, if_neg hb, updateValidatorPower] at h
      split at h
      · cases h
      · rename_i w hsw
        simp only [Option.some.injEq] at h
        refine ⟨int16Succ s.intraTxCounter, ?bh2, ?bc2, ?idx2, ?hcase2, ?pi2, ?k2, w, ?hsw2,
          h.symm⟩
        case hsw2 => rw [← hcnt]; exact hsw
        case hcase2 => exact Or.inr ⟨hB, rfl, rfl, hcnt⟩

theorem cliffOnly_updates {s t : State} (h : CliffOnly s t) : t.updates = s.updates := by
  obtain ⟨ca, cp, rfl⟩ := h; rfl

theorem cliffOnly_counter {s t : State} (h : CliffOnly s t) :
    t.intraTxCounter = s.intraTxCounter := by
  obtain ⟨ca, cp, rfl⟩ := h; rfl

theorem cliffOnly_validators {s t : State} (h : CliffOnly s t) : t.validators = s.validators := by
  obtain ⟨ca, cp, rfl⟩ := h; rfl

/-- C14: for every state with a validator table keyed by operator address and
every validator that is Bonded before the call, after a non-aborting
single-validator update that reports it jailed the stored status of that
validator is Unbonding and the update-buffer entry of its identity is zero,
whether or not another validator was bonded in the same call. -/
theorem jailed_reported_zero (env : Env) (s : State) (A : Validator) (r : Validator × State)
    (hwf : TableWF s) (hb : IsBonded s A.OperatorAddr) (hj : A.Jailed = true)
    (h : REFERENCEXXXDELETEUpdateValidator env s A = some r) :
    r.2.validators A.OperatorAddr = some r.1 ∧ r.1.Status = BondStatus.Unbonding ∧
      r.2.updates A.OperatorAddr = some 0 := by
  obtain ⟨s1, v1, hjc, c, bh, bc, idx, _, pi, k, w, hsw, hr⟩ := update_shape env s A r h
  rcases hjc with ⟨_, _, _, hv1, hs1⟩ | ⟨hno, _, _⟩
  swap
  · exact absurd ⟨hj, hb⟩ hno
  subst hv1 hs1
  rcases switch_outcomes env _ _ _ _ _ _ w hsw with
    ⟨_, hnj, _⟩ | ⟨_, hw⟩ | ⟨sc, hco, _, hw1, hw2⟩ | ⟨res, hres, hup, hw⟩
  · have : A.Jailed = false := hnj
    rw [hj] at this; cases this
  · subst hw; subst hr
    refine ⟨?_, rfl, ?_⟩
    · simp [SetValidator, unbondingRecord]
    · simp [SetValidator, clearCliffValidator, unbondState]
  · subst hr
    have hupd : sc.updates A.OperatorAddr = some 0 := by
      rw [cliffOnly_updates hco]
      simp [clearCliffValidator, unbondState]
    rw [hw1]
    refine ⟨?_, rfl, ?_⟩
    · simp [SetValidator, unbondingRecord]
    · rcases hw2 with ⟨_, hw2⟩ | ⟨_, _, hw2⟩
      · rw [hw2]; simpa [SetValidator] using hupd
      · rw [hw2]
        simp [SetValidator, setUpdate, unbondingRecord, Validator.ABCIValidator,
          Validator.BondedTokens]
  · subst hw; subst hr
    obtain ⟨sc, hco, hcase⟩ := updateBonded_cases env _ _ res hres
    rcases hcase with hcase | ⟨tb, _, htbj, htb, hcase⟩
    · rw [hcase] at hup; simp at hup
    have htba : tb.OperatorAddr ≠ A.OperatorAddr := by
      rcases htb with htb | ⟨a, ha, hva⟩
      · rw [htb] at htbj
        have : A.Jailed = false := htbj
        rw [hj] at this; cases this
      · have ha' : a ≠ A.OperatorAddr := ha
        have hva' : s.validators a = some tb := by
          simpa [clearCliffValidator, unbondState, ha'] using hva
        rw [hwf a tb hva']
        exact ha'
    have hAtb : A.OperatorAddr ≠ tb.OperatorAddr := fun h => htba h.symm
    have hupd : sc.updates A.OperatorAddr = some 0 := by
      rw [cliffOnly_updates hco]
      simp [clearCliffValidator, unbondState]
    rcases hcase with ⟨_, hres2⟩ | ⟨c', vc, hca, _⟩ | ⟨c', hca, _⟩
    · rw [hres2]
      have hne : ¬ tb.OperatorAddr =
          ({ unbondingRecord env A with BondHeight := bh, BondIntraTxCounter := bc } :
            Validator).OperatorAddr := htba
      simp only [if_neg hne]
      refine ⟨?_, rfl, ?_⟩
      · simp [SetValidator, unbondingRecord]
      · simpa [SetValidator, bondState, hAtb] using hupd
    · cases hca
    · cases hca

theorem jailed_reported_zero_witness :
    ∃ r, REFERENCEXXXDELETEUpdateValidator (envAt 2) stateXY
        (mkValidator 2 8 BondStatus.Bonded true) = some r ∧
      r.2.validators (mkValidator 2 8 BondStatus.Bonded true).OperatorAddr = some r.1 ∧
      r.1.Status = BondStatus.Unbonding ∧
      r.2.updates (mkValidator 2 8 BondStatus.Bonded true).OperatorAddr = some 0 := by
  have hev : (REFERENCEXXXDELETEUpdateValidator (envAt 2) stateXY
      (mkValidator 2 8 BondStatus.Bonded true)).isSome = true := rfl
  obtain ⟨r, hr⟩ := Option.isSome_iff_exists.1 hev
  exact ⟨r, hr, jailed_reported_zero (envAt 2) stateXY _ r (tableWF_mkState _ _ _ _ _)
    ⟨mkValidator 2 8 BondStatus.Bonded false, rfl, rfl⟩ rfl hr⟩

/-- For every single-validator update on a validator whose stored record and
whose input record have status Bonded, the record stored after the call carries
the `BondHeight` and the `BondIntraTxCounter` stored before the call, whatever
values the input record carried, and the global intra-tx counter is
unchanged. -/
theorem tiebreak_kept_of_bonded_input (env : Env) (s : State) (A old : Validator)
    (r : Validator × State) (hwf : TableWF s)
    (hold : s.validators A.OperatorAddr = some old) (hob : old.Status = BondStatus.Bonded)
    (hA : A.Status = BondStatus.Bonded)
    (h : REFERENCEXXXDELETEUpdateValidator env s A = some r) :
    r.2.validators A.OperatorAddr = some r.1 ∧ r.1.BondHeight = old.BondHeight ∧
      r.1.BondIntraTxCounter = old.BondIntraTxCounter ∧
      r.2.intraTxCounter = s.intraTxCounter := by
  obtain ⟨s1, v1, hjc, c, bh, bc, idx, hbi, pi, k, w, hsw, hr⟩ := update_shape env s A r h
  have hB : IsBonded s A.OperatorAddr := ⟨old, hold, hob⟩
  rcases hbi with ⟨_, hc, old2, hold2, hbh, hbc⟩ | ⟨hnb, _⟩
  swap
  · exact absurd hB hnb
  rw [hold] at hold2
  cases hold2
  subst hc hbh hbc
  -- facts about the record and the stores before the switch
  have hv1a : v1.OperatorAddr = A.OperatorAddr := by
    rcases hjc with ⟨_, _, _, hv1, _⟩ | ⟨_, hv1, _⟩ <;> rw [hv1] <;> rfl
  have hs1c : s1.intraTxCounter = s.intraTxCounter := by
    rcases hjc with ⟨_, _, _, _, hs1⟩ | ⟨_, _, hs1⟩ <;> rw [hs1] <;> rfl
  have hv1s : v1.Status ≠ BondStatus.Bonded → v1.Jailed = true := by
    rcases hjc with ⟨hj, _, _, hv1, _⟩ | ⟨_, hv1, _⟩
    · intro _; rw [hv1]; exact hj
    · intro hne; rw [hv1] at hne; exact absurd hA hne
  have hs1v : ∀ a, a ≠ A.OperatorAddr → s1.validators a = s.validators a := by
    rcases hjc with ⟨_, _, _, _, hs1⟩ | ⟨_, _, hs1⟩
    · intro a ha; rw [hs1]; simp [clearCliffValidator, unbondState, ha]
    · intro a _; rw [hs1]
  rcases switch_outcomes env _ _ _ _ _ _ w hsw with
    ⟨_, _, _, _, hw1, hco⟩ | ⟨_, hw⟩ | ⟨sc, hco, _, hw1, hw2⟩ | ⟨res, hres, hup, hw⟩
  · subst hr
    rw [hw1]
    refine ⟨?_, rfl, rfl, ?_⟩
    · simp [SetValidator, hv1a]
    · have := cliffOnly_counter hco
      simpa [SetValidator, setUpdate] using this
  · subst hw; subst hr
    refine ⟨?_, rfl, rfl, rfl⟩
    simp [SetValidator, hv1a]
  · subst hr
    rw [hw1]
    refine ⟨?_, rfl, rfl, ?_⟩
    · simp [SetValidator, hv1a]
    · have := cliffOnly_counter hco
      rcases hw2 with ⟨_, hw2⟩ | ⟨_, _, hw2⟩ <;> rw [hw2] <;>
        simpa [SetValidator, setUpdate] using this
  · subst hw; subst hr
    obtain ⟨sc, hco, hcase⟩ := updateBonded_cases env _ _ res hres
    have hscc := cliffOnly_counter hco
    rcases hcase with hcase | ⟨tb, htbs, htbj, htb, hcase⟩
    · rw [hcase] at hup; simp at hup
    have htba : tb.OperatorAddr ≠ A.OperatorAddr := by
      rcases htb with htb | ⟨a, ha, hva⟩
      · rw [htb] at htbs htbj
        have h1 : v1.Jailed = true := hv1s htbs
        have h2 : v1.Jailed = false := htbj
        rw [h1] at h2; cases h2
      · have ha' : a ≠ A.OperatorAddr := by
          intro hEq; exact ha (by rw [hEq]; exact hv1a.symm)
        have hva' : s.validators a = some tb := by
          rw [← hs1v a ha']; exact hva
        rw [hwf a tb hva']
        exact ha'
    have hne : ¬ tb.OperatorAddr =
        ({ v1 with BondHeight := old.BondHeight,
                   BondIntraTxCounter := old.BondIntraTxCounter } : Validator).OperatorAddr := by
      intro hEq; exact htba (hEq.trans hv1a)
    rcases hcase with ⟨_, hres2⟩ | ⟨c', vc, _, _, _, htbaff, _⟩ | ⟨c', _, _, _, hres2⟩
    · rw [hres2, if_neg hne]
      refine ⟨?_, rfl, rfl, ?_⟩
      · simp [SetValidator, hv1a]
      · simpa [SetValidator, bondState] using hscc
    · exact absurd htbaff hne
    · rw [hres2]
      refine ⟨?_, rfl, rfl, ?_⟩
      · simp [SetValidator, unbondingRecord, hv1a]
      · simpa [SetValidator, bondState, unbondState] using hscc

/-- C19, as stated, fails: the validator Z of `stateXZ` is stored Unbonded with
`BondHeight` 0 and stays Unbonded through an update with a power below the
cliff power, yet the update (at height 5) stores `BondHeight` 5 and increments
the global intra-tx counter. -/
theorem tiebreak_refresh_counterexample :
    stateXZ.validators 2 = some (mkValidator 2 1 BondStatus.Unbonded false) ∧
    ∃ r, REFERENCEXXXDELETEUpdateValidator (envAt 1) stateXZ
        (mkValidator 2 1 BondStatus.Unbonded false) = some r ∧
      r.1.Status = BondStatus.Unbonded ∧ r.2.validators 2 = some r.1 ∧
      r.1.BondHeight ≠ (mkValidator 2 1 BondStatus.Unbonded false).BondHeight ∧
      r.2.intraTxCounter ≠ stateXZ.intraTxCounter := by
  refine ⟨rfl, ?_⟩
  have hev : (REFERENCEXXXDELETEUpdateValidator (envAt 1) stateXZ
      (mkValidator 2 1 BondStatus.Unbonded false)).map
      (fun r => (r.1.Status, r.1.BondHeight, r.2.intraTxCounter, r.2.validators 2 == some r.1))
      = some (BondStatus.Unbonded, 5, 1, true) := rfl
  cases hr : REFERENCEXXXDELETEUpdateValidator (envAt 1) stateXZ
      (mkValidator 2 1 BondStatus.Unbonded false) with
  | none => rw [hr] at hev; cases hev
  | some r =>
    rw [hr] at hev
    simp only [Option.map_some', Option.some.injEq, Prod.mk.injEq, beq_iff_eq] at hev
    obtain ⟨h1, h2, h3, h4⟩ := hev
    refine ⟨r, rfl, h1, h4, ?_, ?_⟩
    · rw [h2]; decide
    · rw [h3]; decide

/-- C19, amended: for every single-validator update on an existing validator
that is not Bonded before the call and not Bonded after it, the record stored
after the call carries the current block height as `BondHeight` and the value
the global intra-tx counter had before the call as `BondIntraTxCounter`, and
the global counter is incremented by one (in 16-bit arithmetic). -/
theorem tiebreak_refreshed_when_not_bonded (env : Env) (s : State) (A old : Validator)
    (r : Validator × State)
    (hold : s.validators A.OperatorAddr = some old) (hob : old.Status ≠ BondStatus.Bonded)
    (h : REFERENCEXXXDELETEUpdateValidator env s A = some r)
    (hafter : r.1.Status ≠ BondStatus.Bonded) :
    r.2.validators A.OperatorAddr = some r.1 ∧ r.1.BondHeight = env.blockHeight ∧
      r.1.BondIntraTxCounter = s.intraTxCounter ∧
      r.2.intraTxCounter = int16Succ s.intraTxCounter := by
  obtain ⟨s1, v1, hjc, c, bh, bc, idx, hbi, pi, k, w, hsw, hr⟩ := update_shape env s A r h
  have hB : ¬ IsBonded s A.OperatorAddr := not_isBonded_of_status hold hob
  rcases hbi with ⟨hb, _⟩ | ⟨_, hc, hbh, hbc⟩
  · exact absurd hb hB
  rcases hjc with ⟨_, hb, _⟩ | ⟨_, hv1, hs1⟩
  · exact absurd hb hB
  subst hc hbh hbc hv1 hs1
  rcases switch_outcomes env _ _ _ _ _ _ w hsw with
    ⟨_, _, _, _, hw1, hco⟩ | ⟨_, hw⟩ | ⟨sc, hco, _, hw1, hw2⟩ | ⟨res, hres, hup, hw⟩
  · subst hr
    rw [hw1]
    refine ⟨?_, rfl, rfl, ?_⟩
    · simp [SetValidator]
    · have := cliffOnly_counter hco
      simpa [SetValidator, setUpdate] using this
  · subst hw; subst hr
    refine ⟨?_, rfl, rfl, rfl⟩
    simp [SetValidator]
  · subst hr
    rw [hw1]
    refine ⟨?_, rfl, rfl, ?_⟩
    · simp [SetValidator]
    · have := cliffOnly_counter hco
      rcases hw2 with ⟨_, hw2⟩ | ⟨_, _, hw2⟩ <;> rw [hw2] <;>
        simpa [SetValidator, setUpdate] using this
  · subst hw; subst hr
    obtain ⟨sc, hco, hcase⟩ := updateBonded_cases env _ _ res hres
    have hscc := cliffOnly_counter hco
    rcases hcase with hcase | ⟨tb, htbs, htbj, htb, hcase⟩
    · rw [hcase] at hup; simp at hup
    rcases hcase with ⟨_, hres2⟩ | ⟨c', vc, _, _, _, _, hres2⟩ | ⟨c', _, _, _, hres2⟩
    · rw [hres2] at hafter ⊢
      by_cases hEq : tb.OperatorAddr =
          ({ v1 with BondHeight := env.blockHeight,
                     BondIntraTxCounter := s1.intraTxCounter } : Validator).OperatorAddr
      · rw [if_pos hEq] at hafter
        exact absurd rfl hafter
      · rw [if_neg hEq]
        refine ⟨?_, rfl, rfl, ?_⟩
        · simp [SetValidator]
        · simpa [SetValidator, bondState] using hscc
    · rw [hres2] at hafter
      exact absurd rfl hafter
    · rw [hres2]
      refine ⟨?_, rfl, rfl, ?_⟩
      · simp [SetValidator, unbondingRecord]
      · simpa [SetValidator, bondState, unbondState] using hscc

theorem tiebreak_refreshed_when_not_bonded_witness :
    ∃ r, REFERENCEXXXDELETEUpdateValidator (envAt 1) stateXZ
        (mkValidator 2 1 BondStatus.Unbonded false) = some r ∧
      r.2.validators 2 = some r.1 ∧ r.1.BondHeight = (envAt 1).blockHeight ∧
      r.1.BondIntraTxCounter = stateXZ.intraTxCounter ∧
      r.2.intraTxCounter = int16Succ stateXZ.intraTxCounter := by
  have hev : (REFERENCEXXXDELETEUpdateValidator (envAt 1) stateXZ
      (mkValidator 2 1 BondStatus.Unbonded false)).map (fun r => r.1.Status)
      = some BondStatus.Unbonded := rfl
  cases hr : REFERENCEXXXDELETEUpdateValidator (envAt 1) stateXZ
      (mkValidator 2 1 BondStatus.Unbonded false) with
  | none => rw [hr] at hev; cases hev
  | some r =>
    rw [hr] at hev
    simp only [Option.map_some', Option.some.injEq] at hev
    exact ⟨r, rfl, tiebreak_refreshed_when_not_bonded (envAt 1) stateXZ
      (mkValidator 2 1 BondStatus.Unbonded false) (mkValidator 2 1 BondStatus.Unbonded false) r
      rfl (by decide) hr (by rw [hev]; decide)⟩

/-! ### The power index after a re-keying -/

theorem insert_perm (e : PowerKey × Addr) :
    ∀ l : List (PowerKey × Addr), (powerIndexInsert e l).Perm (e :: l)
  | [] => List.Perm.refl _
  | y :: ys => by
    rw [powerIndexInsert]
    split_ifs
    · exact List.Perm.refl _
    · exact ((insert_perm e ys).cons y).trans (List.Perm.swap e y ys)

theorem mem_powerIndexInsert (e x : PowerKey × Addr) (l : List (PowerKey × Addr)) :
    x ∈ powerIndexInsert e l ↔ x = e ∨ x ∈ l := by
  rw [(insert_perm e l).mem_iff, List.mem_cons]

theorem length_powerIndexInsert (e : PowerKey × Addr) (l : List (PowerKey × Addr)) :
    (powerIndexInsert e l).length = l.length + 1 := by
  rw [(insert_perm e l).length_eq, List.length_cons]

theorem nodup_powerIndexInsert (e : PowerKey × Addr) (l : List (PowerKey × Addr))
    (hnd : (l.map Prod.snd).Nodup) (he : e.2 ∉ l.map Prod.snd) :
    ((powerIndexInsert e l).map Prod.snd).Nodup := by
  rw [((insert_perm e l).map Prod.snd).nodup_iff, List.map_cons, List.nodup_cons]
  exact ⟨he, hnd⟩

/-- The entry is put after a prefix of entries that do not rank below it. -/
theorem insert_split (e : PowerKey × Addr) : ∀ l : List (PowerKey × Addr),
    ∃ P R, l = P ++ R ∧ powerIndexInsert e l = P ++ e :: R ∧
      ∀ x ∈ P, x.1.ranksBelow e.1 = false
  | [] => ⟨[], [], rfl, rfl, by simp⟩
  | y :: ys => by
    by_cases hy : y.1.ranksBelow e.1 = true
    · exact ⟨[], y :: ys, rfl, by rw [powerIndexInsert, if_pos hy]; rfl, by simp⟩
    · obtain ⟨P, R, h1, h2, h3⟩ := insert_split e ys
      refine ⟨y :: P, R, by rw [h1]; rfl, by rw [powerIndexInsert, if_neg hy, h2]; rfl, ?_⟩
      intro x hx
      rcases List.mem_cons.1 hx with hx | hx
      · rw [hx]; simpa using hy
      · exact h3 x hx

theorem insert_append_of_not_below (e : PowerKey × Addr) (R : List (PowerKey × Addr)) :
    ∀ P : List (PowerKey × Addr), (∀ x ∈ P, x.1.ranksBelow e.1 = false) →
      powerIndexInsert e (P ++ R) = P ++ powerIndexInsert e R
  | [], _ => rfl
  | y :: ys, h => by
    have hy : ¬ y.1.ranksBelow e.1 = true := by simp [h y (by simp)]
    rw [List.cons_append, powerIndexInsert, if_neg hy,
      insert_append_of_not_below e R ys (fun x hx => h x (by simp [hx]))]
    rfl

theorem insert_append_of_head_below (e : PowerKey × Addr) (R : List (PowerKey × Addr))
    (hR : ∀ x, R.head? = some x → x.1.ranksBelow e.1 = true) :
    ∀ P : List (PowerKey × Addr), powerIndexInsert e (P ++ R) = powerIndexInsert e P ++ R
  | [] => by
    cases R with
    | nil => rfl
    | cons x xs =>
      have := hR x rfl
      simp [powerIndexInsert, this]
  | y :: ys => by
    by_cases hy : y.1.ranksBelow e.1 = true
    · simp [powerIndexInsert, hy]
    · rw [List.cons_append, powerIndexInsert, if_neg hy, insert_append_of_head_below e R hR ys,
        powerIndexInsert, if_neg hy]
      rfl

/-- Under I4 every index entry carries the identity of its validator in its key. -/
theorem i4_owner {s : State} (hwf : TableWF s) (hi4 : PowerIndexConsistent s)
    {e : PowerKey × Addr} (he : e ∈ s.powerIndex) : e.1.Owner = e.2 := by
  obtain ⟨v, hv, hk⟩ := hi4.2.1 e he
  rw [hk]
  exact hwf _ _ hv

/-- Under I4 the re-keying of the validator `a` first removes the one entry of
`a` from the power index. -/
theorem rekey_filter (s : State) (hwf : TableWF s) (hi4 : PowerIndexConsistent s) (a : Addr)
    (k1 : PowerKey) (hk1 : k1.Owner = a) :
    powerIndexDelete k1
      (if (s.validators a).isSome = true then
        powerIndexDelete (GetValidatorsByPowerIndexKey ((s.validators a).getD Validator.zero))
          s.powerIndex
       else s.powerIndex) = s.powerIndex.filter (fun e => decide (e.2 ≠ a)) := by
  cases hold : s.validators a with
  | none =>
    simp only [Option.isSome_none, Bool.false_eq_true, if_false, powerIndexDelete]
    apply List.filter_congr
    intro e he
    have ho := i4_owner hwf hi4 he
    have hne : e.2 ≠ a := by
      intro heq
      obtain ⟨v, hv, _⟩ := hi4.2.1 e he
      rw [heq, hold] at hv; cases hv
    have hk : e.1 ≠ k1 := by
      intro heq
      apply hne
      rw [← ho, heq, hk1]
    simp [hne, hk]
  | some old =>
    simp only [Option.isSome_some, if_true, Option.getD_some, powerIndexDelete, List.filter_filter]
    apply List.filter_congr
    intro e he
    have ho := i4_owner hwf hi4 he
    by_cases hea : e.2 = a
    · obtain ⟨v, hv, hk⟩ := hi4.2.1 e he
      rw [hea, hold] at hv; cases hv
      simp [hea, hk]
    · have hk : e.1 ≠ k1 := by
        intro heq
        apply hea
        rw [← ho, heq, hk1]
      have hk2 : e.1 ≠ GetValidatorsByPowerIndexKey old := by
        intro heq
        apply hea
        rw [← ho, heq]
        exact hwf _ _ hold
      simp [hea, hk, hk2]

theorem length_filter_ne (a : Addr) : ∀ T : List (PowerKey × Addr),
    (T.map Prod.snd).Nodup → a ∈ T.map Prod.snd →
    (T.filter (fun e => decide (e.2 ≠ a))).length + 1 = T.length
  | [], _, h => by simp at h
  | y :: ys, hnd, h => by
    rw [List.map_cons, List.nodup_cons] at hnd
    by_cases hy : y.2 = a
    · have hall : ∀ x ∈ ys, decide (x.2 ≠ a) = true := by
        intro x hx
        simp only [ne_eq, decide_eq_true_eq]
        intro hxa
        exact hnd.1 (by rw [hy, ← hxa]; exact List.mem_map_of_mem Prod.snd hx)
      rw [List.filter_cons_of_neg (by simp [hy]), List.filter_eq_self.2 hall]
      rfl
    · have hmem : a ∈ ys.map Prod.snd := by
        rw [List.map_cons, List.mem_cons] at h
        rcases h with h | h
        · exact absurd h.symm hy
        · exact h
      have := length_filter_ne a ys hnd.2 hmem
      rw [List.filter_cons_of_pos (by simp [hy]), List.length_cons, List.length_cons, this]

/-- Removing the entry of `a`, which is among the first `n` entries, leaves the
other first `n` entries followed by the entries after them. -/
theorem filter_take_drop (l : List (PowerKey × Addr)) (n : Nat) (a : Addr)
    (hnd : (l.map Prod.snd).Nodup) (ha : a ∈ (l.take n).map Prod.snd) :
    l.filter (fun e => decide (e.2 ≠ a)) =
      (l.take n).filter (fun e => decide (e.2 ≠ a)) ++ l.drop n := by
  have hsplit := List.take_append_drop n l
  rw [← hsplit, List.map_append, List.nodup_append] at hnd
  have hall : ∀ x ∈ l.drop n, decide (x.2 ≠ a) = true := by
    intro x hx
    simp only [ne_eq, decide_eq_true_eq]
    intro hxa
    exact hnd.2.2 ha (by rw [← hxa]; exact List.mem_map_of_mem Prod.snd hx)
  conv_lhs => rw [← hsplit]
  rw [List.filter_append, List.filter_eq_self.2 hall]

/-! ### The scan of the single-validator update, step by step -/

/-- One round of the scan, by the record read. -/
theorem bondedScan_cons (env : Env) (s : State) (aff : Validator) (e : PowerKey × Addr)
    (rest : List (PowerKey × Addr)) (acc : BondedScan) (v : Validator)
    (hc : acc.count < env.maxValidators) (hread : scanRead s aff e.2 = some v) :
    bondedScan env s aff (e :: rest) acc =
      if v.Jailed = true then
        if v.Status = BondStatus.Bonded then none else some { acc with validator := v }
      else if v.Status ≠ BondStatus.Bonded then
        if acc.newValidatorBonded = true then none
        else bondedScan env s aff rest
          { validator := v, validatorToBond := v, newValidatorBonded := true,
            count := acc.count + 1 }
      else bondedScan env s aff rest { acc with validator := v, count := acc.count + 1 } := by
  unfold scanRead at hread
  rw [bondedScan]
  simp only [hc, if_true, mustGetValidator, hread]

/-- The scan stops when `MaxValidators` validators are counted. -/
theorem bondedScan_stop (env : Env) (s : State) (aff : Validator)
    (l : List (PowerKey × Addr)) (acc : BondedScan) (hc : ¬ acc.count < env.maxValidators) :
    bondedScan env s aff l acc = some acc := by
  cases l with
  | nil => rfl
  | cons e rest => rw [bondedScan, if_neg hc]

/-- The scan over a prefix of Bonded, non-jailed validators only counts them. -/
theorem bondedScan_bonded_append (env : Env) (s : State) (aff : Validator)
    (rest : List (PowerKey × Addr)) :
    ∀ (P : List (PowerKey × Addr)) (acc : BondedScan),
    (∀ e ∈ P, ∃ v, scanRead s aff e.2 = some v ∧ v.Jailed = false ∧
      v.Status = BondStatus.Bonded) →
    acc.count + P.length ≤ env.maxValidators →
    ∃ v1, bondedScan env s aff (P ++ rest) acc =
        bondedScan env s aff rest { acc with validator := v1, count := acc.count + P.length } ∧
      (P = [] → v1 = acc.validator) ∧
      (∀ e, P.getLast? = some e → scanRead s aff e.2 = some v1) := by
  intro P
  induction P with
  | nil =>
    intro acc _ _
    exact ⟨acc.validator, rfl, fun _ => rfl, by simp⟩
  | cons e P ih =>
    intro acc h hlen
    obtain ⟨v, hv, hj, hb⟩ := h e (by simp)
    have hc : acc.count < env.maxValidators := by
      simp only [List.length_cons] at hlen; omega
    obtain ⟨v1, h1, h2, h3⟩ := ih { acc with validator := v, count := acc.count + 1 }
      (fun e' he' => h e' (by simp [he']))
      (by simp only [List.length_cons] at hlen; simp only []; omega)
    refine ⟨v1, ?_, by simp, ?_⟩
    · rw [List.cons_append, bondedScan_cons env s aff e _ acc v hc hv]
      simp only [hj, hb, Bool.false_eq_true, if_false, ne_eq, not_true_eq_false]
      rw [h1]
      have : acc.count + 1 + P.length = acc.count + (e :: P).length := by
        simp only [List.length_cons]; omega
      simp only [this]
    · intro e' he'
      cases P with
      | nil =>
        simp only [List.getLast?_singleton, Option.some.injEq] at he'
        rw [← he', h2 rfl]
        exact hv
      | cons p ps =>
        rw [List.getLast?_cons_cons] at he'
        exact h3 e' he'

/-- The scan over validators that are each Bonded and not jailed, or jailed and
not Bonded, marks none of them to be bonded. -/
theorem bondedScan_settled (env : Env) (s : State) (aff : Validator) :
    ∀ (l : List (PowerKey × Addr)) (acc : BondedScan),
    (∀ e ∈ l, ∃ v, scanRead s aff e.2 = some v ∧
      ((v.Jailed = false ∧ v.Status = BondStatus.Bonded) ∨
       (v.Jailed = true ∧ v.Status ≠ BondStatus.Bonded))) →
    ∃ r, bondedScan env s aff l acc = some r ∧
      r.newValidatorBonded = acc.newValidatorBonded ∧
      r.validatorToBond = acc.validatorToBond ∧
      (r.validator = acc.validator ∨ ∃ e ∈ l, scanRead s aff e.2 = some r.validator) := by
  intro l
  induction l with
  | nil =>
    intro acc _
    exact ⟨acc, rfl, rfl, rfl, Or.inl rfl⟩
  | cons e rest ih =>
    intro acc h
    by_cases hc : acc.count < env.maxValidators
    swap
    · exact ⟨acc, bondedScan_stop env s aff _ acc hc, rfl, rfl, Or.inl rfl⟩
    obtain ⟨v, hv, hcase⟩ := h e (by simp)
    rw [bondedScan_cons env s aff e rest acc v hc hv]
    rcases hcase with ⟨hj, hb⟩ | ⟨hj, hb⟩
    · simp only [hj, hb, Bool.false_eq_true, if_false, ne_eq, not_true_eq_false]
      obtain ⟨r, h1, h2, h3, h4⟩ := ih { acc with validator := v, count := acc.count + 1 }
        (fun e' he' => h e' (by simp [he']))
      refine ⟨r, h1, h2, h3, Or.inr ?_⟩
      rcases h4 with h4 | ⟨e', he', h4⟩
      · exact ⟨e, by simp, by rw [h4]; exact hv⟩
      · exact ⟨e', by simp [he'], h4⟩
    · simp only [hj, if_true, hb, if_false]
      exact ⟨_, rfl, rfl, rfl, Or.inr ⟨e, by simp, hv⟩⟩

/-! ### The update of the bonded group from the result of its scan -/

theorem updateBonded_of_scan_false (env : Env) (s : State) (aff : Validator) (r : BondedScan)
    (hscan : bondedScan env s aff s.powerIndex
      { validator := Validator.zero, validatorToBond := Validator.zero,
        newValidatorBonded := false, count := 0 } = some r)
    (hn : r.newValidatorBonded = false) :
    XXXREFERENCEUpdateBondedValidators env s aff = some ((Validator.zero, false),
      if r.count = env.maxValidators then setCliffValidator s r.validator
      else if addrNonEmpty s.cliffAddr = true then clearCliffValidator s else s) := by
  unfold XXXREFERENCEUpdateBondedValidators
  simp only [hscan, hn, Bool.false_eq_true, false_and, if_false]

theorem updateBonded_of_scan_spare (env : Env) (s : State) (aff : Validator) (r : BondedScan)
    (hscan : bondedScan env s aff s.powerIndex
      { validator := Validator.zero, validatorToBond := Validator.zero,
        newValidatorBonded := false, count := 0 } = some r)
    (hn : r.newValidatorBonded = true) (hca : s.cliffAddr = none)
    (hne : r.validator.OperatorAddr ≠ 0)
    (hst : r.validatorToBond.Status ≠ BondStatus.Bonded) :
    XXXREFERENCEUpdateBondedValidators env s aff = some
      ((if r.validatorToBond.OperatorAddr = aff.OperatorAddr
          then bondedRecord env r.validatorToBond else aff, true),
       bondState env
         (if r.count = env.maxValidators then setCliffValidator s r.validator else s)
         r.validatorToBond) := by
  have h0 : ¬ (0 = r.validator.OperatorAddr) := fun h => hne h.symm
  unfold XXXREFERENCEUpdateBondedValidators
  simp only [hscan, hn, hca, addrBytesEqual, Option.getD_none, h0, decide_False,
    Bool.false_eq_true, and_false, if_false, addrNonEmpty, if_true, bondValidator_eq, hst,
    bondedRecord_addr]
  by_cases hadd : r.validatorToBond.OperatorAddr = aff.OperatorAddr
  · simp only [hadd, if_true]
  · simp only [hadd, if_false]

theorem updateBonded_of_scan_swap (env : Env) (s : State) (aff : Validator) (r : BondedScan)
    (c : Addr) (vc : Validator)
    (hscan : bondedScan env s aff s.powerIndex
      { validator := Validator.zero, validatorToBond := Validator.zero,
        newValidatorBonded := false, count := 0 } = some r)
    (hn : r.newValidatorBonded = true) (hcnt : r.count = env.maxValidators)
    (hca : s.cliffAddr = some c) (hcne : c ≠ r.validator.OperatorAddr)
    (hvc : s.validators c = some vc)
    (hadd : r.validatorToBond.OperatorAddr ≠ aff.OperatorAddr)
    (haff : aff.Status = BondStatus.Bonded)
    (hst : r.validatorToBond.Status ≠ BondStatus.Bonded) :
    XXXREFERENCEUpdateBondedValidators env s aff = some
      ((unbondingRecord env aff, true),
       bondState env (unbondState env (setCliffValidator s r.validator) aff)
         r.validatorToBond) := by
  have hvc2 : (setCliffValidator s r.validator).validators c = some vc := hvc
  unfold XXXREFERENCEUpdateBondedValidators
  simp only [hscan, hn, hca, addrBytesEqual, Option.getD_some, hcne, decide_False,
    Bool.false_eq_true, and_false, if_false, hcnt, if_true, mustGetValidator, hvc2, hadd,
    beginUnbondingValidator_eq, haff, bondValidator_eq, hst, bondedRecord_addr,
    unbondingRecord_addr]

/-! ### The single-validator update of a Bonded validator, up to the switch -/

theorem update_unfold_bonded (env : Env) (s : State) (A old : Validator)
    (hold : s.validators A.OperatorAddr = some old) (hob : old.Status = BondStatus.Bonded)
    (hj : A.Jailed = false) :
    REFERENCEXXXDELETEUpdateValidator env s A =
      match updateValidatorSwitch env
          { s with powerIndex := (powerIndexSet
              (GetValidatorsByPowerIndexKey
                { A with BondHeight := old.BondHeight,
                         BondIntraTxCounter := old.BondIntraTxCounter })
              A.OperatorAddr (powerIndexDelete (GetValidatorsByPowerIndexKey old) s.powerIndex)) }
          true old
          { A with BondHeight := old.BondHeight, BondIntraTxCounter := old.BondIntraTxCounter }
          (getPowerIncreasing true old A)
          (GetValidatorsByPowerIndexKey
            { A with BondHeight := old.BondHeight,
                     BondIntraTxCounter := old.BondIntraTxCounter }) with
      | none => none
      | some r => some (r.1, SetValidator r.2 r.1) := by
  unfold REFERENCEXXXDELETEUpdateValidator
  simp only [GetValidator, hold, Option.isSome_some, Option.getD_some,
    updateForJailing_not_jailed env s _ _ A hj, bondIncrement, hob, and_self, if_true,
    updateValidatorPower] <;> rfl

theorem update_unfold_jailed (env : Env) (s : State) (A old J : Validator)
    (hold : s.validators A.OperatorAddr = some old) (hob : old.Status = BondStatus.Bonded)
    (hj : A.Jailed = true) (hA : A.Status = BondStatus.Bonded)
    (hJ : J = { A with Status := BondStatus.Unbonding,
                       UnbondingMinTime := env.blockTime + env.unbondingTime,
                       UnbondingHeight := env.blockHeight,
                       BondHeight := old.BondHeight,
                       BondIntraTxCounter := old.BondIntraTxCounter }) :
    REFERENCEXXXDELETEUpdateValidator env s A =
      match updateValidatorSwitch env
          { clearCliffValidator (unbondState env s A) with
            powerIndex := (updateValidatorPower s true old J).2.powerIndex }
          true old J false (GetValidatorsByPowerIndexKey J) with
      | none => none
      | some r => some (r.1, SetValidator r.2 r.1) := by
  have hpi : getPowerIncreasing true old (unbondingRecord env A) = false := by
    simp [getPowerIncreasing, Validator.BondedTokens, unbondingRecord]
  subst hJ
  unfold REFERENCEXXXDELETEUpdateValidator
  simp only [GetValidator, hold, Option.isSome_some, Option.getD_some, updateForJailing, hj,
    hob, and_self, if_true, beginUnbondingValidator_eq, hA, bondIncrement, hpi,
    updateValidatorPower, unbondingRecord] <;> rfl

/-- The switch takes the default branch for a stored Bonded validator whose
bonded tokens do not increase. -/
theorem switch_default_bonded (env : Env) (s : State) (old v : Validator) (valPower : PowerKey)
    (hob : old.Status = BondStatus.Bonded) :
    updateValidatorSwitch env s true old v false valPower =
      match XXXREFERENCEUpdateBondedValidators env s v with
      | none => none
      | some r =>
        if r.1.2 = true then some (r.1.1, r.2)
        else if v.BondedTokens < old.BondedTokens then
          some (v, setUpdate r.2 v.OperatorAddr v.ABCIValidator)
        else some (v, r.2) := by
  unfold updateValidatorSwitch
  simp [hob] <;> rfl

/-- With the affected validator Bonded and listed in the power index, the
recomputation of the cliff validator finds a candidate. -/
theorem updateCliffValidator_some (s : State) (v : Validator)
    (hmem : ∃ e ∈ s.powerIndex, e.2 = v.OperatorAddr) (hb : v.Status = BondStatus.Bonded) :
    ∃ s2, updateCliffValidator s v = some s2 ∧ CliffOnly s s2 := by
  unfold updateCliffValidator
  obtain ⟨e, he, hea⟩ := hmem
  simp only []
  split
  · rename_i hnone
    rw [List.find?_eq_none] at hnone
    have := hnone e (by simpa using he)
    simp [hea, hb] at this
  · exact ⟨_, rfl, _, _, rfl⟩

/-- The switch for a stored Bonded validator whose bonded tokens increase. -/
theorem switch_increase (env : Env) (s : State) (old v : Validator) (valPower : PowerKey)
    (hob : old.Status = BondStatus.Bonded) (hj : v.Jailed = false)
    (hb : v.Status = BondStatus.Bonded)
    (hmem : ∃ e ∈ s.powerIndex, e.2 = v.OperatorAddr) :
    ∃ s2, updateValidatorSwitch env s true old v true valPower = some (v, s2) ∧
      CliffOnly (setUpdate s v.OperatorAddr v.ABCIValidator) s2 := by
  unfold updateValidatorSwitch
  simp only [hj, hob, and_self, if_true]
  split_ifs
  · obtain ⟨s2, h1, h2⟩ := updateCliffValidator_some
      (setUpdate s v.OperatorAddr v.ABCIValidator) v hmem hb
    exact ⟨s2, by rw [h1], h2⟩
  · exact ⟨_, rfl, cliffOnly_refl _⟩

/-- When the inserted entry is among the first `n` entries, the other first
`n` entries were among the first `n - 1` before. -/
theorem insert_take_mem (e : PowerKey × Addr) : ∀ (l : List (PowerKey × Addr)) (n : Nat),
    e ∉ l → e ∈ (powerIndexInsert e l).take n →
    ∀ x ∈ (powerIndexInsert e l).take n, x = e ∨ x ∈ l.take (n - 1) := by
  intro l
  induction l with
  | nil =>
    intro n _ _ x hx
    exact Or.inl (List.mem_singleton.1 (List.mem_of_mem_take hx))
  | cons y ys ih =>
    intro n hnot hin x hx
    cases n with
    | zero => simp at hin
    | succ m =>
      by_cases hy : y.1.ranksBelow e.1 = true
      · rw [powerIndexInsert, if_pos hy, List.take_succ_cons, List.mem_cons] at hx
        exact hx
      · rw [powerIndexInsert, if_neg hy, List.take_succ_cons, List.mem_cons] at hx hin
        have hey : e ≠ y := fun h => hnot (by simp [h])
        have hin2 : e ∈ (powerIndexInsert e ys).take m := by
          rcases hin with hin | hin
          · exact absurd hin hey
          · exact hin
        have hm : 0 < m := by
          cases m with
          | zero => simp at hin2
          | succ k => omega
        obtain ⟨k, hk⟩ : ∃ k, m = k + 1 := ⟨m - 1, by omega⟩
        rcases hx with hx | hx
        · right
          rw [hx, hk]
          simp
        · rcases ih m (fun h => hnot (by simp [h])) hin2 x hx with h | h
          · exact Or.inl h
          · right
            rw [hk] at h ⊢
            simp only [Nat.add_sub_cancel] at h ⊢
            simp [h]

/-- The scan over a power index whose first `MaxValidators` entries are all
Bonded and not jailed marks nobody to be bonded. -/
theorem bondedScan_top_bonded (env : Env) (s : State) (aff : Validator)
    (l : List (PowerKey × Addr)) (acc : BondedScan) (hacc : acc.count = 0)
    (h : ∀ e ∈ l.take env.maxValidators, ∃ v, scanRead s aff e.2 = some v ∧ v.Jailed = false ∧
      v.Status = BondStatus.Bonded) :
    ∃ r, bondedScan env s aff l acc = some r ∧
      r.newValidatorBonded = acc.newValidatorBonded ∧
      r.count = (l.take env.maxValidators).length ∧
      (∀ e, (l.take env.maxValidators).getLast? = some e →
        scanRead s aff e.2 = some r.validator) := by
  obtain ⟨v1, h1, _, h3⟩ := bondedScan_bonded_append env s aff (l.drop env.maxValidators)
    (l.take env.maxValidators) acc h (by rw [hacc, List.length_take]; omega)
  rw [List.take_append_drop] at h1
  have hstop : bondedScan env s aff (l.drop env.maxValidators)
      { acc with validator := v1, count := acc.count + (l.take env.maxValidators).length } =
      some { acc with validator := v1,
                      count := acc.count + (l.take env.maxValidators).length } := by
    by_cases hlen : env.maxValidators ≤ l.length
    · apply bondedScan_stop
      simp only [List.length_take, hacc]
      omega
    · have : l.drop env.maxValidators = [] := List.drop_eq_nil_of_le (by omega)
      rw [this]
      rfl
  rw [hstop] at h1
  exact ⟨_, h1, rfl, by simp [hacc], h3⟩

theorem updateValidatorPower_cliffAddr (s : State) (f : Bool) (o v : Validator) :
    (updateValidatorPower s f o v).2.cliffAddr = s.cliffAddr := rfl

/-- The single-validator update of a Bonded validator whose power decreases,
when the scan of the re-keyed power index marks nobody to be bonded: the new
power is written to the update buffer and the record is persisted. -/
theorem update_bonded_decrease (env : Env) (s : State) (A old : Validator) (rs : BondedScan)
    (hold : s.validators A.OperatorAddr = some old) (hob : old.Status = BondStatus.Bonded)
    (hA : A.Status = BondStatus.Bonded) (hj : A.Jailed = false) (hdec : A.Power < old.Power)
    (hscan : bondedScan env
      (updateValidatorPower s true old
        { A with BondHeight := old.BondHeight, BondIntraTxCounter := old.BondIntraTxCounter }).2
      { A with BondHeight := old.BondHeight, BondIntraTxCounter := old.BondIntraTxCounter }
      (updateValidatorPower s true old
        { A with BondHeight := old.BondHeight,
                 BondIntraTxCounter := old.BondIntraTxCounter }).2.powerIndex
      { validator := Validator.zero, validatorToBond := Validator.zero,
        newValidatorBonded := false, count := 0 } = some rs)
    (hn : rs.newValidatorBonded = false) :
    ∃ sc, CliffOnly s sc ∧
      (rs.count = env.maxValidators →
        sc.cliffAddr = some rs.validator.OperatorAddr ∧
        sc.cliffPower = some (GetValidatorsByPowerIndexKey rs.validator)) ∧
      REFERENCEXXXDELETEUpdateValidator env s A = some
        ({ A with BondHeight := old.BondHeight, BondIntraTxCounter := old.BondIntraTxCounter },
         SetValidator (setUpdate
           { sc with powerIndex := (updateValidatorPower s true old
              { A with BondHeight := old.BondHeight,
                       BondIntraTxCounter := old.BondIntraTxCounter }).2.powerIndex }
           A.OperatorAddr A.Power)
           { A with BondHeight := old.BondHeight,
                    BondIntraTxCounter := old.BondIntraTxCounter }) := by
  have hpi : getPowerIncreasing true old A = false := by
    simp [getPowerIncreasing, Validator.BondedTokens, hob, hA]
    omega
  have hub := updateBonded_of_scan_false env _ _ rs hscan hn
  have hbt : ({ A with BondHeight := old.BondHeight,
                       BondIntraTxCounter := old.BondIntraTxCounter } : Validator).BondedTokens
      < old.BondedTokens := by
    simp [Validator.BondedTokens, hob, hA, hdec]
  have habci : ({ A with BondHeight := old.BondHeight,
                         BondIntraTxCounter := old.BondIntraTxCounter } :
      Validator).ABCIValidator = A.Power := by
    simp [Validator.ABCIValidator, Validator.BondedTokens, hA]
  rw [update_unfold_bonded env s A old hold hob hj, hpi]
  have hsw := switch_default_bonded env
    (updateValidatorPower s true old
      { A with BondHeight := old.BondHeight, BondIntraTxCounter := old.BondIntraTxCounter }).2
    old { A with BondHeight := old.BondHeight, BondIntraTxCounter := old.BondIntraTxCounter }
    (GetValidatorsByPowerIndexKey
      { A with BondHeight := old.BondHeight, BondIntraTxCounter := old.BondIntraTxCounter }) hob
  rw [hub] at hsw
  simp only [Bool.false_eq_true, if_false, hbt, if_true, habci] at hsw
  refine ⟨if rs.count = env.maxValidators then setCliffValidator s rs.validator
      else if addrNonEmpty s.cliffAddr = true then clearCliffValidator s else s, ?_, ?_, ?_⟩
  · split_ifs
    · exact ⟨_, _, rfl⟩
    · exact ⟨_, _, rfl⟩
    · exact cliffOnly_refl s
  · intro hcnt
    rw [if_pos hcnt]
    exact ⟨rfl, rfl⟩
  · have hsw2 : updateValidatorSwitch env
        { s with powerIndex := (powerIndexSet
            (GetValidatorsByPowerIndexKey
              { A with BondHeight := old.BondHeight,
                       BondIntraTxCounter := old.BondIntraTxCounter })
            A.OperatorAddr (powerIndexDelete (GetValidatorsByPowerIndexKey old) s.powerIndex)) }
        true old
        { A with BondHeight := old.BondHeight, BondIntraTxCounter := old.BondIntraTxCounter }
        false
        (GetValidatorsByPowerIndexKey
          { A with BondHeight := old.BondHeight,
                   BondIntraTxCounter := old.BondIntraTxCounter }) = _ := hsw
    rw [hsw2]
    simp only [Option.some.injEq, Prod.mk.injEq, true_and, updateValidatorPower_cliffAddr]
    split_ifs <;> rfl

/-- The power index after the re-keying of a stored validator, under I4. -/
theorem rekeyed_index (s : State) (hwf : TableWF s) (hi4 : PowerIndexConsistent s)
    (old v : Validator) (hold : s.validators v.OperatorAddr = some old) :
    (updateValidatorPower s true old v).2.powerIndex =
      powerIndexInsert (GetValidatorsByPowerIndexKey v, v.OperatorAddr)
        (s.powerIndex.filter (fun e => decide (e.2 ≠ v.OperatorAddr))) := by
  have h := rekey_filter s hwf hi4 v.OperatorAddr (GetValidatorsByPowerIndexKey v) rfl
  rw [hold] at h
  simp only [Option.isSome_some, if_true, Option.getD_some] at h
  simp only [updateValidatorPower, if_true, powerIndexSet]
  rw [h]

/-- The first `MaxValidators` entries of a full consistent state without the
entry of the Bonded validator `a`. -/
theorem full_top_without {env : Env} {s : State} (hc : ConsistentFull env s) {a : Addr}
    (hb : IsBonded s a) :
    s.powerIndex.filter (fun e => decide (e.2 ≠ a)) =
      (s.powerIndex.take env.maxValidators).filter (fun e => decide (e.2 ≠ a)) ++
        s.powerIndex.drop env.maxValidators ∧
    ((s.powerIndex.take env.maxValidators).filter (fun e => decide (e.2 ≠ a))).length + 1 =
      env.maxValidators := by
  have ha : a ∈ (s.powerIndex.take env.maxValidators).map Prod.snd := (hc.top a).1 hb
  refine ⟨filter_take_drop _ _ _ hc.i4.1 ha, ?_⟩
  have hnd : ((s.powerIndex.take env.maxValidators).map Prod.snd).Nodup := by
    have h := hc.i4.1
    rw [← List.take_append_drop env.maxValidators s.powerIndex, List.map_append] at h
    exact (List.nodup_append.1 h).1
  rw [length_filter_ne a _ hnd ha]
  simpa [topAddrs] using hc.full

/-- C20: for every consistent state (full or with spare capacity) and every
Bonded, non-jailed validator whose power increases, or decreases while its
re-keyed entry is still among the first `MaxValidators` entries of the power
index, the single-validator update completes, leaves that validator Bonded with
its new power, changes no other validator record and no membership of the
bonded index, and leaves the update-buffer entry of that validator equal to its
new power. -/
theorem bonded_power_change (env : Env) (s : State) (A old : Validator)
    (hcons : ConsistentFull env s ∨ ConsistentSpare env s)
    (hold : s.validators A.OperatorAddr = some old) (hob : old.Status = BondStatus.Bonded)
    (hA : A.Status = BondStatus.Bonded) (hj : A.Jailed = false)
    (hpow : old.Power < A.Power ∨
      (A.Power < old.Power ∧
        (GetValidatorsByPowerIndexKey
            { A with BondHeight := old.BondHeight,
                     BondIntraTxCounter := old.BondIntraTxCounter }, A.OperatorAddr) ∈
          ((updateValidatorPower s true old
            { A with BondHeight := old.BondHeight,
                     BondIntraTxCounter := old.BondIntraTxCounter }).2.powerIndex).take
            env.maxValidators)) :
    ∃ r, REFERENCEXXXDELETEUpdateValidator env s A = some r ∧
      r.1.Status = BondStatus.Bonded ∧ r.1.Power = A.Power ∧
      r.2.validators A.OperatorAddr = some r.1 ∧
      (∀ a, a ≠ A.OperatorAddr → r.2.validators a = s.validators a) ∧
      r.2.bondedIndex = s.bondedIndex ∧
      r.2.updates A.OperatorAddr = some A.Power := by
  have hwf : TableWF s := hcons.elim (fun h => h.wf) (fun h => h.wf)
  have hi4 : PowerIndexConsistent s := hcons.elim (fun h => h.i4) (fun h => h.i4)
  have hidx := rekeyed_index s hwf hi4 old
    { A with BondHeight := old.BondHeight, BondIntraTxCounter := old.BondIntraTxCounter } hold
  rcases hpow with hinc | ⟨hdec, hstay⟩
  · have hpi : getPowerIncreasing true old A = true := by
      simp [getPowerIncreasing, Validator.BondedTokens, hob, hA, hinc]
    rw [update_unfold_bonded env s A old hold hob hj, hpi]
    obtain ⟨s2, h1, h2⟩ := switch_increase env
      { s with powerIndex := (powerIndexSet
          (GetValidatorsByPowerIndexKey
            { A with BondHeight := old.BondHeight,
                     BondIntraTxCounter := old.BondIntraTxCounter })
          A.OperatorAddr (powerIndexDelete (GetValidatorsByPowerIndexKey old) s.powerIndex)) }
      old { A with BondHeight := old.BondHeight, BondIntraTxCounter := old.BondIntraTxCounter }
      (GetValidatorsByPowerIndexKey
        { A with BondHeight := old.BondHeight, BondIntraTxCounter := old.BondIntraTxCounter })
      hob hj hA
      ⟨(GetValidatorsByPowerIndexKey
        { A with BondHeight := old.BondHeight, BondIntraTxCounter := old.BondIntraTxCounter },
        A.OperatorAddr), by
          simp only [powerIndexSet]
          exact (mem_powerIndexInsert _ _ _).2 (Or.inl rfl), rfl⟩
    rw [h1]
    obtain ⟨ca, cp, rfl⟩ := h2
    refine ⟨_, rfl, hA, rfl, ?_, ?_, rfl, ?_⟩
    · simp [SetValidator]
    · intro a ha; simp [SetValidator, setUpdate, ha]
    · simp [SetValidator, setUpdate, Validator.ABCIValidator, Validator.BondedTokens, hA]
  · have hscan : ∃ rs, bondedScan env
        (updateValidatorPower s true old
          { A with BondHeight := old.BondHeight,
                   BondIntraTxCounter := old.BondIntraTxCounter }).2
        { A with BondHeight := old.BondHeight, BondIntraTxCounter := old.BondIntraTxCounter }
        (updateValidatorPower s true old
          { A with BondHeight := old.BondHeight,
                   BondIntraTxCounter := old.BondIntraTxCounter }).2.powerIndex
        { validator := Validator.zero, validatorToBond := Validator.zero,
          newValidatorBonded := false, count := 0 } = some rs ∧
        rs.newValidatorBonded = false := by
      rcases hcons with hc | hc
      · obtain ⟨rs, h1, h2, _⟩ := bondedScan_top_bonded env
          (updateValidatorPower s true old
            { A with BondHeight := old.BondHeight,
                     BondIntraTxCounter := old.BondIntraTxCounter }).2
          { A with BondHeight := old.BondHeight, BondIntraTxCounter := old.BondIntraTxCounter }
          (updateValidatorPower s true old
            { A with BondHeight := old.BondHeight,
                     BondIntraTxCounter := old.BondIntraTxCounter }).2.powerIndex
          { validator := Validator.zero, validatorToBond := Validator.zero,
            newValidatorBonded := false, count := 0 } rfl (by
            intro e he
            rw [hidx] at he hstay
            have hnot : (GetValidatorsByPowerIndexKey
                { A with BondHeight := old.BondHeight,
                         BondIntraTxCounter := old.BondIntraTxCounter }, A.OperatorAddr) ∉
                s.powerIndex.filter (fun e => decide (e.2 ≠ A.OperatorAddr)) := by
              intro hmem
              have := (List.mem_filter.1 hmem).2
              simp at this
            rcases insert_take_mem _ _ _ hnot hstay e he with h | h
            · refine ⟨{ A with BondHeight := old.BondHeight,
                                BondIntraTxCounter := old.BondIntraTxCounter }, ?_, hj, hA⟩
              rw [h]
              simp [scanRead]
            · obtain ⟨hf1, hf2⟩ := full_top_without hc ⟨old, hold, hob⟩
              rw [hf1, List.take_left' (by omega)] at h
              obtain ⟨h1, h2⟩ := List.mem_filter.1 h
              have hne : e.2 ≠ A.OperatorAddr := by simpa using h2
              obtain ⟨v, hv, hvj, hvb, _, _⟩ := consistentFull_top_entry hc h1
              refine ⟨v, ?_, hvj, hvb⟩
              simp only [scanRead, hne, if_false]
              exact hv)
        exact ⟨rs, h1, h2⟩
      · obtain ⟨rs, h1, h2, _, _⟩ := bondedScan_settled env
          (updateValidatorPower s true old
            { A with BondHeight := old.BondHeight,
                     BondIntraTxCounter := old.BondIntraTxCounter }).2
          { A with BondHeight := old.BondHeight, BondIntraTxCounter := old.BondIntraTxCounter }
          (updateValidatorPower s true old
            { A with BondHeight := old.BondHeight,
                     BondIntraTxCounter := old.BondIntraTxCounter }).2.powerIndex
          { validator := Validator.zero, validatorToBond := Validator.zero,
            newValidatorBonded := false, count := 0 } (by
            intro e he
            rw [hidx] at he
            rcases (mem_powerIndexInsert _ _ _).1 he with h | h
            · refine ⟨{ A with BondHeight := old.BondHeight,
                                BondIntraTxCounter := old.BondIntraTxCounter }, ?_,
                Or.inl ⟨hj, hA⟩⟩
              rw [h]
              simp [scanRead]
            · obtain ⟨h1, h2⟩ := List.mem_filter.1 h
              have hne : e.2 ≠ A.OperatorAddr := by simpa using h2
              obtain ⟨v, hv, _⟩ := hc.i4.2.1 e h1
              refine ⟨v, ?_, ?_⟩
              · simp only [scanRead, hne, if_false]
                exact hv
              · cases hvj : v.Jailed with
                | false => exact Or.inl ⟨rfl, hc.top _ _ hv hvj⟩
                | true => exact Or.inr ⟨rfl, hc.i1 _ _ hv hvj⟩)
        exact ⟨rs, h1, h2⟩
    obtain ⟨rs, hrs, hn⟩ := hscan
    obtain ⟨sc, hco, _, hupd⟩ := update_bonded_decrease env s A old rs hold hob hA hj hdec hrs hn
    obtain ⟨ca, cp, rfl⟩ := hco
    refine ⟨_, hupd, hA, rfl, ?_, ?_, rfl, ?_⟩
    · simp [SetValidator]
    · intro a ha; simp [SetValidator, setUpdate, ha]
    · simp [SetValidator, setUpdate]

theorem bonded_power_change_witness :
    ∃ r, REFERENCEXXXDELETEUpdateValidator (envAt 2) stateXY
        (mkValidator 1 12 BondStatus.Bonded false) = some r ∧
      r.1.Status = BondStatus.Bonded ∧
      r.1.Power = (mkValidator 1 12 BondStatus.Bonded false).Power ∧
      r.2.validators (mkValidator 1 12 BondStatus.Bonded false).OperatorAddr = some r.1 ∧
      (∀ a, a ≠ (mkValidator 1 12 BondStatus.Bonded false).OperatorAddr →
        r.2.validators a = stateXY.validators a) ∧
      r.2.bondedIndex = stateXY.bondedIndex ∧
      r.2.updates (mkValidator 1 12 BondStatus.Bonded false).OperatorAddr =
        some (mkValidator 1 12 BondStatus.Bonded false).Power :=
  bonded_power_change (envAt 2) stateXY (mkValidator 1 12 BondStatus.Bonded false)
    (mkValidator 1 10 BondStatus.Bonded false) (Or.inl stateXY_consistentFull) rfl rfl rfl rfl
    (Or.inl (by decide))

/-- The update of the bonded group when there is no cliff validator and the
scan meets Bonded validators, then the affected validator, which is neither
Bonded nor jailed, then validators that are each Bonded or jailed: the affected
validator is bonded and nobody is demoted. -/
theorem updateBonded_spare_admit (env : Env) (s3 : State) (aff : Validator) (k : PowerKey)
    (P R : List (PowerKey × Addr))
    (hidx : s3.powerIndex = P ++ (k, aff.OperatorAddr) :: R)
    (hP : ∀ e ∈ P, ∃ v, scanRead s3 aff e.2 = some v ∧ v.Jailed = false ∧
      v.Status = BondStatus.Bonded)
    (hlen : P.length < env.maxValidators)
    (hR : ∀ e ∈ R, ∃ v, scanRead s3 aff e.2 = some v ∧
      ((v.Jailed = false ∧ v.Status = BondStatus.Bonded) ∨
       (v.Jailed = true ∧ v.Status ≠ BondStatus.Bonded)))
    (hRne : ∀ e ∈ R, ∀ v, scanRead s3 aff e.2 = some v → v.OperatorAddr ≠ 0)
    (hj : aff.Jailed = false) (hst : aff.Status ≠ BondStatus.Bonded)
    (hca : s3.cliffAddr = none) (hane : aff.OperatorAddr ≠ 0) :
    ∃ sc, CliffOnly s3 sc ∧
      XXXREFERENCEUpdateBondedValidators env s3 aff =
        some ((bondedRecord env aff, true), bondState env sc aff) := by
  obtain ⟨v1, h1, _, _⟩ := bondedScan_bonded_append env s3 aff ((k, aff.OperatorAddr) :: R) P
    { validator := Validator.zero, validatorToBond := Validator.zero,
      newValidatorBonded := false, count := 0 } hP (by simp only [Nat.zero_add]; omega)
  have hread : scanRead s3 aff (k, aff.OperatorAddr).2 = some aff := by simp [scanRead]
  rw [bondedScan_cons env s3 aff _ R _ aff (by simp only [Nat.zero_add]; exact hlen) hread]
    at h1
  simp only [hj, Bool.false_eq_true, if_false, ne_eq, hst, not_false_eq_true, if_true] at h1
  obtain ⟨r, h2, h3, h4, h5⟩ := bondedScan_settled env s3 aff R
    { validator := aff, validatorToBond := aff, newValidatorBonded := true,
      count := 0 + P.length + 1 } hR
  rw [h2] at h1
  rw [← hidx] at h1
  have hrne : r.validator.OperatorAddr ≠ 0 := by
    rcases h5 with h5 | ⟨e, he, h5⟩
    · rw [h5]; exact hane
    · exact hRne e he _ h5
  have h6 := updateBonded_of_scan_spare env s3 aff r h1 h3 hca hrne (by rw [h4]; exact hst)
  rw [h4] at h6
  simp only [if_true] at h6
  refine ⟨_, ?_, h6⟩
  split_ifs
  · exact ⟨_, _, rfl⟩
  · exact cliffOnly_refl _

/-- C11: for every consistent state with MaxValidators at least 1 in which the
Cliff Tracker is undefined (fewer than `MaxValidators` validators are Bonded;
identities are non-empty), the single-validator update on a non-jailed
validator that is new or not Bonded completes, returns that validator with
status Bonded, changes no other validator record (nobody is demoted), adds
only that validator to the bonded index and records the validator's full power
in the update buffer. -/
theorem spare_capacity_admits (env : Env) (s : State) (A : Validator)
    (hc : ConsistentSpare env s) (hne : AddrsNonEmpty s) (hAne : A.OperatorAddr ≠ 0)
    (hj : A.Jailed = false) (hst : A.Status ≠ BondStatus.Bonded)
    (hnb : ¬ IsBonded s A.OperatorAddr) :
    ∃ r, REFERENCEXXXDELETEUpdateValidator env s A = some r ∧
      r.1.Status = BondStatus.Bonded ∧ r.1.OperatorAddr = A.OperatorAddr ∧
      r.1.Power = A.Power ∧ r.2.validators A.OperatorAddr = some r.1 ∧
      (∀ a, a ≠ A.OperatorAddr → r.2.validators a = s.validators a) ∧
      (∀ a, a ∈ r.2.bondedIndex ↔ a = A.OperatorAddr ∨ a ∈ s.bondedIndex) ∧
      r.2.updates A.OperatorAddr = some A.Power := by
  have hold : ¬ ((s.validators A.OperatorAddr).isSome = true ∧
      ((s.validators A.OperatorAddr).getD Validator.zero).Status = BondStatus.Bonded) :=
    fun h => hnb ((isBonded_iff_old s A.OperatorAddr).1 h)
  -- the re-keyed power index
  have hbase := rekey_filter s hc.wf hc.i4 A.OperatorAddr
    (GetValidatorsByPowerIndexKey
      { A with BondHeight := env.blockHeight, BondIntraTxCounter := s.intraTxCounter }) rfl
  obtain ⟨P, R, hPR, hins, hPnb⟩ := insert_split
    (GetValidatorsByPowerIndexKey
      { A with BondHeight := env.blockHeight, BondIntraTxCounter := s.intraTxCounter },
      A.OperatorAddr)
    (s.powerIndex.filter (fun e => decide (e.2 ≠ A.OperatorAddr)))
  have hmemBase : ∀ e, e ∈ P ∨ e ∈ R → e ∈ s.powerIndex ∧ e.2 ≠ A.OperatorAddr := by
    intro e he
    have : e ∈ s.powerIndex.filter (fun e => decide (e.2 ≠ A.OperatorAddr)) := by
      rw [hPR]; exact List.mem_append.2 he
    obtain ⟨h1, h2⟩ := List.mem_filter.1 this
    exact ⟨h1, by simpa using h2⟩
  rw [update_unfold_notBonded env s A hj hnb]
  rw [switch_default _ _ _ _ _ _ _ hold (by
    intro cp hcp
    have : s.cliffPower = some cp := hcp
    rw [hc.cliffPower_none] at this
    cases this)]
  simp only [powerIndexSet, hbase, hins]
  generalize hs3 : ({ s with
      intraTxCounter := int16Succ s.intraTxCounter,
      powerIndex := P ++ (GetValidatorsByPowerIndexKey
        { A with BondHeight := env.blockHeight, BondIntraTxCounter := s.intraTxCounter },
        A.OperatorAddr) :: R } : State) = s3
  have hs3v : s3.validators = s.validators := by rw [← hs3]
  have hs3b : s3.bondedIndex = s.bondedIndex := by rw [← hs3]
  have hs3u : s3.updates = s.updates := by rw [← hs3]
  have hread : ∀ e, e ∈ P ∨ e ∈ R →
      scanRead s3 { A with BondHeight := env.blockHeight,
                           BondIntraTxCounter := s.intraTxCounter } e.2 = s.validators e.2 := by
    intro e he
    have hne2 : e.2 ≠ A.OperatorAddr := (hmemBase e he).2
    simp only [scanRead, hne2, if_false, hs3v]
  obtain ⟨sc, hco, hub⟩ := updateBonded_spare_admit env s3
    { A with BondHeight := env.blockHeight, BondIntraTxCounter := s.intraTxCounter }
    (GetValidatorsByPowerIndexKey
      { A with BondHeight := env.blockHeight, BondIntraTxCounter := s.intraTxCounter })
    P R (by rw [← hs3])
    (by
      intro e he
      obtain ⟨v, hv, hk⟩ := hc.i4.2.1 e (hmemBase e (Or.inl he)).1
      refine ⟨v, by rw [hread e (Or.inl he)]; exact hv, ?_⟩
      have hvj : v.Jailed = false := by
        cases hvj : v.Jailed with
        | false => rfl
        | true =>
          have := hPnb e he
          rw [hk] at this
          simp [PowerKey.ranksBelow, GetValidatorsByPowerIndexKey, hvj, hj] at this
      exact ⟨hvj, hc.top _ _ hv hvj⟩)
    (by
      have hnd : (P.map Prod.snd).Nodup := by
        have h1 : ((s.powerIndex.filter (fun e => decide (e.2 ≠ A.OperatorAddr))).map
            Prod.snd).Nodup :=
          (List.filter_sublist s.powerIndex).map Prod.snd |>.nodup hc.i4.1
        rw [hPR, List.map_append] at h1
        exact (List.nodup_append.1 h1).1
      have hall : ∀ a ∈ P.map Prod.snd, IsBonded s a := by
        intro a ha
        obtain ⟨e, he, rfl⟩ := List.mem_map.1 ha
        obtain ⟨v, hv, hk⟩ := hc.i4.2.1 e (hmemBase e (Or.inl he)).1
        have hvj : v.Jailed = false := by
          cases hvj : v.Jailed with
          | false => rfl
          | true =>
            have := hPnb e he
            rw [hk] at this
            simp [PowerKey.ranksBelow, GetValidatorsByPowerIndexKey, hvj, hj] at this
        exact ⟨v, hv, hc.top _ _ hv hvj⟩
      have := hc.fewer _ hnd hall
      rw [List.length_map] at this
      have := hc.pos
      omega)
    (by
      intro e he
      obtain ⟨v, hv, _⟩ := hc.i4.2.1 e (hmemBase e (Or.inr he)).1
      refine ⟨v, by rw [hread e (Or.inr he)]; exact hv, ?_⟩
      cases hvj : v.Jailed with
      | false => exact Or.inl ⟨rfl, hc.top _ _ hv hvj⟩
      | true => exact Or.inr ⟨rfl, hc.i1 _ _ hv hvj⟩)
    (by
      intro e he v hv
      rw [hread e (Or.inr he)] at hv
      rw [hc.wf _ _ hv]
      intro h0
      rw [h0] at hv
      have : s.validators 0 = none := hne
      rw [this] at hv
      cases hv)
    hj hst (by rw [← hs3]; exact hc.cliffAddr_none) hAne
  rw [hub]
  simp only [if_true]
  have hscv : sc.validators = s.validators := (cliffOnly_validators hco).trans hs3v
  have hscu : sc.updates = s.updates := (cliffOnly_updates hco).trans hs3u
  have hscb : sc.bondedIndex = s.bondedIndex := by
    obtain ⟨ca, cp, rfl⟩ := hco
    exact hs3b
  refine ⟨_, rfl, rfl, rfl, rfl, ?_, ?_, ?_, ?_⟩
  · simp [SetValidator, bondedRecord]
  · intro a ha
    simp [SetValidator, bondState, bondedRecord, ha, hscv]
  · intro a
    simp [SetValidator, bondState, hscb]
  · simp [SetValidator, bondState]

/-- The scan that meets Bonded validators in all slots but the last and then a
validator that is neither jailed nor Bonded marks that validator. -/
theorem bondedScan_pick (env : Env) (s3 : State) (aff : Validator)
    (T1 Rt : List (PowerKey × Addr)) (eU : PowerKey × Addr) (U : Validator)
    (hidx : s3.powerIndex = T1 ++ eU :: Rt)
    (hT : ∀ e ∈ T1, ∃ v, scanRead s3 aff e.2 = some v ∧ v.Jailed = false ∧
      v.Status = BondStatus.Bonded)
    (hlen : T1.length + 1 = env.maxValidators)
    (hU : scanRead s3 aff eU.2 = some U) (hUj : U.Jailed = false)
    (hUs : U.Status ≠ BondStatus.Bonded) :
    bondedScan env s3 aff s3.powerIndex
      { validator := Validator.zero, validatorToBond := Validator.zero,
        newValidatorBonded := false, count := 0 } =
      some { validator := U, validatorToBond := U, newValidatorBonded := true,
             count := env.maxValidators } := by
  obtain ⟨v1, h1, _, _⟩ := bondedScan_bonded_append env s3 aff (eU :: Rt) T1
    { validator := Validator.zero, validatorToBond := Validator.zero,
      newValidatorBonded := false, count := 0 } hT (by simp only [Nat.zero_add]; omega)
  rw [bondedScan_cons env s3 aff eU Rt _ U (by simp only [Nat.zero_add]; omega) hU] at h1
  simp only [hUj, Bool.false_eq_true, if_false, ne_eq, hUs, not_false_eq_true, if_true] at h1
  rw [bondedScan_stop env s3 aff Rt _ (by simp only [Nat.zero_add]; omega)] at h1
  rw [hidx, h1]
  simp only [Nat.zero_add, hlen]

/-- With a cliff validator, the validator picked by the scan takes the place
of the affected validator, which is Bonded and starts unbonding. -/
theorem updateBonded_swap_out (env : Env) (s3 : State) (aff : Validator)
    (T1 Rt : List (PowerKey × Addr)) (eU : PowerKey × Addr) (U : Validator)
    (c : Addr) (vc : Validator)
    (hidx : s3.powerIndex = T1 ++ eU :: Rt)
    (hT : ∀ e ∈ T1, ∃ v, scanRead s3 aff e.2 = some v ∧ v.Jailed = false ∧
      v.Status = BondStatus.Bonded)
    (hlen : T1.length + 1 = env.maxValidators)
    (hU : scanRead s3 aff eU.2 = some U) (hUj : U.Jailed = false)
    (hUs : U.Status ≠ BondStatus.Bonded)
    (hca : s3.cliffAddr = some c) (hcne : c ≠ U.OperatorAddr)
    (hvc : s3.validators c = some vc)
    (hadd : U.OperatorAddr ≠ aff.OperatorAddr) (haff : aff.Status = BondStatus.Bonded) :
    XXXREFERENCEUpdateBondedValidators env s3 aff =
      some ((unbondingRecord env aff, true),
        bondState env (unbondState env (setCliffValidator s3 U) aff) U) :=
  updateBonded_of_scan_swap env s3 aff _ c vc
    (bondedScan_pick env s3 aff T1 Rt eU U hidx hT hlen hU hUj hUs) rfl rfl hca hcne hvc
    hadd haff hUs

/-- Without a cliff validator, the validator picked by the scan fills the free
slot and becomes the cliff validator. -/
theorem updateBonded_fill (env : Env) (s3 : State) (aff : Validator)
    (T1 Rt : List (PowerKey × Addr)) (eU : PowerKey × Addr) (U : Validator)
    (hidx : s3.powerIndex = T1 ++ eU :: Rt)
    (hT : ∀ e ∈ T1, ∃ v, scanRead s3 aff e.2 = some v ∧ v.Jailed = false ∧
      v.Status = BondStatus.Bonded)
    (hlen : T1.length + 1 = env.maxValidators)
    (hU : scanRead s3 aff eU.2 = some U) (hUj : U.Jailed = false)
    (hUs : U.Status ≠ BondStatus.Bonded)
    (hca : s3.cliffAddr = none) (hUne : U.OperatorAddr ≠ 0)
    (hadd : U.OperatorAddr ≠ aff.OperatorAddr) :
    XXXREFERENCEUpdateBondedValidators env s3 aff =
      some ((aff, true), bondState env (setCliffValidator s3 U) U) := by
  have h := updateBonded_of_scan_spare env s3 aff _
    (bondedScan_pick env s3 aff T1 Rt eU U hidx hT hlen hU hUj hUs) rfl hca hUne hUs
  simp only [hadd, if_false, if_true] at h
  exact h

/-- In a full consistent state with a sorted power index every one of the
first `MaxValidators` entries has at least the cliff power. -/
theorem top_power_ge_cliff {env : Env} {s : State} (hc : ConsistentFull env s)
    (hso : PowerIndexSorted s) {cp : PowerKey} (hcp : s.cliffPower = some cp)
    {x : PowerKey × Addr} (hx : x ∈ s.powerIndex.take env.maxValidators) :
    x.1.NotJailed = true ∧ cp.NotJailed = true ∧ cp.Power ≤ x.1.Power := by
  obtain ⟨eN, hlast, _, hcpN⟩ := hc.cliff
  rw [hcp] at hcpN
  cases hcpN
  have heN : eN ∈ s.powerIndex.take env.maxValidators := List.mem_of_getLast?_eq_some hlast
  obtain ⟨vx, _, hvxj, _, _, hkx⟩ := consistentFull_top_entry hc hx
  obtain ⟨vN, _, hvNj, _, _, hkN⟩ := consistentFull_top_entry hc heN
  have hxn : x.1.NotJailed = true := by rw [hkx]; simp [GetValidatorsByPowerIndexKey, hvxj]
  have hNn : eN.1.NotJailed = true := by rw [hkN]; simp [GetValidatorsByPowerIndexKey, hvNj]
  refine ⟨hxn, hNn, ?_⟩
  by_cases hsame : x = eN
  · rw [hsame]
  · have hsplit := List.dropLast_append_getLast? eN hlast
    have hpw : (s.powerIndex.take env.maxValidators).Pairwise
        (fun x y => y.1.ranksBelow x.1 = true) := by
      have := hso
      unfold PowerIndexSorted at this
      rw [← List.take_append_drop env.maxValidators s.powerIndex] at this
      exact (List.pairwise_append.1 this).1
    rw [← hsplit] at hpw hx
    have hmemd : x ∈ (s.powerIndex.take env.maxValidators).dropLast := by
      rcases List.mem_append.1 hx with h1 | h1
      · exact h1
      · exact absurd (by simpa using h1) hsame
    have hrank := (List.pairwise_append.1 hpw).2.2 x hmemd eN (by simp)
    exact power_le_of_ranksBelow eN.1 x.1 hrank (by rw [hxn, hNn])

/-- The first entry after the first `MaxValidators` entries of a full
consistent state belongs to a stored validator that is not Bonded and is not
the Bonded validator `a`. -/
theorem full_next_entry {env : Env} {s : State} (hc : ConsistentFull env s)
    {eU : PowerKey × Addr} {Rt : List (PowerKey × Addr)}
    (hd : s.powerIndex.drop env.maxValidators = eU :: Rt) :
    ∃ U, s.validators eU.2 = some U ∧ eU.1 = GetValidatorsByPowerIndexKey U ∧
      U.OperatorAddr = eU.2 ∧ U.Status ≠ BondStatus.Bonded ∧ ¬ IsBonded s eU.2 := by
  have hmem : eU ∈ s.powerIndex := by
    have : eU ∈ s.powerIndex.drop env.maxValidators := by rw [hd]; simp
    exact List.mem_of_mem_drop this
  obtain ⟨U, hU, hk⟩ := hc.i4.2.1 eU hmem
  have hnot : eU.2 ∉ topAddrs env s := by
    have h := hc.i4.1
    rw [← List.take_append_drop env.maxValidators s.powerIndex, List.map_append,
      List.nodup_append] at h
    intro hin
    exact h.2.2 hin (by rw [hd]; simp)
  have hnb : ¬ IsBonded s eU.2 := fun hb => hnot ((hc.top _).1 hb)
  exact ⟨U, hU, hk, hc.wf _ _ hU, fun hb => hnb ⟨U, hU, hb⟩, hnb⟩

/-- The reads of the scan for the other first entries of a full consistent
state, after the re-keying of the Bonded validator `aff`. -/
theorem full_top_reads {env : Env} {s : State} (hc : ConsistentFull env s) (s3 : State)
    (aff : Validator)
    (hv : ∀ x, x ≠ aff.OperatorAddr → s3.validators x = s.validators x) :
    ∀ e ∈ (s.powerIndex.take env.maxValidators).filter
        (fun e => decide (e.2 ≠ aff.OperatorAddr)),
      ∃ v, scanRead s3 aff e.2 = some v ∧ v.Jailed = false ∧ v.Status = BondStatus.Bonded := by
  intro e he
  obtain ⟨h1, h2⟩ := List.mem_filter.1 he
  have hne : e.2 ≠ aff.OperatorAddr := by simpa using h2
  obtain ⟨v, hv1, hvj, hvb, _, _⟩ := consistentFull_top_entry hc h1
  exact ⟨v, by simp only [scanRead, hne, if_false, hv _ hne]; exact hv1, hvj, hvb⟩

/-- A Bonded validator whose power decreases below the cliff power while the
highest-ranked validator outside the bonded set ranks above its new key is
demoted; that validator is bonded and becomes the cliff validator. -/
theorem bonded_decrease_demoted (env : Env) (s : State) (A old : Validator) (cp : PowerKey)
    (eU : PowerKey × Addr)
    (hc : ConsistentFull env s) (hso : PowerIndexSorted s) (hcp : s.cliffPower = some cp)
    (hold : s.validators A.OperatorAddr = some old) (hob : old.Status = BondStatus.Bonded)
    (hA : A.Status = BondStatus.Bonded) (hj : A.Jailed = false)
    (hdec : A.Power < old.Power) (hlow : A.Power < cp.Power)
    (hhead : (s.powerIndex.drop env.maxValidators).head? = some eU)
    (hrank : (GetValidatorsByPowerIndexKey
      { A with BondHeight := old.BondHeight,
               BondIntraTxCounter := old.BondIntraTxCounter }).ranksBelow eU.1 = true) :
    ∃ r U, REFERENCEXXXDELETEUpdateValidator env s A = some r ∧
      s.validators eU.2 = some U ∧ U.Status ≠ BondStatus.Bonded ∧ U.Jailed = false ∧
      r.1.Status = BondStatus.Unbonding ∧ r.2.validators A.OperatorAddr = some r.1 ∧
      r.2.validators eU.2 = some (bondedRecord env U) ∧ r.2.cliffAddr = some eU.2 := by
  obtain ⟨Rt, hd⟩ : ∃ Rt, s.powerIndex.drop env.maxValidators = eU :: Rt := by
    cases hd : s.powerIndex.drop env.maxValidators with
    | nil => rw [hd] at hhead; cases hhead
    | cons x Rt =>
      rw [hd] at hhead
      simp only [List.head?_cons, Option.some.injEq] at hhead
      exact ⟨Rt, by rw [hhead]⟩
  obtain ⟨U, hU, hkU, hUa, hUs, hUnb⟩ := full_next_entry hc hd
  have hB : IsBonded s A.OperatorAddr := ⟨old, hold, hob⟩
  have hUne : eU.2 ≠ A.OperatorAddr := fun h => hUnb (h ▸ hB)
  have hUj : U.Jailed = false := by
    cases hUj : U.Jailed with
    | false => rfl
    | true =>
      rw [hkU] at hrank
      simp [PowerKey.ranksBelow, GetValidatorsByPowerIndexKey, hUj, hj] at hrank
  obtain ⟨hf1, hf2⟩ := full_top_without hc hB
  -- the re-keyed index
  have hidx := rekeyed_index s hc.wf hc.i4 old
    { A with BondHeight := old.BondHeight, BondIntraTxCounter := old.BondIntraTxCounter } hold
  have hnb : ∀ x ∈ (s.powerIndex.take env.maxValidators).filter
      (fun e => decide (e.2 ≠ A.OperatorAddr)) ++ [eU],
      x.1.ranksBelow (GetValidatorsByPowerIndexKey
        { A with BondHeight := old.BondHeight,
                 BondIntraTxCounter := old.BondIntraTxCounter }) = false := by
    intro x hx
    rcases List.mem_append.1 hx with hx | hx
    · obtain ⟨h1, h2, h3⟩ := top_power_ge_cliff hc hso hcp (List.mem_filter.1 hx).1
      apply not_ranksBelow_of_power_gt
      · rw [h1]; simp [GetValidatorsByPowerIndexKey, hj]
      · have : (GetValidatorsByPowerIndexKey
          { A with BondHeight := old.BondHeight,
                   BondIntraTxCounter := old.BondIntraTxCounter }).Power = A.Power := rfl
        omega
    · rw [List.mem_singleton.1 hx]
      exact ranksBelow_asymm _ _ hrank
  have hidx2 : (updateValidatorPower s true old
      { A with BondHeight := old.BondHeight,
               BondIntraTxCounter := old.BondIntraTxCounter }).2.powerIndex =
      (s.powerIndex.take env.maxValidators).filter
        (fun e => decide (e.2 ≠ A.OperatorAddr)) ++ eU ::
        powerIndexInsert (GetValidatorsByPowerIndexKey
          { A with BondHeight := old.BondHeight,
                   BondIntraTxCounter := old.BondIntraTxCounter }, A.OperatorAddr) Rt := by
    rw [hidx]
    have : s.powerIndex.filter (fun e => decide (e.2 ≠ A.OperatorAddr)) =
        ((s.powerIndex.take env.maxValidators).filter
          (fun e => decide (e.2 ≠ A.OperatorAddr)) ++ [eU]) ++ Rt := by
      rw [hf1, hd]; simp
    show powerIndexInsert _ (s.powerIndex.filter (fun e => decide (e.2 ≠ A.OperatorAddr))) = _
    rw [this, insert_append_of_not_below _ _ _ hnb]
    simp
  obtain ⟨eN, hlast, hca, _⟩ := hc.cliff
  have heN : eN ∈ s.powerIndex.take env.maxValidators := List.mem_of_getLast?_eq_some hlast
  obtain ⟨vN, hvN, _, hvNb, _, _⟩ := consistentFull_top_entry hc heN
  have hcne : eN.2 ≠ U.OperatorAddr := by
    rw [hUa]
    intro h
    exact hUnb (h ▸ ⟨vN, hvN, hvNb⟩)
  have hub := updateBonded_swap_out env
    (updateValidatorPower s true old
      { A with BondHeight := old.BondHeight, BondIntraTxCounter := old.BondIntraTxCounter }).2
    { A with BondHeight := old.BondHeight, BondIntraTxCounter := old.BondIntraTxCounter }
    _ _ eU U eN.2 vN hidx2 (full_top_reads hc
      (updateValidatorPower s true old
      { A with BondHeight := old.BondHeight, BondIntraTxCounter := old.BondIntraTxCounter }).2
      { A with BondHeight := old.BondHeight, BondIntraTxCounter := old.BondIntraTxCounter } (fun _ _ => rfl)) hf2
    (by simp only [scanRead, hUne, if_false]; exact hU) hUj hUs hca hcne hvN
    (by rw [hUa]; exact hUne) hA
  have hpi : getPowerIncreasing true old A = false := by
    simp [getPowerIncreasing, Validator.BondedTokens, hob, hA]
    omega
  have hsw := switch_default_bonded env
    (updateValidatorPower s true old
      { A with BondHeight := old.BondHeight, BondIntraTxCounter := old.BondIntraTxCounter }).2
    old { A with BondHeight := old.BondHeight, BondIntraTxCounter := old.BondIntraTxCounter }
    (GetValidatorsByPowerIndexKey
      { A with BondHeight := old.BondHeight, BondIntraTxCounter := old.BondIntraTxCounter }) hob
  rw [hub] at hsw
  simp only [if_true] at hsw
  have hsw2 : updateValidatorSwitch env
      { s with powerIndex := (powerIndexSet
          (GetValidatorsByPowerIndexKey
            { A with BondHeight := old.BondHeight,
                     BondIntraTxCounter := old.BondIntraTxCounter })
          A.OperatorAddr (powerIndexDelete (GetValidatorsByPowerIndexKey old) s.powerIndex)) }
      true old
      { A with BondHeight := old.BondHeight, BondIntraTxCounter := old.BondIntraTxCounter }
      false
      (GetValidatorsByPowerIndexKey
        { A with BondHeight := old.BondHeight,
                 BondIntraTxCounter := old.BondIntraTxCounter }) = _ := hsw
  rw [update_unfold_bonded env s A old hold hob hj, hpi, hsw2]
  have hUA : U.OperatorAddr ≠ A.OperatorAddr := by rw [hUa]; exact hUne
  refine ⟨_, U, rfl, hU, hUs, hUj, rfl, ?_, ?_, ?_⟩
  · simp [SetValidator, unbondingRecord]
  · simp [SetValidator, unbondingRecord, bondState, hUne, hUa]
  · simp [SetValidator, bondState, unbondState, setCliffValidator, hUa]

/-- A Bonded validator whose power decreases below the cliff power while no
validator outside the bonded set ranks above its new key stays Bonded and
becomes the cliff validator. -/
theorem bonded_decrease_stays (env : Env) (s : State) (A old : Validator) (cp : PowerKey)
    (hc : ConsistentFull env s) (hso : PowerIndexSorted s) (hcp : s.cliffPower = some cp)
    (hold : s.validators A.OperatorAddr = some old) (hob : old.Status = BondStatus.Bonded)
    (hA : A.Status = BondStatus.Bonded) (hj : A.Jailed = false)
    (hdec : A.Power < old.Power) (hlow : A.Power < cp.Power)
    (hhead : ∀ eU, (s.powerIndex.drop env.maxValidators).head? = some eU →
      eU.1.ranksBelow (GetValidatorsByPowerIndexKey
        { A with BondHeight := old.BondHeight,
                 BondIntraTxCounter := old.BondIntraTxCounter }) = true) :
    ∃ r, REFERENCEXXXDELETEUpdateValidator env s A = some r ∧
      r.1.Status = BondStatus.Bonded ∧ r.1.Power = A.Power ∧
      r.2.validators A.OperatorAddr = some r.1 ∧
      (∀ a, a ≠ A.OperatorAddr → r.2.validators a = s.validators a) ∧
      r.2.cliffAddr = some A.OperatorAddr ∧ r.2.updates A.OperatorAddr = some A.Power := by
  have hB : IsBonded s A.OperatorAddr := ⟨old, hold, hob⟩
  obtain ⟨hf1, hf2⟩ := full_top_without hc hB
  have hidx := rekeyed_index s hc.wf hc.i4 old
    { A with BondHeight := old.BondHeight, BondIntraTxCounter := old.BondIntraTxCounter } hold
  have hnb : ∀ x ∈ (s.powerIndex.take env.maxValidators).filter
      (fun e => decide (e.2 ≠ A.OperatorAddr)),
      x.1.ranksBelow (GetValidatorsByPowerIndexKey
        { A with BondHeight := old.BondHeight,
                 BondIntraTxCounter := old.BondIntraTxCounter }) = false := by
    intro x hx
    obtain ⟨h1, h2, h3⟩ := top_power_ge_cliff hc hso hcp (List.mem_filter.1 hx).1
    apply not_ranksBelow_of_power_gt
    · rw [h1]; simp [GetValidatorsByPowerIndexKey, hj]
    · have : (GetValidatorsByPowerIndexKey
        { A with BondHeight := old.BondHeight,
                 BondIntraTxCounter := old.BondIntraTxCounter }).Power = A.Power := rfl
      omega
  have hidx2 : (updateValidatorPower s true old
      { A with BondHeight := old.BondHeight,
               BondIntraTxCounter := old.BondIntraTxCounter }).2.powerIndex =
      ((s.powerIndex.take env.maxValidators).filter
        (fun e => decide (e.2 ≠ A.OperatorAddr)) ++
        [(GetValidatorsByPowerIndexKey
          { A with BondHeight := old.BondHeight,
                   BondIntraTxCounter := old.BondIntraTxCounter }, A.OperatorAddr)]) ++
        s.powerIndex.drop env.maxValidators := by
    rw [hidx]
    show powerIndexInsert _ (s.powerIndex.filter (fun e => decide (e.2 ≠ A.OperatorAddr))) = _
    rw [hf1, insert_append_of_not_below _ _ _ hnb]
    have : powerIndexInsert (GetValidatorsByPowerIndexKey
          { A with BondHeight := old.BondHeight,
                   BondIntraTxCounter := old.BondIntraTxCounter }, A.OperatorAddr)
        (s.powerIndex.drop env.maxValidators) =
        (GetValidatorsByPowerIndexKey
          { A with BondHeight := old.BondHeight,
                   BondIntraTxCounter := old.BondIntraTxCounter }, A.OperatorAddr) ::
        s.powerIndex.drop env.maxValidators := by
      cases hd : s.powerIndex.drop env.maxValidators with
      | nil => rfl
      | cons x xs =>
        have := hhead x (by rw [hd]; rfl)
        simp [powerIndexInsert, this]
    rw [this]
    simp
  obtain ⟨v1, h1, _, h3⟩ := bondedScan_bonded_append env
    (updateValidatorPower s true old
      { A with BondHeight := old.BondHeight, BondIntraTxCounter := old.BondIntraTxCounter }).2
    { A with BondHeight := old.BondHeight, BondIntraTxCounter := old.BondIntraTxCounter }
    (s.powerIndex.drop env.maxValidators)
    ((s.powerIndex.take env.maxValidators).filter
        (fun e => decide (e.2 ≠ A.OperatorAddr)) ++
        [(GetValidatorsByPowerIndexKey
          { A with BondHeight := old.BondHeight,
                   BondIntraTxCounter := old.BondIntraTxCounter }, A.OperatorAddr)])
    { validator := Validator.zero, validatorToBond := Validator.zero,
      newValidatorBonded := false, count := 0 }
    (by
      intro e he
      rcases List.mem_append.1 he with he | he
      · exact full_top_reads hc
          (updateValidatorPower s true old
      { A with BondHeight := old.BondHeight, BondIntraTxCounter := old.BondIntraTxCounter }).2
          { A with BondHeight := old.BondHeight, BondIntraTxCounter := old.BondIntraTxCounter } (fun _ _ => rfl) e he
      · rw [List.mem_singleton.1 he]
        exact ⟨{ A with BondHeight := old.BondHeight,
                        BondIntraTxCounter := old.BondIntraTxCounter },
          by simp [scanRead], hj, hA⟩)
    (by simp only [Nat.zero_add, List.length_append, List.length_singleton]; omega)
  rw [← hidx2, bondedScan_stop _ _ _ (s.powerIndex.drop env.maxValidators) _ (by
    simp only [Nat.zero_add, List.length_append, List.length_singleton]; omega)] at h1
  have hv1 : v1 = { A with BondHeight := old.BondHeight,
                           BondIntraTxCounter := old.BondIntraTxCounter } := by
    have := h3 _ (List.getLast?_concat _)
    simp only [scanRead, if_true, Option.some.injEq] at this
    exact this.symm
  obtain ⟨sc, hco, hcl, hupd⟩ := update_bonded_decrease env s A old _ hold hob hA hj hdec h1 rfl
  obtain ⟨hcl1, _⟩ := hcl (by
    simp only [Nat.zero_add, List.length_append, List.length_singleton]; exact hf2)
  simp only [hv1] at hcl1
  have hscv := cliffOnly_validators hco
  refine ⟨_, hupd, hA, rfl, ?_, ?_, ?_, ?_⟩
  · simp [SetValidator]
  · intro a ha; simp [SetValidator, setUpdate, ha, hscv]
  · simpa [SetValidator, setUpdate] using hcl1
  · simp [SetValidator, setUpdate]

theorem stateCliff8_i5 : BondedIndexConsistent stateCliff8 :=
  bondedIndexConsistent_mkState _ _ _ _ _ (by decide) (by decide)

theorem stateCliff8_consistentFull : ConsistentFull (envAt 2) stateCliff8 where
  wf := tableWF_mkState _ _ _ _ _
  i1 := jailExclusion_mkState _ _ _ _ _ (by decide)
  i4 := powerIndexConsistent_mkState _ _ _ _ _ (by decide) (by decide) (by decide)
  i5 := stateCliff8_i5
  pos := by decide
  full := by decide
  top := fun a => (stateCliff8_i5 a).symm
  cliff := ⟨_, rfl, rfl, rfl⟩

theorem stateCliff8_sorted : PowerIndexSorted stateCliff8 := by
  unfold PowerIndexSorted; decide

theorem stateCliff8U_i5 : BondedIndexConsistent stateCliff8U :=
  bondedIndexConsistent_mkState _ _ _ _ _ (by decide) (by decide)

theorem stateCliff8U_consistentFull : ConsistentFull (envAt 2) stateCliff8U where
  wf := tableWF_mkState _ _ _ _ _
  i1 := jailExclusion_mkState _ _ _ _ _ (by decide)
  i4 := powerIndexConsistent_mkState _ _ _ _ _ (by decide) (by decide) (by decide)
  i5 := stateCliff8U_i5
  pos := by decide
  full := by decide
  top := fun a => (stateCliff8U_i5 a).symm
  cliff := ⟨_, rfl, rfl, rfl⟩

theorem stateCliff8U_sorted : PowerIndexSorted stateCliff8U := by
  unfold PowerIndexSorted; decide

/-- C12, as stated, fails.  With `MaxValidators = 2`, X (power 20) and Y
(power 8, the cliff validator) Bonded and no other validator, the update of X
with power 5 leaves X Bonded.  With one more validator U (power 6, Unbonded)
the update demotes X, and the Cliff Tracker then names U, which was not a
member of the bonded set before the call. -/
theorem decrease_below_cliff_counterexample :
    (ConsistentFull (envAt 2) stateCliff8 ∧ PowerIndexSorted stateCliff8 ∧
      stateCliff8.cliffPower.map (fun k => k.Power) = some 8 ∧
      stateCliff8.validators 1 = some (mkValidator 1 20 BondStatus.Bonded false) ∧
      ∃ r, REFERENCEXXXDELETEUpdateValidator (envAt 2) stateCliff8
          (mkValidator 1 5 BondStatus.Bonded false) = some r ∧
        r.1.Status = BondStatus.Bonded ∧ r.2.validators 1 = some r.1) ∧
    (ConsistentFull (envAt 2) stateCliff8U ∧ PowerIndexSorted stateCliff8U ∧
      stateCliff8U.cliffPower.map (fun k => k.Power) = some 8 ∧
      stateCliff8U.validators 1 = some (mkValidator 1 20 BondStatus.Bonded false) ∧
      ¬ IsBonded stateCliff8U 3 ∧
      ∃ r, REFERENCEXXXDELETEUpdateValidator (envAt 2) stateCliff8U
          (mkValidator 1 5 BondStatus.Bonded false) = some r ∧
        r.1.Status = BondStatus.Unbonding ∧ r.2.cliffAddr = some 3) := by
  refine ⟨⟨stateCliff8_consistentFull, stateCliff8_sorted, rfl, rfl, ?_⟩,
    ⟨stateCliff8U_consistentFull, stateCliff8U_sorted, rfl, rfl, ?_, ?_⟩⟩
  · have hev : (REFERENCEXXXDELETEUpdateValidator (envAt 2) stateCliff8
        (mkValidator 1 5 BondStatus.Bonded false)).map
        (fun r => (r.1.Status, r.2.validators 1 == some r.1)) =
        some (BondStatus.Bonded, true) := rfl
    cases hr : REFERENCEXXXDELETEUpdateValidator (envAt 2) stateCliff8
        (mkValidator 1 5 BondStatus.Bonded false) with
    | none => rw [hr] at hev; cases hev
    | some r =>
      rw [hr] at hev
      simp only [Option.map_some', Option.some.injEq, Prod.mk.injEq, beq_iff_eq] at hev
      exact ⟨r, rfl, hev.1, hev.2⟩
  · exact not_isBonded_of_status (v := mkValidator 3 6 BondStatus.Unbonded false) rfl
      (by decide)
  · have hev : (REFERENCEXXXDELETEUpdateValidator (envAt 2) stateCliff8U
        (mkValidator 1 5 BondStatus.Bonded false)).map
        (fun r => (r.1.Status, r.2.cliffAddr)) =
        some (BondStatus.Unbonding, some 3) := rfl
    cases hr : REFERENCEXXXDELETEUpdateValidator (envAt 2) stateCliff8U
        (mkValidator 1 5 BondStatus.Bonded false) with
    | none => rw [hr] at hev; cases hev
    | some r =>
      rw [hr] at hev
      simp only [Option.map_some', Option.some.injEq, Prod.mk.injEq] at hev
      exact ⟨r, rfl, hev.1, hev.2⟩

/-- C12, amended: for every consistent state with a full bonded set (and a
sorted power index) whose cliff power is 8, the single-validator update on a
Bonded, non-jailed validator whose power decreases from 20 to 5 completes.
When the highest-ranked validator outside the bonded set ranks above the
validator's new key, the validator is demoted (status Unbonding), that outside
validator, which is not jailed, is bonded, and the Cliff Tracker names it.
When no validator outside the bonded set ranks above the new key, the validator
stays Bonded with its new power reported, no other record changes, and the
Cliff Tracker names the validator itself. -/
theorem decrease_below_cliff (env : Env) (s : State) (A old : Validator) (cp : PowerKey)
    (hc : ConsistentFull env s) (hso : PowerIndexSorted s) (hcp : s.cliffPower = some cp)
    (hcp8 : cp.Power = 8)
    (hold : s.validators A.OperatorAddr = some old) (hob : old.Status = BondStatus.Bonded)
    (hop : old.Power = 20)
    (hA : A.Status = BondStatus.Bonded) (hj : A.Jailed = false) (hAp : A.Power = 5) :
    (∀ eU, (s.powerIndex.drop env.maxValidators).head? = some eU →
      (GetValidatorsByPowerIndexKey
        { A with BondHeight := old.BondHeight,
                 BondIntraTxCounter := old.BondIntraTxCounter }).ranksBelow eU.1 = true →
      ∃ r U, REFERENCEXXXDELETEUpdateValidator env s A = some r ∧
        s.validators eU.2 = some U ∧ U.Status ≠ BondStatus.Bonded ∧ U.Jailed = false ∧
        r.1.Status = BondStatus.Unbonding ∧ r.2.validators A.OperatorAddr = some r.1 ∧
        r.2.validators eU.2 = some (bondedRecord env U) ∧ r.2.cliffAddr = some eU.2) ∧
    ((∀ eU, (s.powerIndex.drop env.maxValidators).head? = some eU →
        eU.1.ranksBelow (GetValidatorsByPowerIndexKey
          { A with BondHeight := old.BondHeight,
                   BondIntraTxCounter := old.BondIntraTxCounter }) = true) →
      ∃ r, REFERENCEXXXDELETEUpdateValidator env s A = some r ∧
        r.1.Status = BondStatus.Bonded ∧ r.1.Power = A.Power ∧
        r.2.validators A.OperatorAddr = some r.1 ∧
        (∀ a, a ≠ A.OperatorAddr → r.2.validators a = s.validators a) ∧
        r.2.cliffAddr = some A.OperatorAddr ∧ r.2.updates A.OperatorAddr = some A.Power) :=
  ⟨fun eU hhead hrank =>
      bonded_decrease_demoted env s A old cp eU hc hso hcp hold hob hA hj (by omega) (by omega)
        hhead hrank,
    fun hhead =>
      bonded_decrease_stays env s A old cp hc hso hcp hold hob hA hj (by omega) (by omega)
        hhead⟩

theorem decrease_below_cliff_witness :
    (∃ r U, REFERENCEXXXDELETEUpdateValidator (envAt 2) stateCliff8U
        (mkValidator 1 5 BondStatus.Bonded false) = some r ∧
      stateCliff8U.validators 3 = some U ∧ U.Status ≠ BondStatus.Bonded ∧ U.Jailed = false ∧
      r.1.Status = BondStatus.Unbonding ∧ r.2.validators 1 = some r.1 ∧
      r.2.validators 3 = some (bondedRecord (envAt 2) U) ∧ r.2.cliffAddr = some 3) ∧
    (∃ r, REFERENCEXXXDELETEUpdateValidator (envAt 2) stateCliff8
        (mkValidator 1 5 BondStatus.Bonded false) = some r ∧
      r.1.Status = BondStatus.Bonded ∧ r.1.Power = 5 ∧ r.2.validators 1 = some r.1 ∧
      (∀ a, a ≠ 1 → r.2.validators a = stateCliff8.validators a) ∧
      r.2.cliffAddr = some 1 ∧ r.2.updates 1 = some 5) :=
  ⟨(decrease_below_cliff (envAt 2) stateCliff8U (mkValidator 1 5 BondStatus.Bonded false)
      (mkValidator 1 20 BondStatus.Bonded false)
      (GetValidatorsByPowerIndexKey (mkValidator 2 8 BondStatus.Bonded false))
      stateCliff8U_consistentFull stateCliff8U_sorted rfl rfl rfl rfl rfl rfl rfl rfl).1
      (GetValidatorsByPowerIndexKey (mkValidator 3 6 BondStatus.Unbonded false), 3) rfl
      (by decide),
    (decrease_below_cliff (envAt 2) stateCliff8 (mkValidator 1 5 BondStatus.Bonded false)
      (mkValidator 1 20 BondStatus.Bonded false)
      (GetValidatorsByPowerIndexKey (mkValidator 2 8 BondStatus.Bonded false))
      stateCliff8_consistentFull stateCliff8_sorted rfl rfl rfl rfl rfl rfl rfl rfl).2
      (by intro eU h; cases h)⟩

/-! ### The witness of the admission with spare capacity -/

theorem stateJailedCandidate_i5 : BondedIndexConsistent stateJailedCandidate :=
  bondedIndexConsistent_mkState _ _ _ _ _ (by decide) (by decide)

theorem stateJailedCandidate_consistentSpare :
    ConsistentSpare (envAt 2) stateJailedCandidate where
  wf := tableWF_mkState _ _ _ _ _
  i1 := jailExclusion_mkState _ _ _ _ _ (by decide)
  i4 := powerIndexConsistent_mkState _ _ _ _ _ (by decide) (by decide) (by decide)
  i5 := stateJailedCandidate_i5
  pos := by decide
  fewer := bondedAtMost_of_i5 stateJailedCandidate_i5 (by decide)
  top := by
    intro a v hv
    have hall : ∀ w ∈ [mkValidator 1 10 BondStatus.Bonded false,
        mkValidator 2 5 BondStatus.Unbonding true],
        w.Jailed = false → w.Status = BondStatus.Bonded := by decide
    exact hall v (tableOf_some hv).1
  cliffAddr_none := rfl
  cliffPower_none := rfl

theorem spare_capacity_admits_witness :
    ∃ r, REFERENCEXXXDELETEUpdateValidator (envAt 2) stateJailedCandidate
        (mkValidator 3 7 BondStatus.Unbonded false) = some r ∧
      r.1.Status = BondStatus.Bonded ∧
      r.1.OperatorAddr = (mkValidator 3 7 BondStatus.Unbonded false).OperatorAddr ∧
      r.1.Power = (mkValidator 3 7 BondStatus.Unbonded false).Power ∧
      r.2.validators (mkValidator 3 7 BondStatus.Unbonded false).OperatorAddr = some r.1 ∧
      (∀ a, a ≠ (mkValidator 3 7 BondStatus.Unbonded false).OperatorAddr →
        r.2.validators a = stateJailedCandidate.validators a) ∧
      (∀ a, a ∈ r.2.bondedIndex ↔
        a = (mkValidator 3 7 BondStatus.Unbonded false).OperatorAddr ∨
          a ∈ stateJailedCandidate.bondedIndex) ∧
      r.2.updates (mkValidator 3 7 BondStatus.Unbonded false).OperatorAddr =
        some (mkValidator 3 7 BondStatus.Unbonded false).Power :=
  spare_capacity_admits (envAt 2) stateJailedCandidate (mkValidator 3 7 BondStatus.Unbonded false)
    stateJailedCandidate_consistentSpare rfl (by decide) rfl (by decide)
    (by rintro ⟨v, hv, _⟩; cases hv)

/-- In a full consistent state with a sorted power index that stores a
non-jailed validator that is not Bonded, the first entry after the first
`MaxValidators` entries belongs to a non-jailed validator, and every other
validator that is not Bonded ranks below it. -/
theorem full_next_candidate {env : Env} {s : State} (hc : ConsistentFull env s)
    (hso : PowerIndexSorted s) {a0 : Addr} {U0 : Validator}
    (hU0 : s.validators a0 = some U0) (hU0j : U0.Jailed = false)
    (hU0s : U0.Status ≠ BondStatus.Bonded) :
    ∃ eU Rt U, s.powerIndex.drop env.maxValidators = eU :: Rt ∧
      s.validators eU.2 = some U ∧ U.Jailed = false ∧
      ∀ a v, s.validators a = some v → v.Status ≠ BondStatus.Bonded → a ≠ eU.2 →
        (GetValidatorsByPowerIndexKey v).ranksBelow eU.1 = true := by
  have hdropmem : ∀ a v, s.validators a = some v → v.Status ≠ BondStatus.Bonded →
      (GetValidatorsByPowerIndexKey v, a) ∈ s.powerIndex.drop env.maxValidators := by
    intro a v hv hvs
    have hmem := hc.i4.2.2 a v hv
    rw [← List.take_append_drop env.maxValidators s.powerIndex] at hmem
    rcases List.mem_append.1 hmem with h | h
    · exfalso
      obtain ⟨w, hw, hwb⟩ := (hc.top a).2 (List.mem_map_of_mem Prod.snd h)
      rw [hv] at hw; cases hw
      exact hvs hwb
    · exact h
  have h0 := hdropmem a0 U0 hU0 hU0s
  cases hd : s.powerIndex.drop env.maxValidators with
  | nil => rw [hd] at h0; cases h0
  | cons eU Rt =>
    obtain ⟨U, hU, hkU, _, _, _⟩ := full_next_entry hc hd
    have hpw : (eU :: Rt).Pairwise (fun x y => y.1.ranksBelow x.1 = true) := by
      have := hso
      unfold PowerIndexSorted at this
      rw [← List.take_append_drop env.maxValidators s.powerIndex, hd] at this
      exact (List.pairwise_append.1 this).2.1
    have hbelow : ∀ a v, s.validators a = some v → v.Status ≠ BondStatus.Bonded → a ≠ eU.2 →
        (GetValidatorsByPowerIndexKey v).ranksBelow eU.1 = true := by
      intro a v hv hvs hne
      have h := hdropmem a v hv hvs
      rw [hd] at h
      rcases List.mem_cons.1 h with h | h
      · exact absurd (congrArg Prod.snd h) hne
      · exact (List.pairwise_cons.1 hpw).1 _ h
    refine ⟨eU, Rt, U, rfl, hU, ?_, hbelow⟩
    by_cases hsame : a0 = eU.2
    · rw [← hsame, hU0] at hU
      cases hU
      exact hU0j
    · have := hbelow a0 U0 hU0 hU0s hsame
      cases hUj : U.Jailed with
      | false => rfl
      | true =>
        rw [hkU] at this
        simp [PowerKey.ranksBelow, GetValidatorsByPowerIndexKey, hUj, hU0j] at this

/-- Reporting a Bonded validator of a full consistent state as jailed: the
validator starts unbonding, and in the same call the highest-ranked validator
outside the bonded set, when it is not jailed, is bonded and becomes the cliff
validator.  `J` is the record of the jailed validator after the call. -/
theorem jailing_promotes_next (env : Env) (s : State) (A old J : Validator)
    (eU : PowerKey × Addr) (Rt : List (PowerKey × Addr)) (U : Validator)
    (hc : ConsistentFull env s) (hne : AddrsNonEmpty s)
    (hold : s.validators A.OperatorAddr = some old) (hob : old.Status = BondStatus.Bonded)
    (hA : A.Status = BondStatus.Bonded) (hj : A.Jailed = true)
    (hJ : J = { A with Status := BondStatus.Unbonding,
                       UnbondingMinTime := env.blockTime + env.unbondingTime,
                       UnbondingHeight := env.blockHeight,
                       BondHeight := old.BondHeight,
                       BondIntraTxCounter := old.BondIntraTxCounter })
    (hd : s.powerIndex.drop env.maxValidators = eU :: Rt)
    (hU : s.validators eU.2 = some U) (hUj : U.Jailed = false) :
    ∃ idx, idx.take env.maxValidators =
        (s.powerIndex.take env.maxValidators).filter
          (fun e => decide (e.2 ≠ A.OperatorAddr)) ++ [eU] ∧
      (idx.map Prod.snd).Nodup ∧
      REFERENCEXXXDELETEUpdateValidator env s A = some
        (J, SetValidator (bondState env (setCliffValidator
            { clearCliffValidator (unbondState env s A) with powerIndex := idx } U) U) J) := by
  have hJa : J.OperatorAddr = A.OperatorAddr := by rw [hJ]
  have hJj : J.Jailed = true := by rw [hJ]; exact hj
  have hJs : J.Status = BondStatus.Unbonding := by rw [hJ]
  obtain ⟨U2, hU2, hkU, hUa, hUs, hUnb⟩ := full_next_entry hc hd
  rw [hU] at hU2
  cases hU2
  have hB : IsBonded s A.OperatorAddr := ⟨old, hold, hob⟩
  have hUne : eU.2 ≠ A.OperatorAddr := fun h => hUnb (h ▸ hB)
  obtain ⟨hf1, hf2⟩ := full_top_without hc hB
  have hidx := rekeyed_index s hc.wf hc.i4 old J (by rw [hJa]; exact hold)
  rw [hJa] at hidx
  have hnb : ∀ x ∈ (s.powerIndex.take env.maxValidators).filter
      (fun e => decide (e.2 ≠ A.OperatorAddr)) ++ [eU],
      x.1.ranksBelow (GetValidatorsByPowerIndexKey J) = false := by
    intro x hx
    have hxn : x.1.NotJailed = true := by
      rcases List.mem_append.1 hx with hx | hx
      · obtain ⟨v, _, hvj, _, _, hk⟩ := consistentFull_top_entry hc (List.mem_filter.1 hx).1
        rw [hk]; simp [GetValidatorsByPowerIndexKey, hvj]
      · rw [List.mem_singleton.1 hx, hkU]
        simp [GetValidatorsByPowerIndexKey, hUj]
    simp [PowerKey.ranksBelow, GetValidatorsByPowerIndexKey, hxn, hJj]
  have hfil : s.powerIndex.filter (fun e => decide (e.2 ≠ A.OperatorAddr)) =
      ((s.powerIndex.take env.maxValidators).filter
        (fun e => decide (e.2 ≠ A.OperatorAddr)) ++ [eU]) ++ Rt := by
    rw [hf1, hd]; simp
  have hidx2 : (updateValidatorPower s true old J).2.powerIndex =
      (s.powerIndex.take env.maxValidators).filter
        (fun e => decide (e.2 ≠ A.OperatorAddr)) ++ eU ::
        powerIndexInsert (GetValidatorsByPowerIndexKey J, A.OperatorAddr) Rt := by
    rw [hidx, hfil, insert_append_of_not_below _ _ _ hnb]
    simp
  have hU0 : U.OperatorAddr ≠ 0 := by
    rw [hUa]
    intro h0
    rw [h0] at hU
    have : s.validators 0 = none := hne
    rw [this] at hU
    cases hU
  have hub := updateBonded_fill env
    { clearCliffValidator (unbondState env s A) with
      powerIndex := (updateValidatorPower s true old J).2.powerIndex }
    J _ _ eU U hidx2
    (by
      rw [← hJa]
      exact full_top_reads hc _ J (by
        intro x hx
        have hx2 : x ≠ A.OperatorAddr := by rw [← hJa]; exact hx
        simp [clearCliffValidator, unbondState, hx2]))
    hf2
    (by
      have h1 : ¬ eU.2 = J.OperatorAddr := by rw [hJa]; exact hUne
      simp only [scanRead, h1, if_false]
      simpa [clearCliffValidator, unbondState, hUne] using hU)
    hUj hUs rfl hU0 (by rw [hUa, hJa]; exact hUne)
  have hsw := switch_default_bonded env
    { clearCliffValidator (unbondState env s A) with
      powerIndex := (updateValidatorPower s true old J).2.powerIndex }
    old J (GetValidatorsByPowerIndexKey J) hob
  rw [hub] at hsw
  simp only [if_true] at hsw
  refine ⟨(updateValidatorPower s true old J).2.powerIndex, ?_, ?_, ?_⟩
  · rw [hidx2]
    have : (s.powerIndex.take env.maxValidators).filter
        (fun e => decide (e.2 ≠ A.OperatorAddr)) ++ eU ::
        powerIndexInsert (GetValidatorsByPowerIndexKey J, A.OperatorAddr) Rt =
        ((s.powerIndex.take env.maxValidators).filter
          (fun e => decide (e.2 ≠ A.OperatorAddr)) ++ [eU]) ++
        powerIndexInsert (GetValidatorsByPowerIndexKey J, A.OperatorAddr) Rt := by simp
    rw [this, List.take_left' (by simp only [List.length_append, List.length_singleton]; omega)]
  · rw [hidx]
    apply nodup_powerIndexInsert
    · exact (List.filter_sublist s.powerIndex).map Prod.snd |>.nodup hc.i4.1
    · intro hmem
      obtain ⟨e, he, hea⟩ := List.mem_map.1 hmem
      have := (List.mem_filter.1 he).2
      simp only [ne_eq, decide_eq_true_eq] at this
      exact this hea
  · rw [update_unfold_jailed env s A old J hold hob hj hA hJ, hsw]

/-- The full recomputation from a state whose Bonded validators are exactly
the first `MaxValidators` entries of the power index, none of them jailed,
completes and changes no validator record, no membership of the bonded index
and no entry of the update buffer. -/
theorem full_noop_of_top_bonded (env : Env) (r : State) (hwf : TableWF r)
    (hnd : (r.powerIndex.map Prod.snd).Nodup) (hi5 : BondedIndexConsistent r)
    (htop : ∀ x, IsBonded r x ↔ x ∈ topAddrs env r)
    (hnj : ∀ e ∈ r.powerIndex.take env.maxValidators,
      ∃ v, r.validators e.2 = some v ∧ v.Jailed = false) :
    ∃ r2, XXXREFERENCEUpdateBondedValidatorsFull env r = some r2 ∧
      r2.validators = r.validators ∧ (∀ a, a ∈ r2.bondedIndex ↔ a ∈ r.bondedIndex) ∧
      r2.updates = r.updates := by
  obtain ⟨r2, h1, hp⟩ := Full_spec env r hwf hnd hi5 hnj
  have hb : ∀ a, a ∈ r.bondedIndex ↔ a ∈ topAddrs env r := fun a => (hi5 a).trans (htop a)
  refine ⟨r2, h1, ?_, ?_, ?_⟩
  · funext a
    rw [hp.validators_eq a]
    by_cases ha : a ∈ topAddrs env r
    · rw [if_pos ha, if_pos ((hb a).2 ha)]
    · rw [if_neg ha, if_neg (fun h => ha ((hb a).1 h))]
  · intro a
    rw [hp.bonded_eq a, hb a]
  · funext a
    rw [hp.updates_eq a]
    by_cases ha : a ∈ topAddrs env r
    · rw [if_pos ha, if_pos ((hb a).2 ha)]
    · rw [if_neg ha, if_neg (fun h => ha ((hb a).1 h))]

/-- The stores after a Bonded validator of a full consistent state was reported
jailed and the next candidate `U` took its place: the Bonded validators are
again the first `MaxValidators` entries of the power index. -/
theorem jailing_result_top (env : Env) (s : State) (A J U : Validator)
    (eU : PowerKey × Addr) (idx : List (PowerKey × Addr))
    (hc : ConsistentFull env s) (hB : IsBonded s A.OperatorAddr)
    (hJa : J.OperatorAddr = A.OperatorAddr) (hJs : J.Status = BondStatus.Unbonding)
    (hU : s.validators eU.2 = some U) (hUj : U.Jailed = false)
    (hUnb : ¬ IsBonded s eU.2)
    (htake : idx.take env.maxValidators =
        (s.powerIndex.take env.maxValidators).filter
          (fun e => decide (e.2 ≠ A.OperatorAddr)) ++ [eU]) :
    TableWF (SetValidator (bondState env (setCliffValidator
      { clearCliffValidator (unbondState env s A) with powerIndex := idx } U) U) J) ∧
    (∀ x, IsBonded (SetValidator (bondState env (setCliffValidator
        { clearCliffValidator (unbondState env s A) with powerIndex := idx } U) U) J) x ↔
      x ∈ topAddrs env (SetValidator (bondState env (setCliffValidator
        { clearCliffValidator (unbondState env s A) with powerIndex := idx } U) U) J)) ∧
    (∀ e ∈ (SetValidator (bondState env (setCliffValidator
        { clearCliffValidator (unbondState env s A) with powerIndex := idx } U) U)
          J).powerIndex.take env.maxValidators,
      ∃ v, (SetValidator (bondState env (setCliffValidator
        { clearCliffValidator (unbondState env s A) with powerIndex := idx } U) U)
          J).validators e.2 = some v ∧ v.Jailed = false) := by
  have hUa : U.OperatorAddr = eU.2 := hc.wf _ _ hU
  have hUne : eU.2 ≠ A.OperatorAddr := fun h => hUnb (h ▸ hB)
  have hval : ∀ x, (SetValidator (bondState env (setCliffValidator
      { clearCliffValidator (unbondState env s A) with powerIndex := idx } U) U) J).validators x =
      if x = A.OperatorAddr then some J
      else if x = eU.2 then some (bondedRecord env U) else s.validators x := by
    intro x
    by_cases hx : x = A.OperatorAddr
    · simp [SetValidator, hJa, hx]
    · by_cases hx2 : x = eU.2
      · simp [SetValidator, bondState, hJa, hx, hx2, hUa, hUne]
      · simp [SetValidator, bondState, unbondState, clearCliffValidator, setCliffValidator, hJa,
          hx, hx2, hUa]
  have hmemT : ∀ x, x ∈ ((s.powerIndex.take env.maxValidators).filter
      (fun e => decide (e.2 ≠ A.OperatorAddr))).map Prod.snd ↔
      x ≠ A.OperatorAddr ∧ IsBonded s x := by
    intro x
    rw [hc.top x]
    constructor
    · intro hx
      obtain ⟨e, he, rfl⟩ := List.mem_map.1 hx
      obtain ⟨h1, h2⟩ := List.mem_filter.1 he
      exact ⟨by simpa using h2, List.mem_map_of_mem Prod.snd h1⟩
    · rintro ⟨hx, hx2⟩
      obtain ⟨e, he, rfl⟩ := List.mem_map.1 hx2
      exact List.mem_map_of_mem Prod.snd (List.mem_filter.2 ⟨he, by simpa using hx⟩)
  have htop : topAddrs env (SetValidator (bondState env (setCliffValidator
      { clearCliffValidator (unbondState env s A) with powerIndex := idx } U) U) J) =
      ((s.powerIndex.take env.maxValidators).filter
        (fun e => decide (e.2 ≠ A.OperatorAddr))).map Prod.snd ++ [eU.2] := by
    show (idx.take env.maxValidators).map Prod.snd = _
    rw [htake]; simp
  refine ⟨?_, ?_, ?_⟩
  · intro x v hv
    rw [hval x] at hv
    by_cases hx : x = A.OperatorAddr
    · rw [if_pos hx] at hv; cases hv; rw [hJa, hx]
    · rw [if_neg hx] at hv
      by_cases hx2 : x = eU.2
      · rw [if_pos hx2] at hv; cases hv; rw [bondedRecord_addr, hUa, hx2]
      · rw [if_neg hx2] at hv; exact hc.wf _ _ hv
  · intro x
    rw [htop, List.mem_append, hmemT x, List.mem_singleton]
    unfold IsBonded
    rw [hval x]
    by_cases hx : x = A.OperatorAddr
    · rw [if_pos hx]
      constructor
      · rintro ⟨v, hv, hvb⟩
        cases hv
        rw [hJs] at hvb; cases hvb
      · rintro (⟨h, _⟩ | h)
        · exact absurd hx h
        · exact absurd (h ▸ hx) hUne
    · rw [if_neg hx]
      by_cases hx2 : x = eU.2
      · rw [if_pos hx2]
        exact ⟨fun _ => Or.inr hx2, fun _ => ⟨_, rfl, rfl⟩⟩
      · rw [if_neg hx2]
        constructor
        · intro h; exact Or.inl ⟨hx, h⟩
        · rintro (⟨_, h⟩ | h)
          · exact h
          · exact absurd h hx2
  · intro e he
    have he2 : e ∈ idx.take env.maxValidators := he
    rw [htake] at he2
    rw [hval e.2]
    rcases List.mem_append.1 he2 with h | h
    · obtain ⟨h1, h2⟩ := List.mem_filter.1 h
      have hne : e.2 ≠ A.OperatorAddr := by simpa using h2
      obtain ⟨v, hv, hvj, hvb, _, _⟩ := consistentFull_top_entry hc h1
      have hne2 : e.2 ≠ eU.2 := fun hEq => hUnb (hEq ▸ ⟨v, hv, hvb⟩)
      rw [if_neg hne, if_neg hne2]
      exact ⟨v, hv, hvj⟩
    · rw [List.mem_singleton.1 h, if_neg hUne, if_pos rfl]
      exact ⟨_, rfl, hUj⟩

theorem stateFive_i5 : BondedIndexConsistent stateFive :=
  bondedIndexConsistent_mkState _ _ _ _ _ (by decide) (by decide)

theorem stateFive_consistentFull : ConsistentFull (envAt 5) stateFive where
  wf := tableWF_mkState _ _ _ _ _
  i1 := jailExclusion_mkState _ _ _ _ _ (by decide)
  i4 := powerIndexConsistent_mkState _ _ _ _ _ (by decide) (by decide) (by decide)
  i5 := stateFive_i5
  pos := by decide
  full := by decide
  top := fun a => (stateFive_i5 a).symm
  cliff := ⟨_, rfl, rfl, rfl⟩

theorem stateFive_sorted : PowerIndexSorted stateFive := by
  unfold PowerIndexSorted; decide

/-- The outcome of jailing a Bonded validator of a full bonded set while a
non-jailed validator waits outside it: the validator is Unbonding, the
highest-ranked outside validator is bonded in the same call and named by the
Cliff Tracker, and the full recomputation that follows changes no record. -/
theorem jailing_outcome (env : Env) (s : State) (A old : Validator) (a0 : Addr)
    (U0 : Validator)
    (hc : ConsistentFull env s) (hso : PowerIndexSorted s) (hne : AddrsNonEmpty s)
    (hmax : env.maxValidators = 5)
    (hold : s.validators A.OperatorAddr = some old) (hob : old.Status = BondStatus.Bonded)
    (hA : A.Status = BondStatus.Bonded) (hj : A.Jailed = true)
    (hU0 : s.validators a0 = some U0) (hU0j : U0.Jailed = false)
    (hU0s : U0.Status = BondStatus.Unbonded) :
    ∃ r eU U, REFERENCEXXXDELETEUpdateValidator env s A = some r ∧
      (s.powerIndex.drop env.maxValidators).head? = some eU ∧
      s.validators eU.2 = some U ∧ U.Jailed = false ∧ U.Status ≠ BondStatus.Bonded ∧
      (∀ a v, s.validators a = some v → v.Status ≠ BondStatus.Bonded → a ≠ eU.2 →
        (GetValidatorsByPowerIndexKey v).ranksBelow eU.1 = true) ∧
      r.1.Status = BondStatus.Unbonding ∧ r.2.validators A.OperatorAddr = some r.1 ∧
      r.2.validators eU.2 = some (bondedRecord env U) ∧
      (∀ a, a ≠ A.OperatorAddr → a ≠ eU.2 → r.2.validators a = s.validators a) ∧
      BondedExactly r.2 5 ∧ r.2.cliffAddr = some eU.2 ∧
      ∃ r2, XXXREFERENCEUpdateBondedValidatorsFull env r.2 = some r2 ∧
        r2.validators = r.2.validators := by
  obtain ⟨eU, Rt, U, hd, hU, hUj, hbelow⟩ :=
    full_next_candidate hc hso hU0 hU0j (by rw [hU0s]; decide)
  obtain ⟨U2, hU2, _, hUa, hUs, hUnb⟩ := full_next_entry hc hd
  rw [hU] at hU2
  cases hU2
  have hB : IsBonded s A.OperatorAddr := ⟨old, hold, hob⟩
  have hUne : eU.2 ≠ A.OperatorAddr := fun h => hUnb (h ▸ hB)
  obtain ⟨J, hJ⟩ : ∃ J : Validator, J =
      { A with Status := BondStatus.Unbonding,
               UnbondingMinTime := env.blockTime + env.unbondingTime,
               UnbondingHeight := env.blockHeight,
               BondHeight := old.BondHeight,
               BondIntraTxCounter := old.BondIntraTxCounter } := ⟨_, rfl⟩
  have hJa : J.OperatorAddr = A.OperatorAddr := by rw [hJ]
  have hJs : J.Status = BondStatus.Unbonding := by rw [hJ]
  obtain ⟨idx, htake, hnd, hupd⟩ := jailing_promotes_next env s A old J eU Rt U hc hne hold hob
    hA hj hJ hd hU hUj
  obtain ⟨hwfR, htopR, hnjR⟩ := jailing_result_top env s A J U eU idx hc hB hJa hJs hU hUj
    hUnb htake
  have hst : StatusMatches s A := by
    refine ⟨fun o ho => ?_, fun hn => ?_⟩
    · rw [hold] at ho; cases ho; rw [hA, hob]
    · rw [hold] at hn; cases hn
  have hi5R := (update_i5 env s A _ hc.i5 hst hupd).1
  obtain ⟨r2, hfull, hv2, _, _⟩ := full_noop_of_top_bonded env _ hwfR hnd hi5R htopR hnjR
  have hlen : (topAddrs env (SetValidator (bondState env (setCliffValidator
      { clearCliffValidator (unbondState env s A) with powerIndex := idx } U) U) J)).length
      = 5 := by
    show ((idx.take env.maxValidators).map Prod.snd).length = 5
    rw [htake, List.length_map, List.length_append, List.length_singleton,
      (full_top_without hc hB).2, hmax]
  have hex := (bondedExactly_iff_of_list (topAddrs_nodup env _ hnd) htopR 5).2 hlen
  refine ⟨_, eU, U, hupd, by rw [hd]; rfl, hU, hUj, hUs, hbelow, hJs, ?_, ?_, ?_, hex, ?_,
    r2, hfull, hv2⟩
  · simp [SetValidator, hJa]
  · simp [SetValidator, bondState, hUne, hUa, hJa]
  · intro a ha1 ha2
    simp [SetValidator, bondState, unbondState, clearCliffValidator, setCliffValidator, ha1, ha2,
      hUa, hJa]
  · simp [SetValidator, bondState, setCliffValidator, hUa]

/-- C13, amended: for every consistent state with `MaxValidators = 5`, five
Bonded validators (a sorted power index, non-empty identities) and at least one
non-jailed Unbonded validator, the single-validator update that reports one
Bonded validator as jailed completes, leaves that validator Unbonding and, in
the same call, bonds the highest-ranked validator outside the bonded set, which
is not jailed; no other record changes, exactly five validators are Bonded and
the Cliff Tracker names the promoted validator.  A full recomputation run
immediately afterwards completes and changes no validator record. -/
theorem jailing_fills_slot (env : Env) (s : State) (A old : Validator) (a0 : Addr)
    (U0 : Validator)
    (hc : ConsistentFull env s) (hso : PowerIndexSorted s) (hne : AddrsNonEmpty s)
    (hmax : env.maxValidators = 5)
    (hold : s.validators A.OperatorAddr = some old) (hob : old.Status = BondStatus.Bonded)
    (hA : A.Status = BondStatus.Bonded) (hj : A.Jailed = true)
    (hU0 : s.validators a0 = some U0) (hU0j : U0.Jailed = false)
    (hU0s : U0.Status = BondStatus.Unbonded) :
    ∃ r eU U, REFERENCEXXXDELETEUpdateValidator env s A = some r ∧
      (s.powerIndex.drop env.maxValidators).head? = some eU ∧
      s.validators eU.2 = some U ∧ U.Jailed = false ∧ U.Status ≠ BondStatus.Bonded ∧
      (∀ a v, s.validators a = some v → v.Status ≠ BondStatus.Bonded → a ≠ eU.2 →
        (GetValidatorsByPowerIndexKey v).ranksBelow eU.1 = true) ∧
      r.1.Status = BondStatus.Unbonding ∧ r.2.validators A.OperatorAddr = some r.1 ∧
      r.2.validators eU.2 = some (bondedRecord env U) ∧
      (∀ a, a ≠ A.OperatorAddr → a ≠ eU.2 → r.2.validators a = s.validators a) ∧
      BondedExactly r.2 5 ∧ r.2.cliffAddr = some eU.2 ∧
      ∃ r2, XXXREFERENCEUpdateBondedValidatorsFull env r.2 = some r2 ∧
        r2.validators = r.2.validators :=
  jailing_outcome env s A old a0 U0 hc hso hne hmax hold hob hA hj hU0 hU0j hU0s

theorem jailing_fills_slot_witness :
    ∃ r eU U, REFERENCEXXXDELETEUpdateValidator (envAt 5) stateFive
        (mkValidator 1 50 BondStatus.Bonded true) = some r ∧
      (stateFive.powerIndex.drop (envAt 5).maxValidators).head? = some eU ∧
      stateFive.validators eU.2 = some U ∧ U.Jailed = false ∧ U.Status ≠ BondStatus.Bonded ∧
      (∀ a v, stateFive.validators a = some v → v.Status ≠ BondStatus.Bonded → a ≠ eU.2 →
        (GetValidatorsByPowerIndexKey v).ranksBelow eU.1 = true) ∧
      r.1.Status = BondStatus.Unbonding ∧
      r.2.validators (mkValidator 1 50 BondStatus.Bonded true).OperatorAddr = some r.1 ∧
      r.2.validators eU.2 = some (bondedRecord (envAt 5) U) ∧
      (∀ a, a ≠ (mkValidator 1 50 BondStatus.Bonded true).OperatorAddr → a ≠ eU.2 →
        r.2.validators a = stateFive.validators a) ∧
      BondedExactly r.2 5 ∧ r.2.cliffAddr = some eU.2 ∧
      ∃ r2, XXXREFERENCEUpdateBondedValidatorsFull (envAt 5) r.2 = some r2 ∧
        r2.validators = r.2.validators :=
  jailing_fills_slot (envAt 5) stateFive (mkValidator 1 50 BondStatus.Bonded true)
    (mkValidator 1 50 BondStatus.Bonded false) 6 (mkValidator 6 5 BondStatus.Unbonded false)
    stateFive_consistentFull stateFive_sorted rfl rfl rfl rfl rfl rfl rfl rfl rfl

/-- C13, as stated, fails: in the full set of five of `stateFive`, with the
non-jailed Unbonded validators 6 and 7 waiting, the update that reports the
Bonded validator 1 (power 50) as jailed bonds validator 6 in the same call.
Afterwards five validators are Bonded, not four, and the Cliff Tracker is
defined; the full recomputation that follows changes no status. -/
theorem jailing_fills_slot_counterexample :
    ConsistentFull (envAt 5) stateFive ∧ PowerIndexSorted stateFive ∧
    stateFive.validators 1 = some (mkValidator 1 50 BondStatus.Bonded false) ∧
    stateFive.validators 6 = some (mkValidator 6 5 BondStatus.Unbonded false) ∧
    ∃ r, REFERENCEXXXDELETEUpdateValidator (envAt 5) stateFive
        (mkValidator 1 50 BondStatus.Bonded true) = some r ∧
      r.2.cliffAddr = some 6 ∧ IsBonded r.2 6 ∧ BondedExactly r.2 5 ∧
      ¬ BondedExactly r.2 4 ∧
      ∃ r2, XXXREFERENCEUpdateBondedValidatorsFull (envAt 5) r.2 = some r2 ∧
        r2.validators = r.2.validators := by
  refine ⟨stateFive_consistentFull, stateFive_sorted, rfl, rfl, ?_⟩
  obtain ⟨r, eU, U, hr, hhead, _, _, _, _, _, _, hvU, _, hex, hcl, hfull⟩ :=
    jailing_outcome (envAt 5) stateFive (mkValidator 1 50 BondStatus.Bonded true)
      (mkValidator 1 50 BondStatus.Bonded false) 6 (mkValidator 6 5 BondStatus.Unbonded false)
      stateFive_consistentFull stateFive_sorted rfl rfl rfl rfl rfl rfl rfl rfl rfl
  have he : eU = (GetValidatorsByPowerIndexKey (mkValidator 6 5 BondStatus.Unbonded false), 6) := by
    have h2 : some (GetValidatorsByPowerIndexKey (mkValidator 6 5 BondStatus.Unbonded false), 6)
        = some eU := hhead
    cases h2
    rfl
  subst he
  refine ⟨r, hr, hcl, ⟨_, hvU, rfl⟩, hex, ?_, hfull⟩
  intro h4
  obtain ⟨l5, hl5, hm5, hn5⟩ := hex
  obtain ⟨l4, hl4, hm4, hn4⟩ := h4
  have hperm : l5.Perm l4 :=
    (List.perm_ext_iff_of_nodup hl5 hl4).2 (fun a => (hm5 a).trans (hm4 a).symm)
  have := hperm.length_eq
  omega

/-- C21: for every state with consistent indexes (validator table keyed by
operator address, I4, I5) and `MaxValidators = 0`, the full recomputation
completes; afterwards no validator is Bonded, every validator that was Bonded
is stored Unbonding with a zero-power entry in the update buffer, every other
record and its update-buffer entry are unchanged (nobody is promoted), and the
bonded index is empty. -/
theorem zero_capacity_demotes_all (env : Env) (s : State) (hmax : env.maxValidators = 0)
    (hwf : TableWF s) (hi4 : PowerIndexConsistent s) (hi5 : BondedIndexConsistent s) :
    ∃ r, XXXREFERENCEUpdateBondedValidatorsFull env s = some r ∧
      (∀ a, ¬ IsBonded r a) ∧
      (∀ a v, s.validators a = some v → v.Status = BondStatus.Bonded →
        r.validators a = some (unbondingRecord env v) ∧
        (unbondingRecord env v).Status = BondStatus.Unbonding ∧ r.updates a = some 0) ∧
      (∀ a, ¬ IsBonded s a → r.validators a = s.validators a ∧ r.updates a = s.updates a) ∧
      r.bondedIndex = [] := by
  have htop : topAddrs env s = [] := by simp [topAddrs, hmax]
  obtain ⟨r, hr, hp⟩ := Full_spec env s hwf hi4.1 hi5 (by
    intro e he
    rw [hmax] at he
    simp at he)
  refine ⟨r, hr, ?_, ?_, ?_, ?_⟩
  · intro a ha
    have := (isBonded_iff_of_fullPost hi4 hi5 hp a).1 ha
    rw [htop] at this
    simp at this
  · intro a v hv hb
    have hin : a ∈ s.bondedIndex := (hi5 a).2 ⟨v, hv, hb⟩
    refine ⟨?_, rfl, ?_⟩
    · rw [hp.validators_eq a, htop]
      simp [hin, hv]
    · rw [hp.updates_eq a, htop]
      simp [hin]
  · intro a ha
    have hin : a ∉ s.bondedIndex := fun h => ha ((hi5 a).1 h)
    constructor
    · rw [hp.validators_eq a, htop]
      simp [hin]
    · rw [hp.updates_eq a, htop]
      simp [hin]
  · apply List.eq_nil_iff_forall_not_mem.2
    intro a ha
    have := (hp.bonded_eq a).1 ha
    rw [htop] at this
    simp at this

theorem zero_capacity_demotes_all_witness :
    ∃ r, XXXREFERENCEUpdateBondedValidatorsFull (envAt 0) stateXY = some r ∧
      (∀ a, ¬ IsBonded r a) ∧
      (∀ a v, stateXY.validators a = some v → v.Status = BondStatus.Bonded →
        r.validators a = some (unbondingRecord (envAt 0) v) ∧
        (unbondingRecord (envAt 0) v).Status = BondStatus.Unbonding ∧ r.updates a = some 0) ∧
      (∀ a, ¬ IsBonded stateXY a →
        r.validators a = stateXY.validators a ∧ r.updates a = stateXY.updates a) ∧
      r.bondedIndex = [] :=
  zero_capacity_demotes_all (envAt 0) stateXY rfl stateXY_consistentFull.wf
    stateXY_consistentFull.i4 stateXY_i5

/-- Demoting two validators with distinct identities gives the same stores in
either order. -/
theorem unbondState_comm (env : Env) (s : State) (v w : Validator)
    (hne : v.OperatorAddr ≠ w.OperatorAddr) :
    unbondState env (unbondState env s v) w = unbondState env (unbondState env s w) v := by
  have hne2 : w.OperatorAddr ≠ v.OperatorAddr := fun h => hne h.symm
  unfold unbondState
  congr 1
  · funext a
    by_cases h1 : a = w.OperatorAddr
    · have h2 : a ≠ v.OperatorAddr := fun h => hne (h.symm.trans h1)
      simp [h1, hne2]
    · by_cases h2 : a = v.OperatorAddr
      · simp [h2, hne]
      · simp [h1, h2]
  · simp only [List.filter_filter]
    apply List.filter_congr
    intro x _
    simp only [Bool.and_comm]
  · funext a
    by_cases h1 : a = w.OperatorAddr
    · simp [h1, hne2]
    · by_cases h2 : a = v.OperatorAddr
      · simp [h2, hne]
      · simp [h1, h2]
  · simp only [Pool.mk.injEq]
    constructor <;> ring

/-- One step of `kickOutValidators` on a stored Bonded validator. -/
theorem kickOutValidators_cons (env : Env) (s : State) (x : Addr) (l : List Addr)
    (v : Validator) (hv : s.validators x = some v) (hb : v.Status = BondStatus.Bonded) :
    kickOutValidators env s (x :: l) = kickOutValidators env (unbondState env s v) l := by
  rw [kickOutValidators]
  simp only [mustGetValidator, hv, beginUnbondingValidator_eq, if_pos hb]

/-- The result of `kickOutValidators` does not depend on the order in which
distinct Bonded validators are visited. -/
theorem kickOutValidators_perm (env : Env) {l1 l2 : List Addr} (hp : l1.Perm l2) :
    ∀ s : State, TableWF s → l1.Nodup → (∀ a ∈ l1, IsBonded s a) →
      kickOutValidators env s l1 = kickOutValidators env s l2 := by
  induction hp with
  | nil => intro s _ _ _; rfl
  | cons x _ ih =>
    intro s hwf hnd hb
    obtain ⟨v, hv, hvb⟩ := hb x (List.mem_cons_self _ _)
    have hva : v.OperatorAddr = x := hwf _ _ hv
    rw [kickOutValidators_cons env s x _ v hv hvb, kickOutValidators_cons env s x _ v hv hvb]
    rw [List.nodup_cons] at hnd
    apply ih _ (tableWF_unbondState env s v hwf) hnd.2
    intro a ha
    refine (isBonded_unbondState env s v a).2 ⟨?_, hb a (List.mem_cons_of_mem _ ha)⟩
    rw [hva]
    intro h
    exact hnd.1 (h ▸ ha)
  | swap x y l =>
    intro s hwf hnd hb
    obtain ⟨vy, hvy, hvyb⟩ := hb y (List.mem_cons_self _ _)
    obtain ⟨vx, hvx, hvxb⟩ := hb x (List.mem_cons_of_mem _ (List.mem_cons_self _ _))
    have hya : vy.OperatorAddr = y := hwf _ _ hvy
    have hxa : vx.OperatorAddr = x := hwf _ _ hvx
    have hxy : y ≠ x := by
      rw [List.nodup_cons] at hnd
      intro h
      exact hnd.1 (h ▸ List.mem_cons_self _ _)
    have hvx2 : (unbondState env s vy).validators x = some vx := by
      have : x ≠ vy.OperatorAddr := by rw [hya]; exact fun h => hxy h.symm
      simp [unbondState, this, hvx]
    have hvy2 : (unbondState env s vx).validators y = some vy := by
      have : y ≠ vx.OperatorAddr := by rw [hxa]; exact hxy
      simp [unbondState, this, hvy]
    rw [kickOutValidators_cons env s y _ vy hvy hvyb,
      kickOutValidators_cons env _ x _ vx hvx2 hvxb,
      kickOutValidators_cons env s x _ vx hvx hvxb,
      kickOutValidators_cons env _ y _ vy hvy2 hvyb,
      unbondState_comm env s vy vx (by rw [hya, hxa]; exact hxy)]
  | trans p1 _ ih1 ih2 =>
    intro s hwf hnd hb
    rw [ih1 s hwf hnd hb]
    exact ih2 s hwf (p1.nodup_iff.1 hnd) (fun a ha => hb a (p1.mem_iff.2 ha))

/-- C22: for every state (validator table keyed by operator address) and
every two orders `l1`, `l2` of a set of distinct Bonded validators,
`kickOutValidators` completes in both orders with the same stores (validator
records, pool counters, bonded index, update buffer and everything else); and
`beginUnbondingValidator` applied to two Bonded validators with distinct
identities completes in both orders with the same stores. -/
theorem kickOut_order_independent (env : Env) (s : State) (l1 l2 : List Addr)
    (hwf : TableWF s) (hnd : l1.Nodup) (hb : ∀ a ∈ l1, IsBonded s a) (hp : l1.Perm l2) :
    (∃ r, kickOutValidators env s l1 = some r ∧ kickOutValidators env s l2 = some r) ∧
    (∀ v w : Validator, v.Status = BondStatus.Bonded → w.Status = BondStatus.Bonded →
      v.OperatorAddr ≠ w.OperatorAddr →
      ∃ r1 r2 q1 q2, beginUnbondingValidator env s v = some r1 ∧
        beginUnbondingValidator env r1.2 w = some r2 ∧
        beginUnbondingValidator env s w = some q1 ∧
        beginUnbondingValidator env q1.2 v = some q2 ∧ r2.2 = q2.2) := by
  constructor
  · obtain ⟨r, hr, _⟩ := kickOutValidators_spec env l1 s hnd (by
      intro a ha
      obtain ⟨v, hv, hvb⟩ := hb a ha
      exact ⟨v, hv, hwf _ _ hv, hvb⟩)
    exact ⟨r, hr, by rw [← kickOutValidators_perm env hp s hwf hnd hb]; exact hr⟩
  · intro v w hv hw hne
    refine ⟨_, _, _, _, by rw [beginUnbondingValidator_eq, if_pos hv],
      by rw [beginUnbondingValidator_eq, if_pos hw],
      by rw [beginUnbondingValidator_eq, if_pos hw],
      by rw [beginUnbondingValidator_eq, if_pos hv], unbondState_comm env s v w hne⟩

theorem kickOut_order_independent_witness :
    (∃ r, kickOutValidators (envAt 2) stateXY [1, 2] = some r ∧
      kickOutValidators (envAt 2) stateXY [2, 1] = some r) ∧
    (∀ v w : Validator, v.Status = BondStatus.Bonded → w.Status = BondStatus.Bonded →
      v.OperatorAddr ≠ w.OperatorAddr →
      ∃ r1 r2 q1 q2, beginUnbondingValidator (envAt 2) stateXY v = some r1 ∧
        beginUnbondingValidator (envAt 2) r1.2 w = some r2 ∧
        beginUnbondingValidator (envAt 2) stateXY w = some q1 ∧
        beginUnbondingValidator (envAt 2) q1.2 v = some q2 ∧ r2.2 = q2.2) :=
  kickOut_order_independent (envAt 2) stateXY [1, 2] [2, 1] (tableWF_mkState _ _ _ _ _)
    (by decide)
    (by
      intro a ha
      exact (stateXY_i5 a).1 ha)
    (List.Perm.swap 2 1 [])

/-- The second loop of `GetValidTendermintUpdates`: an entry of the result is a
zero written for a member of `previousValidators`, or was there before. -/
theorem previousLoop_entry (a : Addr) (p : Nat) :
    ∀ (prev : List TopValidator) (m : Addr → Option Nat),
    (prev.foldl (fun m validator => mapSet m validator.Addr 0) m) a = some p →
    (p = 0 ∧ a ∈ prev.map (fun v => v.Addr)) ∨ m a = some p
  | [], m, h => Or.inr h
  | v :: rest, m, h => by
    rw [List.foldl_cons] at h
    rcases previousLoop_entry a p rest _ h with ⟨h0, hmem⟩ | h1
    · exact Or.inl ⟨h0, by simp [hmem]⟩
    · unfold mapSet at h1
      by_cases ha : a = v.Addr
      · rw [if_pos ha] at h1
        left
        exact ⟨by simpa using h1.symm, by simp [ha]⟩
      · rw [if_neg ha] at h1
        exact Or.inr h1

/-- The first loop of `GetValidTendermintUpdates`: an entry of the result is the
power of a member of `topvalidator` that is not Bonded, or was there before. -/
theorem topLoop_entry (a : Addr) (p : Nat) :
    ∀ (top : List TopValidator) (m : Addr → Option Nat),
    (top.foldl (fun m validator =>
      match validator.State with
      | BondStatus.Unbonded => mapSet m validator.Addr validator.Power
      | BondStatus.Unbonding => mapSet m validator.Addr validator.Power
      | BondStatus.Bonded => m) m) a = some p →
    (∃ v ∈ top, v.Addr = a ∧ v.Power = p ∧ v.State ≠ BondStatus.Bonded) ∨ m a = some p
  | [], m, h => Or.inr h
  | v :: rest, m, h => by
    rw [List.foldl_cons] at h
    rcases topLoop_entry a p rest _ h with ⟨w, hw, hw2⟩ | h1
    · exact Or.inl ⟨w, List.mem_cons_of_mem _ hw, hw2⟩
    · cases hs : v.State with
      | Bonded =>
        rw [hs] at h1
        exact Or.inr h1
      | Unbonded =>
        rw [hs] at h1
        simp only [mapSet] at h1
        by_cases ha : a = v.Addr
        · rw [if_pos ha] at h1
          exact Or.inl ⟨v, List.mem_cons_self _ _, ha.symm, by simpa using h1, by rw [hs]; decide⟩
        · rw [if_neg ha] at h1
          exact Or.inr h1
      | Unbonding =>
        rw [hs] at h1
        simp only [mapSet] at h1
        by_cases ha : a = v.Addr
        · rw [if_pos ha] at h1
          exact Or.inl ⟨v, List.mem_cons_self _ _, ha.symm, by simpa using h1, by rw [hs]; decide⟩
        · rw [if_neg ha] at h1
          exact Or.inr h1

/-- Where the zero-power entries of the update map come from: a member of
`previousValidators`, or a member of `topvalidator` that is not Bonded and has
power zero. -/
theorem tendermintUpdates_zero_origin (top prev : List TopValidator) (a : Addr)
    (h : GetValidTendermintUpdates top prev a = some 0) :
    a ∈ prev.map (fun v => v.Addr) ∨
      ∃ v ∈ top, v.Addr = a ∧ v.Power = 0 ∧ v.State ≠ BondStatus.Bonded := by
  unfold GetValidTendermintUpdates at h
  rcases previousLoop_entry a 0 prev _ h with ⟨_, hmem⟩ | h1
  · exact Or.inl hmem
  · rcases topLoop_entry a 0 top _ h1 with hv | h2
    · exact Or.inr hv
    · cases h2

/-- C23 fails on the code: with no previous validator and one top validator
that is Unbonded with power zero, the update map reports that validator with
power zero although it was not bonded at the previous block height. -/
theorem zero_power_reported_for_new_top_validator :
    GetValidTendermintUpdates
      [{ Addr := 1, State := BondStatus.Unbonded, Power := 0, Jailed := false }] [] 1 = some 0 ∧
    (1 : Addr) ∉ ([] : List TopValidator).map (fun v => v.Addr) := by
  constructor
  · rfl
  · simp

end Stake

namespace ClientContext

/-- The function when `GetNode` returns an error. -/
theorem broadcast_getNode_error (IsOK : ResponseTx → Bool) (n : Option Node) (err : Error)
    (tx : List Nat) :
    BroadcastTxAndAwaitCommit IsOK { GetNode := (n, some err) } tx = some (none, some err) := by
  cases n <;> rfl

/-- The function when the node returns an error. -/
theorem broadcast_call_error (IsOK : ResponseTx → Bool) (node : Node) (tx : List Nat)
    (res : Option ResultBroadcastTxCommit) (err : Error)
    (hcall : node.BroadcastTxCommit tx = (res, some err)) :
    BroadcastTxAndAwaitCommit IsOK { GetNode := (some node, none) } tx =
      some (res, some err) := by
  simp only [BroadcastTxAndAwaitCommit, hcall]

/-- The function when the node returns a result and no error. -/
theorem broadcast_call_result (IsOK : ResponseTx → Bool) (node : Node) (tx : List Nat)
    (r : ResultBroadcastTxCommit) (hcall : node.BroadcastTxCommit tx = (some r, none)) :
    BroadcastTxAndAwaitCommit IsOK { GetNode := (some node, none) } tx =
      if IsOK r.CheckTx = false then
        some (some r, some (Error.checkTxFailed r.CheckTx.Code r.CheckTx.Log))
      else if IsOK r.DeliverTx = false then
        some (some r, some (Error.deliverTxFailed r.DeliverTx.Code r.DeliverTx.Log))
      else some (some r, none) := by
  simp only [BroadcastTxAndAwaitCommit, hcall]
  cases IsOK r.CheckTx <;> cases IsOK r.DeliverTx <;> rfl

/-- C25: `BroadcastTxAndAwaitCommit` returns whenever `GetNode` gives a client
or an error and the node gives a result or an error.  When it returns, the error
is not `nil` exactly when obtaining the node failed, or the node's
`BroadcastTxCommit` failed, or the CheckTx response is not OK, or the DeliverTx
response is not OK; when the CheckTx response is not OK (whatever the DeliverTx
response is) the error is the CheckTx error with its code and log; and whenever
the node was called, the result it produced is returned unchanged. -/
theorem broadcast_error_reporting (IsOK : ResponseTx → Bool) (ctx : CLIContext) (tx : List Nat) :
    ((ctx.GetNode.2 = none → ctx.GetNode.1 ≠ none) →
      (∀ node, ctx.GetNode = (some node, none) →
        (node.BroadcastTxCommit tx).2 = none → (node.BroadcastTxCommit tx).1 ≠ none) →
      (BroadcastTxAndAwaitCommit IsOK ctx tx).isSome = true) ∧
    (∀ out, BroadcastTxAndAwaitCommit IsOK ctx tx = some out →
      (out.2 ≠ none ↔
        (ctx.GetNode.2 ≠ none ∨
          ∃ node, ctx.GetNode = (some node, none) ∧
            ((node.BroadcastTxCommit tx).2 ≠ none ∨
              ∃ res, node.BroadcastTxCommit tx = (some res, none) ∧
                (IsOK res.CheckTx = false ∨ IsOK res.DeliverTx = false)))) ∧
      (∀ node res, ctx.GetNode = (some node, none) →
        node.BroadcastTxCommit tx = (some res, none) → IsOK res.CheckTx = false →
        out.2 = some (Error.checkTxFailed res.CheckTx.Code res.CheckTx.Log)) ∧
      (∀ node res, ctx.GetNode = (some node, none) →
        node.BroadcastTxCommit tx = (some res, none) → IsOK res.CheckTx = true →
        IsOK res.DeliverTx = false →
        out.2 = some (Error.deliverTxFailed res.DeliverTx.Code res.DeliverTx.Log)) ∧
      (∀ node, ctx.GetNode = (some node, none) → out.1 = (node.BroadcastTxCommit tx).1) ∧
      (ctx.GetNode.2 ≠ none → out = (none, ctx.GetNode.2))) := by
  obtain ⟨gn⟩ := ctx
  obtain ⟨n, e⟩ := gn
  cases e with
  | some err =>
    constructor
    · intro _ _; rw [broadcast_getNode_error]; rfl
    · intro out h
      rw [broadcast_getNode_error, Option.some.injEq] at h
      subst h
      refine ⟨?_, ?_, ?_, ?_, ?_⟩
      · simp
      · intro node res hg; simp at hg
      · intro node res hg; simp at hg
      · intro node hg; simp at hg
      · intro _; rfl
  | none =>
    cases n with
    | none =>
      constructor
      · intro h1 _; exact absurd rfl (h1 rfl)
      · intro out h
        simp [BroadcastTxAndAwaitCommit] at h
    | some node =>
      have hnode : ∀ node2, ({ GetNode := (some node, none) } : CLIContext).GetNode
          = (some node2, none) → node2 = node := by
        intro node2 hg
        simp only [Prod.mk.injEq, Option.some.injEq, and_true] at hg
        exact hg.symm
      rcases hcall : node.BroadcastTxCommit tx with ⟨res, cerr⟩
      cases cerr with
      | some err2 =>
        constructor
        · intro _ _
          rw [broadcast_call_error IsOK node tx res err2 hcall]; rfl
        · intro out h
          rw [broadcast_call_error IsOK node tx res err2 hcall, Option.some.injEq] at h
          subst h
          refine ⟨?_, ?_, ?_, ?_, ?_⟩
          · simp [hcall]
          · intro node2 res2 hg hc
            rw [hnode node2 hg, hcall] at hc
            simp at hc
          · intro node2 res2 hg hc
            rw [hnode node2 hg, hcall] at hc
            simp at hc
          · intro node2 hg
            rw [hnode node2 hg, hcall]
          · intro hne; simp at hne
      | none =>
        cases res with
        | none =>
          constructor
          · intro _ h2
            exact absurd (by rw [hcall]) (h2 node rfl (by rw [hcall]))
          · intro out h
            simp [BroadcastTxAndAwaitCommit, hcall] at h
        | some r =>
          have key : ∀ node2 res2, ({ GetNode := (some node, none) } : CLIContext).GetNode
              = (some node2, none) → node2.BroadcastTxCommit tx = (some res2, none) →
              res2 = r := by
            intro node2 res2 hg hc
            rw [hnode node2 hg, hcall] at hc
            simp only [Prod.mk.injEq, Option.some.injEq, and_true] at hc
            exact hc.symm
          have hres : ∀ node2, ({ GetNode := (some node, none) } : CLIContext).GetNode
              = (some node2, none) → some r = (node2.BroadcastTxCommit tx).1 := by
            intro node2 hg
            rw [hnode node2 hg, hcall]
          constructor
          · intro _ _
            rw [broadcast_call_result IsOK node tx r hcall]
            split_ifs <;> rfl
          · intro out h
            rw [broadcast_call_result IsOK node tx r hcall] at h
            by_cases hck : IsOK r.CheckTx = false
            · rw [if_pos hck, Option.some.injEq] at h
              subst h
              refine ⟨?_, ?_, ?_, hres, ?_⟩
              · simp only [ne_eq, reduceCtorEq, not_false_eq_true, true_iff]
                exact Or.inr ⟨node, rfl, Or.inr ⟨r, hcall, Or.inl hck⟩⟩
              · intro node2 res2 hg hc _
                rw [key node2 res2 hg hc]
              · intro node2 res2 hg hc hf
                rw [key node2 res2 hg hc, hck] at hf
                cases hf
              · intro hne; simp at hne
            · rw [if_neg hck] at h
              have hck2 : IsOK r.CheckTx = true := by simpa using hck
              by_cases hdl : IsOK r.DeliverTx = false
              · rw [if_pos hdl, Option.some.injEq] at h
                subst h
                refine ⟨?_, ?_, ?_, hres, ?_⟩
                · simp only [ne_eq, reduceCtorEq, not_false_eq_true, true_iff]
                  exact Or.inr ⟨node, rfl, Or.inr ⟨r, hcall, Or.inr hdl⟩⟩
                · intro node2 res2 hg hc hf
                  rw [key node2 res2 hg hc, hck2] at hf
                  cases hf
                · intro node2 res2 hg hc _ _
                  rw [key node2 res2 hg hc]
                · intro hne; simp at hne
              · rw [if_neg hdl, Option.some.injEq] at h
                subst h
                refine ⟨?_, ?_, ?_, hres, ?_⟩
                · simp only [ne_eq, not_true_eq_false, false_iff, not_or, not_exists, not_and]
                  refine ⟨by simp, ?_⟩
                  intro node2 hg
                  rw [hnode node2 hg]
                  refine ⟨by simp [hcall], ?_⟩
                  intro res2 hc
                  rw [hcall] at hc
                  simp only [Prod.mk.injEq, Option.some.injEq, and_true] at hc
                  subst hc
                  exact ⟨hck, hdl⟩
                · intro node2 res2 hg hc hf
                  rw [key node2 res2 hg hc] at hf
                  exact absurd hf hck
                · intro node2 res2 hg hc _ hf
                  rw [key node2 res2 hg hc] at hf
                  exact absurd hf hdl
                · intro hne; simp at hne

theorem broadcast_error_reporting_witness :
    ∃ out, BroadcastTxAndAwaitCommit codeIsZero ctxBothFailed [0] = some out ∧
      out.2 ≠ none ∧
      out.2 = some (Error.checkTxFailed (resultWith 1 "check" 2 "deliver").CheckTx.Code
        (resultWith 1 "check" 2 "deliver").CheckTx.Log) ∧
      out.1 = some (resultWith 1 "check" 2 "deliver") := by
  have hsome := (broadcast_error_reporting codeIsZero ctxBothFailed [0]).1
    (fun _ => by simp [ctxBothFailed])
    (fun node hg _ => by
      have : node = nodeReturning (resultWith 1 "check" 2 "deliver") := by
        simp only [ctxBothFailed, Prod.mk.injEq, Option.some.injEq, and_true] at hg
        exact hg.symm
      rw [this]
      simp [nodeReturning])
  obtain ⟨out, hout⟩ := Option.isSome_iff_exists.1 hsome
  have h := (broadcast_error_reporting codeIsZero ctxBothFailed [0]).2 out hout
  have hc := h.2.1 (nodeReturning (resultWith 1 "check" 2 "deliver"))
    (resultWith 1 "check" 2 "deliver") rfl rfl rfl
  refine ⟨out, hout, ?_, hc, ?_⟩
  · rw [hc]; simp
  · exact h.2.2.2.1 (nodeReturning (resultWith 1 "check" 2 "deliver")) rfl

end ClientContext

namespace Stake

/-- What a successful scan of `XXXREFERENCEUpdateBondedValidators` over
entries whose records are not jailed has read: it counted the entries up to
`MaxValidators`, each of them Bonded except the validator marked for bonding,
and the last validator read is the last of them. -/
theorem bondedScan_inv (env : Env) (s : State) (aff : Validator) :
    ∀ (l : List (PowerKey × Addr)) (acc r : BondedScan),
    bondedScan env s aff l acc = some r →
    (∀ e ∈ l, ∀ v, scanRead s aff e.2 = some v → v.Jailed = false) →
    r.count = acc.count + (l.take (env.maxValidators - acc.count)).length ∧
    (∀ e ∈ l.take (env.maxValidators - acc.count), ∃ v, scanRead s aff e.2 = some v ∧
      (v.Status = BondStatus.Bonded ∨
        (acc.newValidatorBonded = false ∧ r.newValidatorBonded = true ∧
          r.validatorToBond = v))) ∧
    (∀ e, (l.take (env.maxValidators - acc.count)).getLast? = some e →
      scanRead s aff e.2 = some r.validator) ∧
    (l.take (env.maxValidators - acc.count) = [] → r = acc) ∧
    (acc.newValidatorBonded = true →
      r.newValidatorBonded = true ∧ r.validatorToBond = acc.validatorToBond) ∧
    (r.newValidatorBonded = true → acc.newValidatorBonded = false →
      ∃ e ∈ l.take (env.maxValidators - acc.count),
        scanRead s aff e.2 = some r.validatorToBond ∧
        r.validatorToBond.Status ≠ BondStatus.Bonded) := by
  intro l
  induction l with
  | nil =>
    intro acc r h _
    simp only [bondedScan, Option.some.injEq] at h
    subst h
    refine ⟨by simp, by simp, by simp, fun _ => rfl, fun h => ⟨h, rfl⟩, ?_⟩
    intro h1 h2
    rw [h1] at h2; cases h2
  | cons e rest ih =>
    intro acc r h hnj
    by_cases hc : acc.count < env.maxValidators
    · obtain ⟨k, hk⟩ : ∃ k, env.maxValidators - acc.count = k + 1 :=
        ⟨env.maxValidators - acc.count - 1, by omega⟩
      have hk2 : env.maxValidators - (acc.count + 1) = k := by omega
      rw [hk, List.take_succ_cons]
      cases hv : scanRead s aff e.2 with
      | none =>
        rw [bondedScan] at h
        have hv' : (if e.2 = aff.OperatorAddr then some aff else mustGetValidator s e.2)
            = none := hv
        simp [hc, hv'] at h
      | some v =>
        have hvj : v.Jailed = false := hnj e (List.mem_cons_self _ _) v hv
        have hnj2 : ∀ e' ∈ rest, ∀ v, scanRead s aff e'.2 = some v → v.Jailed = false :=
          fun e' he' => hnj e' (List.mem_cons_of_mem _ he')
        rw [bondedScan_cons env s aff e rest acc v hc hv] at h
        rw [if_neg (by simp [hvj])] at h
        by_cases hb : v.Status = BondStatus.Bonded
        · rw [if_neg (by simp [hb])] at h
          obtain ⟨i1, i2, i3, i4, i5, i6⟩ := ih _ r h hnj2
          simp only [hk2] at i1 i2 i3 i4 i5 i6
          refine ⟨?_, ?_, ?_, ?_, ?_, ?_⟩
          · rw [i1, List.length_cons]; omega
          · intro e' he'
            rcases List.mem_cons.1 he' with he' | he'
            · rw [he']; exact ⟨v, hv, Or.inl hb⟩
            · exact i2 e' he'
          · intro e' he'
            cases hrt : rest.take k with
            | nil =>
              rw [hrt] at he'
              simp only [List.getLast?_singleton, Option.some.injEq] at he'
              rw [← he', i4 hrt]
              exact hv
            | cons y ys =>
              rw [hrt, List.getLast?_cons_cons] at he'
              exact i3 e' (by rw [hrt]; exact he')
          · intro hnil; cases hnil
          · exact i5
          · intro h1 h2
            obtain ⟨e', he', h3⟩ := i6 h1 h2
            exact ⟨e', List.mem_cons_of_mem _ he', h3⟩
        · rw [if_pos hb] at h
          cases hn : acc.newValidatorBonded with
          | true => rw [hn] at h; simp at h
          | false =>
            rw [hn] at h
            simp only [Bool.false_eq_true, if_false] at h
            obtain ⟨i1, i2, i3, i4, i5, _⟩ := ih _ r h hnj2
            simp only [hk2] at i1 i2 i3 i4 i5
            obtain ⟨i51, i52⟩ := i5 trivial
            refine ⟨?_, ?_, ?_, ?_, ?_, ?_⟩
            · rw [i1, List.length_cons]; omega
            · intro e' he'
              rcases List.mem_cons.1 he' with he' | he'
              · rw [he']; exact ⟨v, hv, Or.inr ⟨rfl, i51, i52⟩⟩
              · obtain ⟨v', hv', hv2⟩ := i2 e' he'
                rcases hv2 with hv2 | ⟨hv2, _⟩
                · exact ⟨v', hv', Or.inl hv2⟩
                · cases hv2
            · intro e' he'
              cases hrt : rest.take k with
              | nil =>
                rw [hrt] at he'
                simp only [List.getLast?_singleton, Option.some.injEq] at he'
                rw [← he', i4 hrt]
                exact hv
              | cons y ys =>
                rw [hrt, List.getLast?_cons_cons] at he'
                exact i3 e' (by rw [hrt]; exact he')
            · intro hnil; cases hnil
            · intro h1; cases h1
            · intro _ _
              exact ⟨e, List.mem_cons_self _ _, by rw [i52]; exact hv, by rw [i52]; exact hb⟩
    · rw [bondedScan_stop env s aff _ acc hc, Option.some.injEq] at h
      subst h
      have hz : env.maxValidators - acc.count = 0 := by omega
      rw [hz, List.take_zero]
      refine ⟨by simp, by simp, by simp, fun _ => rfl, fun h => ⟨h, rfl⟩, ?_⟩
      intro h1 h2
      rw [h1] at h2; cases h2

/-- The result of `XXXREFERENCEUpdateBondedValidators`, given through the
result of its scan: the Cliff Tracker is set to the last validator read when
the scan counted `MaxValidators` validators, and the validator marked for
bonding is bonded after the old cliff validator or the affected validator was
demoted. -/
theorem updateBonded_inv (env : Env) (s : State) (aff : Validator)
    (res : (Validator × Bool) × State)
    (h : XXXREFERENCEUpdateBondedValidators env s aff = some res) :
    ∃ rs sc, bondedScan env s aff s.powerIndex
        { validator := Validator.zero, validatorToBond := Validator.zero,
          newValidatorBonded := false, count := 0 } = some rs ∧
      sc = (if rs.count = env.maxValidators then setCliffValidator s rs.validator
            else if addrNonEmpty s.cliffAddr = true then clearCliffValidator s else s) ∧
      ((rs.newValidatorBonded = false ∧ res = ((Validator.zero, false), sc)) ∨
       (rs.newValidatorBonded = true ∧ rs.validatorToBond.Status ≠ BondStatus.Bonded ∧
         ((s.cliffAddr = none ∧
            res = ((if rs.validatorToBond.OperatorAddr = aff.OperatorAddr
                    then bondedRecord env rs.validatorToBond else aff, true),
              bondState env sc rs.validatorToBond)) ∨
          (∃ c vc, s.cliffAddr = some c ∧ s.validators c = some vc ∧
            vc.Status = BondStatus.Bonded ∧
            rs.validatorToBond.OperatorAddr = aff.OperatorAddr ∧
            res = ((bondedRecord env rs.validatorToBond, true),
              bondState env (unbondState env sc vc) rs.validatorToBond)) ∨
          (∃ c, s.cliffAddr = some c ∧ rs.validatorToBond.OperatorAddr ≠ aff.OperatorAddr ∧
            aff.Status = BondStatus.Bonded ∧
            res = ((unbondingRecord env aff, true),
              bondState env (unbondState env sc aff) rs.validatorToBond))))) := by
  unfold XXXREFERENCEUpdateBondedValidators at h
  cases hscan : bondedScan env s aff s.powerIndex
      { validator := Validator.zero, validatorToBond := Validator.zero,
        newValidatorBonded := false, count := 0 } with
  | none => simp [hscan] at h
  | some r =>
    simp only [hscan] at h
    have htb := bondedScan_toBond env s aff _ _ r hscan (by simp)
    by_cases hp : r.newValidatorBonded = true ∧
        addrBytesEqual s.cliffAddr r.validator.OperatorAddr = true
    · rw [if_pos hp] at h; cases h
    rw [if_neg hp] at h
    refine ⟨r, _, rfl, rfl, ?_⟩
    generalize hsc : (if r.count = env.maxValidators then setCliffValidator s r.validator
        else if addrNonEmpty s.cliffAddr = true then clearCliffValidator s else s) = sc at h ⊢
    have hscv : sc.validators = s.validators := by
      rw [← hsc]
      split_ifs <;> rfl
    cases hn : r.newValidatorBonded with
    | false =>
      simp only [hn, Bool.false_eq_true, if_false, Option.some.injEq] at h
      exact Or.inl ⟨rfl, h.symm⟩
    | true =>
      obtain ⟨htb1, _, _⟩ := htb hn
      refine Or.inr ⟨rfl, htb1, ?_⟩
      simp only [hn, if_true] at h
      cases hca : s.cliffAddr with
      | none =>
        simp only [hca, bondValidator_eq, htb1, if_false] at h
        left
        refine ⟨rfl, ?_⟩
        by_cases hadd : r.validatorToBond.OperatorAddr = aff.OperatorAddr
        · simp only [bondedRecord_addr, hadd, if_true, Option.some.injEq] at h
          simp only [hadd, if_true]
          exact h.symm
        · simp only [bondedRecord_addr, hadd, if_false, Option.some.injEq] at h
          simp only [hadd, if_false]
          exact h.symm
      | some c =>
        simp only [hca, mustGetValidator] at h
        cases hvc : sc.validators c with
        | none => simp [hvc] at h
        | some vc =>
          simp only [hvc] at h
          by_cases hadd : r.validatorToBond.OperatorAddr = aff.OperatorAddr
          · simp only [hadd, if_true, beginUnbondingValidator_eq] at h
            by_cases hvb : vc.Status = BondStatus.Bonded
            · simp only [hvb, if_true, bondValidator_eq, htb1, if_false, bondedRecord_addr, hadd,
                Option.some.injEq] at h
              right; left
              exact ⟨c, vc, rfl, by rw [← hscv]; exact hvc, hvb, hadd, h.symm⟩
            · simp [hvb] at h
          · simp only [hadd, if_false, beginUnbondingValidator_eq] at h
            by_cases hab : aff.Status = BondStatus.Bonded
            · simp only [hab, if_true, bondValidator_eq, htb1, if_false, bondedRecord_addr,
                unbondingRecord_addr, hadd, Option.some.injEq] at h
              right; right
              exact ⟨c, rfl, hadd, hab, h.symm⟩
            · simp [hab] at h

/-- A duplicate-free list of Bonded validators that is as long as a list
holding every Bonded validator holds every Bonded validator. -/
theorem bonded_iff_of_count {R : State} {T B : List Addr} (hnd : T.Nodup)
    (hsub : ∀ x ∈ T, IsBonded R x) (hB : ∀ x, IsBonded R x → x ∈ B)
    (hlen : B.length ≤ T.length) : ∀ x, IsBonded R x ↔ x ∈ T := by
  intro x
  refine ⟨fun hx => ?_, hsub x⟩
  by_contra hxT
  have hnd2 : (x :: T).Nodup := List.nodup_cons.2 ⟨hxT, hnd⟩
  have hle := length_le_of_nodup_subset hnd2 (by
    intro a ha
    rcases List.mem_cons.1 ha with ha | ha
    · rw [ha]; exact hB x hx
    · exact hB a (hsub a ha))
  rw [List.length_cons] at hle
  omega

/-- The full recomputation from settled stores completes and changes no
validator record, no membership of the bonded index, no entry of the update
buffer and not the validator named by the Cliff Tracker; the power recorded
by the Cliff Tracker is unchanged as well when it is the key of that
validator's record. -/
theorem full_of_settled (env : Env) (R : State) (hs : Settled env R) :
    ∃ r2, XXXREFERENCEUpdateBondedValidatorsFull env R = some r2 ∧
      r2.validators = R.validators ∧ (∀ a, a ∈ r2.bondedIndex ↔ a ∈ R.bondedIndex) ∧
      r2.updates = R.updates ∧ r2.cliffAddr = R.cliffAddr ∧
      (CliffPowerSettled env R → r2.cliffPower = R.cliffPower) := by
  obtain ⟨r2, h1, hp⟩ := Full_spec env R hs.wf hs.nodup hs.i5 hs.notJailed
  have hb : ∀ a, a ∈ R.bondedIndex ↔ a ∈ topAddrs env R := fun a => (hs.i5 a).trans (hs.top a)
  have hv : r2.validators = R.validators := by
    funext a
    rw [hp.validators_eq a]
    by_cases ha : a ∈ topAddrs env R
    · rw [if_pos ha, if_pos ((hb a).2 ha)]
    · rw [if_neg ha, if_neg (fun h => ha ((hb a).1 h))]
  have hls : lastScanned env R r2 = lastScanned env R R := by
    unfold lastScanned
    rw [hv]
  refine ⟨r2, h1, hv, ?_, ?_, ?_, ?_⟩
  · intro a
    rw [hp.bonded_eq a, hb a]
  · funext a
    rw [hp.updates_eq a]
    by_cases ha : a ∈ topAddrs env R
    · rw [if_pos ha, if_pos ((hb a).2 ha)]
    · rw [if_neg ha, if_neg (fun h => ha ((hb a).1 h))]
  · by_cases hlen : (topAddrs env R).length = env.maxValidators
    · rw [(hp.cliff_set hlen).1, hls, hs.cliffAddr_full hlen]
    · have hn := hs.cliffAddr_spare hlen
      exact (hp.cliff_keep hlen (by rw [hn]; rfl)).1
  · intro hcp
    by_cases hlen : (topAddrs env R).length = env.maxValidators
    · rw [(hp.cliff_set hlen).2, hls, hcp hlen]
    · have hn := hs.cliffAddr_spare hlen
      exact (hp.cliff_keep hlen (by rw [hn]; rfl)).2

/-- The first entries of a list with one entry inserted are the inserted entry
or first entries of the list. -/
theorem insert_take_sub (e : PowerKey × Addr) (l : List (PowerKey × Addr)) (n : Nat) :
    ∀ x ∈ (powerIndexInsert e l).take n, x = e ∨ x ∈ l.take n := by
  obtain ⟨P, R, hl, hins, _⟩ := insert_split e l
  intro x hx
  rw [hins, List.take_append_eq_append_take] at hx
  rw [hl, List.take_append_eq_append_take]
  rcases List.mem_append.1 hx with hx | hx
  · exact Or.inr (List.mem_append_left _ hx)
  · cases hm : n - P.length with
    | zero => rw [hm] at hx; simp at hx
    | succ m =>
      rw [hm, List.take_succ_cons] at hx
      rcases List.mem_cons.1 hx with hx | hx
      · exact Or.inl hx
      · exact Or.inr (List.mem_append_right _
          (List.take_subset_take_left R (Nat.le_succ m) hx))

/-- Inserting an entry above the last entry of a list leaves the last entry
in place. -/
theorem insert_getLast (e x : PowerKey × Addr) (l : List (PowerKey × Addr))
    (hl : l.getLast? = some x) (hx : x.1.ranksBelow e.1 = true) :
    (powerIndexInsert e l).getLast? = some x := by
  obtain ⟨P, R, hPR, hins, hP⟩ := insert_split e l
  have hxl : x ∈ l := List.mem_of_getLast?_eq_some hl
  cases R with
  | nil =>
    exfalso
    rw [hPR, List.append_nil] at hxl
    have := hP x hxl
    rw [hx] at this; cases this
  | cons y ys =>
    rw [hins]
    rw [hPR] at hl
    rw [List.getLast?_append_of_ne_nil _ (by simp)] at hl ⊢
    rw [List.getLast?_cons_cons]
    exact hl

/-- The lowest-ranked entry satisfying `p` of a list whose entries satisfying
`p` come before the others. -/
theorem find_reverse_append (p : PowerKey × Addr → Bool) (T D : List (PowerKey × Addr))
    (e : PowerKey × Addr) (hD : ∀ x ∈ D, p x = false) (hT : T.getLast? = some e)
    (he : p e = true) : (T ++ D).reverse.find? p = some e := by
  obtain ⟨ys, hys⟩ := List.getLast?_eq_some_iff.1 hT
  rw [List.reverse_append, List.find?_append]
  have h1 : D.reverse.find? p = none := by
    rw [List.find?_eq_none]
    intro x hx
    rw [hD x (List.mem_reverse.1 hx)]
    simp
  rw [h1, hys, List.reverse_append]
  simp [he]

/-- The stores after a successful scan of the single-validator update are
settled when every validator the scan counted is Bonded afterwards and the
Bonded validators are no more than the scan counted. -/
theorem settled_of_scan (env : Env) (s3 R : State) (aff : Validator) (rs : BondedScan)
    (B : List Addr) (P : Prop) (hpos : 0 < env.maxValidators)
    (hwf3 : TableWF s3) (hwfR : TableWF R) (hndR : (R.powerIndex.map Prod.snd).Nodup)
    (hi5R : BondedIndexConsistent R) (hnjR : NoJailedValidator R)
    (hscan : bondedScan env s3 aff R.powerIndex
      { validator := Validator.zero, validatorToBond := Validator.zero,
        newValidatorBonded := false, count := 0 } = some rs)
    (hnj3 : ∀ e ∈ R.powerIndex, ∀ v, scanRead s3 aff e.2 = some v → v.Jailed = false)
    (hread : ∀ e ∈ R.powerIndex.take env.maxValidators, ∀ v, scanRead s3 aff e.2 = some v →
      (v.Status = BondStatus.Bonded ∨
        (rs.newValidatorBonded = true ∧ rs.validatorToBond = v)) →
      ∃ w, R.validators e.2 = some w ∧ w.Status = BondStatus.Bonded ∧
        (P → GetValidatorsByPowerIndexKey w = GetValidatorsByPowerIndexKey v))
    (hB : ∀ x, IsBonded R x → x ∈ B)
    (hlen : B.length ≤ (R.powerIndex.take env.maxValidators).length)
    (hc1 : rs.count = env.maxValidators →
      R.cliffAddr = some rs.validator.OperatorAddr ∧
      R.cliffPower = some (GetValidatorsByPowerIndexKey rs.validator))
    (hc2 : rs.count ≠ env.maxValidators → R.cliffAddr = none) :
    Settled env R ∧ (P → CliffPowerSettled env R) := by
  obtain ⟨i1, i2, i3, _, _, _⟩ := bondedScan_inv env s3 aff _ _ rs hscan hnj3
  simp only [Nat.sub_zero, Nat.zero_add] at i1 i2 i3
  have hread2 : ∀ e ∈ R.powerIndex.take env.maxValidators, ∃ v w,
      scanRead s3 aff e.2 = some v ∧ R.validators e.2 = some w ∧
      w.Status = BondStatus.Bonded ∧
      (P → GetValidatorsByPowerIndexKey w = GetValidatorsByPowerIndexKey v) := by
    intro e he
    obtain ⟨v, hv, hd⟩ := i2 e he
    have hd2 : v.Status = BondStatus.Bonded ∨
        (rs.newValidatorBonded = true ∧ rs.validatorToBond = v) := by
      rcases hd with hd | ⟨_, h1, h2⟩
      · exact Or.inl hd
      · exact Or.inr ⟨h1, h2⟩
    obtain ⟨w, hw, hwb, hwk⟩ := hread e he v hv hd2
    exact ⟨v, w, hv, hw, hwb, hwk⟩
  have hlenT : (topAddrs env R).length = (R.powerIndex.take env.maxValidators).length := by
    simp [topAddrs]
  have hls : (topAddrs env R).length = env.maxValidators →
      ∃ e w, (R.powerIndex.take env.maxValidators).getLast? = some e ∧
        R.validators e.2 = some w ∧ scanRead s3 aff e.2 = some rs.validator ∧
        (P → GetValidatorsByPowerIndexKey w = GetValidatorsByPowerIndexKey rs.validator) := by
    intro hfull
    rw [hlenT] at hfull
    cases hgl : (R.powerIndex.take env.maxValidators).getLast? with
    | none =>
      rw [List.getLast?_eq_none_iff] at hgl
      rw [hgl] at hfull
      simp at hfull
      omega
    | some e =>
      have he := List.mem_of_getLast?_eq_some hgl
      obtain ⟨v, w, hv, hw, _, hwk⟩ := hread2 e he
      have hv2 := i3 e hgl
      rw [hv] at hv2
      cases hv2
      exact ⟨e, w, rfl, hw, hv, hwk⟩
  constructor
  · refine
      { wf := hwfR, nodup := hndR, i5 := hi5R, top := ?_, notJailed := ?_,
        cliffAddr_full := ?_, cliffAddr_spare := ?_ }
    · refine bonded_iff_of_count (topAddrs_nodup env R hndR) ?_ hB (by rw [hlenT]; exact hlen)
      intro x hx
      obtain ⟨e, he, hex⟩ := List.mem_map.1 hx
      obtain ⟨v, w, _, hw, hwb, _⟩ := hread2 e he
      rw [← hex]
      exact ⟨w, hw, hwb⟩
    · intro e he
      obtain ⟨v, w, _, hw, _, _⟩ := hread2 e he
      exact ⟨w, hw, hnjR _ _ hw⟩
    · intro hfull
      obtain ⟨e, w, hgl, hw, hv, _⟩ := hls hfull
      have hcount : rs.count = env.maxValidators := by rw [i1, ← hlenT]; exact hfull
      rw [(hc1 hcount).1]
      unfold lastScanned
      rw [hgl]
      simp only [hw, Option.getD_some]
      rw [hwfR _ _ hw]
      unfold scanRead at hv
      by_cases hea : e.2 = aff.OperatorAddr
      · rw [if_pos hea] at hv
        cases hv
        rw [hea]
      · rw [if_neg hea] at hv
        rw [hwf3 _ _ hv]
    · intro hnf
      apply hc2
      rw [i1, ← hlenT]
      exact hnf
  · intro hP hfull
    obtain ⟨e, w, hgl, hw, _, hwk⟩ := hls hfull
    have hcount : rs.count = env.maxValidators := by rw [i1, ← hlenT]; exact hfull
    rw [(hc1 hcount).2]
    unfold lastScanned
    rw [hgl]
    simp only [hw, Option.getD_some]
    rw [hwk hP]

/-- The re-keyed power index holds each identity once. -/
theorem rekeyed_nodup (l : List (PowerKey × Addr)) (a : Addr) (k : PowerKey)
    (hnd : (l.map Prod.snd).Nodup) :
    ((powerIndexInsert (k, a) (l.filter (fun e => decide (e.2 ≠ a)))).map Prod.snd).Nodup := by
  apply nodup_powerIndexInsert
  · exact hnd.sublist ((List.filter_sublist l).map Prod.snd)
  · intro h
    obtain ⟨e, he, hea⟩ := List.mem_map.1 h
    have := (List.mem_filter.1 he).2
    simp only [decide_eq_true_eq] at this
    exact this hea

/-- The entries of the re-keyed power index: the new entry, and the entries of
the other identities. -/
theorem rekeyed_mem (l : List (PowerKey × Addr)) (a : Addr) (k : PowerKey)
    (e : PowerKey × Addr) :
    e ∈ powerIndexInsert (k, a) (l.filter (fun e => decide (e.2 ≠ a))) ↔
      e = (k, a) ∨ (e ∈ l ∧ e.2 ≠ a) := by
  rw [mem_powerIndexInsert, List.mem_filter]
  simp only [decide_eq_true_eq]

/-- Removing one identity from a duplicate-free index removes at most one entry. -/
theorem length_le_filter_succ (l : List (PowerKey × Addr)) (a : Addr)
    (hnd : (l.map Prod.snd).Nodup) :
    l.length ≤ (l.filter (fun e => decide (e.2 ≠ a))).length + 1 := by
  by_cases ha : a ∈ l.map Prod.snd
  · rw [length_filter_ne a l hnd ha]
  · have : l.filter (fun e => decide (e.2 ≠ a)) = l := by
      apply List.filter_eq_self.2
      intro e he
      simp only [decide_eq_true_eq]
      intro hea
      exact ha (List.mem_map.2 ⟨e, he, hea⟩)
    rw [this]
    omega

/-- An identity without a record has no entry in the power index. -/
theorem filter_of_new {s : State} (hi4 : PowerIndexConsistent s) {a : Addr}
    (hnew : s.validators a = none) :
    s.powerIndex.filter (fun e => decide (e.2 ≠ a)) = s.powerIndex := by
  apply List.filter_eq_self.2
  intro e he
  simp only [decide_eq_true_eq]
  intro hea
  obtain ⟨v, hv, _⟩ := hi4.2.1 e he
  rw [hea, hnew] at hv
  cases hv

/-- In a consistent state with a full bonded set, the first `MaxValidators`
entries are not touched by removing a validator that is not Bonded. -/
theorem filter_take_of_not_bonded {env : Env} {s : State} (hc : ConsistentFull env s)
    {a : Addr} (hnb : ¬ IsBonded s a) :
    (s.powerIndex.filter (fun e => decide (e.2 ≠ a))).take env.maxValidators =
      s.powerIndex.take env.maxValidators := by
  apply take_filter_of_forall
  intro e he
  simp only [decide_eq_true_eq]
  intro hea
  obtain ⟨v, hv, _, hb, _, _⟩ := consistentFull_top_entry hc he
  exact hnb (hea ▸ ⟨v, hv, hb⟩)

/-- The power index of a consistent state with a full bonded set has at least
`MaxValidators` entries. -/
theorem full_index_length {env : Env} {s : State} (hc : ConsistentFull env s) :
    env.maxValidators ≤ s.powerIndex.length := by
  have h := hc.full
  simp only [topAddrs, List.length_map, List.length_take] at h
  omega

/-- The re-keyed power index of a consistent state with a full bonded set has
at least `MaxValidators` entries. -/
theorem rekeyed_length_full {env : Env} {s : State} (hc : ConsistentFull env s) (a : Addr)
    (k : PowerKey) :
    ((powerIndexInsert (k, a) (s.powerIndex.filter (fun e => decide (e.2 ≠ a)))).take
      env.maxValidators).length = env.maxValidators := by
  have h1 := full_index_length hc
  have h2 := length_le_filter_succ s.powerIndex a hc.i4.1
  rw [List.length_take, length_powerIndexInsert]
  omega

/-- In a consistent state with spare capacity and no jailed validator the
power index has fewer than `MaxValidators` entries, all of Bonded validators. -/
theorem spare_index {env : Env} {s : State} (hc : ConsistentSpare env s)
    (hnj : NoJailedValidator s) :
    s.powerIndex.length + 1 ≤ env.maxValidators ∧
    (∀ e ∈ s.powerIndex, ∃ v, s.validators e.2 = some v ∧ v.Status = BondStatus.Bonded) ∧
    (∀ a v, s.validators a = some v → v.Status = BondStatus.Bonded) := by
  have hall : ∀ a v, s.validators a = some v → v.Status = BondStatus.Bonded :=
    fun a v hv => hc.top a v hv (hnj a v hv)
  have hent : ∀ e ∈ s.powerIndex, ∃ v, s.validators e.2 = some v ∧
      v.Status = BondStatus.Bonded := by
    intro e he
    obtain ⟨v, hv, _⟩ := hc.i4.2.1 e he
    exact ⟨v, hv, hall _ _ hv⟩
  refine ⟨?_, hent, hall⟩
  have := hc.fewer (s.powerIndex.map Prod.snd) hc.i4.1 (by
    intro x hx
    obtain ⟨e, he, hex⟩ := List.mem_map.1 hx
    rw [← hex]
    exact hent e he)
  rw [List.length_map] at this
  have := hc.pos
  omega

/-- Every entry of the re-keyed index is read by the scan: the affected
validator as given, the others from the store. -/
theorem rekeyed_read {s s3 : State} (hi4 : PowerIndexConsistent s)
    (hv3 : s3.validators = s.validators) (aff : Validator) (k : PowerKey)
    (e : PowerKey × Addr)
    (he : e ∈ powerIndexInsert (k, aff.OperatorAddr)
      (s.powerIndex.filter (fun e => decide (e.2 ≠ aff.OperatorAddr)))) :
    (e.2 = aff.OperatorAddr ∧ e = (k, aff.OperatorAddr) ∧
        scanRead s3 aff e.2 = some aff) ∨
    (e.2 ≠ aff.OperatorAddr ∧ e ∈ s.powerIndex ∧
      ∃ v, s.validators e.2 = some v ∧ e.1 = GetValidatorsByPowerIndexKey v ∧
        scanRead s3 aff e.2 = some v) := by
  rcases (rekeyed_mem _ _ _ e).1 he with he | ⟨he, hne⟩
  · left
    rw [he]
    exact ⟨rfl, rfl, by simp [scanRead]⟩
  · right
    obtain ⟨v, hv, hk⟩ := hi4.2.1 e he
    refine ⟨hne, he, v, hv, hk, ?_⟩
    simp [scanRead, hne, hv3, hv]

/-- The facts shared by the outcomes of the scan over the re-keyed index of a
consistent state without jailed validators. -/
theorem rekeyed_scan_facts (env : Env) (s s3 R : State) (aff : Validator)
    (hcons : ConsistentFull env s ∨ ConsistentSpare env s) (hnj : NoJailedValidator s)
    (hAj : aff.Jailed = false) (hv3 : s3.validators = s.validators)
    (hRi : R.powerIndex = powerIndexInsert (GetValidatorsByPowerIndexKey aff, aff.OperatorAddr)
      (s.powerIndex.filter (fun e => decide (e.2 ≠ aff.OperatorAddr)))) :
    0 < env.maxValidators ∧ TableWF s ∧ PowerIndexConsistent s ∧ TableWF s3 ∧
    (R.powerIndex.map Prod.snd).Nodup ∧
    (∀ e ∈ R.powerIndex, ∀ v, scanRead s3 aff e.2 = some v → v.Jailed = false) ∧
    (∀ e ∈ R.powerIndex,
      (e.2 = aff.OperatorAddr ∧ e = (GetValidatorsByPowerIndexKey aff, aff.OperatorAddr) ∧
          scanRead s3 aff e.2 = some aff) ∨
      (e.2 ≠ aff.OperatorAddr ∧ e ∈ s.powerIndex ∧
        ∃ v, s.validators e.2 = some v ∧ e.1 = GetValidatorsByPowerIndexKey v ∧
          scanRead s3 aff e.2 = some v)) := by
  have hpos : 0 < env.maxValidators := by
    rcases hcons with hc | hc
    · exact hc.pos
    · exact hc.pos
  have hwf : TableWF s := by
    rcases hcons with hc | hc
    · exact hc.wf
    · exact hc.wf
  have hi4 : PowerIndexConsistent s := by
    rcases hcons with hc | hc
    · exact hc.i4
    · exact hc.i4
  have hrd := fun e he => rekeyed_read hi4 hv3 aff (GetValidatorsByPowerIndexKey aff) e
    (by rw [← hRi]; exact he)
  refine ⟨hpos, hwf, hi4, tableWF_congr hv3 hwf, ?_, ?_, hrd⟩
  · rw [hRi]
    exact rekeyed_nodup _ _ _ hi4.1
  · intro e he v hv
    rcases hrd e he with ⟨_, _, h1⟩ | ⟨_, _, w, hw, _, h1⟩
    · rw [h1] at hv
      cases hv
      exact hAj
    · rw [h1] at hv
      cases hv
      exact hnj _ _ hw

/-- The Cliff Tracker after the scan of the single-validator update from a
consistent state: set to the last validator read when the scan counted
`MaxValidators` validators, undefined otherwise. -/
theorem rekeyed_scan_cliff (env : Env) (s s3 R : State) (aff : Validator) (rs : BondedScan)
    (hcons : ConsistentFull env s ∨ ConsistentSpare env s) (hnj : NoJailedValidator s)
    (hAj : aff.Jailed = false) (hv3 : s3.validators = s.validators)
    (hRi : R.powerIndex = powerIndexInsert (GetValidatorsByPowerIndexKey aff, aff.OperatorAddr)
      (s.powerIndex.filter (fun e => decide (e.2 ≠ aff.OperatorAddr))))
    (hscan : bondedScan env s3 aff R.powerIndex
      { validator := Validator.zero, validatorToBond := Validator.zero,
        newValidatorBonded := false, count := 0 } = some rs)
    (hRc : R.cliffAddr = if rs.count = env.maxValidators then some rs.validator.OperatorAddr
      else if addrNonEmpty s.cliffAddr = true then none else s.cliffAddr)
    (hRp : R.cliffPower = if rs.count = env.maxValidators
      then some (GetValidatorsByPowerIndexKey rs.validator)
      else if addrNonEmpty s.cliffAddr = true then none else s.cliffPower) :
    (rs.count = env.maxValidators →
      R.cliffAddr = some rs.validator.OperatorAddr ∧
      R.cliffPower = some (GetValidatorsByPowerIndexKey rs.validator)) ∧
    (rs.count ≠ env.maxValidators → R.cliffAddr = none) ∧
    rs.count = (R.powerIndex.take env.maxValidators).length := by
  obtain ⟨_, _, _, _, _, hnj3, _⟩ := rekeyed_scan_facts env s s3 R aff hcons hnj hAj hv3 hRi
  obtain ⟨i1, _⟩ := bondedScan_inv env s3 aff _ _ rs hscan hnj3
  simp only [Nat.sub_zero, Nat.zero_add] at i1
  refine ⟨?_, ?_, i1⟩
  · intro h
    rw [hRc, hRp, if_pos h, if_pos h]
    exact ⟨rfl, rfl⟩
  · intro h
    rcases hcons with hc | hc
    · exfalso
      apply h
      rw [i1, hRi]
      exact rekeyed_length_full hc _ _
    · rw [hRc, if_neg h, hc.cliffAddr_none]
      simp [addrNonEmpty]

/-- The scan bonded nobody: the stores after the single-validator update are
settled. -/
theorem settled_after_scan_none (env : Env) (s s3 R : State) (aff : Validator)
    (rs : BondedScan)
    (hcons : ConsistentFull env s ∨ ConsistentSpare env s) (hnj : NoJailedValidator s)
    (hAj : aff.Jailed = false)
    (hst : aff.Status = BondStatus.Bonded ↔ IsBonded s aff.OperatorAddr)
    (hv3 : s3.validators = s.validators)
    (hRi : R.powerIndex = powerIndexInsert (GetValidatorsByPowerIndexKey aff, aff.OperatorAddr)
      (s.powerIndex.filter (fun e => decide (e.2 ≠ aff.OperatorAddr))))
    (hscan : bondedScan env s3 aff R.powerIndex
      { validator := Validator.zero, validatorToBond := Validator.zero,
        newValidatorBonded := false, count := 0 } = some rs)
    (hn : rs.newValidatorBonded = false)
    (hRv : ∀ x, R.validators x = if x = aff.OperatorAddr then some aff else s.validators x)
    (hRc : R.cliffAddr = if rs.count = env.maxValidators then some rs.validator.OperatorAddr
      else if addrNonEmpty s.cliffAddr = true then none else s.cliffAddr)
    (hRp : R.cliffPower = if rs.count = env.maxValidators
      then some (GetValidatorsByPowerIndexKey rs.validator)
      else if addrNonEmpty s.cliffAddr = true then none else s.cliffPower)
    (hi5R : BondedIndexConsistent R) :
    Settled env R ∧ (True → CliffPowerSettled env R) := by
  obtain ⟨hpos, hwf, hi4, hwf3, hndR, hnj3, hrd⟩ :=
    rekeyed_scan_facts env s s3 R aff hcons hnj hAj hv3 hRi
  obtain ⟨hc1, hc2, hcount⟩ :=
    rekeyed_scan_cliff env s s3 R aff rs hcons hnj hAj hv3 hRi hscan hRc hRp
  have hwfR : TableWF R := by
    intro x v hv
    rw [hRv x] at hv
    by_cases hx : x = aff.OperatorAddr
    · rw [if_pos hx] at hv; cases hv; exact hx.symm
    · rw [if_neg hx] at hv; exact hwf _ _ hv
  have hnjR : NoJailedValidator R := by
    intro x v hv
    rw [hRv x] at hv
    by_cases hx : x = aff.OperatorAddr
    · rw [if_pos hx] at hv; cases hv; exact hAj
    · rw [if_neg hx] at hv; exact hnj _ _ hv
  have hbR : ∀ x, IsBonded R x → IsBonded s x := by
    rintro x ⟨v, hv, hb⟩
    rw [hRv x] at hv
    by_cases hx : x = aff.OperatorAddr
    · rw [if_pos hx] at hv; cases hv
      rw [hx]; exact hst.1 hb
    · rw [if_neg hx] at hv; exact ⟨v, hv, hb⟩
  have hread : ∀ e ∈ R.powerIndex.take env.maxValidators, ∀ v,
      scanRead s3 aff e.2 = some v →
      (v.Status = BondStatus.Bonded ∨
        (rs.newValidatorBonded = true ∧ rs.validatorToBond = v)) →
      ∃ w, R.validators e.2 = some w ∧ w.Status = BondStatus.Bonded ∧
        (True → GetValidatorsByPowerIndexKey w = GetValidatorsByPowerIndexKey v) := by
    intro e he v hv hd
    have hvb : v.Status = BondStatus.Bonded := by
      rcases hd with hd | ⟨hd, _⟩
      · exact hd
      · rw [hn] at hd; cases hd
    rcases hrd e (List.mem_of_mem_take he) with ⟨hea, _, h1⟩ | ⟨hea, _, w, hw, _, h1⟩
    · rw [h1] at hv; cases hv
      exact ⟨aff, by rw [hRv, if_pos hea], hvb, fun _ => rfl⟩
    · rw [h1] at hv; cases hv
      exact ⟨_, by rw [hRv, if_neg hea]; exact hw, hvb, fun _ => rfl⟩
  rcases hcons with hc | hc
  · exact settled_of_scan env s3 R aff rs (topAddrs env s) True hpos hwf3 hwfR hndR hi5R hnjR
      hscan hnj3 hread (fun x hx => (hc.top x).1 (hbR x hx))
      (by rw [hc.full, hRi, rekeyed_length_full hc]) hc1 hc2
  · obtain ⟨hlen, _, _⟩ := spare_index hc hnj
    refine settled_of_scan env s3 R aff rs (s.powerIndex.map Prod.snd) True hpos hwf3 hwfR hndR
      hi5R hnjR hscan hnj3 hread ?_ ?_ hc1 hc2
    · rintro x hx
      obtain ⟨v, hv, _⟩ := hbR x hx
      exact List.mem_map.2 ⟨_, hi4.2.2 x v hv, rfl⟩
    · have h2 := length_le_filter_succ s.powerIndex aff.OperatorAddr hi4.1
      rw [List.length_map, hRi, List.length_take, length_powerIndexInsert]
      omega

/-- The validator a successful scan marked for bonding was read for one of
the entries the scan counted. -/
theorem scan_toBond_entry (env : Env) (s3 : State) (aff : Validator)
    (l : List (PowerKey × Addr)) (rs : BondedScan)
    (hscan : bondedScan env s3 aff l
      { validator := Validator.zero, validatorToBond := Validator.zero,
        newValidatorBonded := false, count := 0 } = some rs)
    (hnj3 : ∀ e ∈ l, ∀ v, scanRead s3 aff e.2 = some v → v.Jailed = false)
    (hn : rs.newValidatorBonded = true) :
    ∃ e ∈ l.take env.maxValidators, scanRead s3 aff e.2 = some rs.validatorToBond ∧
      rs.validatorToBond.Status ≠ BondStatus.Bonded := by
  obtain ⟨_, _, _, _, _, i6⟩ := bondedScan_inv env s3 aff _ _ rs hscan hnj3
  simp only [Nat.sub_zero] at i6
  exact i6 hn trivial

/-- With spare capacity the scan bonded the affected validator, which is new:
the stores after the single-validator update are settled. -/
theorem settled_after_scan_admit_spare (env : Env) (s s3 R : State) (aff : Validator)
    (rs : BondedScan)
    (hc : ConsistentSpare env s) (hnj : NoJailedValidator s)
    (hAj : aff.Jailed = false) (hnb : ¬ IsBonded s aff.OperatorAddr)
    (hbh : aff.BondHeight = env.blockHeight)
    (hv3 : s3.validators = s.validators)
    (hRi : R.powerIndex = powerIndexInsert (GetValidatorsByPowerIndexKey aff, aff.OperatorAddr)
      (s.powerIndex.filter (fun e => decide (e.2 ≠ aff.OperatorAddr))))
    (hscan : bondedScan env s3 aff R.powerIndex
      { validator := Validator.zero, validatorToBond := Validator.zero,
        newValidatorBonded := false, count := 0 } = some rs)
    (hRv : ∀ x, R.validators x =
      if x = aff.OperatorAddr then some (bondedRecord env aff) else s.validators x)
    (hRc : R.cliffAddr = if rs.count = env.maxValidators then some rs.validator.OperatorAddr
      else if addrNonEmpty s.cliffAddr = true then none else s.cliffAddr)
    (hRp : R.cliffPower = if rs.count = env.maxValidators
      then some (GetValidatorsByPowerIndexKey rs.validator)
      else if addrNonEmpty s.cliffAddr = true then none else s.cliffPower)
    (hi5R : BondedIndexConsistent R) :
    Settled env R ∧ (True → CliffPowerSettled env R) := by
  obtain ⟨hpos, hwf, hi4, hwf3, hndR, hnj3, hrd⟩ :=
    rekeyed_scan_facts env s s3 R aff (Or.inr hc) hnj hAj hv3 hRi
  obtain ⟨hc1, hc2, hcount⟩ :=
    rekeyed_scan_cliff env s s3 R aff rs (Or.inr hc) hnj hAj hv3 hRi hscan hRc hRp
  obtain ⟨hlen, _, hall⟩ := spare_index hc hnj
  have hnew : s.validators aff.OperatorAddr = none := by
    cases hv : s.validators aff.OperatorAddr with
    | none => rfl
    | some v => exact absurd ⟨v, hv, hall _ _ hv⟩ hnb
  have hwfR : TableWF R := by
    intro x v hv
    rw [hRv x] at hv
    by_cases hx : x = aff.OperatorAddr
    · rw [if_pos hx] at hv; cases hv; exact hx.symm
    · rw [if_neg hx] at hv; exact hwf _ _ hv
  have hnjR : NoJailedValidator R := by
    intro x v hv
    rw [hRv x] at hv
    by_cases hx : x = aff.OperatorAddr
    · rw [if_pos hx] at hv; cases hv; exact hAj
    · rw [if_neg hx] at hv; exact hnj _ _ hv
  have hread : ∀ e ∈ R.powerIndex.take env.maxValidators, ∀ v,
      scanRead s3 aff e.2 = some v →
      (v.Status = BondStatus.Bonded ∨
        (rs.newValidatorBonded = true ∧ rs.validatorToBond = v)) →
      ∃ w, R.validators e.2 = some w ∧ w.Status = BondStatus.Bonded ∧
        (True → GetValidatorsByPowerIndexKey w = GetValidatorsByPowerIndexKey v) := by
    intro e he v hv _
    rcases hrd e (List.mem_of_mem_take he) with ⟨hea, _, h1⟩ | ⟨hea, _, w, hw, _, h1⟩
    · rw [h1] at hv; cases hv
      refine ⟨bondedRecord env aff, by rw [hRv, if_pos hea], rfl, fun _ => ?_⟩
      simp [GetValidatorsByPowerIndexKey, bondedRecord, hbh]
    · rw [h1] at hv; cases hv
      exact ⟨_, by rw [hRv, if_neg hea]; exact hw, hall _ _ hw, fun _ => rfl⟩
  refine settled_of_scan env s3 R aff rs (aff.OperatorAddr :: s.powerIndex.map Prod.snd) True
    hpos hwf3 hwfR hndR hi5R hnjR hscan hnj3 hread ?_ ?_ hc1 hc2
  · rintro x ⟨v, hv, hb⟩
    rw [hRv x] at hv
    by_cases hx : x = aff.OperatorAddr
    · rw [hx]; exact List.mem_cons_self _ _
    · rw [if_neg hx] at hv
      exact List.mem_cons_of_mem _ (List.mem_map.2 ⟨_, hi4.2.2 x v hv, rfl⟩)
  · rw [List.length_cons, List.length_map, hRi, List.length_take, length_powerIndexInsert,
      filter_of_new hi4 hnew]
    omega

/-- With a full bonded set the scan bonded the affected validator and the old
cliff validator was demoted: the stores after the single-validator update are
settled. -/
theorem settled_after_scan_admit_full (env : Env) (s s3 R : State) (aff : Validator)
    (rs : BondedScan) (c : Addr) (vc : Validator)
    (hc : ConsistentFull env s) (hnj : NoJailedValidator s)
    (hAj : aff.Jailed = false) (hnb : ¬ IsBonded s aff.OperatorAddr)
    (hbh : aff.BondHeight = env.blockHeight)
    (hv3 : s3.validators = s.validators)
    (hRi : R.powerIndex = powerIndexInsert (GetValidatorsByPowerIndexKey aff, aff.OperatorAddr)
      (s.powerIndex.filter (fun e => decide (e.2 ≠ aff.OperatorAddr))))
    (hscan : bondedScan env s3 aff R.powerIndex
      { validator := Validator.zero, validatorToBond := Validator.zero,
        newValidatorBonded := false, count := 0 } = some rs)
    (hn : rs.newValidatorBonded = true) (htb : rs.validatorToBond = aff)
    (hca : s.cliffAddr = some c) (hvc : s.validators c = some vc)
    (hRv : ∀ x, R.validators x =
      if x = aff.OperatorAddr then some (bondedRecord env aff)
      else if x = c then some (unbondingRecord env vc) else s.validators x)
    (hRc : R.cliffAddr = if rs.count = env.maxValidators then some rs.validator.OperatorAddr
      else if addrNonEmpty s.cliffAddr = true then none else s.cliffAddr)
    (hRp : R.cliffPower = if rs.count = env.maxValidators
      then some (GetValidatorsByPowerIndexKey rs.validator)
      else if addrNonEmpty s.cliffAddr = true then none else s.cliffPower)
    (hi5R : BondedIndexConsistent R) :
    Settled env R ∧ (True → CliffPowerSettled env R) := by
  obtain ⟨hpos, hwf, hi4, hwf3, hndR, hnj3, hrd⟩ :=
    rekeyed_scan_facts env s s3 R aff (Or.inl hc) hnj hAj hv3 hRi
  obtain ⟨hc1, hc2, hcount⟩ :=
    rekeyed_scan_cliff env s s3 R aff rs (Or.inl hc) hnj hAj hv3 hRi hscan hRc hRp
  obtain ⟨eN, hlast, hcaN, _⟩ := hc.cliff
  rw [hca, Option.some.injEq] at hcaN
  have hlenT : (s.powerIndex.take env.maxValidators).length = env.maxValidators := by
    simpa [topAddrs] using hc.full
  have hndT : ((s.powerIndex.take env.maxValidators).map Prod.snd).Nodup :=
    topAddrs_nodup env s hi4.1
  have hvca : vc.OperatorAddr = c := hwf _ _ hvc
  -- the affected validator is among the first entries of the re-keyed index
  obtain ⟨e0, he0, hr0, _⟩ := scan_toBond_entry env s3 aff _ rs hscan hnj3 hn
  rw [htb] at hr0
  have he0A : e0 = (GetValidatorsByPowerIndexKey aff, aff.OperatorAddr) := by
    rcases hrd e0 (List.mem_of_mem_take he0) with ⟨_, h, _⟩ | ⟨hea, _, w, hw, _, h1⟩
    · exact h
    · rw [h1] at hr0; cases hr0
      exact absurd (hwf _ _ hw).symm hea
  rw [he0A, hRi] at he0
  have hnotin : (GetValidatorsByPowerIndexKey aff, aff.OperatorAddr) ∉
      s.powerIndex.filter (fun e => decide (e.2 ≠ aff.OperatorAddr)) := by
    intro h
    have := (List.mem_filter.1 h).2
    simp at this
  have hothers := insert_take_mem _ _ env.maxValidators hnotin he0
  have hLtake : (s.powerIndex.filter (fun e => decide (e.2 ≠ aff.OperatorAddr))).take
      (env.maxValidators - 1) = (s.powerIndex.take env.maxValidators).take
        (env.maxValidators - 1) := by
    rw [← filter_take_of_not_bonded hc hnb, List.take_take]
    congr 1
    omega
  rw [hLtake] at hothers
  have hinit := last_not_in_init Prod.snd (s.powerIndex.take env.maxValidators) eN hndT hlast
  rw [hlenT] at hinit
  have hwfR : TableWF R := by
    intro x v hv
    rw [hRv x] at hv
    by_cases hx : x = aff.OperatorAddr
    · rw [if_pos hx] at hv; cases hv; exact hx.symm
    · rw [if_neg hx] at hv
      by_cases hxc : x = c
      · rw [if_pos hxc] at hv; cases hv; rw [hxc]; exact hvca
      · rw [if_neg hxc] at hv; exact hwf _ _ hv
  have hnjR : NoJailedValidator R := by
    intro x v hv
    rw [hRv x] at hv
    by_cases hx : x = aff.OperatorAddr
    · rw [if_pos hx] at hv; cases hv; exact hAj
    · rw [if_neg hx] at hv
      by_cases hxc : x = c
      · rw [if_pos hxc] at hv; cases hv; exact hnj c vc hvc
      · rw [if_neg hxc] at hv; exact hnj _ _ hv
  have hread : ∀ e ∈ R.powerIndex.take env.maxValidators, ∀ v,
      scanRead s3 aff e.2 = some v →
      (v.Status = BondStatus.Bonded ∨
        (rs.newValidatorBonded = true ∧ rs.validatorToBond = v)) →
      ∃ w, R.validators e.2 = some w ∧ w.Status = BondStatus.Bonded ∧
        (True → GetValidatorsByPowerIndexKey w = GetValidatorsByPowerIndexKey v) := by
    intro e he v hv _
    rcases hrd e (List.mem_of_mem_take he) with ⟨hea, _, h1⟩ | ⟨hea, _, w, hw, _, h1⟩
    · rw [h1] at hv; cases hv
      refine ⟨bondedRecord env aff, by rw [hRv, if_pos hea], rfl, fun _ => ?_⟩
      simp [GetValidatorsByPowerIndexKey, bondedRecord, hbh]
    · rw [h1] at hv; cases hv
      rw [hRi] at he
      rcases hothers e he with heq | hmem
      · rw [heq] at hea; exact absurd rfl hea
      · have hec : e.2 ≠ c := by rw [hcaN]; exact hinit e hmem
        obtain ⟨v2, hv2, _, hb2, _, _⟩ :=
          consistentFull_top_entry hc (List.mem_of_mem_take hmem)
        rw [hw] at hv2; cases hv2
        exact ⟨_, by rw [hRv, if_neg hea, if_neg hec]; exact hw, hb2, fun _ => rfl⟩
  refine settled_of_scan env s3 R aff rs
    (aff.OperatorAddr :: ((s.powerIndex.take env.maxValidators).take
      (env.maxValidators - 1)).map Prod.snd) True
    hpos hwf3 hwfR hndR hi5R hnjR hscan hnj3 hread ?_ ?_ hc1 hc2
  · rintro x ⟨v, hv, hb⟩
    rw [hRv x] at hv
    by_cases hx : x = aff.OperatorAddr
    · rw [hx]; exact List.mem_cons_self _ _
    · rw [if_neg hx] at hv
      by_cases hxc : x = c
      · rw [if_pos hxc] at hv; cases hv; cases hb
      · rw [if_neg hxc] at hv
        have hxT := (hc.top x).1 ⟨v, hv, hb⟩
        apply List.mem_cons_of_mem
        have hsplit := List.dropLast_append_getLast? eN hlast
        rw [List.dropLast_eq_take, hlenT] at hsplit
        unfold topAddrs at hxT
        rw [← hsplit, List.map_append, List.mem_append] at hxT
        rcases hxT with hxT | hxT
        · exact hxT
        · simp only [List.map_cons, List.map_nil, List.mem_singleton] at hxT
          rw [hxT, ← hcaN] at hxc
          exact absurd rfl hxc
  · rw [List.length_cons, List.length_map, List.length_take, hlenT, hRi,
      rekeyed_length_full hc]
    omega

/-- With a full bonded set the scan bonded a validator other than the
affected one, which was Bonded and is demoted: the stores after the
single-validator update are settled. -/
theorem settled_after_scan_swap (env : Env) (s s3 R : State) (aff : Validator)
    (rs : BondedScan)
    (hc : ConsistentFull env s) (hnj : NoJailedValidator s)
    (hAj : aff.Jailed = false) (hb : IsBonded s aff.OperatorAddr)
    (hv3 : s3.validators = s.validators)
    (hRi : R.powerIndex = powerIndexInsert (GetValidatorsByPowerIndexKey aff, aff.OperatorAddr)
      (s.powerIndex.filter (fun e => decide (e.2 ≠ aff.OperatorAddr))))
    (hscan : bondedScan env s3 aff R.powerIndex
      { validator := Validator.zero, validatorToBond := Validator.zero,
        newValidatorBonded := false, count := 0 } = some rs)
    (hn : rs.newValidatorBonded = true)
    (htba : rs.validatorToBond.OperatorAddr ≠ aff.OperatorAddr)
    (hRv : ∀ x, R.validators x =
      if x = aff.OperatorAddr then some (unbondingRecord env aff)
      else if x = rs.validatorToBond.OperatorAddr then some (bondedRecord env rs.validatorToBond)
      else s.validators x)
    (hRc : R.cliffAddr = if rs.count = env.maxValidators then some rs.validator.OperatorAddr
      else if addrNonEmpty s.cliffAddr = true then none else s.cliffAddr)
    (hRp : R.cliffPower = if rs.count = env.maxValidators
      then some (GetValidatorsByPowerIndexKey rs.validator)
      else if addrNonEmpty s.cliffAddr = true then none else s.cliffPower)
    (hi5R : BondedIndexConsistent R) :
    Settled env R ∧ (False → CliffPowerSettled env R) := by
  obtain ⟨hpos, hwf, hi4, hwf3, hndR, hnj3, hrd⟩ :=
    rekeyed_scan_facts env s s3 R aff (Or.inl hc) hnj hAj hv3 hRi
  obtain ⟨hc1, hc2, hcount⟩ :=
    rekeyed_scan_cliff env s s3 R aff rs (Or.inl hc) hnj hAj hv3 hRi hscan hRc hRp
  obtain ⟨hLsplit, hLlen⟩ := full_top_without hc hb
  -- the validator marked for bonding is stored and not Bonded
  obtain ⟨eU, heU, hrU, htbs⟩ := scan_toBond_entry env s3 aff _ rs hscan hnj3 hn
  have hUstore : eU.2 ≠ aff.OperatorAddr ∧ s.validators eU.2 = some rs.validatorToBond := by
    rcases hrd eU (List.mem_of_mem_take heU) with ⟨_, _, h1⟩ | ⟨hea, _, w, hw, _, h1⟩
    · rw [h1] at hrU
      simp only [Option.some.injEq] at hrU
      rw [← hrU] at htba
      exact absurd rfl htba
    · rw [h1] at hrU
      simp only [Option.some.injEq] at hrU
      rw [hrU] at hw
      exact ⟨hea, hw⟩
  have hUa : rs.validatorToBond.OperatorAddr = eU.2 := hwf _ _ hUstore.2
  have hnotin : (GetValidatorsByPowerIndexKey aff, aff.OperatorAddr) ∉
      s.powerIndex.filter (fun e => decide (e.2 ≠ aff.OperatorAddr)) := by
    intro h
    have := (List.mem_filter.1 h).2
    simp at this
  -- the affected validator is not among the first entries of the re-keyed index
  have hAout : (GetValidatorsByPowerIndexKey aff, aff.OperatorAddr) ∉
      R.powerIndex.take env.maxValidators := by
    intro hA
    rw [hRi] at hA heU
    rcases insert_take_mem _ _ env.maxValidators hnotin hA eU heU with heq | hmem
    · rw [heq] at hUstore
      exact hUstore.1 rfl
    · rw [hLsplit, List.take_append_eq_append_take] at hmem
      have hz : env.maxValidators - 1 - ((s.powerIndex.take env.maxValidators).filter
          (fun e => decide (e.2 ≠ aff.OperatorAddr))).length = 0 := by omega
      rw [hz, List.take_zero, List.append_nil] at hmem
      have hmem2 := (List.mem_filter.1 (List.mem_of_mem_take hmem)).1
      obtain ⟨v2, hv2, _, hb2, _, _⟩ := consistentFull_top_entry hc hmem2
      rw [hUstore.2] at hv2
      cases hv2
      exact htbs hb2
  have hwfR : TableWF R := by
    intro x v hv
    rw [hRv x] at hv
    by_cases hx : x = aff.OperatorAddr
    · rw [if_pos hx] at hv; cases hv; exact hx.symm
    · rw [if_neg hx] at hv
      by_cases hxu : x = rs.validatorToBond.OperatorAddr
      · rw [if_pos hxu] at hv; cases hv; exact hxu.symm
      · rw [if_neg hxu] at hv; exact hwf _ _ hv
  have hnjR : NoJailedValidator R := by
    intro x v hv
    rw [hRv x] at hv
    by_cases hx : x = aff.OperatorAddr
    · rw [if_pos hx] at hv; cases hv; exact hAj
    · rw [if_neg hx] at hv
      by_cases hxu : x = rs.validatorToBond.OperatorAddr
      · rw [if_pos hxu] at hv; cases hv; exact hnj eU.2 rs.validatorToBond hUstore.2
      · rw [if_neg hxu] at hv; exact hnj _ _ hv
  have hread : ∀ e ∈ R.powerIndex.take env.maxValidators, ∀ v,
      scanRead s3 aff e.2 = some v →
      (v.Status = BondStatus.Bonded ∨
        (rs.newValidatorBonded = true ∧ rs.validatorToBond = v)) →
      ∃ w, R.validators e.2 = some w ∧ w.Status = BondStatus.Bonded ∧
        (False → GetValidatorsByPowerIndexKey w = GetValidatorsByPowerIndexKey v) := by
    intro e he v hv hd
    rcases hrd e (List.mem_of_mem_take he) with ⟨_, heq, _⟩ | ⟨hea, _, w, hw, _, h1⟩
    · rw [heq] at he
      exact absurd he hAout
    · rw [h1] at hv
      simp only [Option.some.injEq] at hv
      rw [hv] at hw
      by_cases heu : e.2 = rs.validatorToBond.OperatorAddr
      · exact ⟨bondedRecord env rs.validatorToBond, by rw [hRv, if_neg hea, if_pos heu], rfl,
          fun h => h.elim⟩
      · rcases hd with hd | ⟨_, hd⟩
        · exact ⟨v, by rw [hRv, if_neg hea, if_neg heu]; exact hw, hd, fun h => h.elim⟩
        · rw [← hd] at hw
          exact absurd (hwf _ _ hw).symm heu
  refine settled_of_scan env s3 R aff rs
    (rs.validatorToBond.OperatorAddr :: ((s.powerIndex.take env.maxValidators).filter
      (fun e => decide (e.2 ≠ aff.OperatorAddr))).map Prod.snd) False
    hpos hwf3 hwfR hndR hi5R hnjR hscan hnj3 hread ?_ ?_ hc1 hc2
  · rintro x ⟨v, hv, hbv⟩
    rw [hRv x] at hv
    by_cases hx : x = aff.OperatorAddr
    · rw [if_pos hx] at hv; cases hv; cases hbv
    · rw [if_neg hx] at hv
      by_cases hxu : x = rs.validatorToBond.OperatorAddr
      · rw [hxu]; exact List.mem_cons_self _ _
      · rw [if_neg hxu] at hv
        have hxT := (hc.top x).1 ⟨v, hv, hbv⟩
        apply List.mem_cons_of_mem
        obtain ⟨e, he, hex⟩ := List.mem_map.1 hxT
        refine List.mem_map.2 ⟨e, List.mem_filter.2 ⟨he, ?_⟩, hex⟩
        simp only [decide_eq_true_eq]
        rw [hex]
        exact hx
  · rw [List.length_cons, List.length_map, hRi, rekeyed_length_full hc]
    omega

theorem cliffSel_validators (c1 c2 : Prop) [Decidable c1] [Decidable c2] (s3 : State)
    (v : Validator) :
    (if c1 then setCliffValidator s3 v else if c2 then clearCliffValidator s3
      else s3).validators = s3.validators := by
  split_ifs <;> rfl

theorem cliffSel_powerIndex (c1 c2 : Prop) [Decidable c1] [Decidable c2] (s3 : State)
    (v : Validator) :
    (if c1 then setCliffValidator s3 v else if c2 then clearCliffValidator s3
      else s3).powerIndex = s3.powerIndex := by
  split_ifs <;> rfl

theorem cliffSel_cliffAddr (c1 c2 : Prop) [Decidable c1] [Decidable c2] (s3 : State)
    (v : Validator) :
    (if c1 then setCliffValidator s3 v else if c2 then clearCliffValidator s3
      else s3).cliffAddr =
      if c1 then some v.OperatorAddr else if c2 then none else s3.cliffAddr := by
  split_ifs <;> rfl

theorem cliffSel_cliffPower (c1 c2 : Prop) [Decidable c1] [Decidable c2] (s3 : State)
    (v : Validator) :
    (if c1 then setCliffValidator s3 v else if c2 then clearCliffValidator s3
      else s3).cliffPower =
      if c1 then some (GetValidatorsByPowerIndexKey v) else if c2 then none
      else s3.cliffPower := by
  split_ifs <;> rfl

/-- The stores after `XXXREFERENCEUpdateBondedValidators` ran on the re-keyed
index of a consistent state without jailed validators, and the record the
single-validator update then persists was written, are settled; the power
recorded by the Cliff Tracker is the key of the cliff validator's record unless
the affected validator was Bonded and has been demoted. -/
theorem settled_after_updateBonded (env : Env) (s s3 X : State) (aff V : Validator)
    (res : (Validator × Bool) × State)
    (hcons : ConsistentFull env s ∨ ConsistentSpare env s) (hnj : NoJailedValidator s)
    (hAj : aff.Jailed = false)
    (hst : aff.Status = BondStatus.Bonded ↔ IsBonded s aff.OperatorAddr)
    (hbh : ¬ IsBonded s aff.OperatorAddr → aff.BondHeight = env.blockHeight)
    (hv3 : s3.validators = s.validators)
    (h3i : s3.powerIndex =
      powerIndexInsert (GetValidatorsByPowerIndexKey aff, aff.OperatorAddr)
        (s.powerIndex.filter (fun e => decide (e.2 ≠ aff.OperatorAddr))))
    (h3c : s3.cliffAddr = s.cliffAddr) (h3p : s3.cliffPower = s.cliffPower)
    (hres : XXXREFERENCEUpdateBondedValidators env s3 aff = some res)
    (hXV : (res.1.2 = true ∧ V = res.1.1 ∧ X = res.2) ∨
      (res.1.2 = false ∧ V = aff ∧
        (X = res.2 ∨ ∃ p, X = setUpdate res.2 aff.OperatorAddr p)))
    (hi5R : BondedIndexConsistent (SetValidator X V)) :
    Settled env (SetValidator X V) ∧
      ((IsBonded s aff.OperatorAddr → V.Status = BondStatus.Bonded) →
        CliffPowerSettled env (SetValidator X V)) := by
  obtain ⟨rs, sc, hscan, hsc, hcase⟩ := updateBonded_inv env s3 aff res hres
  have hscv : sc.validators = s.validators := by rw [hsc, cliffSel_validators, hv3]
  have hsci : sc.powerIndex = s3.powerIndex := by rw [hsc, cliffSel_powerIndex]
  have hscc : sc.cliffAddr = if rs.count = env.maxValidators
      then some rs.validator.OperatorAddr
      else if addrNonEmpty s.cliffAddr = true then none else s.cliffAddr := by
    rw [hsc, cliffSel_cliffAddr, h3c]
  have hscp : sc.cliffPower = if rs.count = env.maxValidators
      then some (GetValidatorsByPowerIndexKey rs.validator)
      else if addrNonEmpty s.cliffAddr = true then none else s.cliffPower := by
    rw [hsc, cliffSel_cliffPower, h3c, h3p]
  have hwf : TableWF s := by
    rcases hcons with hc | hc
    · exact hc.wf
    · exact hc.wf
  have hwf3 : TableWF s3 := tableWF_congr hv3 hwf
  have htbaff : rs.newValidatorBonded = true →
      rs.validatorToBond.OperatorAddr = aff.OperatorAddr → rs.validatorToBond = aff := by
    intro hn ha
    obtain ⟨_, _, h3⟩ := bondedScan_toBond env s3 aff _ _ rs hscan (by simp) hn
    rcases h3 with h3 | ⟨a, hane, hva⟩
    · exact h3
    · exact absurd ((hwf3 _ _ hva).symm.trans ha) hane
  rcases hcase with ⟨hn, hr⟩ | ⟨hn, htbs, hcase⟩
  · -- nobody was bonded
    subst hr
    rcases hXV with ⟨h1, _⟩ | ⟨_, hV, hX⟩
    · cases h1
    subst hV
    have key : ∀ Y : State, Y.validators = sc.validators → Y.powerIndex = sc.powerIndex →
        Y.cliffAddr = sc.cliffAddr → Y.cliffPower = sc.cliffPower →
        BondedIndexConsistent (SetValidator Y V) →
        Settled env (SetValidator Y V) ∧
          ((IsBonded s V.OperatorAddr → V.Status = BondStatus.Bonded) →
            CliffPowerSettled env (SetValidator Y V)) := by
      intro Y h1 h2 h3 h4 h5
      have := settled_after_scan_none env s s3 (SetValidator Y V) V rs hcons hnj hAj hst hv3
        (by show Y.powerIndex = _; rw [h2, hsci, h3i])
        (by show bondedScan env s3 V Y.powerIndex _ = _; rw [h2, hsci]; exact hscan) hn
        (by
          intro x
          show (if x = V.OperatorAddr then some V else Y.validators x) = _
          rw [h1, hscv])
        (by show Y.cliffAddr = _; rw [h3, hscc])
        (by show Y.cliffPower = _; rw [h4, hscp]) h5
      exact ⟨this.1, fun _ => this.2 trivial⟩
    rcases hX with hX | ⟨p, hX⟩
    · subst hX
      exact key _ rfl rfl rfl rfl hi5R
    · subst hX
      exact key _ rfl rfl rfl rfl hi5R
  · -- the validator marked by the scan was bonded
    have hres2 : res.1.2 = true := by
      rcases hcase with ⟨_, hr⟩ | ⟨_, _, _, _, _, _, hr⟩ | ⟨_, _, _, _, hr⟩ <;> rw [hr]
    rcases hXV with ⟨_, hV, hX⟩ | ⟨h1, _⟩
    swap
    · rw [hres2] at h1; cases h1
    rcases hcase with ⟨hca, hr⟩ | ⟨c, vc, hca, hvc, hvcb, htba, hr⟩ | ⟨c, hca, htba, hab, hr⟩
    · -- no cliff validator: spare capacity
      rcases hcons with hc | hc
      · obtain ⟨eN, _, hcaN, _⟩ := hc.cliff
        rw [h3c, hcaN] at hca
        cases hca
      obtain ⟨_, _, hall⟩ := spare_index hc hnj
      have htb : rs.validatorToBond = aff := by
        obtain ⟨_, _, h3⟩ := bondedScan_toBond env s3 aff _ _ rs hscan (by simp) hn
        rcases h3 with h3 | ⟨a, _, hva⟩
        · exact h3
        · rw [hv3] at hva
          exact absurd (hall _ _ hva) htbs
      rw [htb] at hr htbs
      simp only [if_true] at hr
      subst hr
      subst hV hX
      have hnb : ¬ IsBonded s aff.OperatorAddr := fun h => htbs (hst.2 h)
      have := settled_after_scan_admit_spare env s s3
        (SetValidator (bondState env sc aff) (bondedRecord env aff)) aff rs hc hnj hAj hnb
        (hbh hnb) hv3
        (by show sc.powerIndex = _; rw [hsci, h3i])
        (by show bondedScan env s3 aff sc.powerIndex _ = _; rw [hsci]; exact hscan)
        (by
          intro x
          show (if x = aff.OperatorAddr then some (bondedRecord env aff)
            else if x = aff.OperatorAddr then some (bondedRecord env aff)
            else sc.validators x) = _
          by_cases hx : x = aff.OperatorAddr
          · rw [if_pos hx, if_pos hx]
          · rw [if_neg hx, if_neg hx, if_neg hx, hscv])
        (by show sc.cliffAddr = _; rw [hscc])
        (by show sc.cliffPower = _; rw [hscp]) hi5R
      exact ⟨this.1, fun _ => this.2 trivial⟩
    · -- the affected validator replaces the old cliff validator
      rcases hcons with hc | hc
      swap
      · rw [h3c, hc.cliffAddr_none] at hca
        cases hca
      have htb := htbaff hn htba
      rw [htb] at hr htbs
      subst hr
      subst hV hX
      rw [hv3] at hvc
      have hvca : vc.OperatorAddr = c := hwf _ _ hvc
      have hnb : ¬ IsBonded s aff.OperatorAddr := fun h => htbs (hst.2 h)
      have := settled_after_scan_admit_full env s s3
        (SetValidator (bondState env (unbondState env sc vc) aff) (bondedRecord env aff))
        aff rs c vc hc hnj hAj hnb (hbh hnb) hv3
        (by show sc.powerIndex = _; rw [hsci, h3i])
        (by show bondedScan env s3 aff sc.powerIndex _ = _; rw [hsci]; exact hscan)
        hn htb (by rw [← h3c]; exact hca) hvc
        (by
          intro x
          show (if x = aff.OperatorAddr then some (bondedRecord env aff)
            else if x = aff.OperatorAddr then some (bondedRecord env aff)
            else if x = vc.OperatorAddr then some (unbondingRecord env vc)
            else sc.validators x) = _
          by_cases hx : x = aff.OperatorAddr
          · rw [if_pos hx, if_pos hx]
          · rw [if_neg hx, if_neg hx, if_neg hx, hvca, hscv])
        (by show sc.cliffAddr = _; rw [hscc])
        (by show sc.cliffPower = _; rw [hscp]) hi5R
      exact ⟨this.1, fun _ => this.2 trivial⟩
    · -- another validator replaces the affected one
      rcases hcons with hc | hc
      swap
      · rw [h3c, hc.cliffAddr_none] at hca
        cases hca
      subst hr
      subst hV hX
      have hb : IsBonded s aff.OperatorAddr := hst.1 hab
      have := settled_after_scan_swap env s s3
        (SetValidator (bondState env (unbondState env sc aff) rs.validatorToBond)
          (unbondingRecord env aff))
        aff rs hc hnj hAj hb hv3
        (by show sc.powerIndex = _; rw [hsci, h3i])
        (by show bondedScan env s3 aff sc.powerIndex _ = _; rw [hsci]; exact hscan)
        hn htba
        (by
          intro x
          show (if x = aff.OperatorAddr then some (unbondingRecord env aff)
            else if x = rs.validatorToBond.OperatorAddr
              then some (bondedRecord env rs.validatorToBond)
            else if x = aff.OperatorAddr then some (unbondingRecord env aff)
            else sc.validators x) = _
          by_cases hx : x = aff.OperatorAddr
          · rw [if_pos hx, if_pos hx]
          · rw [if_neg hx, if_neg hx, if_neg hx, hscv])
        (by show sc.cliffAddr = _; rw [hscc])
        (by show sc.cliffPower = _; rw [hscp]) hi5R
      refine ⟨this.1, fun h => ?_⟩
      have := h hb
      cases this

/-- The first `MaxValidators` entries of a sorted index all rank at least as
high as the last of them: none ranks below a key that ranks below the last. -/
theorem top_not_below {env : Env} {s : State} (hso : PowerIndexSorted s)
    {eN : PowerKey × Addr} (hlast : (s.powerIndex.take env.maxValidators).getLast? = some eN)
    {k : PowerKey} (hk : k.ranksBelow eN.1 = true) :
    ∀ x ∈ s.powerIndex.take env.maxValidators, x.1.ranksBelow k = false := by
  have hpw : (s.powerIndex.take env.maxValidators).Pairwise
      (fun x y => y.1.ranksBelow x.1 = true) := by
    have := hso
    unfold PowerIndexSorted at this
    rw [← List.take_append_drop env.maxValidators s.powerIndex] at this
    exact (List.pairwise_append.1 this).1
  intro x hx
  cases hxr : x.1.ranksBelow k with
  | false => rfl
  | true =>
    exfalso
    have hxN := ranksBelow_trans _ _ _ hxr hk
    have hsplit := List.dropLast_append_getLast? eN hlast
    rw [← hsplit] at hpw hx
    rcases List.mem_append.1 hx with h1 | h1
    · have h2 := (List.pairwise_append.1 hpw).2.2 x h1 eN (by simp)
      have h3 := ranksBelow_asymm _ _ h2
      rw [hxN] at h3; cases h3
    · have hxe : x = eN := by simpa using h1
      rw [hxe] at hxr
      have h3 := ranksBelow_asymm _ _ hk
      rw [hxr] at h3; cases h3

/-- The single-validator update left a validator that is not Bonded below the
cliff: the stores, with the re-keyed index and the record persisted, are
settled. -/
theorem settled_after_below_cliff (env : Env) (s R : State) (aff : Validator) (cp : PowerKey)
    (hc : ConsistentFull env s) (hso : PowerIndexSorted s)
    (hnb : ¬ IsBonded s aff.OperatorAddr) (hAs : aff.Status ≠ BondStatus.Bonded)
    (hcp : s.cliffPower = some cp)
    (hlt : (GetValidatorsByPowerIndexKey aff).ranksBelow cp = true)
    (hRi : R.powerIndex = powerIndexInsert (GetValidatorsByPowerIndexKey aff, aff.OperatorAddr)
      (s.powerIndex.filter (fun e => decide (e.2 ≠ aff.OperatorAddr))))
    (hRv : ∀ x, R.validators x = if x = aff.OperatorAddr then some aff else s.validators x)
    (hRc : R.cliffAddr = s.cliffAddr) (hRp : R.cliffPower = s.cliffPower)
    (hi5R : BondedIndexConsistent R) :
    Settled env R ∧ CliffPowerSettled env R := by
  obtain ⟨eN, hlast, hca, hcpN⟩ := hc.cliff
  rw [hcp, Option.some.injEq] at hcpN
  rw [hcpN] at hlt
  have heN : eN ∈ s.powerIndex.take env.maxValidators := List.mem_of_getLast?_eq_some hlast
  obtain ⟨vN, hvN, _, _, hvNa, hkN⟩ := consistentFull_top_entry hc heN
  have hLtake := filter_take_of_not_bonded hc hnb
  have hlenL : env.maxValidators ≤
      (s.powerIndex.filter (fun e => decide (e.2 ≠ aff.OperatorAddr))).length := by
    have h1 := congrArg List.length hLtake
    have h2 := hc.full
    simp only [topAddrs, List.length_map] at h2
    rw [h2, List.length_take] at h1
    omega
  have htake : R.powerIndex.take env.maxValidators = s.powerIndex.take env.maxValidators := by
    rw [hRi, insert_take _ _ _ hlenL (by rw [hLtake]; exact top_not_below hso hlast hlt),
      hLtake]
  have htopA : topAddrs env R = topAddrs env s := by
    unfold topAddrs
    rw [htake]
  have hne : ∀ e ∈ s.powerIndex.take env.maxValidators, e.2 ≠ aff.OperatorAddr := by
    intro e he hea
    obtain ⟨v, hv, _, hb, _, _⟩ := consistentFull_top_entry hc he
    exact hnb (hea ▸ ⟨v, hv, hb⟩)
  have hbR : ∀ x, IsBonded R x ↔ IsBonded s x := by
    intro x
    constructor
    · rintro ⟨v, hv, hb⟩
      rw [hRv x] at hv
      by_cases hx : x = aff.OperatorAddr
      · rw [if_pos hx] at hv; cases hv; exact absurd hb hAs
      · rw [if_neg hx] at hv; exact ⟨v, hv, hb⟩
    · rintro ⟨v, hv, hb⟩
      have hx : x ≠ aff.OperatorAddr := fun hx => hnb (hx ▸ ⟨v, hv, hb⟩)
      exact ⟨v, by rw [hRv, if_neg hx]; exact hv, hb⟩
  have hlsc : lastScanned env R R = vN := by
    unfold lastScanned
    rw [htake, hlast]
    simp only [hRv, if_neg (hne eN heN), hvN, Option.getD_some]
  constructor
  · refine
      { wf := ?_, nodup := ?_, i5 := hi5R, top := ?_, notJailed := ?_,
        cliffAddr_full := ?_, cliffAddr_spare := ?_ }
    · intro x v hv
      rw [hRv x] at hv
      by_cases hx : x = aff.OperatorAddr
      · rw [if_pos hx] at hv; cases hv; exact hx.symm
      · rw [if_neg hx] at hv; exact hc.wf _ _ hv
    · rw [hRi]; exact rekeyed_nodup _ _ _ hc.i4.1
    · intro x
      rw [hbR x, htopA]
      exact hc.top x
    · intro e he
      rw [htake] at he
      obtain ⟨v, hv, hj, _, _, _⟩ := consistentFull_top_entry hc he
      exact ⟨v, by rw [hRv, if_neg (hne e he)]; exact hv, hj⟩
    · intro _
      rw [hlsc, hRc, hca, hvNa]
    · intro h
      rw [htopA] at h
      exact absurd hc.full h
  · intro _
    rw [hlsc, hRp, hcp, hcpN, hkN]

/-- The switch of the single-validator update when the power of a Bonded
validator increases (first case, lines 103-115). -/
theorem switch_increase_eq (env : Env) (s3 : State) (old v : Validator) (valPower : PowerKey)
    (hob : old.Status = BondStatus.Bonded) (hj : v.Jailed = false) :
    updateValidatorSwitch env s3 true old v true valPower =
      if s3.cliffPower.isSome = true ∧ addrBytesEqual s3.cliffAddr v.OperatorAddr = true then
        match updateCliffValidator (setUpdate s3 v.OperatorAddr v.ABCIValidator) v with
        | none => none
        | some s2 => some (v, s2)
      else some (v, setUpdate s3 v.OperatorAddr v.ABCIValidator) := by
  unfold updateValidatorSwitch
  simp only [hob, hj, and_self, if_true]
  rfl

/-- The cliff candidate `updateCliffValidator` finds when the entries read as
Bonded come before the others: the last of them. -/
theorem updateCliffValidator_eq (s1 : State) (v : Validator) (T D : List (PowerKey × Addr))
    (e : PowerKey × Addr) (hidx : s1.powerIndex = T ++ D)
    (hD : ∀ x ∈ D, ∀ u, scanRead s1 v x.2 = some u → u.Status ≠ BondStatus.Bonded)
    (hT : T.getLast? = some e)
    (he : ∃ u, scanRead s1 v e.2 = some u ∧ u.Status = BondStatus.Bonded) :
    updateCliffValidator s1 v =
      some { s1 with cliffAddr := some e.2, cliffPower := some e.1 } := by
  unfold updateCliffValidator
  simp only []
  rw [hidx, find_reverse_append _ T D e ?_ hT ?_]
  · intro x hx
    cases hr : scanRead s1 v x.2 with
    | none =>
      have hr' : (if x.2 = v.OperatorAddr then some v else s1.validators x.2) = none := hr
      simp only [hr']
    | some u =>
      have hr' : (if x.2 = v.OperatorAddr then some v else s1.validators x.2) = some u := hr
      simp only [hr']
      simpa using hD x hx u hr
  · obtain ⟨u, hu, hub⟩ := he
    have hr' : (if e.2 = v.OperatorAddr then some v else s1.validators e.2) = some u := hu
    simp only [hr']
    simpa using hub

/-- The re-keyed index after the power of a Bonded validator of a full bonded
set increased: its entry stays among the first `MaxValidators`, the entries
after them are those of before. -/
theorem increase_index {env : Env} {s : State} (hc : ConsistentFull env s)
    (hso : PowerIndexSorted s) (hnj : NoJailedValidator s) (aff old : Validator)
    (hold : s.validators aff.OperatorAddr = some old) (hob : old.Status = BondStatus.Bonded)
    (hAj : aff.Jailed = false) (hinc : old.Power < aff.Power) :
    powerIndexInsert (GetValidatorsByPowerIndexKey aff, aff.OperatorAddr)
        (s.powerIndex.filter (fun e => decide (e.2 ≠ aff.OperatorAddr))) =
      powerIndexInsert (GetValidatorsByPowerIndexKey aff, aff.OperatorAddr)
        ((s.powerIndex.take env.maxValidators).filter
          (fun e => decide (e.2 ≠ aff.OperatorAddr))) ++ s.powerIndex.drop env.maxValidators ∧
    (powerIndexInsert (GetValidatorsByPowerIndexKey aff, aff.OperatorAddr)
        ((s.powerIndex.take env.maxValidators).filter
          (fun e => decide (e.2 ≠ aff.OperatorAddr)))).length = env.maxValidators ∧
    (GetValidatorsByPowerIndexKey old, aff.OperatorAddr) ∈
      s.powerIndex.take env.maxValidators ∧
    (GetValidatorsByPowerIndexKey old).ranksBelow (GetValidatorsByPowerIndexKey aff) = true := by
  have hb : IsBonded s aff.OperatorAddr := ⟨old, hold, hob⟩
  obtain ⟨hLsplit, hLlen⟩ := full_top_without hc hb
  have holdT : (GetValidatorsByPowerIndexKey old, aff.OperatorAddr) ∈
      s.powerIndex.take env.maxValidators := by
    have hin := (hc.top _).1 hb
    obtain ⟨e, he, hea⟩ := List.mem_map.1 hin
    obtain ⟨v, hv, _, _, _, hk⟩ := consistentFull_top_entry hc he
    rw [hea, hold] at hv
    cases hv
    have : e = (GetValidatorsByPowerIndexKey old, aff.OperatorAddr) := by
      rw [← hk, ← hea]
    rw [← this]
    exact he
  have hrank : (GetValidatorsByPowerIndexKey old).ranksBelow
      (GetValidatorsByPowerIndexKey aff) = true := by
    apply ranksBelow_of_power_lt
    · simp [GetValidatorsByPowerIndexKey, hAj, hnj _ _ hold]
    · exact hinc
  have hcross : ∀ x ∈ s.powerIndex.take env.maxValidators,
      ∀ y ∈ s.powerIndex.drop env.maxValidators, y.1.ranksBelow x.1 = true := by
    have := hso
    unfold PowerIndexSorted at this
    rw [← List.take_append_drop env.maxValidators s.powerIndex] at this
    exact (List.pairwise_append.1 this).2.2
  refine ⟨?_, ?_, holdT, hrank⟩
  · rw [hLsplit]
    apply insert_append_of_head_below
    intro x hx
    have hxD : x ∈ s.powerIndex.drop env.maxValidators := List.mem_of_mem_head? hx
    exact ranksBelow_trans _ _ _ (hcross _ holdT x hxD) hrank
  · rw [length_powerIndexInsert]
    exact hLlen

/-- In a consistent state with a full bonded set no entry after the first
`MaxValidators` belongs to a Bonded validator. -/
theorem drop_not_bonded {env : Env} {s : State} (hc : ConsistentFull env s)
    {x : PowerKey × Addr} (hx : x ∈ s.powerIndex.drop env.maxValidators) :
    ¬ IsBonded s x.2 := by
  intro hb
  have hin := (hc.top _).1 hb
  have hnd := hc.i4.1
  rw [← List.take_append_drop env.maxValidators s.powerIndex, List.map_append,
    List.nodup_append] at hnd
  exact hnd.2.2 hin (List.mem_map_of_mem Prod.snd hx)

/-- The power of a Bonded validator of a consistent state with a full bonded
set increased: the stores after the single-validator update are settled. -/
theorem settled_after_increase_full (env : Env) (s s3 : State) (aff old : Validator)
    (valPower : PowerKey) (w : Validator × State)
    (hc : ConsistentFull env s) (hso : PowerIndexSorted s) (hnj : NoJailedValidator s)
    (hold : s.validators aff.OperatorAddr = some old) (hob : old.Status = BondStatus.Bonded)
    (hAs : aff.Status = BondStatus.Bonded) (hAj : aff.Jailed = false)
    (hinc : old.Power < aff.Power)
    (hv3 : s3.validators = s.validators)
    (h3i : s3.powerIndex =
      powerIndexInsert (GetValidatorsByPowerIndexKey aff, aff.OperatorAddr)
        (s.powerIndex.filter (fun e => decide (e.2 ≠ aff.OperatorAddr))))
    (h3c : s3.cliffAddr = s.cliffAddr) (h3p : s3.cliffPower = s.cliffPower)
    (hsw : updateValidatorSwitch env s3 true old aff true valPower = some w)
    (hi5R : BondedIndexConsistent (SetValidator w.2 w.1)) :
    Settled env (SetValidator w.2 w.1) ∧ CliffPowerSettled env (SetValidator w.2 w.1) := by
  have hb : IsBonded s aff.OperatorAddr := ⟨old, hold, hob⟩
  obtain ⟨hidx, hlenT, holdT, hrank⟩ := increase_index hc hso hnj aff old hold hob hAj hinc
  obtain ⟨eN, hlast, hca, hcp⟩ := hc.cliff
  have hpos := hc.pos
  -- the first entries of the re-keyed index
  have htake : s3.powerIndex.take env.maxValidators =
      powerIndexInsert (GetValidatorsByPowerIndexKey aff, aff.OperatorAddr)
        ((s.powerIndex.take env.maxValidators).filter
          (fun e => decide (e.2 ≠ aff.OperatorAddr))) := by
    rw [h3i, hidx, List.take_left' hlenT]
  have hmem : ∀ e ∈ s3.powerIndex.take env.maxValidators,
      e = (GetValidatorsByPowerIndexKey aff, aff.OperatorAddr) ∨
      (e ∈ s.powerIndex.take env.maxValidators ∧ e.2 ≠ aff.OperatorAddr) := by
    intro e he
    rw [htake, mem_powerIndexInsert, List.mem_filter] at he
    simpa using he
  have hrecs : ∀ e ∈ s3.powerIndex.take env.maxValidators,
      ∃ v, (if e.2 = aff.OperatorAddr then some aff else s.validators e.2) = some v ∧
        v.Status = BondStatus.Bonded ∧ v.Jailed = false ∧
        GetValidatorsByPowerIndexKey v = e.1 := by
    intro e he
    rcases hmem e he with he | ⟨he, hne⟩
    · rw [he]
      exact ⟨aff, by simp, hAs, hAj, rfl⟩
    · obtain ⟨v, hv, hj, hvb, _, hk⟩ := consistentFull_top_entry hc he
      exact ⟨v, by rw [if_neg hne]; exact hv, hvb, hj, hk.symm⟩
  -- the stores the switch returns
  have hw : w.1 = aff ∧ w.2.validators = s.validators ∧ w.2.powerIndex = s3.powerIndex ∧
      ∃ e, (s3.powerIndex.take env.maxValidators).getLast? = some e ∧
        w.2.cliffAddr = some e.2 ∧ w.2.cliffPower = some e.1 := by
    rw [switch_increase_eq env s3 old aff valPower hob hAj] at hsw
    have hsome : s3.cliffPower.isSome = true := by rw [h3p, hcp]; rfl
    by_cases hcl : eN.2 = aff.OperatorAddr
    · have hcond : s3.cliffPower.isSome = true ∧
          addrBytesEqual s3.cliffAddr aff.OperatorAddr = true := by
        refine ⟨hsome, ?_⟩
        rw [h3c, hca]
        simp [addrBytesEqual, hcl]
      rw [if_pos hcond] at hsw
      cases hgl : (s3.powerIndex.take env.maxValidators).getLast? with
      | none =>
        rw [List.getLast?_eq_none_iff] at hgl
        have := congrArg List.length htake
        rw [hgl, hlenT] at this
        simp at this
        omega
      | some e =>
        have he := List.mem_of_getLast?_eq_some hgl
        obtain ⟨v, hv, hvb, _, _⟩ := hrecs e he
        rw [htake] at hgl
        rw [updateCliffValidator_eq (setUpdate s3 aff.OperatorAddr aff.ABCIValidator) aff _ _ e
          (by show s3.powerIndex = _; rw [h3i]; exact hidx)
          (by
            intro x hx u hu hub
            have hxa : x.2 ≠ aff.OperatorAddr := fun h => drop_not_bonded hc hx (h ▸ hb)
            have hu2 : s.validators x.2 = some u := by
              have : scanRead (setUpdate s3 aff.OperatorAddr aff.ABCIValidator) aff x.2 =
                  s3.validators x.2 := by simp [scanRead, hxa, setUpdate]
              rw [this, hv3] at hu
              exact hu
            exact drop_not_bonded hc hx ⟨u, hu2, hub⟩)
          hgl
          ⟨v, by
            show (if e.2 = aff.OperatorAddr then some aff else s3.validators e.2) = some v
            rw [hv3]; exact hv, hvb⟩] at hsw
        simp only [Option.some.injEq] at hsw
        rw [← hsw]
        exact ⟨rfl, hv3, rfl, e, rfl, rfl, rfl⟩
    · have hcond : ¬ (s3.cliffPower.isSome = true ∧
          addrBytesEqual s3.cliffAddr aff.OperatorAddr = true) := by
        rintro ⟨_, h⟩
        rw [h3c, hca] at h
        simp [addrBytesEqual] at h
        exact hcl h
      rw [if_neg hcond, Option.some.injEq] at hsw
      rw [← hsw]
      refine ⟨rfl, hv3, rfl, eN, ?_, ?_, ?_⟩
      · rw [htake]
        apply insert_getLast
        · have hsplit := List.dropLast_append_getLast? eN hlast
          rw [← hsplit, List.filter_append]
          have : List.filter (fun e => decide (e.2 ≠ aff.OperatorAddr)) [eN] = [eN] := by
            simp [hcl]
          rw [this, List.getLast?_concat]
        · have hpw : (s.powerIndex.take env.maxValidators).Pairwise
              (fun x y => y.1.ranksBelow x.1 = true) := by
            have := hso
            unfold PowerIndexSorted at this
            rw [← List.take_append_drop env.maxValidators s.powerIndex] at this
            exact (List.pairwise_append.1 this).1
          have hsplit := List.dropLast_append_getLast? eN hlast
          rw [← hsplit] at hpw holdT
          have hin : (GetValidatorsByPowerIndexKey old, aff.OperatorAddr) ∈
              (s.powerIndex.take env.maxValidators).dropLast := by
            rcases List.mem_append.1 holdT with h | h
            · exact h
            · simp only [List.mem_singleton] at h
              rw [← h] at hcl
              exact absurd rfl hcl
          have h1 := (List.pairwise_append.1 hpw).2.2 _ hin eN (by simp)
          exact ranksBelow_trans _ _ _ h1 hrank
      · show s3.cliffAddr = _
        rw [h3c, hca]
      · show s3.cliffPower = _
        rw [h3p, hcp]
  obtain ⟨hw1, hwv, hwi, e, hgl, hwc, hwp⟩ := hw
  have hRv : ∀ x, (SetValidator w.2 w.1).validators x =
      if x = aff.OperatorAddr then some aff else s.validators x := by
    intro x
    show (if x = w.1.OperatorAddr then some w.1 else w.2.validators x) = _
    rw [hw1, hwv]
  have hRi : (SetValidator w.2 w.1).powerIndex = s3.powerIndex := hwi
  have hlenR : (topAddrs env (SetValidator w.2 w.1)).length = env.maxValidators := by
    unfold topAddrs
    rw [List.length_map, hRi, htake, hlenT]
  have hrecR : ∀ e ∈ (SetValidator w.2 w.1).powerIndex.take env.maxValidators,
      ∃ v, (SetValidator w.2 w.1).validators e.2 = some v ∧
        v.Status = BondStatus.Bonded ∧ v.Jailed = false ∧
        GetValidatorsByPowerIndexKey v = e.1 := by
    intro e he
    rw [hRi] at he
    obtain ⟨v, hv, h⟩ := hrecs e he
    exact ⟨v, by rw [hRv]; exact hv, h⟩
  have hwfR : TableWF (SetValidator w.2 w.1) := by
    intro x v hv
    rw [hRv x] at hv
    by_cases hx : x = aff.OperatorAddr
    · rw [if_pos hx] at hv; cases hv; exact hx.symm
    · rw [if_neg hx] at hv; exact hc.wf _ _ hv
  have hndR : ((SetValidator w.2 w.1).powerIndex.map Prod.snd).Nodup := by
    rw [hRi, h3i]
    exact rekeyed_nodup _ _ _ hc.i4.1
  have hlsc : ∃ v, lastScanned env (SetValidator w.2 w.1) (SetValidator w.2 w.1) = v ∧
      (SetValidator w.2 w.1).validators e.2 = some v ∧
      GetValidatorsByPowerIndexKey v = e.1 := by
    obtain ⟨v, hv, _, _, hk⟩ := hrecR e (by rw [hRi]; exact List.mem_of_getLast?_eq_some hgl)
    refine ⟨v, ?_, hv, hk⟩
    unfold lastScanned
    rw [hRi, hgl]
    simp only [hv, Option.getD_some]
  constructor
  · refine
      { wf := hwfR, nodup := hndR, i5 := hi5R, top := ?_, notJailed := ?_,
        cliffAddr_full := ?_, cliffAddr_spare := ?_ }
    · refine bonded_iff_of_count (B := topAddrs env s) (topAddrs_nodup env _ hndR) ?_ ?_
        (by rw [hlenR, hc.full])
      · intro x hx
        obtain ⟨e, he, hex⟩ := List.mem_map.1 hx
        obtain ⟨v, hv, hvb, _, _⟩ := hrecR e he
        rw [← hex]
        exact ⟨v, hv, hvb⟩
      · rintro x ⟨v, hv, hvb⟩
        rw [hRv x] at hv
        by_cases hx : x = aff.OperatorAddr
        · rw [hx]; exact (hc.top _).1 hb
        · rw [if_neg hx] at hv
          exact (hc.top _).1 ⟨v, hv, hvb⟩
    · intro e he
      obtain ⟨v, hv, _, hj, _⟩ := hrecR e he
      exact ⟨v, hv, hj⟩
    · intro _
      obtain ⟨v, hl, hv, _⟩ := hlsc
      rw [hl, hwfR _ _ hv]
      exact hwc
    · intro h
      exact absurd hlenR h
  · intro _
    obtain ⟨v, hl, _, hk⟩ := hlsc
    rw [hl, hk]
    exact hwp

/-- The power of a Bonded validator of a consistent state with spare capacity
increased: the stores after the single-validator update are settled. -/
theorem settled_after_increase_spare (env : Env) (s s3 : State) (aff old : Validator)
    (valPower : PowerKey) (w : Validator × State)
    (hc : ConsistentSpare env s) (hnj : NoJailedValidator s)
    (hold : s.validators aff.OperatorAddr = some old) (hob : old.Status = BondStatus.Bonded)
    (hAs : aff.Status = BondStatus.Bonded) (hAj : aff.Jailed = false)
    (hv3 : s3.validators = s.validators)
    (h3i : s3.powerIndex =
      powerIndexInsert (GetValidatorsByPowerIndexKey aff, aff.OperatorAddr)
        (s.powerIndex.filter (fun e => decide (e.2 ≠ aff.OperatorAddr))))
    (h3c : s3.cliffAddr = s.cliffAddr) (h3p : s3.cliffPower = s.cliffPower)
    (hsw : updateValidatorSwitch env s3 true old aff true valPower = some w)
    (hi5R : BondedIndexConsistent (SetValidator w.2 w.1)) :
    Settled env (SetValidator w.2 w.1) ∧ CliffPowerSettled env (SetValidator w.2 w.1) := by
  obtain ⟨hlen, hent, hall⟩ := spare_index hc hnj
  have hinidx : aff.OperatorAddr ∈ s.powerIndex.map Prod.snd :=
    List.mem_map.2 ⟨_, hc.i4.2.2 _ _ hold, rfl⟩
  have hlenL := length_filter_ne aff.OperatorAddr s.powerIndex hc.i4.1 hinidx
  rw [switch_increase_eq env s3 old aff valPower hob hAj] at hsw
  have hcond : ¬ (s3.cliffPower.isSome = true ∧
      addrBytesEqual s3.cliffAddr aff.OperatorAddr = true) := by
    rintro ⟨h, _⟩
    rw [h3p, hc.cliffPower_none] at h
    cases h
  rw [if_neg hcond, Option.some.injEq] at hsw
  subst hsw
  have hRv : ∀ x, (SetValidator (setUpdate s3 aff.OperatorAddr aff.ABCIValidator)
      aff).validators x = if x = aff.OperatorAddr then some aff else s.validators x := by
    intro x
    show (if x = aff.OperatorAddr then some aff else s3.validators x) = _
    rw [hv3]
  have hRi : (SetValidator (setUpdate s3 aff.OperatorAddr aff.ABCIValidator) aff).powerIndex =
      powerIndexInsert (GetValidatorsByPowerIndexKey aff, aff.OperatorAddr)
        (s.powerIndex.filter (fun e => decide (e.2 ≠ aff.OperatorAddr))) := h3i
  have hlenIdx : (SetValidator (setUpdate s3 aff.OperatorAddr aff.ABCIValidator)
      aff).powerIndex.length = s.powerIndex.length := by
    rw [hRi, length_powerIndexInsert, hlenL]
  have hlenR : (topAddrs env (SetValidator (setUpdate s3 aff.OperatorAddr aff.ABCIValidator)
      aff)).length = s.powerIndex.length := by
    unfold topAddrs
    rw [List.length_map, List.length_take, hlenIdx]
    omega
  have hrecR : ∀ e ∈ (SetValidator (setUpdate s3 aff.OperatorAddr aff.ABCIValidator)
      aff).powerIndex,
      ∃ v, (SetValidator (setUpdate s3 aff.OperatorAddr aff.ABCIValidator) aff).validators e.2
        = some v ∧ v.Status = BondStatus.Bonded ∧ v.Jailed = false := by
    intro e he
    rw [hRi, rekeyed_mem] at he
    rcases he with he | ⟨he, hne⟩
    · rw [he]
      exact ⟨aff, by rw [hRv]; simp, hAs, hAj⟩
    · obtain ⟨v, hv, hvb⟩ := hent e he
      exact ⟨v, by rw [hRv, if_neg hne]; exact hv, hvb, hnj _ _ hv⟩
  have hndR : ((SetValidator (setUpdate s3 aff.OperatorAddr aff.ABCIValidator)
      aff).powerIndex.map Prod.snd).Nodup := by
    rw [hRi]
    exact rekeyed_nodup _ _ _ hc.i4.1
  have hnotfull : (topAddrs env (SetValidator (setUpdate s3 aff.OperatorAddr aff.ABCIValidator)
      aff)).length ≠ env.maxValidators := by
    rw [hlenR]
    omega
  constructor
  · refine
      { wf := ?_, nodup := hndR, i5 := hi5R, top := ?_, notJailed := ?_,
        cliffAddr_full := ?_, cliffAddr_spare := ?_ }
    · intro x v hv
      rw [hRv x] at hv
      by_cases hx : x = aff.OperatorAddr
      · rw [if_pos hx] at hv; cases hv; exact hx.symm
      · rw [if_neg hx] at hv; exact hc.wf _ _ hv
    · refine bonded_iff_of_count (B := s.powerIndex.map Prod.snd)
        (topAddrs_nodup env _ hndR) ?_ ?_ (by rw [hlenR, List.length_map])
      · intro x hx
        obtain ⟨e, he, hex⟩ := List.mem_map.1 hx
        obtain ⟨v, hv, hvb, _⟩ := hrecR e (List.mem_of_mem_take he)
        rw [← hex]
        exact ⟨v, hv, hvb⟩
      · rintro x ⟨v, hv, _⟩
        rw [hRv x] at hv
        by_cases hx : x = aff.OperatorAddr
        · rw [hx]; exact hinidx
        · rw [if_neg hx] at hv
          exact List.mem_map.2 ⟨_, hc.i4.2.2 _ _ hv, rfl⟩
    · intro e he
      obtain ⟨v, hv, _, hj⟩ := hrecR e (List.mem_of_mem_take he)
      exact ⟨v, hv, hj⟩
    · intro h
      exact absurd h hnotfull
    · intro _
      show s3.cliffAddr = none
      rw [h3c, hc.cliffAddr_none]
  · intro h
    exact absurd h hnotfull

/-- The default branch of the switch of `UpdateValidator`, followed by the
write of the record: the stores are settled. -/
theorem settled_after_default (env : Env) (s s3 : State) (aff : Validator) (C : Prop)
    [Decidable C] (w : Validator × State)
    (hcons : ConsistentFull env s ∨ ConsistentSpare env s) (hnj : NoJailedValidator s)
    (hAj : aff.Jailed = false)
    (hst : aff.Status = BondStatus.Bonded ↔ IsBonded s aff.OperatorAddr)
    (hbh : ¬ IsBonded s aff.OperatorAddr → aff.BondHeight = env.blockHeight)
    (hv3 : s3.validators = s.validators)
    (h3i : s3.powerIndex = powerIndexInsert (GetValidatorsByPowerIndexKey aff, aff.OperatorAddr)
        (s.powerIndex.filter (fun e => decide (e.2 ≠ aff.OperatorAddr))))
    (h3c : s3.cliffAddr = s.cliffAddr) (h3p : s3.cliffPower = s.cliffPower)
    (hsw : (match XXXREFERENCEUpdateBondedValidators env s3 aff with
      | none => none
      | some r =>
        if r.1.2 = true then some (r.1.1, r.2)
        else if C then some (aff, setUpdate r.2 aff.OperatorAddr aff.ABCIValidator)
        else some (aff, r.2)) = some w)
    (hi5R : BondedIndexConsistent (SetValidator w.2 w.1)) :
    Settled env (SetValidator w.2 w.1) ∧
      ((IsBonded s aff.OperatorAddr → w.1.Status = BondStatus.Bonded) →
        CliffPowerSettled env (SetValidator w.2 w.1)) := by
  cases hres : XXXREFERENCEUpdateBondedValidators env s3 aff with
  | none => rw [hres] at hsw; cases hsw
  | some res =>
    rw [hres] at hsw
    simp only [] at hsw
    by_cases hb : res.1.2 = true
    · rw [if_pos hb, Option.some.injEq] at hsw
      subst hsw
      exact settled_after_updateBonded env s s3 res.2 aff res.1.1 res hcons hnj hAj hst hbh hv3
        h3i h3c h3p hres (Or.inl ⟨hb, rfl, rfl⟩) hi5R
    · have hbf : res.1.2 = false := by
        cases h : res.1.2
        · rfl
        · exact absurd h hb
      rw [if_neg hb] at hsw
      by_cases hC : C
      · rw [if_pos hC, Option.some.injEq] at hsw
        subst hsw
        exact settled_after_updateBonded env s s3 _ aff aff res hcons hnj hAj hst hbh hv3
          h3i h3c h3p hres (Or.inr ⟨hbf, rfl, Or.inr ⟨_, rfl⟩⟩) hi5R
      · rw [if_neg hC, Option.some.injEq] at hsw
        subst hsw
        exact settled_after_updateBonded env s s3 _ aff aff res hcons hnj hAj hst hbh hv3
          h3i h3c h3p hres (Or.inr ⟨hbf, rfl, Or.inl rfl⟩) hi5R

/-- After a single-validator update of a consistent state whose records are
not jailed, with an input record that carries the stored status, the stores are
settled; the Cliff Tracker power is that of the last of the first
`MaxValidators` entries unless the input validator was Bonded and lost its
place. -/
theorem update_settled (env : Env) (s : State) (A : Validator) (r : Validator × State)
    (hcons : ConsistentFull env s ∨ ConsistentSpare env s) (hso : PowerIndexSorted s)
    (hnj : NoJailedValidator s) (hj : A.Jailed = false) (hst : StatusMatches s A)
    (h : REFERENCEXXXDELETEUpdateValidator env s A = some r) :
    Settled env r.2 ∧
      ((IsBonded s A.OperatorAddr → r.1.Status = BondStatus.Bonded) →
        CliffPowerSettled env r.2) := by
  have hwf : TableWF s := hcons.elim (fun h => h.wf) (fun h => h.wf)
  have hi4 : PowerIndexConsistent s := hcons.elim (fun h => h.i4) (fun h => h.i4)
  have hi5 : BondedIndexConsistent s := hcons.elim (fun h => h.i5) (fun h => h.i5)
  have hi5R : BondedIndexConsistent r.2 := (update_i5 env s A r hi5 hst h).1
  have hiff := statusMatches_iff hst
  by_cases hb : IsBonded s A.OperatorAddr
  · obtain ⟨old, hold, hob⟩ := hb
    have hAs : A.Status = BondStatus.Bonded := hiff.2 ⟨old, hold, hob⟩
    have hidx := rekeyed_index s hwf hi4 old
      { A with BondHeight := old.BondHeight, BondIntraTxCounter := old.BondIntraTxCounter } hold
    rw [update_unfold_bonded env s A old hold hob hj] at h
    obtain ⟨A', hA'⟩ : ∃ A' : Validator, A' =
      { A with BondHeight := old.BondHeight, BondIntraTxCounter := old.BondIntraTxCounter } :=
      ⟨_, rfl⟩
    obtain ⟨s3, hs3⟩ : ∃ s3 : State, s3 =
      { s with powerIndex := (powerIndexSet (GetValidatorsByPowerIndexKey A') A.OperatorAddr
          (powerIndexDelete (GetValidatorsByPowerIndexKey old) s.powerIndex)) } := ⟨_, rfl⟩
    rw [← hA'] at h hidx
    rw [← hs3] at h
    have hAa : A'.OperatorAddr = A.OperatorAddr := by rw [hA']
    have hA'j : A'.Jailed = false := by rw [hA']; exact hj
    have hA's : A'.Status = BondStatus.Bonded := by rw [hA']; exact hAs
    have hA'p : A'.Power = A.Power := by rw [hA']
    have hold' : s.validators A'.OperatorAddr = some old := by rw [hAa]; exact hold
    have hv3 : s3.validators = s.validators := by rw [hs3]
    have h3c : s3.cliffAddr = s.cliffAddr := by rw [hs3]
    have h3p : s3.cliffPower = s.cliffPower := by rw [hs3]
    have h3i : s3.powerIndex =
        powerIndexInsert (GetValidatorsByPowerIndexKey A', A'.OperatorAddr)
          (s.powerIndex.filter (fun e => decide (e.2 ≠ A'.OperatorAddr))) := by
      rw [← hidx, hs3]
      show powerIndexSet _ _ _ = powerIndexSet _ _ _
      rw [hAa]
      rfl
    cases hsw : updateValidatorSwitch env s3 true old A' (getPowerIncreasing true old A)
        (GetValidatorsByPowerIndexKey A') with
    | none => rw [hsw] at h; cases h
    | some w =>
      rw [hsw] at h
      simp only [Option.some.injEq] at h
      subst h
      by_cases hinc : old.Power < A.Power
      · have hpi : getPowerIncreasing true old A = true := by
          simp [getPowerIncreasing, Validator.BondedTokens, hob, hAs, hinc]
        rw [hpi] at hsw
        rcases hcons with hc | hc
        · have := settled_after_increase_full env s s3 A' old _ w hc hso hnj hold' hob hA's hA'j
            (by rw [hA'p]; exact hinc) hv3 h3i h3c h3p hsw hi5R
          exact ⟨this.1, fun _ => this.2⟩
        · have := settled_after_increase_spare env s s3 A' old _ w hc hnj hold' hob hA's hA'j
            hv3 h3i h3c h3p hsw hi5R
          exact ⟨this.1, fun _ => this.2⟩
      · have hpi : getPowerIncreasing true old A = false := by
          simp [getPowerIncreasing, Validator.BondedTokens, hob, hAs, hinc]
        rw [hpi, switch_default_bonded env s3 old A' _ hob] at hsw
        have := settled_after_default env s s3 A' _ w hcons hnj hA'j
          ⟨fun _ => ⟨old, hold', hob⟩, fun _ => hA's⟩
          (fun hn => absurd ⟨old, hold', hob⟩ hn) hv3 h3i h3c h3p hsw hi5R
        rw [hAa] at this
        exact this
  · have hAs : A.Status ≠ BondStatus.Bonded := fun h => hb (hiff.1 h)
    obtain ⟨A', hA'⟩ : ∃ A' : Validator, A' =
      { A with BondHeight := env.blockHeight, BondIntraTxCounter := s.intraTxCounter } :=
      ⟨_, rfl⟩
    obtain ⟨s3, hs3⟩ : ∃ s3 : State, s3 =
      { s with
        intraTxCounter := int16Succ s.intraTxCounter,
        powerIndex := powerIndexSet (GetValidatorsByPowerIndexKey A') A.OperatorAddr
          (if (s.validators A.OperatorAddr).isSome = true then
            powerIndexDelete (GetValidatorsByPowerIndexKey
              ((s.validators A.OperatorAddr).getD Validator.zero)) s.powerIndex
           else s.powerIndex) } := ⟨_, rfl⟩
    have hAa : A'.OperatorAddr = A.OperatorAddr := by rw [hA']
    have hA'j : A'.Jailed = false := by rw [hA']; exact hj
    have hA's : A'.Status ≠ BondStatus.Bonded := by rw [hA']; exact hAs
    have hA'h : A'.BondHeight = env.blockHeight := by rw [hA']
    have hnb' : ¬ IsBonded s A'.OperatorAddr := by rw [hAa]; exact hb
    have hv3 : s3.validators = s.validators := by rw [hs3]
    have h3c : s3.cliffAddr = s.cliffAddr := by rw [hs3]
    have h3p : s3.cliffPower = s.cliffPower := by rw [hs3]
    have h3i : s3.powerIndex =
        powerIndexInsert (GetValidatorsByPowerIndexKey A', A'.OperatorAddr)
          (s.powerIndex.filter (fun e => decide (e.2 ≠ A'.OperatorAddr))) := by
      have hrk := rekey_filter s hwf hi4 A.OperatorAddr (GetValidatorsByPowerIndexKey A')
        (by rw [hA']; rfl)
      rw [hs3, hAa, ← hrk]
      rfl
    by_cases hlow : ∃ cp, s.cliffPower = some cp ∧
        (GetValidatorsByPowerIndexKey A').ranksBelow cp = true
    · obtain ⟨cp, hcp, hlt⟩ := hlow
      rcases hcons with hc | hc
      · have hlt' : ∀ cp, s.cliffPower = some cp →
            (GetValidatorsByPowerIndexKey
              { A with BondHeight := env.blockHeight,
                       BondIntraTxCounter := s.intraTxCounter }).ranksBelow cp = true := by
          intro c hc'
          rw [hcp, Option.some.injEq] at hc'
          rw [← hc', ← hA']
          exact hlt
        rw [update_below_cliff_eq env s A hc hso hb hlt', ← hA', ← hs3,
          Option.some.injEq] at h
        subst h
        have := settled_after_below_cliff env s (SetValidator s3 A') A' cp hc hso hnb' hA's hcp
          hlt h3i (fun x => by
            show (if x = A'.OperatorAddr then some A' else s3.validators x) = _
            rw [hv3]) h3c h3p hi5R
        exact ⟨this.1, fun _ => this.2⟩
      · rw [hc.cliffPower_none] at hcp
        cases hcp
    · rw [update_unfold_notBonded_any env s A hb, ← hA', ← hs3] at h
      cases hsw : updateValidatorSwitch env s3 (s.validators A.OperatorAddr).isSome
          ((s.validators A.OperatorAddr).getD Validator.zero) A'
          (getPowerIncreasing (s.validators A.OperatorAddr).isSome
            ((s.validators A.OperatorAddr).getD Validator.zero) A)
          (GetValidatorsByPowerIndexKey A') with
      | none => rw [hsw] at h; cases h
      | some w =>
        rw [hsw] at h
        simp only [Option.some.injEq] at h
        subst h
        rw [switch_default env s3 _ _ A' _ _ (by
            rintro ⟨h1, h2⟩
            apply hb
            cases hv : s.validators A.OperatorAddr with
            | none => rw [hv] at h1; cases h1
            | some v =>
              rw [hv] at h2
              exact ⟨v, hv, h2⟩) (by
            intro cp hcp
            rw [h3p] at hcp
            cases hr : (GetValidatorsByPowerIndexKey A').ranksBelow cp
            · rfl
            · exact absurd ⟨cp, hcp, hr⟩ hlow)] at hsw
        have := settled_after_default env s s3 A' _ w hcons hnj hA'j
          ⟨fun h => absurd h hA's, fun h => absurd h hnb'⟩
          (fun _ => hA'h) hv3 h3i h3c h3p hsw hi5R
        rw [hAa] at this
        exact this

theorem stateXZ_sorted : PowerIndexSorted stateXZ := by
  unfold PowerIndexSorted; decide

theorem noJailedValidator_mkState (l : List Validator) (idx : List (PowerKey × Addr))
    (b : List Addr) (ca : Option Addr) (cp : Option PowerKey)
    (h : ∀ v ∈ l, v.Jailed = false) : NoJailedValidator (mkState l idx b ca cp) := by
  intro a v hv
  exact h v (tableOf_some hv).1

theorem stateCliff8U_statusMatches_new :
    StatusMatches stateCliff8U (mkValidator 3 9 BondStatus.Unbonded false) := by
  constructor
  · intro old h
    have h3 : stateCliff8U.validators 3 = some (mkValidator 3 6 BondStatus.Unbonded false) := rfl
    have h' : stateCliff8U.validators 3 = some old := h
    rw [h3, Option.some.injEq] at h'
    rw [← h']
    rfl
  · intro _
    decide

theorem stateCliff8U_statusMatches_decrease :
    StatusMatches stateCliff8U (mkValidator 1 5 BondStatus.Bonded false) := by
  constructor
  · intro old h
    have h1 : stateCliff8U.validators 1 = some (mkValidator 1 20 BondStatus.Bonded false) := rfl
    have h' : stateCliff8U.validators 1 = some old := h
    rw [h1, Option.some.injEq] at h'
    rw [← h']
    rfl
  · intro h
    have h1 : stateCliff8U.validators 1 = some (mkValidator 1 20 BondStatus.Bonded false) := rfl
    have h' : stateCliff8U.validators 1 = none := h
    rw [h1] at h'
    cases h'

/-- C24, as stated, fails.  With `MaxValidators = 1`, X (power 10, Bonded, the
cliff validator) and Z (power 1, stored Unbonded), the update with a record of
Z that carries power 11 and status Bonded completes, and the full
recomputation that follows aborts.  With `MaxValidators = 2`, validators 1
(power 20) and 2 (power 8, the cliff validator) Bonded and validator 3
(power 6, Unbonded, bond height 0), at block height 5 the update of validator 1
with power 5 demotes it and bonds validator 3; the Cliff Tracker then holds the
power key of validator 3 with bond height 0, and the full recomputation that
follows replaces it by the key with bond height 5. -/
theorem incremental_agrees_with_full_counterexample :
    (ConsistentFull (envAt 1) stateXZ ∧ PowerIndexSorted stateXZ ∧ NoJailedValidator stateXZ ∧
      (mkValidator 2 11 BondStatus.Bonded false).Jailed = false ∧
      ∃ r, REFERENCEXXXDELETEUpdateValidator (envAt 1) stateXZ
          (mkValidator 2 11 BondStatus.Bonded false) = some r ∧
        XXXREFERENCEUpdateBondedValidatorsFull (envAt 1) r.2 = none) ∧
    (ConsistentFull (envAt 2) stateCliff8U ∧ PowerIndexSorted stateCliff8U ∧
      NoJailedValidator stateCliff8U ∧
      (mkValidator 1 5 BondStatus.Bonded false).Jailed = false ∧
      StatusMatches stateCliff8U (mkValidator 1 5 BondStatus.Bonded false) ∧
      ∃ r r2, REFERENCEXXXDELETEUpdateValidator (envAt 2) stateCliff8U
          (mkValidator 1 5 BondStatus.Bonded false) = some r ∧
        XXXREFERENCEUpdateBondedValidatorsFull (envAt 2) r.2 = some r2 ∧
        r.2.cliffPower.map (fun k => k.BondHeight) = some 0 ∧
        r2.cliffPower.map (fun k => k.BondHeight) = some 5 ∧
        r2.cliffPower ≠ r.2.cliffPower) := by
  refine ⟨⟨stateXZ_consistentFull, stateXZ_sorted,
      noJailedValidator_mkState _ _ _ _ _ (by decide), rfl, ?_⟩,
    ⟨stateCliff8U_consistentFull, stateCliff8U_sorted,
      noJailedValidator_mkState _ _ _ _ _ (by decide), rfl,
      stateCliff8U_statusMatches_decrease, ?_⟩⟩
  · have hev : (REFERENCEXXXDELETEUpdateValidator (envAt 1) stateXZ
        (mkValidator 2 11 BondStatus.Bonded false)).map
        (fun r => (XXXREFERENCEUpdateBondedValidatorsFull (envAt 1) r.2).isSome) =
        some false := rfl
    cases hr : REFERENCEXXXDELETEUpdateValidator (envAt 1) stateXZ
        (mkValidator 2 11 BondStatus.Bonded false) with
    | none => rw [hr] at hev; cases hev
    | some r =>
      rw [hr] at hev
      simp only [Option.map_some', Option.some.injEq] at hev
      refine ⟨r, rfl, ?_⟩
      cases hf : XXXREFERENCEUpdateBondedValidatorsFull (envAt 1) r.2 with
      | none => rfl
      | some r2 => rw [hf] at hev; cases hev
  · have hev : (REFERENCEXXXDELETEUpdateValidator (envAt 2) stateCliff8U
        (mkValidator 1 5 BondStatus.Bonded false)).bind
        (fun r => (XXXREFERENCEUpdateBondedValidatorsFull (envAt 2) r.2).map
          (fun r2 => (r.2.cliffPower.map (fun k => k.BondHeight),
            r2.cliffPower.map (fun k => k.BondHeight)))) =
        some (some 0, some 5) := rfl
    cases hr : REFERENCEXXXDELETEUpdateValidator (envAt 2) stateCliff8U
        (mkValidator 1 5 BondStatus.Bonded false) with
    | none => rw [hr] at hev; cases hev
    | some r =>
      rw [hr] at hev
      simp only [Option.some_bind] at hev
      cases hf : XXXREFERENCEUpdateBondedValidatorsFull (envAt 2) r.2 with
      | none => rw [hf] at hev; cases hev
      | some r2 =>
        rw [hf] at hev
        simp only [Option.map_some', Option.some.injEq, Prod.mk.injEq] at hev
        refine ⟨r, r2, rfl, hf, hev.1, hev.2, ?_⟩
        intro heq
        have h1 := hev.1
        rw [← heq, hev.2] at h1
        cases h1

/-- C24, amended: for every consistent state (with a sorted power index)
containing no jailed validator and every non-jailed input validator whose
record carries the stored status (not Bonded for a new validator), after a
non-aborting single-validator update the full recomputation that follows
completes and changes no validator record, no bonded-index membership, not the
validator named by the Cliff Tracker and not the update buffer; it leaves the
power held by the Cliff Tracker unchanged too, unless the input validator was
Bonded and the update demoted it. -/
theorem incremental_agrees_with_full (env : Env) (s : State) (A : Validator)
    (r : Validator × State)
    (hcons : ConsistentFull env s ∨ ConsistentSpare env s) (hso : PowerIndexSorted s)
    (hnj : NoJailedValidator s) (hj : A.Jailed = false) (hst : StatusMatches s A)
    (h : REFERENCEXXXDELETEUpdateValidator env s A = some r) :
    ∃ r2, XXXREFERENCEUpdateBondedValidatorsFull env r.2 = some r2 ∧
      r2.validators = r.2.validators ∧
      (∀ a, a ∈ r2.bondedIndex ↔ a ∈ r.2.bondedIndex) ∧
      r2.cliffAddr = r.2.cliffAddr ∧
      r2.updates = r.2.updates ∧
      ((IsBonded s A.OperatorAddr → r.1.Status = BondStatus.Bonded) →
        r2.cliffPower = r.2.cliffPower) := by
  obtain ⟨hs, hcp⟩ := update_settled env s A r hcons hso hnj hj hst h
  obtain ⟨r2, h1, h2, h3, h4, h5, h6⟩ := full_of_settled env r.2 hs
  exact ⟨r2, h1, h2, h3, h5, h4, fun hb => h6 (hcp hb)⟩

theorem incremental_agrees_with_full_witness :
    (ConsistentFull (envAt 2) stateCliff8U ∨ ConsistentSpare (envAt 2) stateCliff8U) ∧
    PowerIndexSorted stateCliff8U ∧ NoJailedValidator stateCliff8U ∧
    (mkValidator 3 9 BondStatus.Unbonded false).Jailed = false ∧
    StatusMatches stateCliff8U (mkValidator 3 9 BondStatus.Unbonded false) ∧
    ∃ r, REFERENCEXXXDELETEUpdateValidator (envAt 2) stateCliff8U
        (mkValidator 3 9 BondStatus.Unbonded false) = some r ∧
      ∃ r2, XXXREFERENCEUpdateBondedValidatorsFull (envAt 2) r.2 = some r2 ∧
        r2.validators = r.2.validators ∧
        (∀ a, a ∈ r2.bondedIndex ↔ a ∈ r.2.bondedIndex) ∧
        r2.cliffAddr = r.2.cliffAddr ∧
        r2.updates = r.2.updates ∧
        ((IsBonded stateCliff8U (mkValidator 3 9 BondStatus.Unbonded false).OperatorAddr →
            r.1.Status = BondStatus.Bonded) →
          r2.cliffPower = r.2.cliffPower) := by
  refine ⟨Or.inl stateCliff8U_consistentFull, stateCliff8U_sorted,
    noJailedValidator_mkState _ _ _ _ _ (by decide), rfl, stateCliff8U_statusMatches_new, ?_⟩
  have hs : (REFERENCEXXXDELETEUpdateValidator (envAt 2) stateCliff8U
      (mkValidator 3 9 BondStatus.Unbonded false)).isSome = true := rfl
  obtain ⟨r, hr⟩ := Option.isSome_iff_exists.1 hs
  exact ⟨r, hr, incremental_agrees_with_full (envAt 2) stateCliff8U
    (mkValidator 3 9 BondStatus.Unbonded false) r (Or.inl stateCliff8U_consistentFull)
    stateCliff8U_sorted (noJailedValidator_mkState _ _ _ _ _ (by decide)) rfl
    stateCliff8U_statusMatches_new hr⟩

theorem setValidator_self (st : State) (v : Validator) (a : Addr) (h : v.OperatorAddr = a) :
    (SetValidator st v).validators a = some v := by
  subst h
  simp [SetValidator]

/-- For every single-validator update on a validator whose stored record is
Bonded, whatever the input record carries, the record returned is the one stored
under the validator's identity and the global intra-tx counter is unchanged. -/
theorem counter_kept_while_bonded (env : Env) (s : State) (A old : Validator)
    (r : Validator × State)
    (hold : s.validators A.OperatorAddr = some old) (hob : old.Status = BondStatus.Bonded)
    (h : REFERENCEXXXDELETEUpdateValidator env s A = some r) :
    r.2.validators A.OperatorAddr = some r.1 ∧ r.2.intraTxCounter = s.intraTxCounter := by
  obtain ⟨s1, v1, hjc, c, bh, bc, idx, hbi, pi, k, w, hsw, hr⟩ := update_shape env s A r h
  have hB : IsBonded s A.OperatorAddr := ⟨old, hold, hob⟩
  rcases hbi with ⟨_, hc, _⟩ | ⟨hnb, _⟩
  swap
  · exact absurd hB hnb
  subst hc
  have hv1a : v1.OperatorAddr = A.OperatorAddr := by
    rcases hjc with ⟨_, _, _, hv1, _⟩ | ⟨_, hv1, _⟩ <;> rw [hv1] <;> rfl
  have hs1c : s1.intraTxCounter = s.intraTxCounter := by
    rcases hjc with ⟨_, _, _, _, hs1⟩ | ⟨_, _, hs1⟩ <;> rw [hs1] <;> rfl
  obtain ⟨v2, hv2⟩ : ∃ v2 : Validator, v2 =
    { v1 with BondHeight := bh, BondIntraTxCounter := bc } := ⟨_, rfl⟩
  have hv2a : v2.OperatorAddr = A.OperatorAddr := by rw [hv2]; exact hv1a
  rw [← hv2] at hsw
  rcases switch_outcomes env _ _ _ _ _ _ w hsw with
    ⟨_, _, _, _, hw1, hco⟩ | ⟨_, hw⟩ | ⟨sc, hco, _, hw1, hw2⟩ | ⟨res, hres, hup, hw⟩
  · subst hr
    rw [hw1]
    refine ⟨setValidator_self _ _ _ hv2a, ?_⟩
    have := cliffOnly_counter hco
    simpa [SetValidator, setUpdate] using this
  · subst hw; subst hr
    exact ⟨setValidator_self _ _ _ hv2a, rfl⟩
  · subst hr
    rw [hw1]
    refine ⟨setValidator_self _ _ _ hv2a, ?_⟩
    have := cliffOnly_counter hco
    rcases hw2 with ⟨_, hw2⟩ | ⟨_, _, hw2⟩ <;> rw [hw2] <;>
      simpa [SetValidator, setUpdate] using this
  · subst hw; subst hr
    obtain ⟨sc, hco, hcase⟩ := updateBonded_cases env _ _ res hres
    have hscc := cliffOnly_counter hco
    rcases hcase with hcase | ⟨tb, _, _, _, hcase⟩
    · rw [hcase] at hup; simp at hup
    rcases hcase with ⟨_, hres2⟩ | ⟨c', vc, _, _, _, htbaff, hres2⟩ | ⟨c', _, _, _, hres2⟩
    · rw [hres2]
      by_cases hEq : tb.OperatorAddr = v2.OperatorAddr
      · simp only [if_pos hEq]
        refine ⟨setValidator_self _ _ _ (hEq.trans hv2a), ?_⟩
        simpa [SetValidator, bondState] using hscc
      · simp only [if_neg hEq]
        refine ⟨setValidator_self _ _ _ hv2a, ?_⟩
        simpa [SetValidator, bondState] using hscc
    · rw [hres2]
      refine ⟨setValidator_self _ _ _ (htbaff.trans hv2a), ?_⟩
      simpa [SetValidator, bondState, unbondState] using hscc
    · rw [hres2]
      refine ⟨setValidator_self _ _ _ hv2a, ?_⟩
      simpa [SetValidator, bondState, unbondState] using hscc

/-- C18, as stated, fails.  With `MaxValidators = 2` and spare capacity,
validator 1 stored Bonded with power 10 and bond height 0, at block height 5
the update with a record of validator 1 that carries power 12 and status
Unbonded completes; the validator is Bonded before and after the call, and the
record stored after the call has bond height 5. -/
theorem tiebreak_preserved_counterexample :
    ConsistentSpare (envAt 2) stateJailedCandidate ∧
    stateJailedCandidate.validators 1 = some (mkValidator 1 10 BondStatus.Bonded false) ∧
    (mkValidator 1 10 BondStatus.Bonded false).Status = BondStatus.Bonded ∧
    (mkValidator 1 10 BondStatus.Bonded false).BondHeight = 0 ∧
    ∃ r, REFERENCEXXXDELETEUpdateValidator (envAt 2) stateJailedCandidate
        (mkValidator 1 12 BondStatus.Unbonded false) = some r ∧
      r.2.validators 1 = some r.1 ∧ r.1.Status = BondStatus.Bonded ∧
      r.1.BondHeight = 5 ∧
      r.1.BondHeight ≠ (mkValidator 1 10 BondStatus.Bonded false).BondHeight := by
  refine ⟨stateJailedCandidate_consistentSpare, rfl, rfl, rfl, ?_⟩
  have hev : (REFERENCEXXXDELETEUpdateValidator (envAt 2) stateJailedCandidate
      (mkValidator 1 12 BondStatus.Unbonded false)).map
      (fun r => (r.2.validators 1 == some r.1, r.1.Status, r.1.BondHeight)) =
      some (true, BondStatus.Bonded, 5) := rfl
  cases hr : REFERENCEXXXDELETEUpdateValidator (envAt 2) stateJailedCandidate
      (mkValidator 1 12 BondStatus.Unbonded false) with
  | none => rw [hr] at hev; cases hev
  | some r =>
    rw [hr] at hev
    simp only [Option.map_some', Option.some.injEq, Prod.mk.injEq, beq_iff_eq] at hev
    refine ⟨r, rfl, hev.1, hev.2.1, hev.2.2, ?_⟩
    rw [hev.2.2]
    decide

/-- C18, amended: for every single-validator update on a validator that is
Bonded before the call, the global intra-tx counter is not incremented,
whatever the input record carries; and when the input record carries the stored
status Bonded, the `BondHeight` and the `BondIntraTxCounter` stored after the
call equal the values stored before the call, whatever values the input record
carried for them; in particular when the validator is Bonded after the
call. -/
theorem tiebreak_preserved_while_bonded (env : Env) (s : State) (A old : Validator)
    (r : Validator × State) (hwf : TableWF s)
    (hold : s.validators A.OperatorAddr = some old) (hob : old.Status = BondStatus.Bonded)
    (h : REFERENCEXXXDELETEUpdateValidator env s A = some r) :
    r.2.validators A.OperatorAddr = some r.1 ∧
      r.2.intraTxCounter = s.intraTxCounter ∧
      (A.Status = BondStatus.Bonded →
        r.1.BondHeight = old.BondHeight ∧
          r.1.BondIntraTxCounter = old.BondIntraTxCounter) := by
  obtain ⟨h1, h2⟩ := counter_kept_while_bonded env s A old r hold hob h
  refine ⟨h1, h2, fun hA => ?_⟩
  obtain ⟨_, h3, h4, _⟩ := tiebreak_kept_of_bonded_input env s A old r hwf hold hob hA h
  exact ⟨h3, h4⟩

theorem tiebreak_preserved_while_bonded_witness :
    TableWF stateXY ∧
    stateXY.validators
      ({ mkValidator 1 12 BondStatus.Bonded false with
          BondHeight := 3, BondIntraTxCounter := 4 } : Validator).OperatorAddr =
      some (mkValidator 1 10 BondStatus.Bonded false) ∧
    (mkValidator 1 10 BondStatus.Bonded false).Status = BondStatus.Bonded ∧
    ∃ r, REFERENCEXXXDELETEUpdateValidator (envAt 2) stateXY
        { mkValidator 1 12 BondStatus.Bonded false with
          BondHeight := 3, BondIntraTxCounter := 4 } = some r ∧
      r.2.validators 1 = some r.1 ∧
      r.2.intraTxCounter = stateXY.intraTxCounter ∧
      r.1.BondHeight = (mkValidator 1 10 BondStatus.Bonded false).BondHeight ∧
      r.1.BondIntraTxCounter =
        (mkValidator 1 10 BondStatus.Bonded false).BondIntraTxCounter := by
  refine ⟨tableWF_mkState _ _ _ _ _, rfl, rfl, ?_⟩
  have hev : (REFERENCEXXXDELETEUpdateValidator (envAt 2) stateXY
      { mkValidator 1 12 BondStatus.Bonded false with
        BondHeight := 3, BondIntraTxCounter := 4 }).isSome = true := rfl
  obtain ⟨r, hr⟩ := Option.isSome_iff_exists.1 hev
  have hmain := tiebreak_preserved_while_bonded (envAt 2) stateXY
    { mkValidator 1 12 BondStatus.Bonded false with BondHeight := 3, BondIntraTxCounter := 4 }
    (mkValidator 1 10 BondStatus.Bonded false) r (tableWF_mkState _ _ _ _ _) rfl rfl hr
  exact ⟨r, hr, hmain.1, hmain.2.1, (hmain.2.2 rfl).1, (hmain.2.2 rfl).2⟩

end Stake
